import Mathlib

/-! Columnar equi-join engine: embedding and verification.

A shallow embedding of the operator tree (`Scan`, `FilterScan`, `Join`,
`SelfJoin`, `Checksum`) and of the planner `Joiner::join`, followed by theorems
about them.

Conventions of the embedding:

* a column (`uint64_t *`) is a `List Nat`; reading `col[i]` past its end, indexing a
  vector past its end, a failed `assert` and a bare `throw` all make the operation
  return `none`;
* `std::unordered_map<SelectInfo, unsigned>` is a function `SelectInfo → Option Nat`
  (its keys are compared with `operator==`, all three fields);
* `std::unordered_set<SelectInfo>` is a list searched with `operator==`;
* `std::set<SelectInfo>` is a list kept sorted by `operator<`, two elements being
  equivalent when neither is smaller, so that `rel_id` plays no part in it;
* `std::unordered_multimap` is the list of inserted entries together with an
  enumeration order `HTOrder` for the entries of one key, which the standard leaves
  unspecified;
* `uint64_t` sums wrap with an explicit `% 2 ^ 64`;
* the loop of the planner, which the source does not bound, takes a bound on its
  iterations, and the theorems state a bound that suffices for it to finish;
* an assignment `Asg` gives a row number to every binding, zero to those it does not
  concern; the rows of a join result are the assignments that satisfy the query.
-/

namespace Contest

/-! ## Data model (`relation.h`, `parser.h`) -/

/-- A column of 64-bit unsigned values. -/
abbrev Column := List Nat

/-- Class `Relation`: `size_` tuples in column-major layout. -/
structure Relation where
  size_ : Nat
  columns_ : List Column
deriving DecidableEq, Repr

/-- Every column of the relation holds exactly `size_` values. -/
def Relation.WF (r : Relation) : Prop := ∀ c ∈ r.columns_, c.length = r.size_

instance (r : Relation) : Decidable r.WF := by
  unfold Relation.WF; infer_instance

/-- Struct `SelectInfo`; the derived equality is `operator==` (all three fields). -/
structure SelectInfo where
  rel_id : Nat
  binding : Nat
  col_id : Nat
deriving DecidableEq, Repr

/-- The constructor `SelectInfo(b, colId)`: the relation id is `(unsigned) -1`. -/
def SelectInfo.mk2 (b colId : Nat) : SelectInfo := ⟨4294967295, b, colId⟩

/-- The less operator `SelectInfo::operator<`: by binding, then by column. -/
def SelectInfo.lt (a o : SelectInfo) : Bool :=
  decide (a.binding < o.binding) || (decide (a.binding = o.binding) && decide (a.col_id < o.col_id))

/-- The enum `FilterInfo::Comparison`. -/
inductive Comparison where
  | Less
  | Greater
  | Equal
deriving DecidableEq, Repr

/-- Struct `FilterInfo`. -/
structure FilterInfo where
  filter_column : SelectInfo
  constant : Nat
  comparison : Comparison
deriving DecidableEq, Repr

/-- Struct `PredicateInfo`. -/
structure PredicateInfo where
  left : SelectInfo
  right : SelectInfo
deriving DecidableEq, Repr

/-- Class `QueryInfo`. -/
structure QueryInfo where
  relation_ids_ : List Nat
  predicates_ : List PredicateInfo
  filters_ : List FilterInfo
  selections_ : List SelectInfo
deriving DecidableEq, Repr

/-! ## Containers -/

/-- The map `select_to_result_col_id_`. -/
abbrev ColMap := SelectInfo → Option Nat

/-- An empty map. -/
def ColMap.empty : ColMap := fun _ => none

/-- The assignment `m[k] = v`. -/
def ColMap.assign (m : ColMap) (k : SelectInfo) (v : Nat) : ColMap :=
  fun x => if x = k then some v else m x

/-- The call `m.emplace(k, v)`: inserts only when `k` is absent. -/
def ColMap.emplace (m : ColMap) (k : SelectInfo) (v : Nat) : ColMap :=
  match m k with
  | some _ => m
  | none => m.assign k v

/-- Equivalence of two keys of a `std::set<SelectInfo>`. -/
def SelectInfo.equiv (a o : SelectInfo) : Bool := !(a.lt o) && !(o.lt a)

/-- The call `s.count(x)` on a `std::set<SelectInfo>`, as a truth value. -/
def setCount (s : List SelectInfo) (x : SelectInfo) : Bool := s.any (fun y => x.equiv y)

/-- Ordered insertion into the sorted list behind a `std::set<SelectInfo>`. -/
def setInsert (x : SelectInfo) : List SelectInfo → List SelectInfo
  | [] => [x]
  | y :: ys => if x.lt y then x :: y :: ys else y :: setInsert x ys

/-- The call `s.emplace(x)` on a `std::set<SelectInfo>`. -/
def setEmplace (s : List SelectInfo) (x : SelectInfo) : List SelectInfo :=
  if setCount s x then s else setInsert x s

/-- Row ids stored under `key`, in insertion order. -/
def matchingRows (table : List (Nat × Nat)) (key : Nat) : List Nat :=
  (table.filter (fun e => decide (e.1 = key))).map (fun e => e.2)

/-- The order in which `equal_range` enumerates the entries of one key of an
`std::unordered_multimap`: any rearrangement of the entries stored under that key. -/
structure HTOrder where
  equal_range : List (Nat × Nat) → Nat → List Nat
  perm : ∀ table key, (equal_range table key).Perm (matchingRows table key)

/-- Enumeration in insertion order. -/
def HTOrder.insertion : HTOrder := ⟨matchingRows, fun _ _ => List.Perm.refl _⟩

/-- Enumeration in reverse insertion order. -/
def HTOrder.reversed : HTOrder :=
  ⟨fun t k => (matchingRows t k).reverse, fun _ _ => List.reverse_perm _⟩

/-! ## Operators (`operators.h`, `operators.cpp`) -/

/-- The fields of the base class `Operator`. -/
structure Operator where
  select_to_result_col_id_ : ColMap
  result_columns_ : List Column
  tmp_results_ : List Column
  result_size_ : Nat

/-- A freshly constructed `Operator`. -/
def Operator.init : Operator := ⟨ColMap.empty, [], [], 0⟩

/-- The operator tree; each node carries the fields of its class. -/
inductive Op where
  | Scan (base : Operator) (relation_ : Relation) (relation_binding_ : Nat)
  | FilterScan (base : Operator) (relation_ : Relation) (relation_binding_ : Nat)
      (filters_ : List FilterInfo) (input_data_ : List Column)
  | Join (base : Operator) (left_ right_ : Op) (p_info_ : PredicateInfo)
      (hash_table_ : List (Nat × Nat)) (requested_columns_ : List SelectInfo)
      (requested_columns_left_ requested_columns_right_ : List SelectInfo)
      (copy_left_data_ copy_right_data_ : List Column)
  | SelfJoin (base : Operator) (input_ : Op) (p_info_ : PredicateInfo)
      (required_IUs_ : List SelectInfo) (input_data_ copy_data_ : List Column)

/-- The constructor `Scan(r, relation_binding)`. -/
def Op.mkScan (r : Relation) (relation_binding : Nat) : Op :=
  .Scan Operator.init r relation_binding

/-- The constructor `FilterScan(r, filters)`; it reads `filters[0]`. -/
def Op.mkFilterScan (r : Relation) (filters : List FilterInfo) : Option Op :=
  match filters with
  | [] => none
  | f :: _ => some (.FilterScan Operator.init r f.filter_column.binding filters [])

/-- The constructor `Join(left, right, p_info)`. -/
def Op.mkJoin (left right : Op) (p_info : PredicateInfo) : Op :=
  .Join Operator.init left right p_info [] [] [] [] [] []

/-- The constructor `SelfJoin(input, p_info)`. -/
def Op.mkSelfJoin (input : Op) (p_info : PredicateInfo) : Op :=
  .SelfJoin Operator.init input p_info [] [] []

/-- The base-class part of a node. -/
def Op.base : Op → Operator
  | .Scan base _ _ => base
  | .FilterScan base _ _ _ _ => base
  | .Join base _ _ _ _ _ _ _ _ _ => base
  | .SelfJoin base _ _ _ _ _ => base

/-- The accessor `Operator::result_size`. -/
def Op.result_size (op : Op) : Nat := op.base.result_size_

/-- The method `resolve`: asserts that the key is present. -/
def Op.resolve (op : Op) (info : SelectInfo) : Option Nat :=
  op.base.select_to_result_col_id_ info

/-- The method `getResults`: `Scan` hands out `result_columns_`, every other
operator the data of its `tmp_results_`. -/
def Op.getResults : Op → List Column
  | .Scan base _ _ => base.result_columns_
  | op => op.base.tmp_results_

/-- Height of the tree, the recursion depth of `run`. -/
def Op.height : Op → Nat
  | .Scan _ _ _ => 1
  | .FilterScan _ _ _ _ _ => 1
  | .Join _ l r _ _ _ _ _ _ _ => max l.height r.height + 1
  | .SelfJoin _ i _ _ _ _ => i.height + 1

/-- The methods `Scan::require`, `FilterScan::require`, `Join::require` and
`SelfJoin::require`: the returned flag and the operator afterwards. -/
def Op.require : Op → SelectInfo → Option (Bool × Op)
  | .Scan base rel b, info =>
    if info.binding ≠ b then some (false, .Scan base rel b)
    else
      match rel.columns_[info.col_id]? with
      | none => none
      | some c =>
        let cols := base.result_columns_ ++ [c]
        some (true, .Scan { base with
          result_columns_ := cols
          select_to_result_col_id_ :=
            base.select_to_result_col_id_.assign info (cols.length - 1) } rel b)
  | .FilterScan base rel b fs input_data, info =>
    if info.binding ≠ b then some (false, .FilterScan base rel b fs input_data)
    else
      match rel.columns_[info.col_id]? with
      | none => none
      | some c =>
        match base.select_to_result_col_id_ info with
        | some _ => some (true, .FilterScan base rel b fs input_data)
        | none =>
          let tmp := base.tmp_results_ ++ [[]]
          some (true, .FilterScan { base with
            tmp_results_ := tmp
            select_to_result_col_id_ :=
              base.select_to_result_col_id_.assign info (tmp.length - 1) } rel b fs
            (input_data ++ [c]))
  | .Join base l r p ht req reqL reqR cl cr, info =>
    if info ∈ req then some (true, .Join base l r p ht req reqL reqR cl cr)
    else
      match l.require info with
      | none => none
      | some (true, l1) =>
        some (true, .Join { base with tmp_results_ := base.tmp_results_ ++ [[]] }
          l1 r p ht (req ++ [info]) (reqL ++ [info]) reqR cl cr)
      | some (false, l1) =>
        match r.require info with
        | none => none
        | some (true, r1) =>
          some (true, .Join { base with tmp_results_ := base.tmp_results_ ++ [[]] }
            l1 r1 p ht (req ++ [info]) reqL (reqR ++ [info]) cl cr)
        | some (false, r1) => some (false, .Join base l1 r1 p ht req reqL reqR cl cr)
  | .SelfJoin base i p ius input_data copy_data, info =>
    if setCount ius info then some (true, .SelfJoin base i p ius input_data copy_data)
    else
      match i.require info with
      | none => none
      | some (true, i1) =>
        some (true, .SelfJoin { base with tmp_results_ := base.tmp_results_ ++ [[]] }
          i1 p (setEmplace ius info) input_data copy_data)
      | some (false, i1) => some (false, .SelfJoin base i1 p ius input_data copy_data)

/-- The loop `for (cId ...) tmp_results_[off + cId].push_back(data[cId][id])`. -/
def pushCols : List Column → Nat → Nat → List Column → Option (List Column)
  | [], _, _, tmp => some tmp
  | col :: cs, id, k, tmp =>
    match col[id]?, tmp[k]? with
    | some v, some t => pushCols cs id (k + 1) (tmp.set k (t ++ [v]))
    | _, _ => none

/-- The method `FilterScan::applyFilter`. -/
def applyFilter (rel : Relation) (i : Nat) (f : FilterInfo) : Option Bool :=
  match rel.columns_[f.filter_column.col_id]? with
  | none => none
  | some compare_col =>
    match compare_col[i]? with
    | none => none
    | some v =>
      match f.comparison with
      | .Equal => some (decide (v = f.constant))
      | .Greater => some (decide (v > f.constant))
      | .Less => some (decide (v < f.constant))

/-- The inner loop of `FilterScan::run`: `pass &= applyFilter(i, f)` for every filter. -/
def applyFilters (rel : Relation) (i : Nat) : List FilterInfo → Bool → Option Bool
  | [], pass => some pass
  | f :: fs, pass =>
    match applyFilter rel i f with
    | none => none
    | some b => applyFilters rel i fs (pass && b)

/-- The outer loop of `FilterScan::run` over the rows still to visit; a passing row
goes through `FilterScan::copy2Result`. -/
def FilterScan.loop (rel : Relation) (fs : List FilterInfo) (input_data : List Column) :
    List Nat → List Column × Nat → Option (List Column × Nat)
  | [], st => some st
  | i :: is, (tmp, rs) =>
    match applyFilters rel i fs true with
    | none => none
    | some false => FilterScan.loop rel fs input_data is (tmp, rs)
    | some true =>
      match pushCols input_data i 0 tmp with
      | none => none
      | some tmp1 => FilterScan.loop rel fs input_data is (tmp1, rs + 1)

/-- The two loops of `Join::run` and the loop of `SelfJoin::run` that resolve the
requested columns in the child: the captured column handles, in order. -/
def resolveCols (child : Op) : List SelectInfo → Option (List Column)
  | [] => some []
  | info :: rest =>
    match child.resolve info with
    | none => none
    | some k =>
      match child.getResults[k]? with
      | none => none
      | some c =>
        match resolveCols child rest with
        | none => none
        | some cs => some (c :: cs)

/-- The map updates `select_to_result_col_id_[info] = res_col_id++` of `Join::run`. -/
def assignCols : List SelectInfo → Nat → ColMap → ColMap
  | [], _, m => m
  | info :: rest, k, m => assignCols rest (k + 1) (m.assign info k)

/-- The map updates `select_to_result_col_id_.emplace(iu, copy_data_.size() - 1)` of
`SelfJoin::run`. -/
def emplaceCols : List SelectInfo → Nat → ColMap → ColMap
  | [], _, m => m
  | info :: rest, k, m => emplaceCols rest (k + 1) (m.emplace info k)

/-- The build phase of `Join::run`: `hash_table_.emplace(left_key_column[i], i)`. -/
def Join.build (left_key_column : Column) : List Nat → List (Nat × Nat) → Option (List (Nat × Nat))
  | [], ht => some ht
  | i :: is, ht =>
    match left_key_column[i]? with
    | none => none
    | some key => Join.build left_key_column is (ht ++ [(key, i)])

/-- The method `Join::copy2Result`. -/
def Join.copy2Result (cl cr : List Column) (left_id right_id : Nat) :
    List Column × Nat → Option (List Column × Nat)
  | (tmp, rs) =>
    match pushCols cl left_id 0 tmp with
    | none => none
    | some tmp1 =>
      match pushCols cr right_id cl.length tmp1 with
      | none => none
      | some tmp2 => some (tmp2, rs + 1)

/-- The inner loop of the probe phase: one `copy2Result` per entry of the range. -/
def Join.copyRange (cl cr : List Column) (right_id : Nat) :
    List Nat → List Column × Nat → Option (List Column × Nat)
  | [], st => some st
  | left_id :: ids, st =>
    match Join.copy2Result cl cr left_id right_id st with
    | none => none
    | some st1 => Join.copyRange cl cr right_id ids st1

/-- The probe phase of `Join::run`. -/
def Join.probe (ord : HTOrder) (ht : List (Nat × Nat)) (right_key_column : Column)
    (cl cr : List Column) : List Nat → List Column × Nat → Option (List Column × Nat)
  | [], st => some st
  | i :: is, st =>
    match right_key_column[i]? with
    | none => none
    | some rightKey =>
      match Join.copyRange cl cr i (ord.equal_range ht rightKey) st with
      | none => none
      | some st1 => Join.probe ord ht right_key_column cl cr is st1

/-- The method `Join::run` from the point where the smaller input has been made the
left one: resolving the requested columns, the build phase and the probe phase. -/
def Join.buildProbe (ord : HTOrder) (base : Operator) (left right : Op) (p : PredicateInfo)
    (ht : List (Nat × Nat)) (req reqL reqR : List SelectInfo) (cl cr : List Column) :
    Option Op :=
  match resolveCols left reqL with
  | none => none
  | some newL =>
    match resolveCols right reqR with
    | none => none
    | some newR =>
      let cl1 := cl ++ newL
      let cr1 := cr ++ newR
      let m := assignCols reqR reqL.length (assignCols reqL 0 base.select_to_result_col_id_)
      match left.resolve p.left, right.resolve p.right with
      | some left_col_id, some right_col_id =>
        match left.getResults[left_col_id]?, right.getResults[right_col_id]? with
        | some left_key_column, some right_key_column =>
          match Join.build left_key_column (List.range left.result_size) ht with
          | none => none
          | some ht1 =>
            match Join.probe ord ht1 right_key_column cl1 cr1
                (List.range right.result_size) (base.tmp_results_, base.result_size_) with
            | none => none
            | some (tmp, rs) =>
              some (.Join { base with
                  select_to_result_col_id_ := m
                  tmp_results_ := tmp
                  result_size_ := rs }
                left right p ht1 req reqL reqR cl1 cr1)
        | _, _ => none
      | _, _ => none

/-- The method `Join::run` from the point where both children have run: the swap
that makes the smaller input the build side, then the rest. -/
def Join.runCore (ord : HTOrder) (base : Operator) (l r : Op) (p : PredicateInfo)
    (ht : List (Nat × Nat)) (req reqL reqR : List SelectInfo) (cl cr : List Column) :
    Option Op :=
  if l.result_size > r.result_size then
    Join.buildProbe ord base r l ⟨p.right, p.left⟩ ht req reqR reqL cl cr
  else
    Join.buildProbe ord base l r p ht req reqL reqR cl cr

/-- The loop of `SelfJoin::run` over the rows of the input; a row with equal values
goes through `SelfJoin::copy2Result`. -/
def SelfJoin.loop (left_col right_col : Column) (copy_data : List Column) :
    List Nat → List Column × Nat → Option (List Column × Nat)
  | [], st => some st
  | i :: is, (tmp, rs) =>
    match left_col[i]?, right_col[i]? with
    | some a, some b =>
      if a = b then
        match pushCols copy_data i 0 tmp with
        | none => none
        | some tmp1 => SelfJoin.loop left_col right_col copy_data is (tmp1, rs + 1)
      else SelfJoin.loop left_col right_col copy_data is (tmp, rs)
    | _, _ => none

/-- The method `SelfJoin::run` from the point where the input has run. -/
def SelfJoin.runCore (base : Operator) (i : Op) (p : PredicateInfo)
    (ius : List SelectInfo) (copy_data : List Column) : Option Op :=
  let input_data := i.getResults
  match resolveCols i ius with
  | none => none
  | some new =>
    let copy1 := copy_data ++ new
    let m := emplaceCols ius copy_data.length base.select_to_result_col_id_
    match i.resolve p.left, i.resolve p.right with
    | some left_col_id, some right_col_id =>
      match input_data[left_col_id]?, input_data[right_col_id]? with
      | some left_col, some right_col =>
        match SelfJoin.loop left_col right_col copy1 (List.range i.result_size)
            (base.tmp_results_, base.result_size_) with
        | none => none
        | some (tmp, rs) =>
          some (.SelfJoin { base with
              select_to_result_col_id_ := m
              tmp_results_ := tmp
              result_size_ := rs }
            i p ius input_data copy1)
      | _, _ => none
    | _, _ => none

/-- The methods `Scan::run`, `FilterScan::run`, `Join::run` and `SelfJoin::run`; the
first argument bounds the depth of the recursion into the children. -/
def Op.runFuel (ord : HTOrder) : Nat → Op → Option Op
  | 0, _ => none
  | _ + 1, .Scan base rel b => some (.Scan { base with result_size_ := rel.size_ } rel b)
  | _ + 1, .FilterScan base rel b fs input_data =>
    match FilterScan.loop rel fs input_data (List.range rel.size_)
        (base.tmp_results_, base.result_size_) with
    | none => none
    | some (tmp, rs) =>
      some (.FilterScan { base with tmp_results_ := tmp, result_size_ := rs } rel b fs input_data)
  | n + 1, .Join base l r p ht req reqL reqR cl cr =>
    match l.require p.left with
    | none => none
    | some (_, l1) =>
      match r.require p.right with
      | none => none
      | some (_, r1) =>
        match Op.runFuel ord n l1 with
        | none => none
        | some l2 =>
          match Op.runFuel ord n r1 with
          | none => none
          | some r2 => Join.runCore ord base l2 r2 p ht req reqL reqR cl cr
  | n + 1, .SelfJoin base i p ius _ copy_data =>
    match i.require p.left with
    | none => none
    | some (_, i1) =>
      match i1.require p.right with
      | none => none
      | some (_, i2) =>
        match Op.runFuel ord n i2 with
        | none => none
        | some i3 => SelfJoin.runCore base i3 p ius copy_data

/-- The method `run` of an operator of the tree. -/
def Op.run (ord : HTOrder) (op : Op) : Option Op := Op.runFuel ord op.height op

/-- A sequence of `require` calls whose results are not looked at. -/
def Op.requireAll : Op → List SelectInfo → Option Op
  | op, [] => some op
  | op, s :: ss =>
    match op.require s with
    | none => none
    | some (_, op1) => Op.requireAll op1 ss

/-- The column an operator exposes for `info`: `getResults()[resolve(info)]`. -/
def Op.column (op : Op) (info : SelectInfo) : Option Column :=
  match op.resolve info with
  | none => none
  | some k => op.getResults[k]?

/-! ## Checksum -/

/-- Class `Checksum`: the root of the tree. -/
structure Checksum where
  input_ : Op
  col_info_ : List SelectInfo
  check_sums_ : List Nat
  result_size_ : Nat

/-- The constructor `Checksum(input, col_info)`. -/
def Checksum.init (input : Op) (col_info : List SelectInfo) : Checksum :=
  ⟨input, col_info, [], 0⟩

/-- The summing loop `for (iter = result_col; iter != limit; ++iter) sum += *iter`
over the rows still to visit, with 64-bit wrap-around. -/
def Checksum.sumLoop (result_col : Column) : List Nat → Nat → Option Nat
  | [], sum => some sum
  | i :: is, sum =>
    match result_col[i]? with
    | none => none
    | some v => Checksum.sumLoop result_col is ((sum + v) % 2 ^ 64)

/-- The second loop of `Checksum::run`, over the output columns still to sum; the
state is `check_sums_` and `result_size_`. -/
def Checksum.sumCols (input : Op) : List SelectInfo → List Nat × Nat → Option (List Nat × Nat)
  | [], st => some st
  | sInfo :: rest, (sums, _) =>
    match input.resolve sInfo with
    | none => none
    | some col_id =>
      match input.getResults[col_id]? with
      | none => none
      | some result_col =>
        match Checksum.sumLoop result_col (List.range input.result_size) 0 with
        | none => none
        | some sum => Checksum.sumCols input rest (sums ++ [sum], input.result_size)

/-- The method `Checksum::run`. -/
def Checksum.run (ord : HTOrder) (cs : Checksum) : Option Checksum :=
  match cs.input_.requireAll cs.col_info_ with
  | none => none
  | some i1 =>
    match i1.run ord with
    | none => none
    | some i2 =>
      match Checksum.sumCols i2 cs.col_info_ (cs.check_sums_, cs.result_size_) with
      | none => none
      | some (sums, rs) => some ⟨i2, cs.col_info_, sums, rs⟩

/-! ## Planner (`joiner.cpp`) -/

/-- The enum `QueryGraphProvides`. -/
inductive QueryGraphProvides where
  | Left
  | Right
  | Both
  | None
deriving DecidableEq, Repr

/-- The function `analyzeInputOfJoin`. -/
def analyzeInputOfJoin (usedRelations : List Nat) (leftInfo rightInfo : SelectInfo) :
    QueryGraphProvides :=
  let used_left := decide (leftInfo.binding ∈ usedRelations)
  let used_right := decide (rightInfo.binding ∈ usedRelations)
  if xor used_left used_right then
    (if used_left then QueryGraphProvides.Left else QueryGraphProvides.Right)
  else if used_left && used_right then QueryGraphProvides.Both
  else QueryGraphProvides.None

/-- The call `used_relations.emplace(b)` on a `std::set<unsigned>`. -/
def usedEmplace (used : List Nat) (b : Nat) : List Nat :=
  if b ∈ used then used else used ++ [b]

/-- The method `Joiner::getRelation`: a bare `throw` for an unknown id. -/
def getRelation (relations_ : List Relation) (relation_id : Nat) : Option Relation :=
  relations_[relation_id]?

/-- The method `Joiner::addScan`: the updated set of used bindings and the leaf. -/
def addScan (relations_ : List Relation) (used_relations : List Nat) (info : SelectInfo)
    (query : QueryInfo) : Option (List Nat × Op) :=
  let used := usedEmplace used_relations info.binding
  let filters := query.filters_.filter (fun f => decide (f.filter_column.binding = info.binding))
  match getRelation relations_ info.rel_id with
  | none => none
  | some rel =>
    if filters ≠ [] then
      match Op.mkFilterScan rel filters with
      | none => none
      | some op => some (used, op)
    else some (used, Op.mkScan rel info.binding)

/-- The planning loop of `Joiner::join`, `for (i = 1; i < predicates_copy.size(); ++i)`,
from index `i` on; the first argument bounds the number of iterations, which the
source does not. The result is the final root. -/
def planLoop (relations_ : List Relation) (query : QueryInfo) :
    Nat → List PredicateInfo → Nat → List Nat → Op → Option Op
  | 0, predicates_copy, i, _, root => if i < predicates_copy.length then none else some root
  | fuel + 1, predicates_copy, i, used_relations, root =>
    match predicates_copy[i]? with
    | none => some root
    | some p_info =>
      match analyzeInputOfJoin used_relations p_info.left p_info.right with
      | .Left =>
        match addScan relations_ used_relations p_info.right query with
        | none => none
        | some (used, right) =>
          planLoop relations_ query fuel predicates_copy (i + 1) used (Op.mkJoin root right p_info)
      | .Right =>
        match addScan relations_ used_relations p_info.left query with
        | none => none
        | some (used, left) =>
          planLoop relations_ query fuel predicates_copy (i + 1) used (Op.mkJoin left root p_info)
      | .Both =>
        planLoop relations_ query fuel predicates_copy (i + 1) used_relations
          (Op.mkSelfJoin root p_info)
      | .None =>
        planLoop relations_ query fuel (predicates_copy ++ [p_info]) (i + 1) used_relations root

/-- The operator tree that `Joiner::join` hands to its `Checksum`. -/
def planTree (relations_ : List Relation) (fuel : Nat) (query : QueryInfo) : Option Op :=
  match query.predicates_[0]? with
  | none => none
  | some firstJoin =>
    match addScan relations_ [] firstJoin.left query with
    | none => none
    | some (used1, left) =>
      match addScan relations_ used1 firstJoin.right query with
      | none => none
      | some (used2, right) =>
        planLoop relations_ query fuel query.predicates_ 1 used2
          (Op.mkJoin left right firstJoin)

/-- Decimal digits of a number, most significant first; the first argument bounds
the number of digits. -/
def decimalDigits : Nat → Nat → List Char → List Char
  | 0, _, acc => acc
  | fuel + 1, n, acc =>
    let acc1 := Char.ofNat (48 + n % 10) :: acc
    if n / 10 = 0 then acc1 else decimalDigits fuel (n / 10) acc1

/-- The function `std::to_string` on an unsigned number. -/
def to_string (n : Nat) : String := String.mk (decimalDigits (n + 1) n [])

/-- The output loop of `Joiner::join` from index `i` on, `n` being `results.size()`. -/
def formatLoop (result_size n : Nat) : List Nat → Nat → String → String
  | [], _, out => out
  | r :: rest, i, out =>
    let out1 := out ++ (if result_size = 0 then "NULL" else to_string r)
    let out2 := if i < n - 1 then out1 ++ " " else out1
    formatLoop result_size n rest (i + 1) out2

/-- The method `Joiner::join`; `fuel` bounds the iterations of the planning loop. -/
def Joiner.join (ord : HTOrder) (relations_ : List Relation) (fuel : Nat) (query : QueryInfo) :
    Option String :=
  match planTree relations_ fuel query with
  | none => none
  | some root =>
    match (Checksum.init root query.selections_).run ord with
    | none => none
    | some checksum =>
      some (formatLoop checksum.result_size_ checksum.check_sums_.length
        checksum.check_sums_ 0 "" ++ "\n")

/-! ## Test helpers (`utils.cpp`) -/

/-- The function `createColumn`: row `i` holds `i`. -/
def createColumn (num_tuples : Nat) : Column := List.range num_tuples

/-- The function `Utils::createRelation`. -/
def createRelation (size num_columns : Nat) : Relation :=
  ⟨size, List.replicate num_columns (createColumn size)⟩

/-! ## Vocabulary of the statements -/

/-- Value of a column at row `i`, zero past its end. -/
def cellAt (col : Column) (i : Nat) : Nat := col.getD i 0

/-- Value of column `c` at row `i` of a relation. -/
def Relation.cell (r : Relation) (c i : Nat) : Nat := cellAt (r.columns_.getD c []) i

/-- A filter read as a condition on a value: the comparison of unsigned numbers. -/
def FilterInfo.holds (f : FilterInfo) (v : Nat) : Bool :=
  match f.comparison with
  | .Equal => decide (v = f.constant)
  | .Greater => decide (v > f.constant)
  | .Less => decide (v < f.constant)

/-- Row `i` of the relation satisfies every filter of the list. -/
def rowPasses (rel : Relation) (fs : List FilterInfo) (i : Nat) : Bool :=
  fs.all (fun f => f.holds (rel.cell f.filter_column.col_id i))

/-- The rows of the relation that satisfy every filter, in ascending order. -/
def passingRows (rel : Relation) (fs : List FilterInfo) : List Nat :=
  (List.range rel.size_).filter (rowPasses rel fs)

/-- The rows of a column picked by a list of row ids. -/
def gather (col : Column) (ids : List Nat) : Column := ids.map (cellAt col)

/-- The hash table after the build phase over a key column of `n` rows. -/
def buildTable (key : Column) (n : Nat) : List (Nat × Nat) :=
  (List.range n).map (fun i => (cellAt key i, i))

/-- The pairs (build row, probe row) in the order the probe phase emits them. -/
def probePairs (ord : HTOrder) (keyB keyP : Column) (nB nP : Nat) : List (Nat × Nat) :=
  (List.range nP).flatMap
    (fun j => (ord.equal_range (buildTable keyB nB) (cellAt keyP j)).map (fun i => (i, j)))

/-- The column an operator exposes for `info`, empty when there is none. -/
def Op.columnD (op : Op) (info : SelectInfo) : Column := (op.column info).getD []

/-- The `SelectInfo`s of a sequence of `require` calls for which the call returned
`true`, in call order. -/
def Op.accepted : Op → List SelectInfo → List SelectInfo
  | _, [] => []
  | op, s :: ss =>
    match op.require s with
    | none => []
    | some (true, op1) => s :: Op.accepted op1 ss
    | some (false, op1) => Op.accepted op1 ss

/-- State of a `Scan`: every key of the map names a column of the relation, and the
handle stored at its index is that column. -/
def ScanInv (rel : Relation) (b : Nat) (base : Operator) : Prop :=
  ∀ s k, base.select_to_result_col_id_ s = some k →
    s.binding = b ∧ ∃ col, rel.columns_[s.col_id]? = some col ∧ base.result_columns_[k]? = some col

/-- State of a `FilterScan` before `run`: one empty output column per input column,
and every key of the map names a column of the relation whose handle is stored at
its index. -/
def FilterScanInv (rel : Relation) (b : Nat) (base : Operator) (input_data : List Column) : Prop :=
  base.tmp_results_ = input_data.map (fun _ => []) ∧
  (∀ col ∈ input_data, col ∈ rel.columns_) ∧
  ∀ s k, base.select_to_result_col_id_ s = some k →
    s.binding = b ∧ ∃ col, rel.columns_[s.col_id]? = some col ∧ input_data[k]? = some col

/-- All ordered pairs (left row, right row) with equal keys, left row major. -/
def matchPairs (keyL keyR : Column) (nL nR : Nat) : List (Nat × Nat) :=
  ((List.range nL).flatMap (fun i => (List.range nR).map (fun j => (i, j)))).filter
    (fun pr => decide (cellAt keyL pr.1 = cellAt keyR pr.2))

/-- The pairs (row of the original left child, row of the original right child) in the
order `Join::run` emits them: the smaller side builds, the other side probes. -/
def joinPairs (ord : HTOrder) (keyL keyR : Column) (nL nR : Nat) : List (Nat × Nat) :=
  if nL > nR then (probePairs ord keyR keyL nR nL).map Prod.swap
  else probePairs ord keyL keyR nL nR

/-- The output rows of an operator over a list of columns looked up with `resolve`. -/
def Op.rows (op : Op) (ss : List SelectInfo) : List (List Nat) :=
  (List.range op.result_size).map (fun t => ss.map (fun s => cellAt (op.columnD s) t))

/-- State of a `Join` before `run`: one empty output column per requested column, the
requested columns split without repetition into those of the left and those of the
right child, nothing built or captured yet. -/
def JoinInv (base : Operator) (ht : List (Nat × Nat)) (req reqL reqR : List SelectInfo)
    (cl cr : List Column) : Prop :=
  base.tmp_results_ = (reqL ++ reqR).map (fun _ => []) ∧ base.result_size_ = 0 ∧
  ht = [] ∧ cl = [] ∧ cr = [] ∧ (reqL ++ reqR).Nodup ∧ ∀ s, s ∈ req ↔ s ∈ reqL ++ reqR

/-- What a `std::set<SelectInfo>` tells two keys apart by: binding and column. -/
def SelectInfo.key (s : SelectInfo) : Nat × Nat := (s.binding, s.col_id)

/-- State of a `SelfJoin` before `run`: one empty output column per required
`SelectInfo`, which differ pairwise in binding or column; nothing resolved yet. -/
def SelfJoinInv (base : Operator) (ius : List SelectInfo) (cd : List Column) : Prop :=
  base.tmp_results_ = ius.map (fun _ => []) ∧ base.result_size_ = 0 ∧ cd = [] ∧
  base.select_to_result_col_id_ = ColMap.empty ∧ (ius.map SelectInfo.key).Nodup

/-- The rows of a `SelfJoin` input whose two predicate columns agree, ascending. -/
def selfJoinRows (left_col right_col : Column) (n : Nat) : List Nat :=
  (List.range n).filter (fun t => decide (cellAt left_col t = cellAt right_col t))

/-! ## States of the operator test, used as concrete inputs -/

/-- The scan of the self-join test, a relation of 5 rows and 3 columns bound as 5,
after `require` of column 0. -/
def Example.scan0 : Op :=
  Op.Scan ⟨ColMap.empty.assign ⟨4294967295, 5, 0⟩ 0, [List.range 5], [], 0⟩ (createRelation 5 3) 5

/-- The same scan after the further `require` of the predicate columns 1 and 2 and
after `run`. -/
def Example.scan0Run : Op :=
  Op.Scan ⟨((ColMap.empty.assign ⟨4294967295, 5, 0⟩ 0).assign ⟨1, 5, 1⟩ 1).assign ⟨1, 5, 2⟩ 2,
    [List.range 5, List.range 5, List.range 5], [], 5⟩ (createRelation 5 3) 5

/-- A freshly constructed materialising operator: a `FilterScan`, a `Join` or a
`SelfJoin` on which `require` has not been called yet. -/
def Op.Fresh : Op → Prop
  | .Scan _ _ _ => False
  | .FilterScan base _ _ _ idata => base = Operator.init ∧ idata = []
  | .Join base _ _ _ ht req reqL reqR cl cr =>
    base = Operator.init ∧ ht = [] ∧ req = [] ∧ reqL = [] ∧ reqR = [] ∧ cl = [] ∧ cr = []
  | .SelfJoin base _ _ ius idata cd =>
    base = Operator.init ∧ ius = [] ∧ idata = [] ∧ cd = []

/-- A materialising operator: every operator that owns its output columns. -/
def Op.Materialising : Op → Prop
  | .Scan _ _ _ => False
  | _ => True

/-- The node is a `SelfJoin`. -/
def Op.isSelfJoin : Op → Bool
  | .SelfJoin _ _ _ _ _ _ => true
  | _ => false

/-- State of a `FilterScan` as to its columns: the keys of its map, without
repetition, are as many as its output columns. -/
def FilterScanKeys (base : Operator) (keys : List SelectInfo) : Prop :=
  keys.Nodup ∧ (∀ t, base.select_to_result_col_id_ t ≠ none ↔ t ∈ keys) ∧
  base.tmp_results_.length = keys.length

/-- The join of the operator test as constructed: the scan of a relation of 10 rows
bound as 1 joined with the scan of a relation of 5 rows bound as 0. -/
def Example.join0 : Op :=
  Op.mkJoin (Op.mkScan (createRelation 10 5) 1) (Op.mkScan (createRelation 5 3) 0)
    ⟨⟨1, 1, 1⟩, ⟨0, 0, 2⟩⟩

/-- The join of the operator test after `require` of column 1 of binding 0. -/
def Example.join1 : Op :=
  Op.Join ⟨ColMap.empty, [], [[]], 0⟩ (Op.mkScan (createRelation 10 5) 1)
    (Op.Scan ⟨ColMap.empty.assign ⟨4294967295, 0, 1⟩ 0, [List.range 5], [], 0⟩
      (createRelation 5 3) 0)
    ⟨⟨1, 1, 1⟩, ⟨0, 0, 2⟩⟩ [] [⟨4294967295, 0, 1⟩] [] [⟨4294967295, 0, 1⟩] [] []

/-- The join of the operator test after the further `require` of column 3 of
binding 1. -/
def Example.join2 : Op :=
  Op.Join ⟨ColMap.empty, [], [[], []], 0⟩
    (Op.Scan ⟨ColMap.empty.assign ⟨4294967295, 1, 3⟩ 0, [List.range 10], [], 0⟩
      (createRelation 10 5) 1)
    (Op.Scan ⟨ColMap.empty.assign ⟨4294967295, 0, 1⟩ 0, [List.range 5], [], 0⟩
      (createRelation 5 3) 0)
    ⟨⟨1, 1, 1⟩, ⟨0, 0, 2⟩⟩ [] [⟨4294967295, 0, 1⟩, ⟨4294967295, 1, 3⟩]
    [⟨4294967295, 1, 3⟩] [⟨4294967295, 0, 1⟩] [] []

/-! ## Semantics of a query -/

/-- An assignment of one row to every binding; bindings that take no part hold 0. -/
abbrev Asg := Nat → Nat

/-- The assignment that gives row `i` to binding `b` alone. -/
def Asg.single (b i : Nat) : Asg := fun x => if x = b then i else 0

/-- The assignment that follows `aL` on the bindings `B` and `aR` elsewhere. -/
def Asg.merge (B : List Nat) (aL aR : Asg) : Asg := fun x => if x ∈ B then aL x else aR x

/-- The value of column `s` in the combined row that an assignment denotes, `ctx`
giving the relation of every binding. -/
def val (ctx : Nat → Relation) (s : SelectInfo) (a : Asg) : Nat :=
  (ctx s.binding).cell s.col_id (a s.binding)

/-- The assignment gives an existing row to every binding of `B`, nothing to the
others, and satisfies every join predicate of `P` and every filter of `F`. -/
def Sat (ctx : Nat → Relation) (B : List Nat) (P : List PredicateInfo) (F : List FilterInfo)
    (a : Asg) : Prop :=
  (∀ b ∈ B, a b < (ctx b).size_) ∧ (∀ b, b ∉ B → a b = 0) ∧
  (∀ p ∈ P, val ctx p.left a = val ctx p.right a) ∧
  (∀ f ∈ F, f.holds (val ctx f.filter_column a) = true)

/-- The bindings of the leaves of a tree, left to right. -/
def Op.bindings : Op → List Nat
  | .Scan _ _ b => [b]
  | .FilterScan _ _ b _ _ => [b]
  | .Join _ l r _ _ _ _ _ _ _ => l.bindings ++ r.bindings
  | .SelfJoin _ i _ _ _ _ => i.bindings

/-- The join predicates of the `Join` and `SelfJoin` nodes of a tree. -/
def Op.preds : Op → List PredicateInfo
  | .Scan _ _ _ => []
  | .FilterScan _ _ _ _ _ => []
  | .Join _ l r p _ _ _ _ _ _ => p :: (l.preds ++ r.preds)
  | .SelfJoin _ i p _ _ _ => p :: i.preds

/-- The filters of the `FilterScan` leaves of a tree. -/
def Op.filts : Op → List FilterInfo
  | .Scan _ _ _ => []
  | .FilterScan _ _ _ fs _ => fs
  | .Join _ l r _ _ _ _ _ _ _ => l.filts ++ r.filts
  | .SelfJoin _ i _ _ _ _ => i.filts

/-- The operator has accepted `s`: it is a key of the container that `require` fills. -/
def Op.Acc : Op → SelectInfo → Prop
  | .Scan base _ _, s => base.select_to_result_col_id_ s ≠ none
  | .FilterScan base _ _ _ _, s => base.select_to_result_col_id_ s ≠ none
  | .Join _ _ _ _ _ req _ _ _ _, s => s ∈ req
  | .SelfJoin _ _ _ ius _ _, s => s ∈ ius

/-- A resolved `SelectInfo` whose column exists: `rid` is the binding table. -/
def Valid (rid : Nat → Nat) (ctx : Nat → Relation) (s : SelectInfo) : Prop :=
  s.rel_id = rid s.binding ∧ s.col_id < (ctx s.binding).columns_.length

/-- A tree before `run` as the planner and `require` leave it: every leaf scans the
relation of its binding, the two sides of a `Join` have no binding in common and
carry the two sides of its predicate, a `SelfJoin` carries both sides of its
predicate, and every node is in the state its `require` calls leave. -/
def Good (rid : Nat → Nat) (ctx : Nat → Relation) : Op → Prop
  | .Scan base rel b => rel = ctx b ∧ rel.WF ∧ ScanInv rel b base
  | .FilterScan base rel b fs idata =>
    rel = ctx b ∧ rel.WF ∧ FilterScanInv rel b base idata ∧ base.result_size_ = 0 ∧
    ∀ f ∈ fs, f.filter_column.binding = b ∧ f.filter_column.col_id < rel.columns_.length
  | .Join base l r p ht req reqL reqR cl cr =>
    Good rid ctx l ∧ Good rid ctx r ∧ JoinInv base ht req reqL reqR cl cr ∧
    (∀ b ∈ l.bindings, b ∉ r.bindings) ∧
    p.left.binding ∈ l.bindings ∧ p.right.binding ∈ r.bindings ∧
    Valid rid ctx p.left ∧ Valid rid ctx p.right ∧
    (∀ s ∈ reqL, l.Acc s) ∧ (∀ s ∈ reqR, r.Acc s)
  | .SelfJoin base i p ius _ cd =>
    Good rid ctx i ∧ SelfJoinInv base ius cd ∧
    p.left.binding ∈ i.bindings ∧ p.right.binding ∈ i.bindings ∧
    Valid rid ctx p.left ∧ Valid rid ctx p.right ∧
    ∀ s ∈ ius, i.Acc s ∧ s.rel_id = rid s.binding

/-- The assignment that gives no row to any binding. -/
def Asg.zero : Asg := fun _ => 0

/-- The rows of a `Join` as assignments: one per emitted pair, following the left
child on the bindings `BL` of the left child and the right child elsewhere. -/
def joinRows (BL : List Nat) (rowsL rowsR : List Asg) (pairs : List (Nat × Nat)) : List Asg :=
  pairs.map (fun pr => Asg.merge BL (rowsL.getD pr.1 Asg.zero) (rowsR.getD pr.2 Asg.zero))

/-! ## Well-formed queries -/

/-- Binding `b` is connected to the bindings `U` through a chain of predicates of `Q`,
each sharing a binding with the next. -/
inductive Linked (Q : List PredicateInfo) (U : List Nat) : Nat → Prop
  | base (b : Nat) : b ∈ U → Linked Q U b
  | left (p : PredicateInfo) : p ∈ Q → Linked Q U p.right.binding → Linked Q U p.left.binding
  | right (p : PredicateInfo) : p ∈ Q → Linked Q U p.left.binding → Linked Q U p.right.binding

/-- The binding table of a query: the relation id of binding `b`. -/
def QueryInfo.rid (q : QueryInfo) (b : Nat) : Nat := q.relation_ids_.getD b 0

/-- The relation that binding `b` of a query stands for. -/
def QueryInfo.ctx (rels : List Relation) (q : QueryInfo) (b : Nat) : Relation :=
  rels.getD (q.rid b) ⟨0, []⟩

/-- The two bindings of the first join predicate. -/
def QueryInfo.firstBindings (q : QueryInfo) : List Nat :=
  match q.predicates_ with
  | [] => []
  | p :: _ => [p.left.binding, p.right.binding]

/-- The bindings that occur in some join predicate, each once. -/
def QueryInfo.joinBindings (q : QueryInfo) : List Nat :=
  (q.predicates_.flatMap (fun p => [p.left.binding, p.right.binding])).dedup

/-- A `SelectInfo` of a query is resolved and in range: its binding is a position of
the binding table, its `rel_id` is the entry there, that relation is loaded and has
the column. -/
def QueryInfo.Resolved (rels : List Relation) (q : QueryInfo) (s : SelectInfo) : Prop :=
  s.binding < q.relation_ids_.length ∧ s.rel_id = q.rid s.binding ∧ s.rel_id < rels.length ∧
  s.col_id < (q.ctx rels s.binding).columns_.length

/-- A well-formed query over loaded relations: at least one join predicate, every
join predicate on two distinct bindings, every predicate connected to the first one,
filters and selections on bindings that occur in some predicate, every `SelectInfo`
resolved and in range. -/
structure QueryWF (rels : List Relation) (q : QueryInfo) : Prop where
  relsWF : ∀ r ∈ rels, r.WF
  nonempty : q.predicates_ ≠ []
  distinct : ∀ p ∈ q.predicates_, p.left.binding ≠ p.right.binding
  connected : ∀ p ∈ q.predicates_, Linked q.predicates_ q.firstBindings p.left.binding
  filtersJoined : ∀ f ∈ q.filters_, f.filter_column.binding ∈ q.joinBindings
  selectionsJoined : ∀ s ∈ q.selections_, s.binding ∈ q.joinBindings
  predsResolved : ∀ p ∈ q.predicates_, q.Resolved rels p.left ∧ q.Resolved rels p.right
  filtersResolved : ∀ f ∈ q.filters_, q.Resolved rels f.filter_column
  selectionsResolved : ∀ s ∈ q.selections_, q.Resolved rels s

/-- State of the planning loop: the tree built so far is well formed, `used` holds
its bindings, its predicates and the pending ones `Q` make up the query's, its filters
are the query's filters on its bindings, and every pending predicate is connected to
the tree through pending predicates. -/
def PlanInv (rels : List Relation) (q : QueryInfo) (used : List Nat) (root : Op)
    (Q : List PredicateInfo) : Prop :=
  Good q.rid (q.ctx rels) root ∧ (∀ b, b ∈ used ↔ b ∈ root.bindings) ∧
  (∀ b ∈ root.bindings, ∃ p ∈ q.predicates_, b = p.left.binding ∨ b = p.right.binding) ∧
  (∀ p ∈ root.preds, p ∈ q.predicates_) ∧ (∀ p ∈ Q, p ∈ q.predicates_) ∧
  (∀ p ∈ q.predicates_, p ∈ root.preds ∨ p ∈ Q) ∧
  (∀ f, f ∈ root.filts ↔ f ∈ q.filters_ ∧ f.filter_column.binding ∈ root.bindings) ∧
  (∀ p ∈ Q, Linked Q used p.left.binding)

/-- The predicate has a side on a binding of `U`. -/
def touches (U : List Nat) (p : PredicateInfo) : Prop :=
  p.left.binding ∈ U ∨ p.right.binding ∈ U

/-- The text `Joiner::join` prints for one checksum: `NULL` when the result is empty,
the decimal number otherwise. -/
def token (result_size r : Nat) : String := if result_size = 0 then "NULL" else to_string r

/-! ## The join result as a set of assignments -/

/-- The assignment `a` with row `i` given to binding `b`. -/
def Asg.set (a : Asg) (b i : Nat) : Asg := fun x => if x = b then i else a x

/-- Every assignment of one existing row to each binding of `B`, and of nothing to
the other bindings. -/
def allAsg (ctx : Nat → Relation) : List Nat → List Asg
  | [] => [Asg.zero]
  | b :: B => (allAsg ctx B).flatMap (fun a => (List.range (ctx b).size_).map (fun i => a.set b i))

/-- The assignment satisfies every join predicate of `P` and every filter of `F`. -/
def holdsAll (ctx : Nat → Relation) (P : List PredicateInfo) (F : List FilterInfo) (a : Asg) :
    Bool :=
  P.all (fun p => decide (val ctx p.left a = val ctx p.right a)) &&
  F.all (fun f => f.holds (val ctx f.filter_column a))

/-- The assignments of one row to each binding of `B` that satisfy every join
predicate of `P` and every filter of `F`. -/
def satisfying (ctx : Nat → Relation) (B : List Nat) (P : List PredicateInfo)
    (F : List FilterInfo) : List Asg :=
  (allAsg ctx B).filter (holdsAll ctx P F)

/-! ## Concrete queries -/

/-- Two loaded relations: one of 3 rows and one of 2 rows, a single column each. -/
def Example.rels : List Relation := [⟨3, [[1, 2, 2]]⟩, ⟨2, [[2, 2]]⟩]

/-- The query `0 1|0.0=1.0|0.0 1.0`, resolved. -/
def Example.query : QueryInfo :=
  { relation_ids_ := [0, 1], predicates_ := [⟨⟨0, 0, 0⟩, ⟨1, 1, 0⟩⟩], filters_ := [],
    selections_ := [⟨0, 0, 0⟩, ⟨1, 1, 0⟩] }

/-- The query `0 1|0.0=1.0&0.0<1|0.0 1.0`, resolved: no row passes the filter. -/
def Example.emptyQuery : QueryInfo :=
  { relation_ids_ := [0, 1], predicates_ := [⟨⟨0, 0, 0⟩, ⟨1, 1, 0⟩⟩],
    filters_ := [⟨⟨0, 0, 0⟩, 1, Comparison.Less⟩],
    selections_ := [⟨0, 0, 0⟩, ⟨1, 1, 0⟩] }

/-- The query `0 1 1|0.0=1.0|0.0`, resolved: binding 2 occurs in no predicate. -/
def Example.crossQuery : QueryInfo :=
  { relation_ids_ := [0, 1, 1], predicates_ := [⟨⟨0, 0, 0⟩, ⟨1, 1, 0⟩⟩], filters_ := [],
    selections_ := [⟨0, 0, 0⟩] }

/-- The number a string of decimal digits denotes. -/
def decimalValue (t : String) : Nat :=
  t.data.foldl (fun acc ch => 10 * acc + (ch.toNat - 48)) 0

/-! ## Trees before `run`, whatever their shape -/

/-- The operator holds a `SelectInfo` that its container does not tell apart from
`s`: a key of the map of a leaf, an element of `requested_columns_` of a `Join`, an
element of `required_IUs_` of a `SelfJoin` with the binding and column of `s`. -/
def Op.Seen : Op → SelectInfo → Prop
  | .Scan base _ _, s => base.select_to_result_col_id_ s ≠ none
  | .FilterScan base _ _ _ _, s => base.select_to_result_col_id_ s ≠ none
  | .Join _ _ _ _ _ req _ _ _ _, s => s ∈ req
  | .SelfJoin _ _ _ ius _ _, s => setCount ius s = true

/-- The relation of the first leaf, from left to right, that is bound as `x`: the
leaf that `require` reaches for a `SelectInfo` of binding `x`. -/
def Op.relationOf : Op → Nat → Option Relation
  | .Scan _ rel b, x => if x = b then some rel else none
  | .FilterScan _ rel b _ _, x => if x = b then some rel else none
  | .Join _ l r _ _ _ _ _ _ _, x =>
    match l.relationOf x with
    | some rel => some rel
    | none => r.relationOf x
  | .SelfJoin _ i _ _ _ _, x => i.relationOf x

/-- The column id of `s` is in range: the leaf that `require(s)` reaches, if any, has
a column `s.col_id`. -/
def Op.InRange (op : Op) (s : SelectInfo) : Prop :=
  match op.relationOf s.binding with
  | some rel => s.col_id < rel.columns_.length
  | none => True

/-- The column of the relation that `s` names in the tree, empty when no leaf is
bound as `s.binding`. -/
def Op.sourceColumn (op : Op) (s : SelectInfo) : Column :=
  match op.relationOf s.binding with
  | some rel => rel.columns_.getD s.col_id []
  | none => []

/-- State of a tree on which `run` has not been called, as its constructors and any
calls of `require` leave it: every node is in the state its own `require` calls
leave, and what a `Join` or `SelfJoin` holds was accepted by the child it asked:
the left child for `requested_columns_left_`, the right child, after the left one
declined, for `requested_columns_right_`. -/
def Op.Ready : Op → Prop
  | .Scan base rel b => ScanInv rel b base ∧ ∀ col ∈ base.result_columns_, col ∈ rel.columns_
  | .FilterScan base rel b _ idata => FilterScanInv rel b base idata ∧ base.result_size_ = 0
  | .Join base l r _ ht req reqL reqR cl cr =>
    JoinInv base ht req reqL reqR cl cr ∧ base.select_to_result_col_id_ = ColMap.empty ∧
    l.Ready ∧ r.Ready ∧ (∀ s ∈ reqL, l.Seen s) ∧
    (∀ s ∈ reqR, r.Seen s ∧ s.binding ∉ l.bindings)
  | .SelfJoin base i _ ius _ cd => SelfJoinInv base ius cd ∧ i.Ready ∧ ∀ s ∈ ius, i.Seen s

/-- The data a tree is built over are sound: every column of a scanned relation has
as many values as the relation has rows, and every filter of a `FilterScan` names a
column of its relation. -/
def Op.Sound : Op → Prop
  | .Scan _ rel _ => rel.WF
  | .FilterScan _ rel _ fs _ => rel.WF ∧ ∀ f ∈ fs, f.filter_column.col_id < rel.columns_.length
  | .Join _ l r _ _ _ _ _ _ _ => l.Sound ∧ r.Sound
  | .SelfJoin _ i _ _ _ _ => i.Sound

/-- Every operator of the tree exposes columns of `result_size` values. -/
def Op.ColumnsFull : Op → Prop
  | .Scan base rel b =>
    ∀ col ∈ (Op.Scan base rel b).getResults, col.length = (Op.Scan base rel b).result_size
  | .FilterScan base rel b fs idata =>
    ∀ col ∈ (Op.FilterScan base rel b fs idata).getResults,
      col.length = (Op.FilterScan base rel b fs idata).result_size
  | .Join base l r p ht req reqL reqR cl cr =>
    (∀ col ∈ (Op.Join base l r p ht req reqL reqR cl cr).getResults,
      col.length = (Op.Join base l r p ht req reqL reqR cl cr).result_size) ∧
    l.ColumnsFull ∧ r.ColumnsFull
  | .SelfJoin base i p ius idata cd =>
    (∀ col ∈ (Op.SelfJoin base i p ius idata cd).getResults,
      col.length = (Op.SelfJoin base i p ius idata cd).result_size) ∧ i.ColumnsFull

/-- Every column the operator resolves holds values of the source column of its
`SelectInfo`, one per output row: it lists the source column along some sequence of
`result_size` row numbers of the source. -/
def Op.Exposes (src : SelectInfo → Column) (op : Op) : Prop :=
  ∀ s k, op.resolve s = some k →
    ∃ ids : List Nat, ids.length = op.result_size ∧ (∀ i ∈ ids, i < (src s).length) ∧
      op.getResults[k]? = some (gather (src s) ids)

/-- The number of combinations of input rows an operator chooses its output rows
from: the rows of the relation for a leaf, the pairs of a row of each child for a
`Join`, the rows of the input for a `SelfJoin`. -/
def Op.inputSize : Op → Nat
  | .Scan _ rel _ => rel.size_
  | .FilterScan _ rel _ _ _ => rel.size_
  | .Join _ l r _ _ _ _ _ _ _ => l.result_size * r.result_size
  | .SelfJoin _ i _ _ _ _ => i.result_size

/-- An operator on which `run` has not been called: it counts no output row and its
hash table is empty. -/
def Op.Unrun : Op → Prop
  | .Join base _ _ _ ht _ _ _ _ _ => base.result_size_ = 0 ∧ ht = []
  | op => op.result_size = 0

/-! ## Query text (`parser.h`, `parser.cpp`) -/

/-- The character of a comparison, its value as `enum Comparison : char`. -/
def Comparison.toChar : Comparison → Char
  | .Less => '<'
  | .Greater => '>'
  | .Equal => '='

/-- The conversion `FilterInfo::Comparison(comp_type)` of a character, for the three
characters that name a comparison. -/
def Comparison.ofChar (ch : Char) : Option Comparison :=
  if ch = '<' then some .Less
  else if ch = '>' then some .Greater
  else if ch = '=' then some .Equal
  else none

/-- The vector `comparisonTypes`. -/
def comparisonTypes : List Comparison := [.Less, .Greater, .Equal]

/-- The loop `while (getline(ss, token, delimiter))` over the characters still to
read; `cur` is the token being extracted, `none` between two calls of `getline`. A
call that finds no character left fails and ends the loop, so a delimiter at the very
end is not followed by an empty token. -/
def getlineLoop (delimiter : Char) : List Char → Option (List Char) → List String
  | [], none => []
  | [], some tok => [String.mk tok]
  | ch :: rest, cur =>
    if ch = delimiter then String.mk (cur.getD []) :: getlineLoop delimiter rest none
    else getlineLoop delimiter rest (some (cur.getD [] ++ [ch]))

/-- The overload of `splitString` that collects the tokens as strings. -/
def splitString (line : String) (delimiter : Char) : List String :=
  getlineLoop delimiter line.data none

/-- The function `isspace` in the C locale. -/
def isspace (ch : Char) : Bool :=
  ch = ' ' || ch = '\t' || ch = '\n' || ch = '\r' || ch.toNat = 11 || ch.toNat = 12

/-- The optional sign that `std::stoul` accepts: whether it is a minus, and the rest. -/
def stoulSign : List Char → Bool × List Char
  | '-' :: rest => (true, rest)
  | '+' :: rest => (false, rest)
  | rest => (false, rest)

/-- The function `std::stoul` in base 10 for a 64-bit `unsigned long`: leading white
space is skipped, a sign is accepted, the longest run of digits is read and what
follows is ignored; no digit at all (`invalid_argument`) or a number of 2^64 or more
(`out_of_range`) is an exception; a minus negates in 64 bits. -/
def stoul (str : String) : Option Nat :=
  let body := stoulSign (str.data.dropWhile isspace)
  let digits := body.2.takeWhile Char.isDigit
  if digits = [] then none
  else
    let v := digits.foldl (fun acc ch => 10 * acc + (ch.toNat - 48)) 0
    if 2 ^ 64 ≤ v then none
    else some (if body.1 then (2 ^ 64 - v) % 2 ^ 64 else v)

/-- The body of the loop of the numeric `splitString` over tokens:
`result.push_back(stoul(token))` into a `std::vector<unsigned>`. -/
def pushNumbers : List String → List Nat → Option (List Nat)
  | [], result => some result
  | token :: rest, result =>
    match stoul token with
    | none => none
    | some v => pushNumbers rest (result ++ [v % 2 ^ 32])

/-- The overload of `splitString` that collects the tokens as `unsigned` numbers. -/
def splitStringUnsigned (line : String) (result : List Nat) (delimiter : Char) :
    Option (List Nat) :=
  pushNumbers (splitString line delimiter) result

/-- The function `splitPredicates`: the line split at the first comparison character,
in the order `<`, `>`, `=`, that occurs in it. -/
def splitPredicates (line : String) : List String :=
  match comparisonTypes.find? (fun ct => line.data.contains ct.toChar) with
  | some ct => splitString line ct.toChar
  | none => []

/-- The function `isConstant`. -/
def isConstant (raw : String) : Bool := !raw.data.contains '.'

/-- The function `wrapRelationName`. -/
def wrapRelationName (id : Nat) : String := "\"" ++ to_string id ++ "\""

/-- What a read of a `std::vector<unsigned>` past its end yields, given the contents
of the vector and the index. `operator[]` checks nothing and the program goes on with
whatever it has read, so the value is not determined by the program: it is a parameter
of the model, and what is proved holds for every choice of it. -/
abbrev Stray := List Nat → Nat → Nat

/-- The unchecked read `v[i]` of a `std::vector<unsigned>`: the element when there is
one, else some `unsigned` value. -/
def readUnsigned (mem : Stray) (v : List Nat) (i : Nat) : Nat :=
  match v[i]? with
  | some x => x
  | none => mem v i % 2 ^ 32

/-- The function `parseRelColPair`; it reads `ids[0]` and `ids[1]` without a check. -/
def parseRelColPair (mem : Stray) (raw : String) : Option SelectInfo :=
  match splitStringUnsigned raw [] '.' with
  | none => none
  | some ids => some ⟨0, readUnsigned mem ids 0, readUnsigned mem ids 1⟩

/-- The method `QueryInfo::parsePredicate`. -/
def QueryInfo.parsePredicate (q : QueryInfo) (mem : Stray) (raw_predicate : String) :
    Option QueryInfo :=
  let rel_cols := splitPredicates raw_predicate
  if rel_cols.length ≠ 2 then none
  else
    match rel_cols[0]?, rel_cols[1]? with
    | some lhs, some rhs =>
      if isConstant lhs then none
      else
        match parseRelColPair mem lhs with
        | none => none
        | some left_select =>
          if isConstant rhs then
            match stoul rhs with
            | none => none
            | some constant =>
              match raw_predicate.data[lhs.length]? with
              | none => none
              | some comp_type =>
                match Comparison.ofChar comp_type with
                | none => none
                | some cmp =>
                  some { q with filters_ := q.filters_ ++ [⟨left_select, constant, cmp⟩] }
          else
            match parseRelColPair mem rhs with
            | none => none
            | some right_select =>
              some { q with predicates_ := q.predicates_ ++ [⟨left_select, right_select⟩] }
    | _, _ => none

/-- The loop of `QueryInfo::parsePredicates` over the predicate strings. -/
def QueryInfo.parsePredicateList (mem : Stray) : QueryInfo → List String → Option QueryInfo
  | q, [] => some q
  | q, raw :: rest =>
    match q.parsePredicate mem raw with
    | none => none
    | some q1 => QueryInfo.parsePredicateList mem q1 rest

/-- The method `QueryInfo::parsePredicates`. -/
def QueryInfo.parsePredicates (q : QueryInfo) (mem : Stray) (raw_predicates : String) :
    Option QueryInfo :=
  q.parsePredicateList mem (splitString raw_predicates '&')

/-- The loop of `QueryInfo::parseSelections` over the selection strings. -/
def QueryInfo.parseSelectionList (mem : Stray) : QueryInfo → List String → Option QueryInfo
  | q, [] => some q
  | q, raw :: rest =>
    match parseRelColPair mem raw with
    | none => none
    | some s =>
      QueryInfo.parseSelectionList mem { q with selections_ := q.selections_ ++ [s] } rest

/-- The method `QueryInfo::parseSelections`. -/
def QueryInfo.parseSelections (q : QueryInfo) (mem : Stray) (raw_selections : String) :
    Option QueryInfo :=
  q.parseSelectionList mem (splitString raw_selections ' ')

/-- The method `QueryInfo::parseRelationIds`. -/
def QueryInfo.parseRelationIds (q : QueryInfo) (raw_relations : String) : Option QueryInfo :=
  match splitStringUnsigned raw_relations q.relation_ids_ ' ' with
  | none => none
  | some ids => some { q with relation_ids_ := ids }

/-- The function `resolveIds`; it reads `relation_ids[select_info.binding]` without a
check. -/
def resolveIds (mem : Stray) (relation_ids : List Nat) (select_info : SelectInfo) :
    SelectInfo :=
  { select_info with rel_id := readUnsigned mem relation_ids select_info.binding }

/-- The loop `for (auto &s_info : selections_) resolveIds(relation_ids_, s_info)`. -/
def resolveSelects (mem : Stray) (relation_ids : List Nat) :
    List SelectInfo → List SelectInfo
  | [] => []
  | s :: rest => resolveIds mem relation_ids s :: resolveSelects mem relation_ids rest

/-- The loop of `resolveRelationIds` over the predicates. -/
def resolvePredicates (mem : Stray) (relation_ids : List Nat) :
    List PredicateInfo → List PredicateInfo
  | [] => []
  | p :: rest =>
    ⟨resolveIds mem relation_ids p.left, resolveIds mem relation_ids p.right⟩ ::
      resolvePredicates mem relation_ids rest

/-- The loop of `resolveRelationIds` over the filters. -/
def resolveFilters (mem : Stray) (relation_ids : List Nat) :
    List FilterInfo → List FilterInfo
  | [] => []
  | f :: rest =>
    { f with filter_column := resolveIds mem relation_ids f.filter_column } ::
      resolveFilters mem relation_ids rest

/-- The method `QueryInfo::resolveRelationIds`. -/
def QueryInfo.resolveRelationIds (q : QueryInfo) (mem : Stray) : QueryInfo :=
  ⟨q.relation_ids_, resolvePredicates mem q.relation_ids_ q.predicates_,
    resolveFilters mem q.relation_ids_ q.filters_,
    resolveSelects mem q.relation_ids_ q.selections_⟩

/-- The method `QueryInfo::clear`. -/
def QueryInfo.clear (_q : QueryInfo) : QueryInfo := ⟨[], [], [], []⟩

/-- The method `QueryInfo::parseQuery`; it asserts that the line has three parts. -/
def QueryInfo.parseQuery (q : QueryInfo) (mem : Stray) (raw_query : String) :
    Option QueryInfo :=
  let query_parts := splitString raw_query '|'
  if query_parts.length ≠ 3 then none
  else
    match query_parts[0]?, query_parts[1]?, query_parts[2]? with
    | some r, some p, some s =>
      match q.clear.parseRelationIds r with
      | none => none
      | some q1 =>
        match q1.parsePredicates mem p with
        | none => none
        | some q2 =>
          match q2.parseSelections mem s with
          | none => none
          | some q3 => some (q3.resolveRelationIds mem)
    | _, _, _ => none

/-- The constructor `QueryInfo(raw_query)`. -/
def QueryInfo.ofText (mem : Stray) (raw_query : String) : Option QueryInfo :=
  QueryInfo.parseQuery ⟨[], [], [], []⟩ mem raw_query

/-- The method `SelectInfo::dumpSQL`. -/
def SelectInfo.dumpSQL (s : SelectInfo) (add_sum : Bool) : String :=
  let inner_part := wrapRelationName s.binding ++ ".c" ++ to_string s.col_id
  if add_sum then "SUM(" ++ inner_part ++ ")" else inner_part

/-- The method `SelectInfo::dumpText`. -/
def SelectInfo.dumpText (s : SelectInfo) : String :=
  to_string s.binding ++ "." ++ to_string s.col_id

/-- The method `FilterInfo::dumpText`. -/
def FilterInfo.dumpText (f : FilterInfo) : String :=
  (f.filter_column.dumpText.push f.comparison.toChar) ++ to_string f.constant

/-- The method `FilterInfo::dumpSQL`. -/
def FilterInfo.dumpSQL (f : FilterInfo) : String :=
  ((f.filter_column.dumpSQL false).push f.comparison.toChar) ++ to_string f.constant

/-- The method `PredicateInfo::dumpText`. -/
def PredicateInfo.dumpText (p : PredicateInfo) : String :=
  (p.left.dumpText.push '=') ++ p.right.dumpText

/-- The method `PredicateInfo::dumpSQL`. -/
def PredicateInfo.dumpSQL (p : PredicateInfo) : String :=
  ((p.left.dumpSQL false).push '=') ++ p.right.dumpSQL false

/-- The loops of `dumpPart`, `dumpPartSQL`, `QueryInfo::dumpText` and
`QueryInfo::dumpSQL` from index `i` on, over the texts of the elements still to
write: `ss << text; if (i < n - 1) ss << delimiter`, with `n` the number of elements. -/
def dumpLoop (delimiter : String) (n : Nat) : List String → Nat → String → String
  | [], _, ss => ss
  | text :: rest, i, ss =>
    let ss1 := ss ++ text
    let ss2 := if i < n - 1 then ss1 ++ delimiter else ss1
    dumpLoop delimiter n rest (i + 1) ss2

/-- The function `dumpPart` for predicates. -/
def dumpPartPredicates (ss : String) (elements : List PredicateInfo) : String :=
  dumpLoop "&" elements.length (elements.map PredicateInfo.dumpText) 0 ss

/-- The function `dumpPart` for filters. -/
def dumpPartFilters (ss : String) (elements : List FilterInfo) : String :=
  dumpLoop "&" elements.length (elements.map FilterInfo.dumpText) 0 ss

/-- The function `dumpPart` for selections. -/
def dumpPartSelections (ss : String) (elements : List SelectInfo) : String :=
  dumpLoop " " elements.length (elements.map SelectInfo.dumpText) 0 ss

/-- The function `dumpPartSQL` for predicates. -/
def dumpPartSQLPredicates (ss : String) (elements : List PredicateInfo) : String :=
  dumpLoop " and " elements.length (elements.map PredicateInfo.dumpSQL) 0 ss

/-- The function `dumpPartSQL` for filters. -/
def dumpPartSQLFilters (ss : String) (elements : List FilterInfo) : String :=
  dumpLoop " and " elements.length (elements.map FilterInfo.dumpSQL) 0 ss

/-- The method `QueryInfo::dumpText`. -/
def QueryInfo.dumpText (q : QueryInfo) : String :=
  let text1 := dumpLoop " " q.relation_ids_.length (q.relation_ids_.map to_string) 0 ""
  let text2 := text1 ++ "|"
  let text3 := dumpPartPredicates text2 q.predicates_
  let text4 :=
    if q.predicates_.length ≠ 0 ∧ q.filters_.length ≠ 0 then text3.push '&' else text3
  let text5 := dumpPartFilters text4 q.filters_
  let text6 := text5 ++ "|"
  dumpPartSelections text6 q.selections_

/-- The method `QueryInfo::dumpSQL`. -/
def QueryInfo.dumpSQL (q : QueryInfo) : String :=
  let sql1 := "SELECT "
  let sql2 := dumpLoop ", " q.selections_.length
    (q.selections_.map (fun s => s.dumpSQL true)) 0 sql1
  let sql3 := sql2 ++ " FROM "
  let sql4 := dumpLoop ", " q.relation_ids_.length
    ((List.range q.relation_ids_.length).map (fun i =>
      "r" ++ to_string (q.relation_ids_.getD i 0) ++ " " ++ wrapRelationName i)) 0 sql3
  let sql5 := sql4 ++ " WHERE "
  let sql6 := dumpPartSQLPredicates sql5 q.predicates_
  let sql7 := if q.predicates_ ≠ [] ∧ q.filters_ ≠ [] then sql6 ++ " and " else sql6
  let sql8 := dumpPartSQLFilters sql7 q.filters_
  sql8 ++ ";"

/-! ## The query text format, as vocabulary of the statements -/

/-- The text `b.c` of an output column or of the side of a predicate, in plain
decimal numbers. -/
def SelectInfo.text (s : SelectInfo) : String :=
  to_string s.binding ++ "." ++ to_string s.col_id

/-- The text `b1.c1=b2.c2` of a join predicate. -/
def PredicateInfo.text (p : PredicateInfo) : String := p.left.text ++ "=" ++ p.right.text

/-- The text `b.c<K`, `b.c>K` or `b.c=K` of a filter. -/
def FilterInfo.text (f : FilterInfo) : String :=
  f.filter_column.text ++ String.singleton f.comparison.toChar ++ to_string f.constant

/-- One token of the `P` part of a query text: a join predicate or a filter. -/
inductive PToken where
  | join (p : PredicateInfo)
  | filter (f : FilterInfo)

/-- The text of a token of the `P` part. -/
def PToken.text : PToken → String
  | .join p => p.text
  | .filter f => f.text

/-- The join predicates among the tokens, in their order. -/
def joinsOf : List PToken → List PredicateInfo
  | [] => []
  | .join p :: rest => p :: joinsOf rest
  | .filter _ :: rest => joinsOf rest

/-- The filters among the tokens, in their order. -/
def filtersOf : List PToken → List FilterInfo
  | [] => []
  | .join _ :: rest => filtersOf rest
  | .filter f :: rest => f :: filtersOf rest

/-- The query text `R|P|S`: relation ids separated by spaces, predicate tokens
separated by `&`, output columns separated by spaces. -/
def queryText (ids : List Nat) (items : List PToken) (sels : List SelectInfo) : String :=
  String.intercalate " " (ids.map to_string) ++ "|" ++
    String.intercalate "&" (items.map PToken.text) ++ "|" ++
    String.intercalate " " (sels.map SelectInfo.text)

/-- Binding and column fit the type `unsigned`. -/
def SelectInfo.Plain (s : SelectInfo) : Prop := s.binding < 2 ^ 32 ∧ s.col_id < 2 ^ 32

/-- The numbers of a token fit their types: `unsigned` for bindings and columns,
`uint64_t` for the constant of a filter. -/
def PToken.Plain : PToken → Prop
  | .join p => p.left.Plain ∧ p.right.Plain
  | .filter f => f.filter_column.Plain ∧ f.constant < 2 ^ 64

/-- The bindings a token names. -/
def PToken.bindings : PToken → List Nat
  | .join p => [p.left.binding, p.right.binding]
  | .filter f => [f.filter_column.binding]

/-- The `SelectInfo` with its `rel_id` set from the binding table. -/
def SelectInfo.resolved (ids : List Nat) (s : SelectInfo) : SelectInfo :=
  ⟨ids.getD s.binding 0, s.binding, s.col_id⟩

/-- The join predicate with both sides resolved. -/
def PredicateInfo.resolved (ids : List Nat) (p : PredicateInfo) : PredicateInfo :=
  ⟨p.left.resolved ids, p.right.resolved ids⟩

/-- The filter with its column resolved. -/
def FilterInfo.resolved (ids : List Nat) (f : FilterInfo) : FilterInfo :=
  ⟨f.filter_column.resolved ids, f.constant, f.comparison⟩

/-- Every `SelectInfo` of a query: the output columns, both sides of every join
predicate and the column of every filter. -/
def QueryInfo.selectInfos (q : QueryInfo) : List SelectInfo :=
  q.selections_ ++ q.predicates_.flatMap (fun p => [p.left, p.right]) ++
    q.filters_.map (fun f => f.filter_column)

/-- The `SelectInfo` as `parseRelColPair` builds it: `rel_id` is 0 until the query is
resolved. -/
def SelectInfo.parsed (s : SelectInfo) : SelectInfo := ⟨0, s.binding, s.col_id⟩

/-- The join predicate as `parsePredicate` builds it. -/
def PredicateInfo.parsed (p : PredicateInfo) : PredicateInfo := ⟨p.left.parsed, p.right.parsed⟩

/-- The filter as `parsePredicate` builds it. -/
def FilterInfo.parsed (f : FilterInfo) : FilterInfo :=
  ⟨f.filter_column.parsed, f.constant, f.comparison⟩

/-- The tokens of the `P` part with all join predicates first and all filters after
them, each group in its order. -/
def joinsFirst (items : List PToken) : List PToken :=
  (joinsOf items).map PToken.join ++ (filtersOf items).map PToken.filter

/-- The number of parts of a line separated by `delimiter`, a delimiter at the very
end of the line starting no further part. -/
def partCount (raw : String) (delimiter : Char) : Nat :=
  raw.data.count delimiter +
    (if raw.data = [] ∨ raw.data.getLast? = some delimiter then 0 else 1)

/-- The text begins, after white space and an optional sign, with a decimal digit. -/
def startsWithNumber (t : String) : Bool :=
  match (stoulSign (t.data.dropWhile isspace)).2 with
  | [] => false
  | ch :: _ => ch.isDigit

/-- The text is a decimal number: one digit or more and nothing else. -/
def isDecimal (t : String) : Bool := !t.data.isEmpty && t.data.all Char.isDigit

/-! ## The planner, whatever the query -/

/-- The filters of the query on binding `b`, in their order: the vector that `addScan`
collects. -/
def filtersOn (query : QueryInfo) (b : Nat) : List FilterInfo :=
  query.filters_.filter (fun f => decide (f.filter_column.binding = b))

/-- The node is a leaf: a `Scan` or a `FilterScan`. -/
def Op.isLeaf : Op → Bool
  | .Scan _ _ _ => true
  | .FilterScan _ _ _ _ _ => true
  | _ => false

/-- The right child of every `Join` of the tree is a leaf. -/
def Op.leftDeep : Op → Bool
  | .Scan _ _ _ => true
  | .FilterScan _ _ _ _ _ => true
  | .Join _ l r _ _ _ _ _ _ _ => r.isLeaf && l.leftDeep && r.leftDeep
  | .SelfJoin _ i _ _ _ _ => i.leftDeep

/-- The number of `Join` nodes of a tree. -/
def Op.joins : Op → Nat
  | .Scan _ _ _ => 0
  | .FilterScan _ _ _ _ _ => 0
  | .Join _ l r _ _ _ _ _ _ _ => l.joins + r.joins + 1
  | .SelfJoin _ i _ _ _ _ => i.joins

/-- The number of `SelfJoin` nodes of a tree. -/
def Op.selfJoins : Op → Nat
  | .Scan _ _ _ => 0
  | .FilterScan _ _ _ _ _ => 0
  | .Join _ l r _ _ _ _ _ _ _ => l.selfJoins + r.selfJoins
  | .SelfJoin _ i _ _ _ _ => i.selfJoins + 1

/-- The leaves of a tree, left to right: binding and relation. -/
def Op.leafRels : Op → List (Nat × Relation)
  | .Scan _ rel b => [(b, rel)]
  | .FilterScan _ rel b _ _ => [(b, rel)]
  | .Join _ l r _ _ _ _ _ _ _ => l.leafRels ++ r.leafRels
  | .SelfJoin _ i _ _ _ _ => i.leafRels

/-- One iteration of the planning loop of `Joiner::join` on the predicate `p_info`:
the switch over `analyzeInputOfJoin`. The result is the working copy of the
predicates, the used bindings and the root afterwards; `none` when `addScan` fails. -/
def planStep (relations_ : List Relation) (query : QueryInfo)
    (predicates_copy : List PredicateInfo) (used_relations : List Nat) (root : Op)
    (p_info : PredicateInfo) : Option (List PredicateInfo × List Nat × Op) :=
  match analyzeInputOfJoin used_relations p_info.left p_info.right with
  | .Left =>
    match addScan relations_ used_relations p_info.right query with
    | none => none
    | some (used, right) => some (predicates_copy, used, Op.mkJoin root right p_info)
  | .Right =>
    match addScan relations_ used_relations p_info.left query with
    | none => none
    | some (used, left) => some (predicates_copy, used, Op.mkJoin left root p_info)
  | .Both => some (predicates_copy, used_relations, Op.mkSelfJoin root p_info)
  | .None => some (predicates_copy ++ [p_info], used_relations, root)

/-- How the planning loop stands after a bounded number of iterations: it has left
the loop with a working copy, a set of used bindings and a root; `addScan` has
failed; or it is still in the loop. -/
inductive PlanEnd where
  | finished (predicates_copy : List PredicateInfo) (used_relations : List Nat) (root : Op)
  | aborted
  | running

/-- The planning loop of `Joiner::join` from index `i` on, run for at most the given
number of iterations. -/
def planLoopEnd (relations_ : List Relation) (query : QueryInfo) :
    Nat → List PredicateInfo → Nat → List Nat → Op → PlanEnd
  | 0, predicates_copy, i, used_relations, root =>
    if i < predicates_copy.length then .running
    else .finished predicates_copy used_relations root
  | fuel + 1, predicates_copy, i, used_relations, root =>
    match predicates_copy[i]? with
    | none => .finished predicates_copy used_relations root
    | some p_info =>
      match planStep relations_ query predicates_copy used_relations root p_info with
      | none => .aborted
      | some (pc, used, root1) => planLoopEnd relations_ query fuel pc (i + 1) used root1

/-- The planning part of `Joiner::join`, the two first scans and the loop, run for at
most the given number of iterations of the loop. -/
def planTreeEnd (relations_ : List Relation) (fuel : Nat) (query : QueryInfo) : PlanEnd :=
  match query.predicates_[0]? with
  | none => .aborted
  | some firstJoin =>
    match addScan relations_ [] firstJoin.left query with
    | none => .aborted
    | some (used1, left) =>
      match addScan relations_ used1 firstJoin.right query with
      | none => .aborted
      | some (used2, right) =>
        planLoopEnd relations_ query fuel query.predicates_ 1 used2
          (Op.mkJoin left right firstJoin)

/-- Shape of the tree the planner has built so far, whatever the query: the tree is
in the state its constructors leave, `used` holds the bindings of its leaves, its
predicates are predicates of the query with both sides on leaves, every leaf carries
a side of one of its predicates, it has one `Join` less than leaves, and every leaf
scans the relation that `getRelation` gave for the `rel_id` of a predicate side on
its binding. -/
def PlanShape (rels : List Relation) (q : QueryInfo) (used : List Nat) (root : Op) : Prop :=
  root.Ready ∧ (∀ b, b ∈ used ↔ b ∈ root.bindings) ∧
  (∀ p ∈ root.preds, p.left.binding ∈ root.bindings ∧ p.right.binding ∈ root.bindings) ∧
  (∀ b ∈ root.bindings, ∃ p ∈ root.preds, b = p.left.binding ∨ b = p.right.binding) ∧
  root.joins + 1 = root.bindings.length ∧
  (∀ br ∈ root.leafRels, ∃ p ∈ q.predicates_, ∃ s, (s = p.left ∨ s = p.right) ∧
    s.binding = br.1 ∧ rels[s.rel_id]? = some br.2)

/-- The value `i` satisfies every filter of the list, each read as a condition on
`i`. -/
def passesAll (fs : List FilterInfo) (i : Nat) : Bool := fs.all (fun f => f.holds i)

/-- The values `i` of `[0, N)` that satisfy every filter of the list, ascending. -/
def passingValues (N : Nat) (fs : List FilterInfo) : List Nat :=
  (List.range N).filter (passesAll fs)

/-- The assignment that gives row `i` to every binding of `B`. -/
def Asg.const (B : List Nat) (i : Nat) : Asg := fun x => if x ∈ B then i else 0

/-! ## Execution in which a `require` that returns `false` counts as a failure -/

/-- The calls `input_->require(sInfo)` of `Checksum::run`, failing as soon as one
returns `false`. -/
def Op.requireAllStrict : Op → List SelectInfo → Option Op
  | op, [] => some op
  | op, s :: ss =>
    match op.require s with
    | some (true, op1) => Op.requireAllStrict op1 ss
    | _ => none

/-- The method `run` of the operators, failing as soon as a `require` that `Join::run`
or `SelfJoin::run` issues returns `false`. -/
def Op.runStrictFuel (ord : HTOrder) : Nat → Op → Option Op
  | 0, _ => none
  | n + 1, .Scan base rel b => Op.runFuel ord (n + 1) (.Scan base rel b)
  | n + 1, .FilterScan base rel b fs input_data =>
    Op.runFuel ord (n + 1) (.FilterScan base rel b fs input_data)
  | n + 1, .Join base l r p ht req reqL reqR cl cr =>
    match l.require p.left with
    | some (true, l1) =>
      match r.require p.right with
      | some (true, r1) =>
        match Op.runStrictFuel ord n l1 with
        | none => none
        | some l2 =>
          match Op.runStrictFuel ord n r1 with
          | none => none
          | some r2 => Join.runCore ord base l2 r2 p ht req reqL reqR cl cr
      | _ => none
    | _ => none
  | n + 1, .SelfJoin base i p ius _ copy_data =>
    match i.require p.left with
    | some (true, i1) =>
      match i1.require p.right with
      | some (true, i2) =>
        match Op.runStrictFuel ord n i2 with
        | none => none
        | some i3 => SelfJoin.runCore base i3 p ius copy_data
      | _ => none
    | _ => none

/-- The method `run` of an operator of the tree, strict about `require`. -/
def Op.runStrict (ord : HTOrder) (op : Op) : Option Op := Op.runStrictFuel ord op.height op

/-- The method `Checksum::run`, strict about `require`. -/
def Checksum.runStrict (ord : HTOrder) (cs : Checksum) : Option Checksum :=
  match cs.input_.requireAllStrict cs.col_info_ with
  | none => none
  | some i1 =>
    match i1.runStrict ord with
    | none => none
    | some i2 =>
      match Checksum.sumCols i2 cs.col_info_ (cs.check_sums_, cs.result_size_) with
      | none => none
      | some (sums, rs) => some ⟨i2, cs.col_info_, sums, rs⟩

/-- The method `Joiner::join`, strict about `require`. -/
def Joiner.joinStrict (ord : HTOrder) (relations_ : List Relation) (fuel : Nat)
    (query : QueryInfo) : Option String :=
  match planTree relations_ fuel query with
  | none => none
  | some root =>
    match (Checksum.init root query.selections_).runStrict ord with
    | none => none
    | some checksum =>
      some (formatLoop checksum.result_size_ checksum.check_sums_.length
        checksum.check_sums_ 0 "" ++ "\n")

/-- In every `Join` of the tree the left side of the predicate is on a leaf of the
left child and the right side on a leaf of the right child; both sides of the
predicate of a `SelfJoin` are on leaves of its input. -/
def Op.SidesReachable : Op → Prop
  | .Scan _ _ _ => True
  | .FilterScan _ _ _ _ _ => True
  | .Join _ l r p _ _ _ _ _ _ =>
    p.left.binding ∈ l.bindings ∧ p.right.binding ∈ r.bindings ∧
    l.SidesReachable ∧ r.SidesReachable
  | .SelfJoin _ i p _ _ _ =>
    p.left.binding ∈ i.bindings ∧ p.right.binding ∈ i.bindings ∧ i.SidesReachable

/-! ## The calls of `require` and `run` in the order they happen -/

/-- A call received by an operator of the tree. The operator is named by its position
at construction: the path from the root, 0 for the left child or the input, 1 for the
right child. -/
inductive Event where
  | require (path : List Nat) (info : SelectInfo)
  | run (path : List Nat)
deriving DecidableEq, Repr

/-- The `require` calls that one call `require(info)` on the operator at `path`
causes, itself included, in order: a `Join` asks its left child and, when that one
declines, its right child, unless it holds `info` already; a `SelfJoin` asks its
input unless it holds `info` already. -/
def Op.requireEvents : Op → List Nat → SelectInfo → List Event
  | .Scan _ _ _, path, info => [.require path info]
  | .FilterScan _ _ _ _ _, path, info => [.require path info]
  | .Join _ l r _ _ req _ _ _ _, path, info =>
    if info ∈ req then [.require path info]
    else
      match l.require info with
      | some (false, _) =>
        .require path info ::
          (l.requireEvents (path ++ [0]) info ++ r.requireEvents (path ++ [1]) info)
      | _ => .require path info :: l.requireEvents (path ++ [0]) info
  | .SelfJoin _ i _ ius _ _, path, info =>
    if setCount ius info then [.require path info]
    else .require path info :: i.requireEvents (path ++ [0]) info

/-- The `require` calls of a sequence of calls of `require` on the operator at
`path`. -/
def Op.requireAllEvents : Op → List Nat → List SelectInfo → List Event
  | _, _, [] => []
  | op, path, s :: ss =>
    op.requireEvents path s ++
      (match op.require s with
        | none => []
        | some (_, op1) => Op.requireAllEvents op1 path ss)

/-- The calls that one call `run()` on the operator at `path` causes, itself
included, in order; the first argument bounds the depth of the recursion. -/
def Op.runEvents (ord : HTOrder) : Nat → Op → List Nat → List Event
  | 0, _, _ => []
  | _ + 1, .Scan _ _ _, path => [.run path]
  | _ + 1, .FilterScan _ _ _ _ _, path => [.run path]
  | n + 1, .Join _ l r p _ _ _ _ _ _, path =>
    .run path :: (l.requireEvents (path ++ [0]) p.left ++
      (match l.require p.left with
        | none => []
        | some (_, l1) =>
          r.requireEvents (path ++ [1]) p.right ++
            (match r.require p.right with
              | none => []
              | some (_, r1) =>
                Op.runEvents ord n l1 (path ++ [0]) ++
                  (match Op.runFuel ord n l1 with
                    | none => []
                    | some _ => Op.runEvents ord n r1 (path ++ [1])))))
  | n + 1, .SelfJoin _ i p _ _ _, path =>
    .run path :: (i.requireEvents (path ++ [0]) p.left ++
      (match i.require p.left with
        | none => []
        | some (_, i1) =>
          i1.requireEvents (path ++ [0]) p.right ++
            (match i1.require p.right with
              | none => []
              | some (_, i2) => Op.runEvents ord n i2 (path ++ [0]))))

/-- The calls on the operators of the tree during `Checksum::run`. -/
def Checksum.events (ord : HTOrder) (cs : Checksum) : List Event :=
  cs.input_.requireAllEvents [] cs.col_info_ ++
    (match cs.input_.requireAll cs.col_info_ with
      | none => []
      | some i1 => Op.runEvents ord i1.height i1 [])

/-- The calls on the operators of the tree during `Joiner::join`. -/
def Joiner.joinEvents (ord : HTOrder) (relations_ : List Relation) (fuel : Nat)
    (query : QueryInfo) : List Event :=
  match planTree relations_ fuel query with
  | none => []
  | some root => Checksum.events ord (Checksum.init root query.selections_)

/-- The later of two calls is not a `require` on the operator whose `run` the earlier
one is. -/
def Event.Orderly (e1 e2 : Event) : Prop :=
  ∀ path info, e1 = Event.run path → e2 ≠ Event.require path info

/-- The equality operator `SelectInfo::operator==`. -/
def SelectInfo.operatorEq (a o : SelectInfo) : Bool :=
  decide (o.rel_id = a.rel_id) && decide (o.binding = a.binding) && decide (o.col_id = a.col_id)

/-- The specialisation `std::hash<SelectInfo>`: `s.binding ^ (s.col_id << 5)`, computed
on 32-bit `unsigned` values. -/
def SelectInfo.hash (s : SelectInfo) : Nat :=
  (s.binding % 2 ^ 32) ^^^ ((s.col_id <<< 5) % 2 ^ 32)

/-- The probe rows that have a match among the build rows, in ascending order. -/
def matchedProbeRows (keyB keyP : Column) (nB nP : Nat) : List Nat :=
  (List.range nP).filter
    (fun j => (List.range nB).any (fun i => decide (cellAt keyB i = cellAt keyP j)))

/-- The numbers of a query fit their types: `unsigned` for relation ids, bindings and
columns, `uint64_t` for the constants of the filters. -/
def QueryInfo.InRange (q : QueryInfo) : Prop :=
  (∀ n ∈ q.relation_ids_, n < 2 ^ 32) ∧ (∀ s ∈ q.selectInfos, s.Plain) ∧
    ∀ f ∈ q.filters_, f.constant < 2 ^ 64

/-! ## What a query text writes -/

/-- The number that `std::stoul` reads at the start of a piece of text; 0 stands for a
piece on which it throws. -/
def writtenNumber (t : String) : Nat := (stoul t).getD 0

/-- The `SelectInfo` has the binding and the column that the column reference `tok`
writes: the numbers of the first and of the second `.`-separated piece of `tok`, each
reduced to the type `unsigned`. Nothing is said of a number that `tok` does not
write. -/
def SelectInfo.WrittenAs (s : SelectInfo) (tok : String) : Prop :=
  match splitString tok '.' with
  | [] => True
  | [b] => s.binding = writtenNumber b % 2 ^ 32
  | b :: c :: _ => s.binding = writtenNumber b % 2 ^ 32 ∧ s.col_id = writtenNumber c % 2 ^ 32

instance (s : SelectInfo) (tok : String) : Decidable (s.WrittenAs tok) := by
  unfold SelectInfo.WrittenAs
  split <;> infer_instance

/-- The token of the `P` part is a join predicate: it has two sides and the right one
names a column. -/
def isJoinText (tok : String) : Bool :=
  match splitPredicates tok with
  | [_, rhs] => !isConstant rhs
  | _ => false

/-- The join predicate has the two sides that the token `tok` writes. -/
def PredicateInfo.WrittenAs (p : PredicateInfo) (tok : String) : Prop :=
  match splitPredicates tok with
  | [lhs, rhs] => p.left.WrittenAs lhs ∧ p.right.WrittenAs rhs
  | _ => False

instance (p : PredicateInfo) (tok : String) : Decidable (p.WrittenAs tok) := by
  unfold PredicateInfo.WrittenAs
  split <;> infer_instance

/-- The filter has the column, the comparison and the constant that the token `tok`
writes. -/
def FilterInfo.WrittenAs (f : FilterInfo) (tok : String) : Prop :=
  match splitPredicates tok with
  | [lhs, rhs] => f.filter_column.WrittenAs lhs ∧ f.constant = writtenNumber rhs ∧
      tok.data[lhs.length]? = some f.comparison.toChar
  | _ => False

instance (f : FilterInfo) (tok : String) : Decidable (f.WrittenAs tok) := by
  unfold FilterInfo.WrittenAs
  split <;> infer_instance

/-- Every `Join` of the tree has a leaf, a `Scan` or a `FilterScan`, as its left or as
its right child. -/
def Op.leafSided : Op → Bool
  | .Scan _ _ _ => true
  | .FilterScan _ _ _ _ _ => true
  | .Join _ l r _ _ _ _ _ _ _ => (l.isLeaf || r.isLeaf) && l.leafSided && r.leafSided
  | .SelfJoin _ i _ _ _ _ => i.leafSided


/-! ## Loops in closed form -/

theorem getElem?_some_getD {l : List Nat} {i : Nat} (h : i < l.length) :
    l[i]? = some (cellAt l i) := by
  rw [List.getElem?_eq_getElem h, cellAt, List.getD_eq_getElem _ _ h]

theorem gather_nil (col : Column) : gather col [] = [] := rfl

theorem gather_append (col : Column) (xs ys : List Nat) :
    gather col (xs ++ ys) = gather col xs ++ gather col ys := by
  simp [gather]

theorem gather_length (col : Column) (xs : List Nat) : (gather col xs).length = xs.length := by
  simp [gather]

theorem gather_range (col : Column) : gather col (List.range col.length) = col := by
  apply List.ext_getElem
  · simp [gather]
  · intro n h1 h2
    simp only [gather, List.length_map, List.length_range] at h1
    simp [gather, cellAt, List.getElem?_eq_getElem h1]

theorem map_nil_eq {α β : Type} (l1 : List α) (l2 : List β) (h : l1.length = l2.length) :
    l1.map (fun _ => ([] : Column)) = l2.map (fun _ => ([] : Column)) := by
  rw [List.map_const', List.map_const', h]

theorem pushCols_map (f : Column → Column) (id : Nat) :
    ∀ (data pre post : List Column), (∀ col ∈ data, id < col.length) →
      pushCols data id pre.length (pre ++ data.map f ++ post)
        = some (pre ++ data.map (fun col => f col ++ [cellAt col id]) ++ post) := by
  intro data
  induction data with
  | nil => intro pre post _; simp [pushCols]
  | cons d ds ih =>
    intro pre post h
    have hd : id < d.length := h d (List.mem_cons_self _ _)
    have hds : ∀ col ∈ ds, id < col.length := fun col hc => h col (List.mem_cons_of_mem _ hc)
    have hget : (pre ++ List.map f (d :: ds) ++ post)[pre.length]? = some (f d) := by
      rw [List.append_assoc, List.getElem?_append_right (Nat.le_refl _)]
      simp
    have hset : (pre ++ List.map f (d :: ds) ++ post).set pre.length (f d ++ [cellAt d id])
        = (pre ++ [f d ++ [cellAt d id]]) ++ List.map f ds ++ post := by
      simp [List.set_append_right]
    have hlen : pre.length + 1 = (pre ++ [f d ++ [cellAt d id]]).length := by simp
    rw [pushCols, getElem?_some_getD hd, hget]
    simp only []
    rw [hset, hlen, ih _ _ hds]
    simp

theorem pushCols_map0 (f : Column → Column) (id : Nat) (data : List Column)
    (h : ∀ col ∈ data, id < col.length) :
    pushCols data id 0 (data.map f) = some (data.map (fun col => f col ++ [cellAt col id])) := by
  have := pushCols_map f id data [] [] h
  simpa using this

theorem applyFilter_eq (rel : Relation) (i : Nat) (f : FilterInfo) (hwf : rel.WF)
    (hi : i < rel.size_) (hc : f.filter_column.col_id < rel.columns_.length) :
    applyFilter rel i f = some (f.holds (rel.cell f.filter_column.col_id i)) := by
  have hcol : rel.columns_[f.filter_column.col_id]? = some (rel.columns_[f.filter_column.col_id]) :=
    List.getElem?_eq_getElem hc
  have hlen : (rel.columns_[f.filter_column.col_id]).length = rel.size_ :=
    hwf _ (List.getElem_mem _)
  have hcell : rel.cell f.filter_column.col_id i = cellAt (rel.columns_[f.filter_column.col_id]) i := by
    rw [Relation.cell, List.getD_eq_getElem _ _ hc]
  unfold applyFilter
  rw [hcol]
  simp only []
  rw [getElem?_some_getD (by omega), hcell]
  simp only [FilterInfo.holds]
  cases f.comparison <;> rfl

theorem applyFilters_eq (rel : Relation) (i : Nat) (hwf : rel.WF) (hi : i < rel.size_) :
    ∀ (fs : List FilterInfo) (pass : Bool),
      (∀ f ∈ fs, f.filter_column.col_id < rel.columns_.length) →
      applyFilters rel i fs pass = some (pass && rowPasses rel fs i) := by
  intro fs
  induction fs with
  | nil => intro pass _; simp [applyFilters, rowPasses]
  | cons f fs ih =>
    intro pass h
    rw [applyFilters, applyFilter_eq rel i f hwf hi (h f (List.mem_cons_self _ _))]
    simp only []
    rw [ih _ (fun g hg => h g (List.mem_cons_of_mem _ hg))]
    simp [rowPasses, Bool.and_assoc]

theorem FilterScan_loop_eq (rel : Relation) (fs : List FilterInfo) (data : List Column)
    (hwf : rel.WF) (hfs : ∀ f ∈ fs, f.filter_column.col_id < rel.columns_.length) :
    ∀ (rows : List Nat) (f : Column → Column) (rs : Nat),
      (∀ i ∈ rows, i < rel.size_) → (∀ col ∈ data, ∀ i ∈ rows, i < col.length) →
      FilterScan.loop rel fs data rows (data.map f, rs)
        = some (data.map (fun col => f col ++ gather col (rows.filter (rowPasses rel fs))),
            rs + (rows.filter (rowPasses rel fs)).length) := by
  intro rows
  induction rows with
  | nil => intro f rs _ _; simp [FilterScan.loop, gather]
  | cons i is ih =>
    intro f rs h1 h2
    have hi : i < rel.size_ := h1 i (List.mem_cons_self _ _)
    have h1' : ∀ j ∈ is, j < rel.size_ := fun j hj => h1 j (List.mem_cons_of_mem _ hj)
    have h2' : ∀ col ∈ data, ∀ j ∈ is, j < col.length :=
      fun col hc j hj => h2 col hc j (List.mem_cons_of_mem _ hj)
    rw [FilterScan.loop, applyFilters_eq rel i hwf hi fs true hfs]
    cases hp : rowPasses rel fs i with
    | false =>
      simp only [Bool.true_and]
      rw [ih f rs h1' h2']
      simp [List.filter_cons, hp]
    | true =>
      simp only [Bool.true_and]
      rw [pushCols_map0 f i data (fun col hc => h2 col hc i (List.mem_cons_self _ _))]
      simp only []
      rw [ih _ _ h1' h2']
      simp [List.filter_cons, hp, gather, Nat.add_assoc, Nat.add_comm 1]

theorem SelfJoin_loop_eq (left_col right_col : Column) (data : List Column) :
    ∀ (rows : List Nat) (f : Column → Column) (rs : Nat),
      (∀ i ∈ rows, i < left_col.length) → (∀ i ∈ rows, i < right_col.length) →
      (∀ col ∈ data, ∀ i ∈ rows, i < col.length) →
      SelfJoin.loop left_col right_col data rows (data.map f, rs)
        = some (data.map (fun col => f col ++ gather col
              (rows.filter (fun i => decide (cellAt left_col i = cellAt right_col i)))),
            rs + (rows.filter (fun i => decide (cellAt left_col i = cellAt right_col i))).length) := by
  intro rows
  induction rows with
  | nil => intro f rs _ _ _; simp [SelfJoin.loop, gather]
  | cons i is ih =>
    intro f rs hl hr h2
    have hl' : ∀ j ∈ is, j < left_col.length := fun j hj => hl j (List.mem_cons_of_mem _ hj)
    have hr' : ∀ j ∈ is, j < right_col.length := fun j hj => hr j (List.mem_cons_of_mem _ hj)
    have h2' : ∀ col ∈ data, ∀ j ∈ is, j < col.length :=
      fun col hc j hj => h2 col hc j (List.mem_cons_of_mem _ hj)
    rw [SelfJoin.loop, getElem?_some_getD (hl i (List.mem_cons_self _ _)),
      getElem?_some_getD (hr i (List.mem_cons_self _ _))]
    simp only []
    by_cases hp : cellAt left_col i = cellAt right_col i
    · rw [if_pos hp, pushCols_map0 f i data (fun col hc => h2 col hc i (List.mem_cons_self _ _))]
      simp only []
      rw [ih _ _ hl' hr' h2']
      simp [List.filter_cons, hp, gather, Nat.add_assoc, Nat.add_comm 1]
    · rw [if_neg hp, ih f rs hl' hr' h2']
      simp [List.filter_cons, hp]


/-! ## The loops of `Join::run` and `Checksum::run` in closed form -/

theorem Join_build_eq (key : Column) :
    ∀ (rows : List Nat) (ht : List (Nat × Nat)), (∀ i ∈ rows, i < key.length) →
      Join.build key rows ht = some (ht ++ rows.map (fun i => (cellAt key i, i))) := by
  intro rows
  induction rows with
  | nil => intro ht _; simp [Join.build]
  | cons i is ih =>
    intro ht h
    rw [Join.build, getElem?_some_getD (h i (List.mem_cons_self _ _))]
    simp only []
    rw [ih _ (fun j hj => h j (List.mem_cons_of_mem _ hj))]
    simp

theorem mem_matchingRows_buildTable (key : Column) (n k i : Nat) :
    i ∈ matchingRows (buildTable key n) k ↔ i < n ∧ cellAt key i = k := by
  simp only [matchingRows, buildTable, List.mem_map, List.mem_filter, List.mem_range,
    decide_eq_true_eq]
  constructor
  · rintro ⟨e, ⟨⟨a, ha, rfl⟩, hk⟩, rfl⟩
    exact ⟨ha, hk⟩
  · rintro ⟨hi, hk⟩
    exact ⟨(cellAt key i, i), ⟨⟨i, hi, rfl⟩, hk⟩, rfl⟩

theorem nodup_matchingRows_buildTable (key : Column) (n k : Nat) :
    (matchingRows (buildTable key n) k).Nodup := by
  have h : ((buildTable key n).map (fun e => e.2)) = List.range n := by
    simp [buildTable, Function.comp_def]
  have h2 : ((buildTable key n).map (fun e => e.2)).Nodup := by
    rw [h]; exact List.nodup_range n
  unfold matchingRows
  exact (List.Nodup.sublist (List.Sublist.map _ (List.filter_sublist _)) h2)

theorem mem_equal_range (ord : HTOrder) (key : Column) (n k i : Nat) :
    i ∈ ord.equal_range (buildTable key n) k ↔ i < n ∧ cellAt key i = k := by
  rw [(ord.perm _ _).mem_iff, mem_matchingRows_buildTable]

theorem nodup_equal_range (ord : HTOrder) (key : Column) (n k : Nat) :
    (ord.equal_range (buildTable key n) k).Nodup :=
  (ord.perm _ _).nodup_iff.mpr (nodup_matchingRows_buildTable key n k)

theorem mem_probePairs (ord : HTOrder) (keyB keyP : Column) (nB nP : Nat) (pr : Nat × Nat) :
    pr ∈ probePairs ord keyB keyP nB nP ↔
      pr.1 < nB ∧ pr.2 < nP ∧ cellAt keyB pr.1 = cellAt keyP pr.2 := by
  obtain ⟨i, j⟩ := pr
  simp only [probePairs, List.mem_flatMap, List.mem_range, List.mem_map, Prod.mk.injEq]
  constructor
  · rintro ⟨j', hj', i', hi', rfl, rfl⟩
    rw [mem_equal_range] at hi'
    exact ⟨hi'.1, hj', hi'.2⟩
  · rintro ⟨hi, hj, hk⟩
    exact ⟨j, hj, i, (mem_equal_range ord keyB nB _ i).mpr ⟨hi, hk⟩, rfl, rfl⟩

theorem nodup_probePairs (ord : HTOrder) (keyB keyP : Column) (nB nP : Nat) :
    (probePairs ord keyB keyP nB nP).Nodup := by
  unfold probePairs
  rw [List.nodup_flatMap]
  refine ⟨?_, ?_⟩
  · intro j _
    exact (nodup_equal_range ord keyB nB _).map (fun a b h => (Prod.mk.inj h).1)
  · refine (List.nodup_range nP).pairwise_of_forall_ne ?_
    intro j _ j' _ hne
    simp only [Function.onFun, List.Disjoint, List.mem_map]
    rintro ⟨a, b⟩ ⟨i, _, h1⟩ ⟨i', _, h2⟩
    exact hne ((Prod.mk.inj h1).2.trans (Prod.mk.inj h2).2.symm)

theorem Join_copy2Result_eq (cl cr : List Column) (f g : Column → Column) (i j rs : Nat)
    (hl : ∀ col ∈ cl, i < col.length) (hr : ∀ col ∈ cr, j < col.length) :
    Join.copy2Result cl cr i j (cl.map f ++ cr.map g, rs)
      = some (cl.map (fun col => f col ++ [cellAt col i])
          ++ cr.map (fun col => g col ++ [cellAt col j]), rs + 1) := by
  have h1 := pushCols_map f i cl [] (cr.map g) hl
  have h2 := pushCols_map g j cr (cl.map (fun col => f col ++ [cellAt col i])) [] hr
  simp only [List.nil_append, List.length_nil, List.append_nil, List.length_map] at h1 h2
  simp only [Join.copy2Result, h1, h2]

theorem Join_copyRange_eq (cl cr : List Column) (j : Nat) (hr : ∀ col ∈ cr, j < col.length) :
    ∀ (ids : List Nat) (f g : Column → Column) (rs : Nat),
      (∀ i ∈ ids, ∀ col ∈ cl, i < col.length) →
      Join.copyRange cl cr j ids (cl.map f ++ cr.map g, rs)
        = some (cl.map (fun col => f col ++ (ids.map (fun i => (i, j))).map (fun pr => cellAt col pr.1))
            ++ cr.map (fun col => g col ++ (ids.map (fun i => (i, j))).map (fun pr => cellAt col pr.2)),
            rs + ids.length) := by
  intro ids
  induction ids with
  | nil => intro f g rs _; simp [Join.copyRange]
  | cons i is ih =>
    intro f g rs h
    rw [Join.copyRange, Join_copy2Result_eq cl cr f g i j rs (h i (List.mem_cons_self _ _)) hr]
    simp only []
    rw [ih _ _ _ (fun k hk => h k (List.mem_cons_of_mem _ hk))]
    simp [Nat.add_assoc, Nat.add_comm 1]

theorem Join_probe_eq (ord : HTOrder) (ht : List (Nat × Nat)) (key : Column)
    (cl cr : List Column) :
    ∀ (rows : List Nat) (f g : Column → Column) (rs : Nat),
      (∀ j ∈ rows, j < key.length) → (∀ j ∈ rows, ∀ col ∈ cr, j < col.length) →
      (∀ j ∈ rows, ∀ i ∈ ord.equal_range ht (cellAt key j), ∀ col ∈ cl, i < col.length) →
      Join.probe ord ht key cl cr rows (cl.map f ++ cr.map g, rs)
        = some (cl.map (fun col => f col ++
              (rows.flatMap (fun j => (ord.equal_range ht (cellAt key j)).map (fun i => (i, j)))).map
                (fun pr => cellAt col pr.1))
            ++ cr.map (fun col => g col ++
              (rows.flatMap (fun j => (ord.equal_range ht (cellAt key j)).map (fun i => (i, j)))).map
                (fun pr => cellAt col pr.2)),
            rs + (rows.flatMap
              (fun j => (ord.equal_range ht (cellAt key j)).map (fun i => (i, j)))).length) := by
  intro rows
  induction rows with
  | nil => intro f g rs _ _ _; simp [Join.probe]
  | cons j js ih =>
    intro f g rs hk hr hl
    rw [Join.probe, getElem?_some_getD (hk j (List.mem_cons_self _ _))]
    simp only []
    rw [Join_copyRange_eq cl cr j (hr j (List.mem_cons_self _ _)) _ f g rs
        (hl j (List.mem_cons_self _ _))]
    simp only []
    rw [ih _ _ _ (fun k hk' => hk k (List.mem_cons_of_mem _ hk'))
      (fun k hk' => hr k (List.mem_cons_of_mem _ hk'))
      (fun k hk' => hl k (List.mem_cons_of_mem _ hk'))]
    simp [List.flatMap_cons, Nat.add_assoc]

theorem Checksum_sumLoop_eq (col : Column) :
    ∀ (rows : List Nat) (sum : Nat), sum < 2 ^ 64 → (∀ i ∈ rows, i < col.length) →
      Checksum.sumLoop col rows sum = some ((sum + (gather col rows).sum) % 2 ^ 64) := by
  intro rows
  induction rows with
  | nil =>
    intro sum hs _
    have h64 : sum % 2 ^ 64 = sum := Nat.mod_eq_of_lt hs
    simp only [Checksum.sumLoop, gather, List.map_nil, List.sum_nil, Nat.add_zero, h64]
  | cons i is ih =>
    intro sum _ h
    rw [Checksum.sumLoop, getElem?_some_getD (h i (List.mem_cons_self _ _))]
    simp only []
    rw [ih _ (Nat.mod_lt _ (by norm_num)) (fun k hk => h k (List.mem_cons_of_mem _ hk))]
    simp only [gather, List.map_cons, List.sum_cons]
    rw [Nat.add_mod, Nat.mod_mod, ← Nat.add_mod, Nat.add_assoc]

theorem resolveCols_eq (child : Op) :
    ∀ (ss : List SelectInfo), (∀ s ∈ ss, ∃ col, child.column s = some col) →
      resolveCols child ss = some (ss.map child.columnD) := by
  intro ss
  induction ss with
  | nil => intro _; rfl
  | cons s rest ih =>
    intro h
    obtain ⟨col, hcol⟩ := h s (List.mem_cons_self _ _)
    have hrest := ih (fun t ht => h t (List.mem_cons_of_mem _ ht))
    unfold Op.column at hcol
    rw [resolveCols]
    cases hr : child.resolve s with
    | none => rw [hr] at hcol; cases hcol
    | some k =>
      rw [hr] at hcol
      simp only [] at hcol ⊢
      rw [hcol, hrest]
      simp [Op.columnD, Op.column, hr, hcol]

theorem assignCols_eq :
    ∀ (ss : List SelectInfo) (k : Nat) (m : ColMap) (x : SelectInfo), ss.Nodup →
      assignCols ss k m x = if x ∈ ss then some (k + ss.indexOf x) else m x := by
  intro ss
  induction ss with
  | nil => intro k m x _; simp [assignCols]
  | cons s rest ih =>
    intro k m x hnd
    have hnd' := List.nodup_cons.mp hnd
    rw [assignCols, ih _ _ _ hnd'.2]
    by_cases hxs : x = s
    · subst hxs
      simp [hnd'.1, ColMap.assign]
    · by_cases hxr : x ∈ rest
      · simp [hxr, hxs, List.indexOf_cons_ne _ (Ne.symm hxs), Nat.add_assoc, Nat.add_comm 1]
      · simp [hxr, hxs, ColMap.assign]

theorem emplaceCols_eq :
    ∀ (ss : List SelectInfo) (k : Nat) (m : ColMap) (x : SelectInfo),
      emplaceCols ss k m x = match m x with
        | some v => some v
        | none => if x ∈ ss then some (k + ss.indexOf x) else none := by
  intro ss
  induction ss with
  | nil => intro k m x; simp [emplaceCols]; cases m x <;> rfl
  | cons s rest ih =>
    intro k m x
    rw [emplaceCols, ih]
    unfold ColMap.emplace
    cases hms : m s with
    | some v =>
      simp only []
      cases hmx : m x with
      | some w => rfl
      | none =>
        simp only []
        have hxs : x ≠ s := by rintro rfl; rw [hms] at hmx; cases hmx
        by_cases hxr : x ∈ rest
        · simp [hxr, hxs, List.indexOf_cons_ne _ (Ne.symm hxs), Nat.add_assoc, Nat.add_comm 1]
        · simp [hxr, hxs]
    | none =>
      simp only [ColMap.assign]
      by_cases hxs : x = s
      · subst hxs
        simp [hms]
      · simp only [if_neg hxs]
        cases hmx : m x with
        | some w => rfl
        | none =>
          simp only []
          by_cases hxr : x ∈ rest
          · simp [hxr, hxs, List.indexOf_cons_ne _ (Ne.symm hxs), Nat.add_assoc, Nat.add_comm 1]
          · simp [hxr, hxs]

theorem getElem?_map_indexOf {β : Type} (ss : List SelectInfo) (F : SelectInfo → β)
    (x : SelectInfo) (hx : x ∈ ss) : (ss.map F)[ss.indexOf x]? = some (F x) := by
  have hlt : ss.indexOf x < ss.length := List.indexOf_lt_length.mpr hx
  rw [List.getElem?_map, List.getElem?_eq_getElem hlt]
  simp


/-! ## `require` keeps the shape of the tree; fuel of `run` -/

theorem Op.require_height : ∀ (op : Op) (s : SelectInfo) (b : Bool) (op1 : Op),
    op.require s = some (b, op1) → op1.height = op.height := by
  intro op
  induction op with
  | Scan base rel bd =>
    intro s b op1 h
    simp only [Op.require] at h
    split at h
    · cases h; rfl
    · split at h
      · cases h
      · cases h; rfl
  | FilterScan base rel bd fs idata =>
    intro s b op1 h
    simp only [Op.require] at h
    split at h
    · cases h; rfl
    · split at h
      · cases h
      · split at h <;> (cases h; rfl)
  | Join base l r p ht req reqL reqR cl cr ihl ihr =>
    intro s b op1 h
    simp only [Op.require] at h
    split at h
    · cases h; rfl
    · split at h
      · cases h
      · rename_i l1 hl
        cases h
        simp [Op.height, ihl _ _ _ hl]
      · rename_i l1 hl
        split at h
        · cases h
        · rename_i r1 hr
          cases h
          simp [Op.height, ihl _ _ _ hl, ihr _ _ _ hr]
        · rename_i r1 hr
          cases h
          simp [Op.height, ihl _ _ _ hl, ihr _ _ _ hr]
  | SelfJoin base i p ius idata cd ih =>
    intro s b op1 h
    simp only [Op.require] at h
    split at h
    · cases h; rfl
    · split at h
      · cases h
      · rename_i i1 hi
        cases h
        simp [Op.height, ih _ _ _ hi]
      · rename_i i1 hi
        cases h
        simp [Op.height, ih _ _ _ hi]

theorem Op.runFuel_succ (ord : HTOrder) : ∀ (n : Nat) (op x : Op),
    Op.runFuel ord n op = some x → Op.runFuel ord (n + 1) op = some x := by
  intro n
  induction n with
  | zero => intro op x h; simp [Op.runFuel] at h
  | succ n ih =>
    intro op x h
    cases op with
    | Scan base rel bd => simpa [Op.runFuel] using h
    | FilterScan base rel bd fs idata => simpa [Op.runFuel] using h
    | Join base l r p ht req reqL reqR cl cr =>
      rw [Op.runFuel] at h ⊢
      cases h1 : l.require p.left with
      | none => simp [h1] at h
      | some pr1 =>
        obtain ⟨b1, l1⟩ := pr1
        simp only [h1] at h ⊢
        cases h2 : r.require p.right with
        | none => simp [h2] at h
        | some pr2 =>
          obtain ⟨b2, r1⟩ := pr2
          simp only [h2] at h ⊢
          cases h3 : Op.runFuel ord n l1 with
          | none => simp [h3] at h
          | some l2 =>
            simp only [h3] at h
            cases h4 : Op.runFuel ord n r1 with
            | none => simp [h4] at h
            | some r2 =>
              simp only [h4] at h
              simp only [ih _ _ h3, ih _ _ h4]
              exact h
    | SelfJoin base i p ius idata cd =>
      rw [Op.runFuel] at h ⊢
      cases h1 : i.require p.left with
      | none => simp [h1] at h
      | some pr1 =>
        obtain ⟨b1, i1⟩ := pr1
        simp only [h1] at h ⊢
        cases h2 : i1.require p.right with
        | none => simp [h2] at h
        | some pr2 =>
          obtain ⟨b2, i2⟩ := pr2
          simp only [h2] at h ⊢
          cases h3 : Op.runFuel ord n i2 with
          | none => simp [h3] at h
          | some i3 =>
            simp only [h3] at h
            simp only [ih _ _ h3]
            exact h

theorem Op.runFuel_mono (ord : HTOrder) (n m : Nat) (op x : Op)
    (h : Op.runFuel ord n op = some x) (hnm : n ≤ m) : Op.runFuel ord m op = some x := by
  induction hnm with
  | refl => exact h
  | step _ ih => exact Op.runFuel_succ ord _ _ _ ih

theorem Op.run_Join (ord : HTOrder) (base : Operator) (l r : Op) (p : PredicateInfo)
    (ht : List (Nat × Nat)) (req reqL reqR : List SelectInfo) (cl cr : List Column)
    (b1 b2 : Bool) (l1 r1 l2 r2 : Op)
    (h1 : l.require p.left = some (b1, l1)) (h2 : r.require p.right = some (b2, r1))
    (h3 : l1.run ord = some l2) (h4 : r1.run ord = some r2) :
    (Op.Join base l r p ht req reqL reqR cl cr).run ord
      = Join.runCore ord base l2 r2 p ht req reqL reqR cl cr := by
  have e1 := Op.require_height _ _ _ _ h1
  have e2 := Op.require_height _ _ _ _ h2
  have h3' := Op.runFuel_mono ord _ (max l.height r.height) _ _ h3
    (by rw [e1]; exact Nat.le_max_left _ _)
  have h4' := Op.runFuel_mono ord _ (max l.height r.height) _ _ h4
    (by rw [e2]; exact Nat.le_max_right _ _)
  simp only [Op.run, Op.height, Op.runFuel, h1, h2, h3', h4']

theorem Op.run_SelfJoin (ord : HTOrder) (base : Operator) (i : Op) (p : PredicateInfo)
    (ius : List SelectInfo) (idata cd : List Column) (b1 b2 : Bool) (i1 i2 i3 : Op)
    (h1 : i.require p.left = some (b1, i1)) (h2 : i1.require p.right = some (b2, i2))
    (h3 : i2.run ord = some i3) :
    (Op.SelfJoin base i p ius idata cd).run ord = SelfJoin.runCore base i3 p ius cd := by
  have e1 := Op.require_height _ _ _ _ h1
  have e2 := Op.require_height _ _ _ _ h2
  have h3' : Op.runFuel ord i.height i2 = some i3 := by
    have := h3
    rw [Op.run, e2, e1] at this
    exact this
  simp only [Op.run, Op.height, Op.runFuel, h1, h2, h3']


/-! ## The operators after `run`, in closed form -/

theorem Op.columnD_of_column {op : Op} {s : SelectInfo} {col : Column}
    (h : op.column s = some col) : op.columnD s = col := by
  simp [Op.columnD, h]

theorem Op.column_unfold {op : Op} {s : SelectInfo} {col : Column}
    (h : op.column s = some col) :
    ∃ k, op.resolve s = some k ∧ op.getResults[k]? = some col := by
  unfold Op.column at h
  cases hr : op.resolve s with
  | none => rw [hr] at h; cases h
  | some k => rw [hr] at h; exact ⟨k, rfl, h⟩

theorem Join_buildProbe_eq (ord : HTOrder) (base : Operator) (left right : Op)
    (p : PredicateInfo) (req reqL reqR : List SelectInfo)
    (htmp : base.tmp_results_ = (reqL ++ reqR).map (fun _ => []))
    (hL : ∀ s ∈ reqL, ∃ col, left.column s = some col ∧ col.length = left.result_size)
    (hR : ∀ s ∈ reqR, ∃ col, right.column s = some col ∧ col.length = right.result_size)
    (hpl : ∃ col, left.column p.left = some col ∧ col.length = left.result_size)
    (hpr : ∃ col, right.column p.right = some col ∧ col.length = right.result_size) :
    Join.buildProbe ord base left right p [] req reqL reqR [] [] = some (.Join
      { select_to_result_col_id_ :=
          assignCols reqR reqL.length (assignCols reqL 0 base.select_to_result_col_id_)
        result_columns_ := base.result_columns_
        tmp_results_ :=
          reqL.map (fun s => (probePairs ord (left.columnD p.left) (right.columnD p.right)
              left.result_size right.result_size).map (fun pr => cellAt (left.columnD s) pr.1))
          ++ reqR.map (fun s => (probePairs ord (left.columnD p.left) (right.columnD p.right)
              left.result_size right.result_size).map (fun pr => cellAt (right.columnD s) pr.2))
        result_size_ := base.result_size_ + (probePairs ord (left.columnD p.left)
              (right.columnD p.right) left.result_size right.result_size).length }
      left right p (buildTable (left.columnD p.left) left.result_size) req reqL reqR
      (reqL.map left.columnD) (reqR.map right.columnD)) := by
  obtain ⟨kl, hkl, hkl_len⟩ := hpl
  obtain ⟨kr, hkr, hkr_len⟩ := hpr
  obtain ⟨il, hil, hgl⟩ := Op.column_unfold hkl
  obtain ⟨ir, hir, hgr⟩ := Op.column_unfold hkr
  have hdl := Op.columnD_of_column hkl
  have hdr := Op.columnD_of_column hkr
  have hrl := resolveCols_eq left reqL (fun s hs => (hL s hs).imp fun _ h => h.1)
  have hrr := resolveCols_eq right reqR (fun s hs => (hR s hs).imp fun _ h => h.1)
  have hbuild := Join_build_eq kl (List.range left.result_size) []
    (fun i hi => by rw [hkl_len]; exact List.mem_range.mp hi)
  have htab : ([] : List (Nat × Nat)) ++ (List.range left.result_size).map (fun i => (cellAt kl i, i))
      = buildTable kl left.result_size := rfl
  rw [htab] at hbuild
  have htmp' : base.tmp_results_ = (reqL.map left.columnD).map (fun _ => ([] : Column))
      ++ (reqR.map right.columnD).map (fun _ => ([] : Column)) := by
    rw [htmp]; simp [List.map_map, Function.comp_def]
  have hcolL : ∀ col ∈ reqL.map left.columnD, col.length = left.result_size := by
    intro col hc
    obtain ⟨s, hs, rfl⟩ := List.mem_map.mp hc
    obtain ⟨c2, h1, h2⟩ := hL s hs
    rw [Op.columnD_of_column h1]; exact h2
  have hcolR : ∀ col ∈ reqR.map right.columnD, col.length = right.result_size := by
    intro col hc
    obtain ⟨s, hs, rfl⟩ := List.mem_map.mp hc
    obtain ⟨c2, h1, h2⟩ := hR s hs
    rw [Op.columnD_of_column h1]; exact h2
  have hprobe := Join_probe_eq ord (buildTable kl left.result_size) kr
    (reqL.map left.columnD) (reqR.map right.columnD) (List.range right.result_size)
    (fun _ => []) (fun _ => []) base.result_size_
    (fun j hj => by rw [hkr_len]; exact List.mem_range.mp hj)
    (fun j hj col hc => by rw [hcolR col hc]; exact List.mem_range.mp hj)
    (fun j _ i hi col hc => by
      rw [hcolL col hc]; exact ((mem_equal_range ord kl _ _ i).mp hi).1)
  rw [← htmp'] at hprobe
  unfold Join.buildProbe
  rw [hrl, hrr]
  simp only [hil, hir, hgl, hgr, List.nil_append, hbuild, hprobe, hdl, hdr]
  simp [probePairs, List.map_map, Function.comp_def]

theorem SelfJoin_runCore_eq (base : Operator) (i : Op) (p : PredicateInfo)
    (ius : List SelectInfo)
    (htmp : base.tmp_results_ = ius.map (fun _ => []))
    (hI : ∀ s ∈ ius, ∃ col, i.column s = some col ∧ col.length = i.result_size)
    (hpl : ∃ col, i.column p.left = some col ∧ col.length = i.result_size)
    (hpr : ∃ col, i.column p.right = some col ∧ col.length = i.result_size) :
    SelfJoin.runCore base i p ius [] = some (.SelfJoin
      { select_to_result_col_id_ := emplaceCols ius 0 base.select_to_result_col_id_
        result_columns_ := base.result_columns_
        tmp_results_ := ius.map (fun s => gather (i.columnD s)
          ((List.range i.result_size).filter
            (fun t => decide (cellAt (i.columnD p.left) t = cellAt (i.columnD p.right) t))))
        result_size_ := base.result_size_ + ((List.range i.result_size).filter
            (fun t => decide (cellAt (i.columnD p.left) t = cellAt (i.columnD p.right) t))).length }
      i p ius i.getResults (ius.map i.columnD)) := by
  obtain ⟨kl, hkl, hkl_len⟩ := hpl
  obtain ⟨kr, hkr, hkr_len⟩ := hpr
  obtain ⟨il, hil, hgl⟩ := Op.column_unfold hkl
  obtain ⟨ir, hir, hgr⟩ := Op.column_unfold hkr
  have hdl := Op.columnD_of_column hkl
  have hdr := Op.columnD_of_column hkr
  have hrl := resolveCols_eq i ius (fun s hs => (hI s hs).imp fun _ h => h.1)
  have htmp' : base.tmp_results_ = (ius.map i.columnD).map (fun _ => ([] : Column)) := by
    rw [htmp]; simp [List.map_map, Function.comp_def]
  have hcol : ∀ col ∈ ius.map i.columnD, col.length = i.result_size := by
    intro col hc
    obtain ⟨s, hs, rfl⟩ := List.mem_map.mp hc
    obtain ⟨c2, h1, h2⟩ := hI s hs
    rw [Op.columnD_of_column h1]; exact h2
  have hloop := SelfJoin_loop_eq kl kr (ius.map i.columnD) (List.range i.result_size)
    (fun _ => []) base.result_size_
    (fun t ht => by rw [hkl_len]; exact List.mem_range.mp ht)
    (fun t ht => by rw [hkr_len]; exact List.mem_range.mp ht)
    (fun col hc t ht => by rw [hcol col hc]; exact List.mem_range.mp ht)
  rw [← htmp'] at hloop
  unfold SelfJoin.runCore
  rw [hrl]
  simp only [hil, hir, hgl, hgr, List.nil_append, hloop, hdl, hdr, List.length_nil]
  simp [List.map_map, Function.comp_def]


/-! ## Leaves: `Scan` and `FilterScan` -/

theorem Scan_require_rej (rel : Relation) (b : Nat) (base : Operator) (s : SelectInfo)
    (hb : s.binding ≠ b) : (Op.Scan base rel b).require s = some (false, .Scan base rel b) := by
  simp [Op.require, hb]

theorem Scan_require_acc (rel : Relation) (b : Nat) (base : Operator) (s : SelectInfo)
    (hb : s.binding = b) (hc : s.col_id < rel.columns_.length) (hinv : ScanInv rel b base) :
    ∃ base1, (Op.Scan base rel b).require s = some (true, .Scan base1 rel b)
      ∧ ScanInv rel b base1 ∧ base1.result_size_ = base.result_size_
      ∧ base1.select_to_result_col_id_ s ≠ none
      ∧ (∀ t, base.select_to_result_col_id_ t ≠ none → base1.select_to_result_col_id_ t ≠ none)
      ∧ base1.result_columns_.length = base.result_columns_.length + 1 := by
  have hcol : rel.columns_[s.col_id]? = some (rel.columns_[s.col_id]) := List.getElem?_eq_getElem hc
  refine ⟨{ base with
      result_columns_ := base.result_columns_ ++ [rel.columns_[s.col_id]]
      select_to_result_col_id_ := base.select_to_result_col_id_.assign s
        ((base.result_columns_ ++ [rel.columns_[s.col_id]]).length - 1) }, ?_, ?_, rfl, ?_, ?_, ?_⟩
  · simp only [Op.require, hb, ne_eq, not_true_eq_false, if_false, hcol]
  · intro t k hk
    simp only [ColMap.assign] at hk
    by_cases hts : t = s
    · subst hts
      simp only [if_true, Option.some.injEq] at hk
      subst hk
      refine ⟨hb, _, hcol, ?_⟩
      simp
    · simp only [if_neg hts] at hk
      obtain ⟨h1, col, h2, h3⟩ := hinv t k hk
      refine ⟨h1, col, h2, ?_⟩
      have hlt : k < base.result_columns_.length := by
        by_contra hge
        rw [List.getElem?_eq_none (Nat.le_of_not_lt hge)] at h3
        cases h3
      simp only []
      rw [List.getElem?_append_left hlt]
      exact h3
  · simp [ColMap.assign]
  · intro t ht
    simp only [ColMap.assign]
    by_cases hts : t = s
    · simp [hts]
    · simpa [hts] using ht
  · simp

theorem FilterScan_require_rej (rel : Relation) (b : Nat) (base : Operator)
    (fs : List FilterInfo) (idata : List Column) (s : SelectInfo) (hb : s.binding ≠ b) :
    (Op.FilterScan base rel b fs idata).require s
      = some (false, .FilterScan base rel b fs idata) := by
  simp [Op.require, hb]

theorem FilterScan_require_acc (rel : Relation) (b : Nat) (base : Operator)
    (fs : List FilterInfo) (idata : List Column) (s : SelectInfo)
    (hb : s.binding = b) (hc : s.col_id < rel.columns_.length)
    (hinv : FilterScanInv rel b base idata) :
    ∃ base1 idata1, (Op.FilterScan base rel b fs idata).require s
        = some (true, .FilterScan base1 rel b fs idata1)
      ∧ FilterScanInv rel b base1 idata1 ∧ base1.result_size_ = base.result_size_
      ∧ base1.select_to_result_col_id_ s ≠ none
      ∧ (∀ t, base.select_to_result_col_id_ t ≠ none → base1.select_to_result_col_id_ t ≠ none)
      ∧ (∀ t, t ≠ s → base1.select_to_result_col_id_ t = base.select_to_result_col_id_ t)
      ∧ base1.tmp_results_.length = base.tmp_results_.length
          + (if base.select_to_result_col_id_ s = none then 1 else 0) := by
  have hcol : rel.columns_[s.col_id]? = some (rel.columns_[s.col_id]) := List.getElem?_eq_getElem hc
  cases hm : base.select_to_result_col_id_ s with
  | some k =>
    refine ⟨base, idata, ?_, hinv, rfl, ?_, fun _ h => h, fun _ _ => rfl, ?_⟩
    · simp only [Op.require, hb, ne_eq, not_true_eq_false, if_false, hcol, hm]
    · simp [hm]
    · simp
  | none =>
    obtain ⟨h1, h2, h3⟩ := hinv
    refine ⟨{ base with
        tmp_results_ := base.tmp_results_ ++ [[]]
        select_to_result_col_id_ := base.select_to_result_col_id_.assign s
          ((base.tmp_results_ ++ [[]]).length - 1) }, idata ++ [rel.columns_[s.col_id]],
      ?_, ⟨?_, ?_, ?_⟩, rfl, ?_, ?_, ?_, ?_⟩
    · simp only [Op.require, hb, ne_eq, not_true_eq_false, if_false, hcol, hm]
    · simp [h1]
    · intro col hcm
      rcases List.mem_append.mp hcm with h | h
      · exact h2 col h
      · rw [List.mem_singleton.mp h]; exact List.getElem_mem _
    · intro t k hk
      simp only [ColMap.assign] at hk
      by_cases hts : t = s
      · subst hts
        simp only [if_true, Option.some.injEq] at hk
        subst hk
        refine ⟨hb, _, hcol, ?_⟩
        simp [h1]
      · simp only [if_neg hts] at hk
        obtain ⟨g1, col, g2, g3⟩ := h3 t k hk
        refine ⟨g1, col, g2, ?_⟩
        have hlt : k < idata.length := by
          by_contra hge
          rw [List.getElem?_eq_none (Nat.le_of_not_lt hge)] at g3
          cases g3
        rw [List.getElem?_append_left hlt]
        exact g3
    · simp [ColMap.assign]
    · intro t ht
      simp only [ColMap.assign]
      by_cases hts : t = s
      · simp [hts]
      · simpa [hts] using ht
    · intro t hts
      simp [ColMap.assign, hts]
    · simp

theorem FilterScan_run_eq (ord : HTOrder) (rel : Relation) (b : Nat) (base : Operator)
    (fs : List FilterInfo) (idata : List Column) (hwf : rel.WF)
    (hfs : ∀ f ∈ fs, f.filter_column.col_id < rel.columns_.length)
    (hinv : FilterScanInv rel b base idata) :
    (Op.FilterScan base rel b fs idata).run ord = some (.FilterScan
      { base with
        tmp_results_ := idata.map (fun col => gather col (passingRows rel fs))
        result_size_ := base.result_size_ + (passingRows rel fs).length } rel b fs idata) := by
  obtain ⟨h1, h2, _⟩ := hinv
  have hloop := FilterScan_loop_eq rel fs idata hwf hfs (List.range rel.size_) (fun _ => [])
    base.result_size_ (fun i hi => List.mem_range.mp hi)
    (fun col hc i hi => by rw [hwf col (h2 col hc)]; exact List.mem_range.mp hi)
  rw [← h1] at hloop
  simp only [Op.run, Op.height, Op.runFuel, hloop]
  simp [passingRows]

theorem Scan_column (rel : Relation) (b : Nat) (base : Operator)
    (hinv : ScanInv rel b base) (n : Nat) (s : SelectInfo)
    (hs : base.select_to_result_col_id_ s ≠ none) :
    ∃ col, rel.columns_[s.col_id]? = some col ∧ s.binding = b ∧
      (Op.Scan { base with result_size_ := n } rel b).column s = some col := by
  cases hm : base.select_to_result_col_id_ s with
  | none => exact absurd hm hs
  | some k =>
    obtain ⟨hb, col, h2, h3⟩ := hinv s k hm
    refine ⟨col, h2, hb, ?_⟩
    simp [Op.column, Op.resolve, Op.base, hm, Op.getResults, h3]

theorem FilterScan_column (rel : Relation) (b : Nat) (base : Operator)
    (fs : List FilterInfo) (idata : List Column)
    (hinv : FilterScanInv rel b base idata) (n : Nat) (rows : List Nat) (s : SelectInfo)
    (hs : base.select_to_result_col_id_ s ≠ none) :
    ∃ col, rel.columns_[s.col_id]? = some col ∧ s.binding = b ∧
      (Op.FilterScan { base with
        tmp_results_ := idata.map (fun col => gather col rows)
        result_size_ := n } rel b fs idata).column s = some (gather col rows) := by
  cases hm : base.select_to_result_col_id_ s with
  | none => exact absurd hm hs
  | some k =>
    obtain ⟨_, _, h3⟩ := hinv
    obtain ⟨hb, col, g2, g3⟩ := h3 s k hm
    refine ⟨col, g2, hb, ?_⟩
    simp [Op.column, Op.resolve, Op.base, hm, Op.getResults, List.getElem?_map, g3]

theorem ScanInv_init (rel : Relation) (b : Nat) : ScanInv rel b Operator.init := by
  intro s k h
  simp [Operator.init, ColMap.empty] at h

theorem FilterScanInv_init (rel : Relation) (b : Nat) : FilterScanInv rel b Operator.init [] := by
  refine ⟨rfl, ?_, ?_⟩
  · intro col h; cases h
  · intro s k h
    simp [Operator.init, ColMap.empty] at h

theorem Scan_requireAll (rel : Relation) (b : Nat) :
    ∀ (ss : List SelectInfo) (base : Operator),
      (∀ s ∈ ss, s.binding = b → s.col_id < rel.columns_.length) → ScanInv rel b base →
      ∃ base1, (Op.Scan base rel b).requireAll ss = some (.Scan base1 rel b)
        ∧ ScanInv rel b base1 ∧ base1.result_size_ = base.result_size_
        ∧ (∀ t, base.select_to_result_col_id_ t ≠ none → base1.select_to_result_col_id_ t ≠ none)
        ∧ (∀ s ∈ ss, s.binding = b → base1.select_to_result_col_id_ s ≠ none) := by
  intro ss
  induction ss with
  | nil =>
    intro base _ hinv
    exact ⟨base, rfl, hinv, rfl, fun _ h => h, fun s hs => by cases hs⟩
  | cons s rest ih =>
    intro base hK hinv
    have hK' : ∀ t ∈ rest, t.binding = b → t.col_id < rel.columns_.length :=
      fun t ht => hK t (List.mem_cons_of_mem _ ht)
    by_cases hb : s.binding = b
    · obtain ⟨base1, h1, h2, h3, h4, h5, _⟩ :=
        Scan_require_acc rel b base s hb (hK s (List.mem_cons_self _ _) hb) hinv
      obtain ⟨base2, g1, g2, g3, g4, g5⟩ := ih base1 hK' h2
      refine ⟨base2, ?_, g2, g3.trans h3, fun t ht => g4 t (h5 t ht), ?_⟩
      · simp only [Op.requireAll, h1, g1]
      · intro t ht htb
        rcases List.mem_cons.mp ht with rfl | ht'
        · exact g4 _ h4
        · exact g5 t ht' htb
    · obtain ⟨base2, g1, g2, g3, g4, g5⟩ := ih base hK' hinv
      refine ⟨base2, ?_, g2, g3, g4, ?_⟩
      · simp only [Op.requireAll, Scan_require_rej rel b base s hb, g1]
      · intro t ht htb
        rcases List.mem_cons.mp ht with rfl | ht'
        · exact absurd htb hb
        · exact g5 t ht' htb

theorem FilterScan_requireAll (rel : Relation) (b : Nat) (fs : List FilterInfo) :
    ∀ (ss : List SelectInfo) (base : Operator) (idata : List Column),
      (∀ s ∈ ss, s.binding = b → s.col_id < rel.columns_.length) →
      FilterScanInv rel b base idata →
      ∃ base1 idata1, (Op.FilterScan base rel b fs idata).requireAll ss
          = some (.FilterScan base1 rel b fs idata1)
        ∧ FilterScanInv rel b base1 idata1 ∧ base1.result_size_ = base.result_size_
        ∧ (∀ t, base.select_to_result_col_id_ t ≠ none → base1.select_to_result_col_id_ t ≠ none)
        ∧ (∀ s ∈ ss, s.binding = b → base1.select_to_result_col_id_ s ≠ none) := by
  intro ss
  induction ss with
  | nil =>
    intro base idata _ hinv
    exact ⟨base, idata, rfl, hinv, rfl, fun _ h => h, fun s hs => by cases hs⟩
  | cons s rest ih =>
    intro base idata hK hinv
    have hK' : ∀ t ∈ rest, t.binding = b → t.col_id < rel.columns_.length :=
      fun t ht => hK t (List.mem_cons_of_mem _ ht)
    by_cases hb : s.binding = b
    · obtain ⟨base1, idata1, h1, h2, h3, h4, h5, _⟩ :=
        FilterScan_require_acc rel b base fs idata s hb (hK s (List.mem_cons_self _ _) hb) hinv
      obtain ⟨base2, idata2, g1, g2, g3, g4, g5⟩ := ih base1 idata1 hK' h2
      refine ⟨base2, idata2, ?_, g2, g3.trans h3, fun t ht => g4 t (h5 t ht), ?_⟩
      · simp only [Op.requireAll, h1, g1]
      · intro t ht htb
        rcases List.mem_cons.mp ht with rfl | ht'
        · exact g4 _ h4
        · exact g5 t ht' htb
    · obtain ⟨base2, idata2, g1, g2, g3, g4, g5⟩ := ih base idata hK' hinv
      refine ⟨base2, idata2, ?_, g2, g3, g4, ?_⟩
      · simp only [Op.requireAll, FilterScan_require_rej rel b base fs idata s hb, g1]
      · intro t ht htb
        rcases List.mem_cons.mp ht with rfl | ht'
        · exact absurd htb hb
        · exact g5 t ht' htb


/-! ## `Checksum::run` in closed form -/

theorem Checksum_sumCols_eq (input : Op) :
    ∀ (ss : List SelectInfo) (sums : List Nat) (rs : Nat),
      (∀ s ∈ ss, ∃ col, input.column s = some col ∧ col.length = input.result_size) →
      Checksum.sumCols input ss (sums, rs)
        = some (sums ++ ss.map (fun s => (input.columnD s).sum % 2 ^ 64),
            if ss = [] then rs else input.result_size) := by
  intro ss
  induction ss with
  | nil => intro sums rs _; simp [Checksum.sumCols]
  | cons s rest ih =>
    intro sums rs h
    obtain ⟨col, hcol, hlen⟩ := h s (List.mem_cons_self _ _)
    obtain ⟨k, hk, hg⟩ := Op.column_unfold hcol
    have hsum := Checksum_sumLoop_eq col (List.range input.result_size) 0 (by norm_num)
      (fun i hi => by rw [hlen]; exact List.mem_range.mp hi)
    rw [← hlen, gather_range, Nat.zero_add] at hsum
    rw [hlen] at hsum
    rw [Checksum.sumCols]
    simp only [hk, hg, hsum]
    rw [ih _ _ (fun t ht => h t (List.mem_cons_of_mem _ ht))]
    simp only [List.map_cons, Op.columnD_of_column hcol, List.append_assoc, List.singleton_append,
      reduceCtorEq, if_false]
    by_cases hr : rest = [] <;> simp [hr]

theorem Checksum_run_eq (ord : HTOrder) (input : Op) (ss : List SelectInfo) (i1 i2 : Op)
    (h1 : input.requireAll ss = some i1) (h2 : i1.run ord = some i2)
    (h3 : ∀ s ∈ ss, ∃ col, i2.column s = some col ∧ col.length = i2.result_size) :
    (Checksum.init input ss).run ord = some
      ⟨i2, ss, ss.map (fun s => (i2.columnD s).sum % 2 ^ 64),
        if ss = [] then 0 else i2.result_size⟩ := by
  have h := Checksum_sumCols_eq i2 ss [] 0 h3
  simp only [Checksum.run, Checksum.init, h1, h2, h, List.nil_append]


/-! ## The `Join` node -/

theorem mem_matchPairs (keyL keyR : Column) (nL nR : Nat) (pr : Nat × Nat) :
    pr ∈ matchPairs keyL keyR nL nR ↔
      pr.1 < nL ∧ pr.2 < nR ∧ cellAt keyL pr.1 = cellAt keyR pr.2 := by
  obtain ⟨i, j⟩ := pr
  simp only [matchPairs, List.mem_filter, List.mem_flatMap, List.mem_range, List.mem_map,
    Prod.mk.injEq, decide_eq_true_eq]
  constructor
  · rintro ⟨⟨i', hi', j', hj', rfl, rfl⟩, hk⟩
    exact ⟨hi', hj', hk⟩
  · rintro ⟨hi, hj, hk⟩
    exact ⟨⟨i, hi, j, hj, rfl, rfl⟩, hk⟩

theorem nodup_matchPairs (keyL keyR : Column) (nL nR : Nat) :
    (matchPairs keyL keyR nL nR).Nodup := by
  unfold matchPairs
  apply List.Nodup.filter
  rw [List.nodup_flatMap]
  refine ⟨?_, ?_⟩
  · intro i _
    exact (List.nodup_range nR).map (fun a b h => (Prod.mk.inj h).2)
  · refine (List.nodup_range nL).pairwise_of_forall_ne ?_
    intro i _ i' _ hne
    simp only [Function.onFun, List.Disjoint, List.mem_map]
    rintro ⟨a, b⟩ ⟨j, _, h1⟩ ⟨j', _, h2⟩
    exact hne ((Prod.mk.inj h1).1.trans (Prod.mk.inj h2).1.symm)

theorem mem_joinPairs (ord : HTOrder) (keyL keyR : Column) (nL nR : Nat) (pr : Nat × Nat) :
    pr ∈ joinPairs ord keyL keyR nL nR ↔
      pr.1 < nL ∧ pr.2 < nR ∧ cellAt keyL pr.1 = cellAt keyR pr.2 := by
  obtain ⟨i, j⟩ := pr
  unfold joinPairs
  split
  · simp only [List.mem_map, Prod.exists, Prod.swap_prod_mk, Prod.mk.injEq]
    constructor
    · rintro ⟨a, b, hab, rfl, rfl⟩
      have := (mem_probePairs ord keyR keyL nR nL (a, b)).mp hab
      exact ⟨this.2.1, this.1, this.2.2.symm⟩
    · rintro ⟨hi, hj, hk⟩
      exact ⟨j, i, (mem_probePairs ord keyR keyL nR nL (j, i)).mpr ⟨hj, hi, hk.symm⟩, rfl, rfl⟩
  · exact mem_probePairs ord keyL keyR nL nR (i, j)

theorem nodup_joinPairs (ord : HTOrder) (keyL keyR : Column) (nL nR : Nat) :
    (joinPairs ord keyL keyR nL nR).Nodup := by
  unfold joinPairs
  split
  · exact (nodup_probePairs ord keyR keyL nR nL).map Prod.swap_injective
  · exact nodup_probePairs ord keyL keyR nL nR

theorem joinPairs_perm (ord : HTOrder) (keyL keyR : Column) (nL nR : Nat) :
    (joinPairs ord keyL keyR nL nR).Perm (matchPairs keyL keyR nL nR) := by
  rw [List.perm_ext_iff_of_nodup (nodup_joinPairs ord keyL keyR nL nR)
    (nodup_matchPairs keyL keyR nL nR)]
  intro pr
  rw [mem_joinPairs, mem_matchPairs]

theorem Join_result_column (m0 : ColMap) (rc : List Column) (n : Nat) (l r : Op)
    (p : PredicateInfo) (ht : List (Nat × Nat)) (req reqL reqR : List SelectInfo)
    (cl cr : List Column) (FL FR : SelectInfo → Column) (hnd : (reqL ++ reqR).Nodup) :
    (∀ s ∈ reqL, (Op.Join ⟨assignCols reqR reqL.length (assignCols reqL 0 m0), rc,
        reqL.map FL ++ reqR.map FR, n⟩ l r p ht req reqL reqR cl cr).column s = some (FL s)) ∧
    (∀ s ∈ reqR, (Op.Join ⟨assignCols reqR reqL.length (assignCols reqL 0 m0), rc,
        reqL.map FL ++ reqR.map FR, n⟩ l r p ht req reqL reqR cl cr).column s = some (FR s)) := by
  have hndL : reqL.Nodup := (List.nodup_append.mp hnd).1
  have hndR : reqR.Nodup := (List.nodup_append.mp hnd).2.1
  have hdisj := (List.nodup_append.mp hnd).2.2
  constructor
  · intro s hs
    have hnr : s ∉ reqR := fun h => hdisj hs h
    have hidx : reqL.indexOf s < (reqL.map FL).length := by
      rw [List.length_map]; exact List.indexOf_lt_length.mpr hs
    simp only [Op.column, Op.resolve, Op.base, Op.getResults]
    rw [assignCols_eq _ _ _ _ hndR, if_neg hnr, assignCols_eq _ _ _ _ hndL, if_pos hs]
    simp only [Nat.zero_add]
    rw [List.getElem?_append_left hidx]
    exact getElem?_map_indexOf reqL FL s hs
  · intro s hs
    simp only [Op.column, Op.resolve, Op.base, Op.getResults]
    rw [assignCols_eq _ _ _ _ hndR, if_pos hs]
    simp only []
    rw [List.getElem?_append_right (by rw [List.length_map]; exact Nat.le_add_right _ _)]
    rw [List.length_map, Nat.add_sub_cancel_left]
    exact getElem?_map_indexOf reqR FR s hs

theorem Join_run_spec (ord : HTOrder) (base : Operator) (l r : Op) (p : PredicateInfo)
    (ht : List (Nat × Nat)) (req reqL reqR : List SelectInfo) (cl cr : List Column)
    (hinv : JoinInv base ht req reqL reqR cl cr)
    (b1 b2 : Bool) (l1 r1 l2 r2 : Op)
    (h1 : l.require p.left = some (b1, l1)) (h2 : r.require p.right = some (b2, r1))
    (h3 : l1.run ord = some l2) (h4 : r1.run ord = some r2)
    (hcl : ∀ s ∈ p.left :: reqL, ∃ col, l2.column s = some col ∧ col.length = l2.result_size)
    (hcr : ∀ s ∈ p.right :: reqR, ∃ col, r2.column s = some col ∧ col.length = r2.result_size) :
    ∃ j2, (Op.Join base l r p ht req reqL reqR cl cr).run ord = some j2 ∧
      j2.result_size = (joinPairs ord (l2.columnD p.left) (r2.columnD p.right)
        l2.result_size r2.result_size).length ∧
      (∀ s ∈ reqL, j2.column s = some ((joinPairs ord (l2.columnD p.left) (r2.columnD p.right)
        l2.result_size r2.result_size).map (fun pr => cellAt (l2.columnD s) pr.1))) ∧
      (∀ s ∈ reqR, j2.column s = some ((joinPairs ord (l2.columnD p.left) (r2.columnD p.right)
        l2.result_size r2.result_size).map (fun pr => cellAt (r2.columnD s) pr.2))) ∧
      j2.getResults.length = reqL.length + reqR.length := by
  obtain ⟨htmp, hrs, rfl, rfl, rfl, hnd, _⟩ := hinv
  rw [Op.run_Join ord base l r p [] req reqL reqR [] [] b1 b2 l1 r1 l2 r2 h1 h2 h3 h4]
  have hpl := hcl p.left (List.mem_cons_self _ _)
  have hpr := hcr p.right (List.mem_cons_self _ _)
  have hL : ∀ s ∈ reqL, ∃ col, l2.column s = some col ∧ col.length = l2.result_size :=
    fun s hs => hcl s (List.mem_cons_of_mem _ hs)
  have hR : ∀ s ∈ reqR, ∃ col, r2.column s = some col ∧ col.length = r2.result_size :=
    fun s hs => hcr s (List.mem_cons_of_mem _ hs)
  unfold Join.runCore joinPairs
  by_cases hsw : l2.result_size > r2.result_size
  · rw [if_pos hsw, if_pos hsw]
    have htmp' : base.tmp_results_ = (reqR ++ reqL).map (fun _ => ([] : Column)) := by
      rw [htmp]; simp; omega
    have hnd' : (reqR ++ reqL).Nodup := (List.perm_append_comm.nodup_iff).mp hnd
    have hbp := Join_buildProbe_eq ord base r2 l2 ⟨p.right, p.left⟩ req reqR reqL htmp'
      hR hL hpr hpl
    obtain ⟨hcR, hcL⟩ := Join_result_column base.select_to_result_col_id_ base.result_columns_
      (base.result_size_ + (probePairs ord (r2.columnD p.right) (l2.columnD p.left)
        r2.result_size l2.result_size).length) r2 l2 ⟨p.right, p.left⟩
      (buildTable (r2.columnD p.right) r2.result_size) req reqR reqL
      (reqR.map r2.columnD) (reqL.map l2.columnD)
      (fun s => (probePairs ord (r2.columnD p.right) (l2.columnD p.left)
        r2.result_size l2.result_size).map (fun pr => cellAt (r2.columnD s) pr.1))
      (fun s => (probePairs ord (r2.columnD p.right) (l2.columnD p.left)
        r2.result_size l2.result_size).map (fun pr => cellAt (l2.columnD s) pr.2)) hnd'
    refine ⟨_, hbp, ?_, ?_, ?_, ?_⟩
    · simp [Op.result_size, Op.base, hrs]
    · intro s hs
      rw [hcL s hs]
      simp [List.map_map, Function.comp_def]
    · intro s hs
      rw [hcR s hs]
      simp [List.map_map, Function.comp_def]
    · simp [Op.getResults, Op.base, Nat.add_comm]
  · rw [if_neg hsw, if_neg hsw]
    have hbp := Join_buildProbe_eq ord base l2 r2 p req reqL reqR htmp hL hR hpl hpr
    obtain ⟨hcL, hcR⟩ := Join_result_column base.select_to_result_col_id_ base.result_columns_
      (base.result_size_ + (probePairs ord (l2.columnD p.left) (r2.columnD p.right)
        l2.result_size r2.result_size).length) l2 r2 p
      (buildTable (l2.columnD p.left) l2.result_size) req reqL reqR
      (reqL.map l2.columnD) (reqR.map r2.columnD)
      (fun s => (probePairs ord (l2.columnD p.left) (r2.columnD p.right)
        l2.result_size r2.result_size).map (fun pr => cellAt (l2.columnD s) pr.1))
      (fun s => (probePairs ord (l2.columnD p.left) (r2.columnD p.right)
        l2.result_size r2.result_size).map (fun pr => cellAt (r2.columnD s) pr.2)) hnd
    refine ⟨_, hbp, ?_, ?_, ?_, ?_⟩
    · simp [Op.result_size, Op.base, hrs]
    · intro s hs
      rw [hcL s hs]
    · intro s hs
      rw [hcR s hs]
    · simp [Op.getResults, Op.base]

theorem JoinInv_init : JoinInv Operator.init [] [] [] [] [] [] := by
  refine ⟨rfl, rfl, rfl, rfl, rfl, List.nodup_nil, fun s => Iff.rfl⟩

theorem JoinInv_addL {base : Operator} {ht : List (Nat × Nat)} {req reqL reqR : List SelectInfo}
    {cl cr : List Column} (h : JoinInv base ht req reqL reqR cl cr) (s : SelectInfo)
    (hs : s ∉ req) :
    JoinInv { base with tmp_results_ := base.tmp_results_ ++ [[]] } ht (req ++ [s])
      (reqL ++ [s]) reqR cl cr := by
  obtain ⟨h1, h2, h3, h4, h5, h6, h7⟩ := h
  have hs' : s ∉ reqL ++ reqR := fun hm => hs ((h7 s).mpr hm)
  refine ⟨?_, h2, h3, h4, h5, ?_, ?_⟩
  · have e : base.tmp_results_ ++ [[]] = ((reqL ++ reqR) ++ [s]).map (fun _ => ([] : Column)) := by
      rw [h1]; simp only [List.map_append, List.map_cons, List.map_nil]
    simp only [e]
    exact map_nil_eq _ _ (by simp only [List.length_append, List.length_singleton]; omega)
  · have : (reqL ++ [s] ++ reqR).Perm (s :: (reqL ++ reqR)) := by
      simp
    exact this.nodup_iff.mpr (List.nodup_cons.mpr ⟨hs', h6⟩)
  · intro t
    simp only [List.mem_append, List.mem_singleton, h7 t]
    tauto

theorem JoinInv_addR {base : Operator} {ht : List (Nat × Nat)} {req reqL reqR : List SelectInfo}
    {cl cr : List Column} (h : JoinInv base ht req reqL reqR cl cr) (s : SelectInfo)
    (hs : s ∉ req) :
    JoinInv { base with tmp_results_ := base.tmp_results_ ++ [[]] } ht (req ++ [s])
      reqL (reqR ++ [s]) cl cr := by
  obtain ⟨h1, h2, h3, h4, h5, h6, h7⟩ := h
  have hs' : s ∉ reqL ++ reqR := fun hm => hs ((h7 s).mpr hm)
  refine ⟨?_, h2, h3, h4, h5, ?_, ?_⟩
  · have e : base.tmp_results_ ++ [[]] = ((reqL ++ reqR) ++ [s]).map (fun _ => ([] : Column)) := by
      rw [h1]; simp only [List.map_append, List.map_cons, List.map_nil]
    simp only [e]
    exact map_nil_eq _ _ (by simp only [List.length_append, List.length_singleton]; omega)
  · have : (reqL ++ (reqR ++ [s])).Perm (s :: (reqL ++ reqR)) := by
      rw [← List.append_assoc]
      exact List.perm_append_singleton s (reqL ++ reqR)
    exact this.nodup_iff.mpr (List.nodup_cons.mpr ⟨hs', h6⟩)
  · intro t
    simp only [List.mem_append, List.mem_singleton, h7 t]
    tauto

theorem Join_require_inv (base : Operator) (l r : Op) (p : PredicateInfo)
    (ht : List (Nat × Nat)) (req reqL reqR : List SelectInfo) (cl cr : List Column)
    (hinv : JoinInv base ht req reqL reqR cl cr) (s : SelectInfo) (b : Bool) (op1 : Op)
    (h : (Op.Join base l r p ht req reqL reqR cl cr).require s = some (b, op1)) :
    ∃ base1 l1 r1 req1 reqL1 reqR1, op1 = .Join base1 l1 r1 p ht req1 reqL1 reqR1 cl cr
      ∧ JoinInv base1 ht req1 reqL1 reqR1 cl cr := by
  simp only [Op.require] at h
  split at h
  · cases h; exact ⟨_, _, _, _, _, _, rfl, hinv⟩
  · rename_i hs
    split at h
    · cases h
    · cases h; exact ⟨_, _, _, _, _, _, rfl, JoinInv_addL hinv s hs⟩
    · split at h
      · cases h
      · cases h; exact ⟨_, _, _, _, _, _, rfl, JoinInv_addR hinv s hs⟩
      · cases h; exact ⟨_, _, _, _, _, _, rfl, hinv⟩

theorem Join_requireAll_inv (p : PredicateInfo) (ht : List (Nat × Nat)) (cl cr : List Column) :
    ∀ (ss : List SelectInfo) (base : Operator) (l r : Op) (req reqL reqR : List SelectInfo)
      (j : Op), JoinInv base ht req reqL reqR cl cr →
      (Op.Join base l r p ht req reqL reqR cl cr).requireAll ss = some j →
      ∃ base1 l1 r1 req1 reqL1 reqR1, j = .Join base1 l1 r1 p ht req1 reqL1 reqR1 cl cr
        ∧ JoinInv base1 ht req1 reqL1 reqR1 cl cr := by
  intro ss
  induction ss with
  | nil =>
    intro base l r req reqL reqR j hinv h
    simp only [Op.requireAll, Option.some.injEq] at h
    exact ⟨_, _, _, _, _, _, h.symm, hinv⟩
  | cons s rest ih =>
    intro base l r req reqL reqR j hinv h
    rw [Op.requireAll] at h
    cases hr : (Op.Join base l r p ht req reqL reqR cl cr).require s with
    | none => rw [hr] at h; cases h
    | some pr =>
      obtain ⟨b, op1⟩ := pr
      rw [hr] at h
      simp only [] at h
      obtain ⟨base1, l1, r1, req1, reqL1, reqR1, rfl, hinv1⟩ :=
        Join_require_inv base l r p ht req reqL reqR cl cr hinv s b op1 hr
      exact ih _ _ _ _ _ _ _ hinv1 h

theorem cellAt_map {α : Type} (f : α → Nat) (l : List α) (t : Nat) (d : α) :
    cellAt (l.map f) t = if t < l.length then f (l.getD t d) else 0 := by
  unfold cellAt
  by_cases h : t < l.length
  · rw [if_pos h, List.getD_eq_getElem _ _ (by simpa using h), List.getD_eq_getElem _ _ h]
    simp
  · rw [if_neg h, List.getD_eq_default _ _ (by simpa using Nat.le_of_not_lt h)]

theorem rows_of_columns (op : Op) (ss : List SelectInfo) (pairs : List (Nat × Nat))
    (F : SelectInfo → Nat × Nat → Nat) (hn : op.result_size = pairs.length)
    (hc : ∀ s ∈ ss, op.column s = some (pairs.map (F s))) :
    op.rows ss = pairs.map (fun pr => ss.map (fun s => F s pr)) := by
  unfold Op.rows
  apply List.ext_getElem
  · simp [hn]
  · intro t ht1 ht2
    simp only [List.length_map, List.length_range] at ht1 ht2
    simp only [List.getElem_map, List.getElem_range]
    apply List.map_congr_left
    intro s hs
    rw [Op.columnD_of_column (hc s hs), cellAt_map (F s) pairs t (0, 0), if_pos ht2,
      List.getD_eq_getElem _ _ ht2]


/-! ## The `SelfJoin` node -/

theorem SelectInfo.equiv_iff (a o : SelectInfo) : a.equiv o = true ↔ a.key = o.key := by
  simp only [SelectInfo.equiv, SelectInfo.lt, SelectInfo.key, Bool.and_eq_true, Bool.not_eq_true',
    Bool.or_eq_false_iff, decide_eq_false_iff_not, Bool.and_eq_false_iff,
    Prod.mk.injEq]
  constructor
  · rintro ⟨⟨h1, h2⟩, ⟨h3, h4⟩⟩
    have hb : a.binding = o.binding := by omega
    refine ⟨hb, ?_⟩
    rcases h2 with h | h
    · exact absurd hb h
    · rcases h4 with h' | h'
      · exact absurd hb.symm h'
      · omega
  · rintro ⟨h1, h2⟩
    refine ⟨⟨by omega, Or.inr (by omega)⟩, ⟨by omega, Or.inr (by omega)⟩⟩

theorem setCount_iff (ius : List SelectInfo) (s : SelectInfo) :
    setCount ius s = true ↔ s.key ∈ ius.map SelectInfo.key := by
  simp only [setCount, List.any_eq_true, SelectInfo.equiv_iff, List.mem_map]
  constructor
  · rintro ⟨y, hy, h⟩; exact ⟨y, hy, h.symm⟩
  · rintro ⟨y, hy, h⟩; exact ⟨y, hy, h.symm⟩

theorem setInsert_perm (s : SelectInfo) : ∀ ius : List SelectInfo, (setInsert s ius).Perm (s :: ius) := by
  intro ius
  induction ius with
  | nil => exact List.Perm.refl _
  | cons y ys ih =>
    unfold setInsert
    split
    · exact List.Perm.refl _
    · exact (List.Perm.cons y ih).trans (List.Perm.swap s y ys)

theorem setEmplace_perm (ius : List SelectInfo) (s : SelectInfo) (h : setCount ius s = false) :
    (setEmplace ius s).Perm (s :: ius) := by
  unfold setEmplace
  rw [h]
  exact setInsert_perm s ius

theorem SelfJoinInv_init : SelfJoinInv Operator.init [] [] :=
  ⟨rfl, rfl, rfl, rfl, List.nodup_nil⟩

theorem SelfJoinInv_add {base : Operator} {ius : List SelectInfo} {cd : List Column}
    (h : SelfJoinInv base ius cd) (s : SelectInfo) (hs : setCount ius s = false) :
    SelfJoinInv { base with tmp_results_ := base.tmp_results_ ++ [[]] } (setEmplace ius s) cd := by
  obtain ⟨h1, h2, h3, h4, h5⟩ := h
  have hperm := setEmplace_perm ius s hs
  refine ⟨?_, h2, h3, h4, ?_⟩
  · have e : base.tmp_results_ ++ [[]] = (ius ++ [s]).map (fun _ => ([] : Column)) := by
      rw [h1]; simp only [List.map_append, List.map_cons, List.map_nil]
    simp only [e]
    exact map_nil_eq _ _ (by rw [hperm.length_eq]; simp)
  · rw [(hperm.map SelectInfo.key).nodup_iff, List.map_cons, List.nodup_cons]
    refine ⟨?_, h5⟩
    intro hm
    rw [← setCount_iff, hs] at hm
    cases hm

theorem SelfJoin_require_inv (base : Operator) (i : Op) (p : PredicateInfo)
    (ius : List SelectInfo) (idata cd : List Column)
    (hinv : SelfJoinInv base ius cd) (s : SelectInfo) (b : Bool) (op1 : Op)
    (h : (Op.SelfJoin base i p ius idata cd).require s = some (b, op1)) :
    ∃ base1 i1 ius1, op1 = .SelfJoin base1 i1 p ius1 idata cd ∧ SelfJoinInv base1 ius1 cd
      ∧ (b = true → s.key ∈ ius1.map SelectInfo.key)
      ∧ (∀ t ∈ ius1, t ∈ ius ∨ (t = s ∧ b = true)) ∧ (∀ t ∈ ius, t ∈ ius1) := by
  simp only [Op.require] at h
  split at h
  · rename_i hs
    cases h
    exact ⟨_, _, _, rfl, hinv, fun _ => (setCount_iff ius s).mp hs, fun t ht => Or.inl ht,
      fun t ht => ht⟩
  · rename_i hs
    have hs' : setCount ius s = false := by simpa using hs
    have hperm := setEmplace_perm ius s hs'
    split at h
    · cases h
    · cases h
      refine ⟨_, _, _, rfl, SelfJoinInv_add hinv s hs', ?_, ?_, ?_⟩
      · intro _
        exact List.mem_map.mpr ⟨s, hperm.mem_iff.mpr (List.mem_cons_self _ _), rfl⟩
      · intro t ht
        rcases List.mem_cons.mp (hperm.mem_iff.mp ht) with h | h
        · exact Or.inr ⟨h, rfl⟩
        · exact Or.inl h
      · intro t ht
        exact hperm.mem_iff.mpr (List.mem_cons_of_mem _ ht)
    · cases h
      exact ⟨_, _, _, rfl, hinv, fun hb => Bool.noConfusion hb, fun t ht => Or.inl ht,
        fun t ht => ht⟩

theorem SelfJoin_requireAll_inv (p : PredicateInfo) (idata cd : List Column) :
    ∀ (ss : List SelectInfo) (base : Operator) (i : Op) (ius : List SelectInfo) (j : Op),
      SelfJoinInv base ius cd →
      (Op.SelfJoin base i p ius idata cd).requireAll ss = some j →
      ∃ base1 i1 ius1, j = .SelfJoin base1 i1 p ius1 idata cd ∧ SelfJoinInv base1 ius1 cd
        ∧ (∀ t ∈ (Op.SelfJoin base i p ius idata cd).accepted ss,
            t.key ∈ ius1.map SelectInfo.key)
        ∧ (∀ t ∈ ius1, t ∈ ius ∨ t ∈ (Op.SelfJoin base i p ius idata cd).accepted ss)
        ∧ (∀ t ∈ ius, t ∈ ius1) := by
  intro ss
  induction ss with
  | nil =>
    intro base i ius j hinv h
    simp only [Op.requireAll, Option.some.injEq] at h
    exact ⟨_, _, _, h.symm, hinv, fun t ht => by simp [Op.accepted] at ht,
      fun t ht => Or.inl ht, fun t ht => ht⟩
  | cons s rest ih =>
    intro base i ius j hinv h
    rw [Op.requireAll] at h
    cases hr : (Op.SelfJoin base i p ius idata cd).require s with
    | none => rw [hr] at h; cases h
    | some pr =>
      obtain ⟨b, op1⟩ := pr
      rw [hr] at h
      simp only [] at h
      obtain ⟨base1, i1, ius1, rfl, hinv1, g1, g2, g3⟩ :=
        SelfJoin_require_inv base i p ius idata cd hinv s b op1 hr
      obtain ⟨base2, i2, ius2, rfl, hinv2, k1, k2, k3⟩ := ih _ _ _ _ hinv1 h
      refine ⟨_, _, _, rfl, hinv2, ?_, ?_, fun t ht => k3 t (g3 t ht)⟩
      · intro t ht
        rw [Op.accepted, hr] at ht
        cases b with
        | true =>
          simp only [List.mem_cons] at ht
          rcases ht with rfl | ht
          · obtain ⟨y, hy, hk⟩ := List.mem_map.mp (g1 rfl)
            exact List.mem_map.mpr ⟨y, k3 y hy, hk⟩
          · exact k1 t ht
        | false => exact k1 t ht
      · intro t ht
        rw [Op.accepted, hr]
        rcases k2 t ht with h' | h'
        · rcases g2 t h' with h'' | ⟨rfl, rfl⟩
          · exact Or.inl h''
          · exact Or.inr (List.mem_cons_self _ _)
        · cases b with
          | true => exact Or.inr (List.mem_cons_of_mem _ h')
          | false => exact Or.inr h'

theorem SelfJoin_run_spec (ord : HTOrder) (base : Operator) (i : Op) (p : PredicateInfo)
    (ius : List SelectInfo) (idata cd : List Column) (hinv : SelfJoinInv base ius cd)
    (b1 b2 : Bool) (i1 i2 i3 : Op)
    (h1 : i.require p.left = some (b1, i1)) (h2 : i1.require p.right = some (b2, i2))
    (h3 : i2.run ord = some i3)
    (hc : ∀ s ∈ p.left :: p.right :: ius,
      ∃ col, i3.column s = some col ∧ col.length = i3.result_size) :
    ∃ sj2, (Op.SelfJoin base i p ius idata cd).run ord = some sj2 ∧
      sj2.result_size = (selfJoinRows (i3.columnD p.left) (i3.columnD p.right)
        i3.result_size).length ∧
      sj2.getResults = ius.map (fun s => gather (i3.columnD s)
        (selfJoinRows (i3.columnD p.left) (i3.columnD p.right) i3.result_size)) ∧
      (∀ s ∈ ius, sj2.column s = some (gather (i3.columnD s)
        (selfJoinRows (i3.columnD p.left) (i3.columnD p.right) i3.result_size))) := by
  obtain ⟨htmp, hrs, rfl, hmap, _⟩ := hinv
  rw [Op.run_SelfJoin ord base i p ius idata [] b1 b2 i1 i2 i3 h1 h2 h3]
  have hpl := hc p.left (List.mem_cons_self _ _)
  have hpr := hc p.right (List.mem_cons_of_mem _ (List.mem_cons_self _ _))
  have hI : ∀ s ∈ ius, ∃ col, i3.column s = some col ∧ col.length = i3.result_size :=
    fun s hs => hc s (List.mem_cons_of_mem _ (List.mem_cons_of_mem _ hs))
  refine ⟨_, SelfJoin_runCore_eq base i3 p ius htmp hI hpl hpr, ?_, ?_, ?_⟩
  · simp [Op.result_size, Op.base, hrs, selfJoinRows]
  · simp [Op.getResults, Op.base, selfJoinRows]
  · intro s hs
    simp only [Op.column, Op.resolve, Op.base, Op.getResults]
    rw [emplaceCols_eq, hmap]
    simp only [ColMap.empty, if_pos hs, Nat.zero_add]
    exact getElem?_map_indexOf ius _ s hs


/-! ## Repeated `require`; the number of output columns -/

theorem setCount_setEmplace (ius : List SelectInfo) (s : SelectInfo) :
    setCount (setEmplace ius s) s = true := by
  by_cases h : setCount ius s = true
  · simp [setEmplace, h]
  · have h' : setCount ius s = false := by simpa using h
    rw [setCount_iff]
    exact List.mem_map.mpr ⟨s, (setEmplace_perm ius s h').mem_iff.mpr (List.mem_cons_self _ _), rfl⟩

theorem Op.require_twice : ∀ (op : Op) (s : SelectInfo) (op1 : Op), op.Materialising →
    op.require s = some (true, op1) → op1.require s = some (true, op1) := by
  intro op s op1 hm h
  cases op with
  | Scan base rel b => exact absurd hm (by simp [Op.Materialising])
  | FilterScan base rel b fs idata =>
    simp only [Op.require] at h
    split at h
    · cases h
    · rename_i hb
      split at h
      · cases h
      · rename_i col hcol
        split at h
        · rename_i k hk
          cases h
          simp only [Op.require, hb, if_false, hcol, hk]
        · cases h
          simp only [Op.require, hb, if_false, hcol, ColMap.assign, if_true]
  | Join base l r p ht req reqL reqR cl cr =>
    simp only [Op.require] at h
    split at h
    · rename_i hs
      cases h
      simp only [Op.require, hs, if_true]
    · split at h
      · cases h
      · cases h
        simp [Op.require]
      · split at h
        · cases h
        · cases h
          simp [Op.require]
        · cases h
  | SelfJoin base i p ius idata cd =>
    simp only [Op.require] at h
    split at h
    · rename_i hs
      cases h
      simp only [Op.require, hs, if_true]
    · split at h
      · cases h
      · cases h
        simp only [Op.require, setCount_setEmplace, if_true]
      · cases h

theorem Op.requireAll_append : ∀ (ss ts : List SelectInfo) (op op1 : Op),
    op.requireAll ss = some op1 → op.requireAll (ss ++ ts) = op1.requireAll ts := by
  intro ss
  induction ss with
  | nil => intro ts op op1 h; cases h; rfl
  | cons s rest ih =>
    intro ts op op1 h
    rw [Op.requireAll] at h
    rw [List.cons_append, Op.requireAll]
    cases hr : op.require s with
    | none => rw [hr] at h; cases h
    | some pr =>
      rw [hr] at h
      exact ih ts _ _ h

theorem Op.accepted_append : ∀ (ss ts : List SelectInfo) (op op1 : Op),
    op.requireAll ss = some op1 →
    op.accepted (ss ++ ts) = op.accepted ss ++ op1.accepted ts := by
  intro ss
  induction ss with
  | nil => intro ts op op1 h; cases h; rfl
  | cons s rest ih =>
    intro ts op op1 h
    rw [Op.requireAll] at h
    rw [List.cons_append, Op.accepted, Op.accepted]
    cases hr : op.require s with
    | none => rw [hr] at h; cases h
    | some pr =>
      obtain ⟨b, op2⟩ := pr
      rw [hr] at h
      cases b with
      | true => simp only [List.cons_append, ih ts _ _ h]
      | false => exact ih ts _ _ h

theorem pushCols_length : ∀ (data : List Column) (id k : Nat) (tmp tmp1 : List Column),
    pushCols data id k tmp = some tmp1 → tmp1.length = tmp.length := by
  intro data
  induction data with
  | nil => intro id k tmp tmp1 h; cases h; rfl
  | cons d ds ih =>
    intro id k tmp tmp1 h
    rw [pushCols] at h
    split at h
    · rw [ih _ _ _ _ h, List.length_set]
    · cases h

theorem FilterScan_loop_length (rel : Relation) (fs : List FilterInfo) (data : List Column) :
    ∀ (rows : List Nat) (st st1 : List Column × Nat),
      FilterScan.loop rel fs data rows st = some st1 → st1.1.length = st.1.length := by
  intro rows
  induction rows with
  | nil => intro st st1 h; cases h; rfl
  | cons i is ih =>
    intro st st1 h
    obtain ⟨tmp, rs⟩ := st
    rw [FilterScan.loop] at h
    split at h
    · cases h
    · exact ih _ _ h
    · split at h
      · cases h
      · rename_i tmp1 hp
        rw [ih _ _ h]
        exact pushCols_length _ _ _ _ _ hp

theorem SelfJoin_loop_length (lc rc : Column) (data : List Column) :
    ∀ (rows : List Nat) (st st1 : List Column × Nat),
      SelfJoin.loop lc rc data rows st = some st1 → st1.1.length = st.1.length := by
  intro rows
  induction rows with
  | nil => intro st st1 h; cases h; rfl
  | cons i is ih =>
    intro st st1 h
    obtain ⟨tmp, rs⟩ := st
    rw [SelfJoin.loop] at h
    split at h
    · split at h
      · split at h
        · cases h
        · rename_i tmp1 hp
          rw [ih _ _ h]
          exact pushCols_length _ _ _ _ _ hp
      · exact ih _ _ h
    · cases h

theorem Join_copyRange_length (cl cr : List Column) (j : Nat) :
    ∀ (ids : List Nat) (st st1 : List Column × Nat),
      Join.copyRange cl cr j ids st = some st1 → st1.1.length = st.1.length := by
  intro ids
  induction ids with
  | nil => intro st st1 h; cases h; rfl
  | cons i is ih =>
    intro st st1 h
    obtain ⟨tmp, rs⟩ := st
    rw [Join.copyRange] at h
    split at h
    · cases h
    · rename_i st2 hc
      rw [ih _ _ h]
      simp only [Join.copy2Result] at hc
      split at hc
      · cases hc
      · rename_i tmp1 hp1
        split at hc
        · cases hc
        · rename_i tmp2 hp2
          cases hc
          simp only []
          rw [pushCols_length _ _ _ _ _ hp2, pushCols_length _ _ _ _ _ hp1]

theorem Join_probe_length (ord : HTOrder) (ht : List (Nat × Nat)) (key : Column)
    (cl cr : List Column) :
    ∀ (rows : List Nat) (st st1 : List Column × Nat),
      Join.probe ord ht key cl cr rows st = some st1 → st1.1.length = st.1.length := by
  intro rows
  induction rows with
  | nil => intro st st1 h; cases h; rfl
  | cons i is ih =>
    intro st st1 h
    rw [Join.probe] at h
    split at h
    · cases h
    · split at h
      · cases h
      · rename_i st2 hc
        rw [ih _ _ h]
        exact Join_copyRange_length cl cr i _ _ _ hc

theorem Join_buildProbe_length (ord : HTOrder) (base : Operator) (l r : Op)
    (p : PredicateInfo) (ht : List (Nat × Nat)) (req reqL reqR : List SelectInfo)
    (cl cr : List Column) (op2 : Op)
    (h : Join.buildProbe ord base l r p ht req reqL reqR cl cr = some op2) :
    op2.getResults.length = base.tmp_results_.length := by
  unfold Join.buildProbe at h
  split at h
  · cases h
  · split at h
    · cases h
    · simp only [] at h
      split at h
      · split at h
        · split at h
          · cases h
          · split at h
            · cases h
            · rename_i tmp rs hp
              cases h
              exact Join_probe_length _ _ _ _ _ _ _ _ hp
        · cases h
      · cases h

theorem Op.run_getResults_length (ord : HTOrder) (op op2 : Op) (hm : op.Materialising)
    (h : op.run ord = some op2) : op2.getResults.length = op.getResults.length := by
  cases op with
  | Scan base rel b => exact absurd hm (by simp [Op.Materialising])
  | FilterScan base rel b fs idata =>
    simp only [Op.run, Op.height, Op.runFuel] at h
    split at h
    · cases h
    · rename_i tmp rs hl
      cases h
      exact FilterScan_loop_length _ _ _ _ _ _ hl
  | Join base l r p ht req reqL reqR cl cr =>
    simp only [Op.run, Op.height, Op.runFuel] at h
    split at h
    · cases h
    · split at h
      · cases h
      · split at h
        · cases h
        · split at h
          · cases h
          · unfold Join.runCore at h
            split at h
            · exact Join_buildProbe_length _ _ _ _ _ _ _ _ _ _ _ _ h
            · exact Join_buildProbe_length _ _ _ _ _ _ _ _ _ _ _ _ h
  | SelfJoin base i p ius idata cd =>
    simp only [Op.run, Op.height, Op.runFuel] at h
    split at h
    · cases h
    · split at h
      · cases h
      · split at h
        · cases h
        · unfold SelfJoin.runCore at h
          simp only [] at h
          split at h
          · cases h
          · split at h
            · split at h
              · split at h
                · cases h
                · rename_i tmp rs hl
                  cases h
                  exact SelfJoin_loop_length _ _ _ _ _ _ hl
              · cases h
            · cases h

theorem requireAll_track {α : Type} (κ : SelectInfo → α) (I : Op → List α → Prop)
    (hstep : ∀ op keys s b op1, I op keys → op.require s = some (b, op1) →
      ∃ keys1, I op1 keys1 ∧ (b = true → κ s ∈ keys1)
        ∧ (∀ x ∈ keys1, x ∈ keys ∨ (x = κ s ∧ b = true)) ∧ (∀ x ∈ keys, x ∈ keys1)) :
    ∀ (ss : List SelectInfo) (op op1 : Op) (keys : List α), I op keys →
      op.requireAll ss = some op1 →
      ∃ keys1, I op1 keys1 ∧ (∀ t ∈ op.accepted ss, κ t ∈ keys1)
        ∧ (∀ x ∈ keys1, x ∈ keys ∨ x ∈ (op.accepted ss).map κ) ∧ (∀ x ∈ keys, x ∈ keys1) := by
  intro ss
  induction ss with
  | nil =>
    intro op op1 keys hI h
    cases h
    exact ⟨keys, hI, fun t ht => by simp [Op.accepted] at ht, fun x hx => Or.inl hx,
      fun x hx => hx⟩
  | cons s rest ih =>
    intro op op1 keys hI h
    rw [Op.requireAll] at h
    cases hr : op.require s with
    | none => rw [hr] at h; cases h
    | some pr =>
      obtain ⟨b, op2⟩ := pr
      rw [hr] at h
      simp only [] at h
      obtain ⟨keys2, hI2, g1, g2, g3⟩ := hstep op keys s b op2 hI hr
      obtain ⟨keys3, hI3, k1, k2, k3⟩ := ih op2 op1 keys2 hI2 h
      refine ⟨keys3, hI3, ?_, ?_, fun x hx => k3 x (g3 x hx)⟩
      · intro t ht
        rw [Op.accepted, hr] at ht
        cases b with
        | true =>
          simp only [List.mem_cons] at ht
          rcases ht with rfl | ht
          · exact k3 _ (g1 rfl)
          · exact k1 t ht
        | false => exact k1 t ht
      · intro x hx
        rw [Op.accepted, hr]
        rcases k2 x hx with h' | h'
        · rcases g2 x h' with h'' | ⟨rfl, rfl⟩
          · exact Or.inl h''
          · exact Or.inr (List.mem_map.mpr ⟨s, List.mem_cons_self _ _, rfl⟩)
        · cases b with
          | true =>
            obtain ⟨t, ht, rfl⟩ := List.mem_map.mp h'
            exact Or.inr (List.mem_map.mpr ⟨t, List.mem_cons_of_mem _ ht, rfl⟩)
          | false => exact Or.inr h'

theorem length_eq_dedup_of_track {α : Type} [DecidableEq α] (keys acc : List α)
    (hnd : keys.Nodup) (h1 : ∀ x ∈ acc, x ∈ keys) (h2 : ∀ x ∈ keys, x ∈ acc) :
    keys.length = acc.dedup.length := by
  apply List.Perm.length_eq
  rw [List.perm_ext_iff_of_nodup hnd (List.nodup_dedup _)]
  intro x
  rw [List.mem_dedup]
  exact ⟨h2 x, h1 x⟩

theorem FilterScan_require_keys (base : Operator) (rel : Relation) (b : Nat)
    (fs : List FilterInfo) (idata : List Column) (keys : List SelectInfo)
    (hk : FilterScanKeys base keys) (s : SelectInfo) (bb : Bool) (op1 : Op)
    (h : (Op.FilterScan base rel b fs idata).require s = some (bb, op1)) :
    ∃ base1 idata1 keys1, op1 = .FilterScan base1 rel b fs idata1 ∧ FilterScanKeys base1 keys1
      ∧ (bb = true → s ∈ keys1) ∧ (∀ t ∈ keys1, t ∈ keys ∨ (t = s ∧ bb = true))
      ∧ (∀ t ∈ keys, t ∈ keys1) := by
  obtain ⟨h1, h2, h3⟩ := hk
  simp only [Op.require] at h
  split at h
  · cases h
    exact ⟨_, _, keys, rfl, ⟨h1, h2, h3⟩, fun hb => Bool.noConfusion hb, fun t ht => Or.inl ht,
      fun t ht => ht⟩
  · split at h
    · cases h
    · split at h
      · rename_i k hk
        cases h
        refine ⟨_, _, keys, rfl, ⟨h1, h2, h3⟩, fun _ => (h2 s).mp (by simp [hk]),
          fun t ht => Or.inl ht, fun t ht => ht⟩
      · rename_i hk
        cases h
        have hs : s ∉ keys := fun hm => ((h2 s).mpr hm) hk
        refine ⟨_, _, keys ++ [s], rfl, ⟨?_, ?_, ?_⟩, fun _ => by simp, ?_, ?_⟩
        · exact List.nodup_append.mpr ⟨h1, List.nodup_singleton s, by
            intro a ha hb; rw [List.mem_singleton.mp hb] at ha; exact hs ha⟩
        · intro t
          simp only [ColMap.assign, List.mem_append, List.mem_singleton]
          by_cases hts : t = s
          · simp [hts]
          · simp only [if_neg hts, h2 t]
            tauto
        · simp [h3]
        · intro t ht
          rcases List.mem_append.mp ht with h' | h'
          · exact Or.inl h'
          · exact Or.inr ⟨List.mem_singleton.mp h', rfl⟩
        · intro t ht
          exact List.mem_append_left _ ht

theorem Join_require_keys (base : Operator) (l r : Op) (p : PredicateInfo)
    (ht : List (Nat × Nat)) (req reqL reqR : List SelectInfo) (cl cr : List Column)
    (hinv : JoinInv base ht req reqL reqR cl cr) (s : SelectInfo) (b : Bool) (op1 : Op)
    (h : (Op.Join base l r p ht req reqL reqR cl cr).require s = some (b, op1)) :
    ∃ base1 l1 r1 req1 reqL1 reqR1, op1 = .Join base1 l1 r1 p ht req1 reqL1 reqR1 cl cr
      ∧ JoinInv base1 ht req1 reqL1 reqR1 cl cr
      ∧ (b = true → s ∈ reqL1 ++ reqR1)
      ∧ (∀ t ∈ reqL1 ++ reqR1, t ∈ reqL ++ reqR ∨ (t = s ∧ b = true))
      ∧ (∀ t ∈ reqL ++ reqR, t ∈ reqL1 ++ reqR1) := by
  simp only [Op.require] at h
  split at h
  · rename_i hs
    cases h
    exact ⟨_, _, _, _, _, _, rfl, hinv, fun _ => (hinv.2.2.2.2.2.2 s).mp hs,
      fun t ht => Or.inl ht, fun t ht => ht⟩
  · rename_i hs
    split at h
    · cases h
    · cases h
      refine ⟨_, _, _, _, _, _, rfl, JoinInv_addL hinv s hs, fun _ => by simp, ?_, ?_⟩
      · intro t ht
        simp only [List.mem_append, List.mem_singleton] at ht ⊢
        tauto
      · intro t ht
        simp only [List.mem_append, List.mem_singleton] at ht ⊢
        tauto
    · split at h
      · cases h
      · cases h
        refine ⟨_, _, _, _, _, _, rfl, JoinInv_addR hinv s hs, fun _ => by simp, ?_, ?_⟩
        · intro t ht
          simp only [List.mem_append, List.mem_singleton] at ht ⊢
          tauto
        · intro t ht
          simp only [List.mem_append, List.mem_singleton] at ht ⊢
          tauto
      · cases h
        exact ⟨_, _, _, _, _, _, rfl, hinv, fun hb => Bool.noConfusion hb,
          fun t ht => Or.inl ht, fun t ht => ht⟩

theorem FilterScan_count (rel : Relation) (b : Nat) (fs : List FilterInfo)
    (ss : List SelectInfo) (op : Op)
    (h : (Op.FilterScan Operator.init rel b fs []).requireAll ss = some op) :
    op.getResults.length = ((Op.FilterScan Operator.init rel b fs []).accepted ss).dedup.length := by
  have hI0 : (fun (o : Op) (keys : List SelectInfo) => ∃ base idata,
      o = .FilterScan base rel b fs idata ∧ FilterScanKeys base keys)
      (Op.FilterScan Operator.init rel b fs []) [] :=
    ⟨_, _, rfl, List.nodup_nil, fun t => by simp [Operator.init, ColMap.empty], rfl⟩
  obtain ⟨keys1, ⟨base1, idata1, rfl, hk⟩, k1, k2, _⟩ := requireAll_track id
    (fun (o : Op) (keys : List SelectInfo) => ∃ base idata,
      o = .FilterScan base rel b fs idata ∧ FilterScanKeys base keys)
    (by
      rintro o keys s bb op1 ⟨base, idata, rfl, hk⟩ hr
      obtain ⟨base1, idata1, keys1, rfl, hk1, g1, g2, g3⟩ :=
        FilterScan_require_keys base rel b fs idata keys hk s bb op1 hr
      exact ⟨keys1, ⟨_, _, rfl, hk1⟩, g1, g2, g3⟩)
    ss _ op [] hI0 h
  simp only [Op.getResults, Op.base, hk.2.2]
  apply length_eq_dedup_of_track _ _ hk.1
  · intro x hx; exact k1 x hx
  · intro x hx
    rcases k2 x hx with h' | h'
    · cases h'
    · simpa using h'

theorem Join_count (l0 r0 : Op) (p : PredicateInfo) (ss : List SelectInfo) (op : Op)
    (h : (Op.mkJoin l0 r0 p).requireAll ss = some op) :
    op.getResults.length = ((Op.mkJoin l0 r0 p).accepted ss).dedup.length := by
  have hI0 : (fun (o : Op) (keys : List SelectInfo) => ∃ base l r req reqL reqR,
      o = .Join base l r p [] req reqL reqR [] [] ∧ JoinInv base [] req reqL reqR [] []
        ∧ keys = reqL ++ reqR) (Op.mkJoin l0 r0 p) [] :=
    ⟨_, _, _, _, _, _, rfl, JoinInv_init, rfl⟩
  obtain ⟨keys1, ⟨base1, l1, r1, req1, reqL1, reqR1, rfl, hinv, rfl⟩, k1, k2, _⟩ :=
    requireAll_track id
    (fun (o : Op) (keys : List SelectInfo) => ∃ base l r req reqL reqR,
      o = .Join base l r p [] req reqL reqR [] [] ∧ JoinInv base [] req reqL reqR [] []
        ∧ keys = reqL ++ reqR)
    (by
      rintro o keys s bb op1 ⟨base, l, r, req, reqL, reqR, rfl, hinv, rfl⟩ hr
      obtain ⟨base1, l1, r1, req1, reqL1, reqR1, rfl, hinv1, g1, g2, g3⟩ :=
        Join_require_keys base l r p [] req reqL reqR [] [] hinv s bb op1 hr
      exact ⟨_, ⟨_, _, _, _, _, _, rfl, hinv1, rfl⟩, g1, g2, g3⟩)
    ss _ op [] hI0 h
  have hlen : (Op.Join base1 l1 r1 p [] req1 reqL1 reqR1 [] []).getResults.length
      = (reqL1 ++ reqR1).length := by
    simp only [Op.getResults, Op.base, hinv.1, List.length_map]
  rw [hlen]
  apply length_eq_dedup_of_track _ _ hinv.2.2.2.2.2.1
  · intro x hx; exact k1 x hx
  · intro x hx
    rcases k2 x hx with h' | h'
    · cases h'
    · simpa using h'

theorem SelfJoin_count (i0 : Op) (p : PredicateInfo) (ss : List SelectInfo) (op : Op)
    (h : (Op.mkSelfJoin i0 p).requireAll ss = some op) :
    op.getResults.length
      = (((Op.mkSelfJoin i0 p).accepted ss).map SelectInfo.key).dedup.length := by
  obtain ⟨base1, i1, ius1, rfl, hinv, k1, k2, _⟩ :=
    SelfJoin_requireAll_inv p [] [] ss Operator.init i0 [] _ SelfJoinInv_init h
  have hlen : (Op.SelfJoin base1 i1 p ius1 [] []).getResults.length
      = (ius1.map SelectInfo.key).length := by
    simp only [Op.getResults, Op.base, hinv.1, List.length_map]
  rw [hlen]
  apply length_eq_dedup_of_track _ _ hinv.2.2.2.2
  · intro x hx
    obtain ⟨t, ht, rfl⟩ := List.mem_map.mp hx
    exact k1 t ht
  · intro x hx
    obtain ⟨t, ht, rfl⟩ := List.mem_map.mp hx
    rcases k2 t ht with h' | h'
    · cases h'
    · exact List.mem_map.mpr ⟨t, h', rfl⟩

theorem Op.Fresh_count (op0 op : Op) (ss : List SelectInfo) (hf : op0.Fresh)
    (hns : op0.isSelfJoin = false) (h : op0.requireAll ss = some op) :
    op.getResults.length = (op0.accepted ss).dedup.length := by
  cases op0 with
  | Scan base rel b => exact absurd hf (by simp [Op.Fresh])
  | FilterScan base rel b fs idata =>
    obtain ⟨rfl, rfl⟩ := hf
    exact FilterScan_count rel b fs ss op h
  | Join base l r p ht req reqL reqR cl cr =>
    obtain ⟨rfl, rfl, rfl, rfl, rfl, rfl, rfl⟩ := hf
    exact Join_count l r p ss op h
  | SelfJoin base i p ius idata cd => cases hns

theorem Op.require_Materialising (op : Op) (s : SelectInfo) (b : Bool) (op1 : Op)
    (hm : op.Materialising) (h : op.require s = some (b, op1)) : op1.Materialising := by
  cases op with
  | Scan base rel bd => exact absurd hm (by simp [Op.Materialising])
  | FilterScan base rel bd fs idata =>
    simp only [Op.require] at h
    split at h
    · cases h; trivial
    · split at h
      · cases h
      · split at h <;> (cases h; trivial)
  | Join base l r p ht req reqL reqR cl cr =>
    simp only [Op.require] at h
    split at h
    · cases h; trivial
    · split at h
      · cases h
      · cases h; trivial
      · split at h
        · cases h
        · cases h; trivial
        · cases h; trivial
  | SelfJoin base i p ius idata cd =>
    simp only [Op.require] at h
    split at h
    · cases h; trivial
    · split at h
      · cases h
      · cases h; trivial
      · cases h; trivial

theorem Op.requireAll_Materialising : ∀ (ss : List SelectInfo) (op op1 : Op),
    op.Materialising → op.requireAll ss = some op1 → op1.Materialising := by
  intro ss
  induction ss with
  | nil => intro op op1 hm h; cases h; exact hm
  | cons s rest ih =>
    intro op op1 hm h
    rw [Op.requireAll] at h
    cases hr : op.require s with
    | none => rw [hr] at h; cases h
    | some pr =>
      obtain ⟨b, op2⟩ := pr
      rw [hr] at h
      exact ih _ _ (Op.require_Materialising op s b op2 hm hr) h

theorem Op.Fresh_Materialising (op : Op) (h : op.Fresh) : op.Materialising := by
  cases op with
  | Scan base rel b => exact absurd h (by simp [Op.Fresh])
  | FilterScan base rel b fs idata => trivial
  | Join base l r p ht req reqL reqR cl cr => trivial
  | SelfJoin base i p ius idata cd => trivial


/-! ## `require` on a well-formed tree -/

theorem Good_acc_binding (rid : Nat → Nat) (ctx : Nat → Relation) :
    ∀ (op : Op) (s : SelectInfo), Good rid ctx op → op.Acc s → s.binding ∈ op.bindings := by
  intro op
  induction op with
  | Scan base rel b =>
    intro s hg ha
    simp only [Op.Acc] at ha
    cases hm : base.select_to_result_col_id_ s with
    | none => exact absurd hm ha
    | some k => simp [Op.bindings, (hg.2.2 s k hm).1]
  | FilterScan base rel b fs idata =>
    intro s hg ha
    simp only [Op.Acc] at ha
    cases hm : base.select_to_result_col_id_ s with
    | none => exact absurd hm ha
    | some k => simp [Op.bindings, (hg.2.2.1.2.2 s k hm).1]
  | Join base l r p ht req reqL reqR cl cr ihl ihr =>
    intro s hg ha
    obtain ⟨hgl, hgr, hinv, _, _, _, _, _, haL, haR⟩ := hg
    simp only [Op.Acc] at ha
    rcases List.mem_append.mp ((hinv.2.2.2.2.2.2 s).mp ha) with h | h
    · exact List.mem_append_left _ (ihl s hgl (haL s h))
    · exact List.mem_append_right _ (ihr s hgr (haR s h))
  | SelfJoin base i p ius idata cd ih =>
    intro s hg ha
    obtain ⟨hgi, _, _, _, _, _, hius⟩ := hg
    exact ih s hgi (hius s ha).1

theorem Good.join {rid : Nat → Nat} {ctx : Nat → Relation} {base : Operator} {l r : Op}
    {p : PredicateInfo} {ht : List (Nat × Nat)} {req reqL reqR : List SelectInfo}
    {cl cr : List Column}
    (h : Good rid ctx l ∧ Good rid ctx r ∧ JoinInv base ht req reqL reqR cl cr ∧
      (∀ b ∈ l.bindings, b ∉ r.bindings) ∧
      p.left.binding ∈ l.bindings ∧ p.right.binding ∈ r.bindings ∧
      Valid rid ctx p.left ∧ Valid rid ctx p.right ∧
      (∀ s ∈ reqL, l.Acc s) ∧ (∀ s ∈ reqR, r.Acc s)) :
    Good rid ctx (.Join base l r p ht req reqL reqR cl cr) := h

theorem Good.selfJoin {rid : Nat → Nat} {ctx : Nat → Relation} {base : Operator} {i : Op}
    {p : PredicateInfo} {ius : List SelectInfo} {idata cd : List Column}
    (h : Good rid ctx i ∧ SelfJoinInv base ius cd ∧
      p.left.binding ∈ i.bindings ∧ p.right.binding ∈ i.bindings ∧
      Valid rid ctx p.left ∧ Valid rid ctx p.right ∧
      ∀ s ∈ ius, i.Acc s ∧ s.rel_id = rid s.binding) :
    Good rid ctx (.SelfJoin base i p ius idata cd) := h

theorem Good.scan {rid : Nat → Nat} {ctx : Nat → Relation} {base : Operator} {rel : Relation}
    {b : Nat} (h : rel = ctx b ∧ rel.WF ∧ ScanInv rel b base) :
    Good rid ctx (.Scan base rel b) := h

theorem Good.filterScan {rid : Nat → Nat} {ctx : Nat → Relation} {base : Operator}
    {rel : Relation} {b : Nat} {fs : List FilterInfo} {idata : List Column}
    (h : rel = ctx b ∧ rel.WF ∧ FilterScanInv rel b base idata ∧ base.result_size_ = 0 ∧
      ∀ f ∈ fs, f.filter_column.binding = b ∧ f.filter_column.col_id < rel.columns_.length) :
    Good rid ctx (.FilterScan base rel b fs idata) := h

theorem SelectInfo.eq_of_key {a o : SelectInfo} (hk : a.key = o.key) (hr : a.rel_id = o.rel_id) :
    a = o := by
  cases a; cases o
  simp only [SelectInfo.key, Prod.mk.injEq] at hk
  simp only [SelectInfo.mk.injEq]
  exact ⟨hr, hk.1, hk.2⟩

theorem Good_require (rid : Nat → Nat) (ctx : Nat → Relation) :
    ∀ (op : Op) (s : SelectInfo), Good rid ctx op → Valid rid ctx s →
      (s.binding ∈ op.bindings → ∃ op1, op.require s = some (true, op1) ∧ Good rid ctx op1
        ∧ op1.bindings = op.bindings ∧ op1.preds = op.preds ∧ op1.filts = op.filts
        ∧ op1.Acc s ∧ ∀ t, op.Acc t → op1.Acc t) ∧
      (s.binding ∉ op.bindings → op.require s = some (false, op)) := by
  intro op
  induction op with
  | Scan base rel b =>
    intro s hg hv
    obtain ⟨hrel, hwf, hinv⟩ := hg
    constructor
    · intro hb
      have hb' : s.binding = b := by simpa [Op.bindings] using hb
      have hc : s.col_id < rel.columns_.length := by rw [hrel, ← hb']; exact hv.2
      obtain ⟨base1, h1, h2, _, h4, h5, _⟩ := Scan_require_acc rel b base s hb' hc hinv
      exact ⟨_, h1, Good.scan ⟨hrel, hwf, h2⟩, rfl, rfl, rfl, h4, h5⟩
    · intro hb
      exact Scan_require_rej rel b base s (by simpa [Op.bindings] using hb)
  | FilterScan base rel b fs idata =>
    intro s hg hv
    obtain ⟨hrel, hwf, hinv, hrs, hfs⟩ := hg
    constructor
    · intro hb
      have hb' : s.binding = b := by simpa [Op.bindings] using hb
      have hc : s.col_id < rel.columns_.length := by rw [hrel, ← hb']; exact hv.2
      obtain ⟨base1, idata1, h1, h2, h3, h4, h5, _⟩ :=
        FilterScan_require_acc rel b base fs idata s hb' hc hinv
      exact ⟨_, h1, Good.filterScan ⟨hrel, hwf, h2, h3.trans hrs, hfs⟩, rfl, rfl, rfl, h4, h5⟩
    · intro hb
      exact FilterScan_require_rej rel b base fs idata s (by simpa [Op.bindings] using hb)
  | Join base l r p ht req reqL reqR cl cr ihl ihr =>
    intro s hg hv
    obtain ⟨hgl, hgr, hinv, hdisj, hpl, hpr, hvl, hvr, haL, haR⟩ := hg
    have hacc_b : s ∈ req → s.binding ∈ l.bindings ++ r.bindings := fun h =>
      Good_acc_binding rid ctx (.Join base l r p ht req reqL reqR cl cr) s
        ⟨hgl, hgr, hinv, hdisj, hpl, hpr, hvl, hvr, haL, haR⟩ h
    constructor
    · intro hb
      by_cases hs : s ∈ req
      · refine ⟨.Join base l r p ht req reqL reqR cl cr, by simp only [Op.require, hs, if_true],
          Good.join ⟨hgl, hgr, hinv, hdisj, hpl, hpr, hvl, hvr, haL, haR⟩, rfl, rfl, rfl, hs,
          fun t ht => ht⟩
      · rcases List.mem_append.mp hb with hbl | hbr
        · obtain ⟨l1, h1, g1, e1, e2, e3, a1, a2⟩ := (ihl s hgl hv).1 hbl
          refine ⟨.Join { base with tmp_results_ := base.tmp_results_ ++ [[]] }
            l1 r p ht (req ++ [s]) (reqL ++ [s]) reqR cl cr,
            by simp only [Op.require, hs, if_false, h1], ?_, ?_, ?_, ?_, ?_, ?_⟩
          · refine Good.join ⟨g1, hgr, JoinInv_addL hinv s hs, by rw [e1]; exact hdisj,
              by rw [e1]; exact hpl, hpr, hvl, hvr, ?_, haR⟩
            intro t ht
            rcases List.mem_append.mp ht with h | h
            · exact a2 t (haL t h)
            · rw [List.mem_singleton.mp h]; exact a1
          · simp only [Op.bindings, e1]
          · simp only [Op.preds, e2]
          · simp only [Op.filts, e3]
          · simp [Op.Acc]
          · intro t ht
            simp only [Op.Acc] at ht ⊢
            exact List.mem_append_left _ ht
        · have hnl : s.binding ∉ l.bindings := fun h => hdisj _ h hbr
          have h0 := (ihl s hgl hv).2 hnl
          obtain ⟨r1, h1, g1, e1, e2, e3, a1, a2⟩ := (ihr s hgr hv).1 hbr
          refine ⟨.Join { base with tmp_results_ := base.tmp_results_ ++ [[]] }
            l r1 p ht (req ++ [s]) reqL (reqR ++ [s]) cl cr,
            by simp only [Op.require, hs, if_false, h0, h1], ?_, ?_, ?_, ?_, ?_, ?_⟩
          · refine Good.join ⟨hgl, g1, JoinInv_addR hinv s hs, by rw [e1]; exact hdisj, hpl,
              by rw [e1]; exact hpr, hvl, hvr, haL, ?_⟩
            intro t ht
            rcases List.mem_append.mp ht with h | h
            · exact a2 t (haR t h)
            · rw [List.mem_singleton.mp h]; exact a1
          · simp only [Op.bindings, e1]
          · simp only [Op.preds, e2]
          · simp only [Op.filts, e3]
          · simp [Op.Acc]
          · intro t ht
            simp only [Op.Acc] at ht ⊢
            exact List.mem_append_left _ ht
    · intro hb
      simp only [Op.bindings, List.mem_append, not_or] at hb
      have hs : s ∉ req := fun h => by
        rcases List.mem_append.mp (hacc_b h) with h' | h'
        · exact hb.1 h'
        · exact hb.2 h'
      simp only [Op.require, hs, if_false, (ihl s hgl hv).2 hb.1, (ihr s hgr hv).2 hb.2]
  | SelfJoin base i p ius idata cd ih =>
    intro s hg hv
    obtain ⟨hgi, hinv, hpl, hpr, hvl, hvr, hius⟩ := hg
    constructor
    · intro hb
      by_cases hs : setCount ius s = true
      · have hmem : s ∈ ius := by
          obtain ⟨y, hy, hk⟩ := List.mem_map.mp ((setCount_iff ius s).mp hs)
          have hyb : y.binding = s.binding := congrArg Prod.fst hk
          have : y = s := SelectInfo.eq_of_key hk (by rw [(hius y hy).2, hv.1, hyb])
          rw [← this]; exact hy
        refine ⟨.SelfJoin base i p ius idata cd, by simp only [Op.require, hs, if_true],
          Good.selfJoin ⟨hgi, hinv, hpl, hpr, hvl, hvr, hius⟩, rfl, rfl, rfl, hmem,
          fun t ht => ht⟩
      · have hs' : setCount ius s = false := by simpa using hs
        obtain ⟨i1, h1, g1, e1, e2, e3, a1, a2⟩ := (ih s hgi hv).1 hb
        have hperm := setEmplace_perm ius s hs'
        refine ⟨.SelfJoin { base with tmp_results_ := base.tmp_results_ ++ [[]] }
          i1 p (setEmplace ius s) idata cd,
          by simp only [Op.require, hs', Bool.false_eq_true, if_false, h1], ?_, ?_, ?_, ?_, ?_, ?_⟩
        · refine Good.selfJoin ⟨g1, SelfJoinInv_add hinv s hs', by rw [e1]; exact hpl,
            by rw [e1]; exact hpr, hvl, hvr, ?_⟩
          intro t ht
          rcases List.mem_cons.mp (hperm.mem_iff.mp ht) with h | h
          · rw [h]; exact ⟨a1, hv.1⟩
          · exact ⟨a2 t (hius t h).1, (hius t h).2⟩
        · simp only [Op.bindings, e1]
        · simp only [Op.preds, e2]
        · simp only [Op.filts, e3]
        · simp only [Op.Acc]
          exact hperm.mem_iff.mpr (List.mem_cons_self _ _)
        · intro t ht
          simp only [Op.Acc] at ht ⊢
          exact hperm.mem_iff.mpr (List.mem_cons_of_mem _ ht)
    · intro hb
      have hs : ¬ setCount ius s = true := by
        intro hs
        obtain ⟨y, hy, hk⟩ := List.mem_map.mp ((setCount_iff ius s).mp hs)
        have hyb := Good_acc_binding rid ctx i y hgi (hius y hy).1
        have : y.binding = s.binding := congrArg Prod.fst hk
        rw [this] at hyb
        exact hb hyb
      have hs' : setCount ius s = false := by simpa using hs
      simp only [Op.require, hs', Bool.false_eq_true, if_false, (ih s hgi hv).2 hb]


/-! ## Assignments: the rows of the operators as sets of assignments -/

theorem Relation.cell_of_getElem? {rel : Relation} {c : Nat} {col : Column}
    (h : rel.columns_[c]? = some col) (i : Nat) : rel.cell c i = cellAt col i := by
  have hlt : c < rel.columns_.length := by
    by_contra hge
    rw [List.getElem?_eq_none (Nat.le_of_not_lt hge)] at h
    cases h
  rw [List.getElem?_eq_getElem hlt] at h
  rw [Relation.cell, List.getD_eq_getElem _ _ hlt, Option.some.inj h]

theorem val_merge_left (ctx : Nat → Relation) (B : List Nat) (aL aR : Asg) (s : SelectInfo)
    (h : s.binding ∈ B) : val ctx s (Asg.merge B aL aR) = val ctx s aL := by
  simp [val, Asg.merge, h]

theorem val_merge_right (ctx : Nat → Relation) (B : List Nat) (aL aR : Asg) (s : SelectInfo)
    (h : s.binding ∉ B) : val ctx s (Asg.merge B aL aR) = val ctx s aR := by
  simp [val, Asg.merge, h]

theorem val_congr (ctx : Nat → Relation) (s : SelectInfo) (a a' : Asg)
    (h : a s.binding = a' s.binding) : val ctx s a = val ctx s a' := by
  simp [val, h]

theorem getD_mem_of_lt {l : List Asg} {i : Nat} (h : i < l.length) : l.getD i Asg.zero ∈ l := by
  rw [List.getD_eq_getElem _ _ h]; exact List.getElem_mem _

theorem exists_getD_of_mem {l : List Asg} {a : Asg} (h : a ∈ l) :
    ∃ i, i < l.length ∧ l.getD i Asg.zero = a := by
  obtain ⟨i, hi, rfl⟩ := List.mem_iff_getElem.mp h
  exact ⟨i, hi, List.getD_eq_getElem _ _ hi⟩

theorem getD_inj_of_nodup {l : List Asg} (hnd : l.Nodup) {i j : Nat} (hi : i < l.length)
    (hj : j < l.length) (h : l.getD i Asg.zero = l.getD j Asg.zero) : i = j := by
  rw [List.getD_eq_getElem _ _ hi, List.getD_eq_getElem _ _ hj] at h
  exact (List.Nodup.getElem_inj_iff hnd).mp h

theorem Sat_ext {ctx : Nat → Relation} {B : List Nat} {P P' : List PredicateInfo}
    {F F' : List FilterInfo} {B' : List Nat} {a : Asg}
    (hB : ∀ b, b ∈ B ↔ b ∈ B') (hP : ∀ p, p ∈ P ↔ p ∈ P') (hF : ∀ f, f ∈ F ↔ f ∈ F') :
    Sat ctx B P F a ↔ Sat ctx B' P' F' a := by
  unfold Sat
  constructor
  · rintro ⟨h1, h2, h3, h4⟩
    exact ⟨fun b hb => h1 b ((hB b).mpr hb), fun b hb => h2 b (fun h => hb ((hB b).mp h)),
      fun p hp => h3 p ((hP p).mpr hp), fun f hf => h4 f ((hF f).mpr hf)⟩
  · rintro ⟨h1, h2, h3, h4⟩
    exact ⟨fun b hb => h1 b ((hB b).mp hb), fun b hb => h2 b (fun h => hb ((hB b).mpr h)),
      fun p hp => h3 p ((hP p).mp hp), fun f hf => h4 f ((hF f).mp hf)⟩

theorem join_rows_spec (ctx : Nat → Relation) (BL BR : List Nat) (PL PR : List PredicateInfo)
    (FL FR : List FilterInfo) (p : PredicateInfo) (rowsL rowsR : List Asg)
    (pairs : List (Nat × Nat))
    (hLnd : rowsL.Nodup) (hL : ∀ a, a ∈ rowsL ↔ Sat ctx BL PL FL a)
    (hRnd : rowsR.Nodup) (hR : ∀ a, a ∈ rowsR ↔ Sat ctx BR PR FR a)
    (hdisj : ∀ b ∈ BL, b ∉ BR) (hpl : p.left.binding ∈ BL) (hpr : p.right.binding ∈ BR)
    (hPL : ∀ q ∈ PL, q.left.binding ∈ BL ∧ q.right.binding ∈ BL)
    (hPR : ∀ q ∈ PR, q.left.binding ∈ BR ∧ q.right.binding ∈ BR)
    (hFL : ∀ f ∈ FL, f.filter_column.binding ∈ BL)
    (hFR : ∀ f ∈ FR, f.filter_column.binding ∈ BR)
    (hnd : pairs.Nodup)
    (hpairs : ∀ pr, pr ∈ pairs ↔ pr.1 < rowsL.length ∧ pr.2 < rowsR.length ∧
      val ctx p.left (rowsL.getD pr.1 Asg.zero) = val ctx p.right (rowsR.getD pr.2 Asg.zero)) :
    (joinRows BL rowsL rowsR pairs).Nodup ∧
    ∀ a, a ∈ joinRows BL rowsL rowsR pairs ↔ Sat ctx (BL ++ BR) (p :: (PL ++ PR)) (FL ++ FR) a := by
  have hnotL : ∀ b, b ∈ BR → b ∉ BL := fun b hb hb' => hdisj b hb' hb
  constructor
  · unfold joinRows
    apply List.Nodup.map_on _ hnd
    rintro ⟨i, j⟩ hij ⟨i', j'⟩ hij' heq
    obtain ⟨hi, hj, _⟩ := (hpairs _).mp hij
    obtain ⟨hi', hj', _⟩ := (hpairs _).mp hij'
    simp only at hi hj hi' hj' heq
    have sL := (hL _).mp (getD_mem_of_lt hi)
    have sL' := (hL _).mp (getD_mem_of_lt hi')
    have sR := (hR _).mp (getD_mem_of_lt hj)
    have sR' := (hR _).mp (getD_mem_of_lt hj')
    have eL : rowsL.getD i Asg.zero = rowsL.getD i' Asg.zero := by
      funext x
      by_cases hx : x ∈ BL
      · have := congrFun heq x
        simpa [Asg.merge, hx] using this
      · rw [sL.2.1 x hx, sL'.2.1 x hx]
    have eR : rowsR.getD j Asg.zero = rowsR.getD j' Asg.zero := by
      funext x
      by_cases hx : x ∈ BR
      · have := congrFun heq x
        simpa [Asg.merge, hnotL x hx] using this
      · rw [sR.2.1 x hx, sR'.2.1 x hx]
    rw [getD_inj_of_nodup hLnd hi hi' eL, getD_inj_of_nodup hRnd hj hj' eR]
  · intro a
    unfold joinRows
    rw [List.mem_map]
    constructor
    · rintro ⟨⟨i, j⟩, hij, rfl⟩
      obtain ⟨hi, hj, hkey⟩ := (hpairs _).mp hij
      simp only at hi hj hkey ⊢
      obtain ⟨l1, l2, l3, l4⟩ := (hL _).mp (getD_mem_of_lt hi)
      obtain ⟨r1, r2, r3, r4⟩ := (hR _).mp (getD_mem_of_lt hj)
      refine ⟨?_, ?_, ?_, ?_⟩
      · intro b hb
        by_cases hbl : b ∈ BL
        · simpa [Asg.merge, hbl] using l1 b hbl
        · have hbr : b ∈ BR := (List.mem_append.mp hb).resolve_left hbl
          simpa [Asg.merge, hbl] using r1 b hbr
      · intro b hb
        have hbl : b ∉ BL := fun h => hb (List.mem_append_left _ h)
        have hbr : b ∉ BR := fun h => hb (List.mem_append_right _ h)
        simpa [Asg.merge, hbl] using r2 b hbr
      · intro q hq
        rcases List.mem_cons.mp hq with rfl | hq
        · rw [val_merge_left _ _ _ _ _ hpl, val_merge_right _ _ _ _ _ (hnotL _ hpr)]
          exact hkey
        · rcases List.mem_append.mp hq with hq | hq
          · rw [val_merge_left _ _ _ _ _ (hPL q hq).1, val_merge_left _ _ _ _ _ (hPL q hq).2]
            exact l3 q hq
          · rw [val_merge_right _ _ _ _ _ (hnotL _ (hPR q hq).1),
              val_merge_right _ _ _ _ _ (hnotL _ (hPR q hq).2)]
            exact r3 q hq
      · intro f hf
        rcases List.mem_append.mp hf with hf | hf
        · rw [val_merge_left _ _ _ _ _ (hFL f hf)]
          exact l4 f hf
        · rw [val_merge_right _ _ _ _ _ (hnotL _ (hFR f hf))]
          exact r4 f hf
    · rintro ⟨s1, s2, s3, s4⟩
      have hsL : Sat ctx BL PL FL (fun x => if x ∈ BL then a x else 0) := by
        refine ⟨?_, ?_, ?_, ?_⟩
        · intro b hb; simpa [hb] using s1 b (List.mem_append_left _ hb)
        · intro b hb; simp [hb]
        · intro q hq
          rw [val_congr ctx q.left _ a (by simp [(hPL q hq).1]),
            val_congr ctx q.right _ a (by simp [(hPL q hq).2])]
          exact s3 q (List.mem_cons_of_mem _ (List.mem_append_left _ hq))
        · intro f hf
          rw [val_congr ctx f.filter_column _ a (by simp [hFL f hf])]
          exact s4 f (List.mem_append_left _ hf)
      have hsR : Sat ctx BR PR FR (fun x => if x ∈ BR then a x else 0) := by
        refine ⟨?_, ?_, ?_, ?_⟩
        · intro b hb; simpa [hb] using s1 b (List.mem_append_right _ hb)
        · intro b hb; simp [hb]
        · intro q hq
          rw [val_congr ctx q.left _ a (by simp [(hPR q hq).1]),
            val_congr ctx q.right _ a (by simp [(hPR q hq).2])]
          exact s3 q (List.mem_cons_of_mem _ (List.mem_append_right _ hq))
        · intro f hf
          rw [val_congr ctx f.filter_column _ a (by simp [hFR f hf])]
          exact s4 f (List.mem_append_right _ hf)
      obtain ⟨i, hi, ei⟩ := exists_getD_of_mem ((hL _).mpr hsL)
      obtain ⟨j, hj, ej⟩ := exists_getD_of_mem ((hR _).mpr hsR)
      refine ⟨(i, j), (hpairs _).mpr ⟨hi, hj, ?_⟩, ?_⟩
      · simp only [ei, ej]
        rw [val_congr ctx p.left _ a (by simp [hpl]), val_congr ctx p.right _ a (by simp [hpr])]
        exact s3 p (List.mem_cons_self _ _)
      · simp only [ei, ej]
        funext x
        by_cases hx : x ∈ BL
        · simp [Asg.merge, hx]
        · by_cases hx' : x ∈ BR
          · simp [Asg.merge, hx, hx']
          · simp only [Asg.merge, hx, hx', if_false]
            exact (s2 x (fun h => (List.mem_append.mp h).elim hx hx')).symm

theorem filter_index (l : List Asg) (P : Asg → Bool) :
    ((List.range l.length).filter (fun t => P (l.getD t Asg.zero))).map
      (fun t => l.getD t Asg.zero) = l.filter P := by
  have h : l = (List.range l.length).map (fun t => l.getD t Asg.zero) := by
    apply List.ext_getElem
    · simp
    · intro n h1 h2
      simp [List.getElem?_eq_getElem h1]
  conv_rhs => rw [h, List.filter_map]
  rfl


/-! ## `run` on a well-formed tree -/

theorem Op.height_pos (op : Op) : 0 < op.height := by
  cases op <;> simp [Op.height]

theorem Good_closed (rid : Nat → Nat) (ctx : Nat → Relation) :
    ∀ (op : Op), Good rid ctx op →
      (∀ q ∈ op.preds, q.left.binding ∈ op.bindings ∧ q.right.binding ∈ op.bindings) ∧
      (∀ f ∈ op.filts, f.filter_column.binding ∈ op.bindings) := by
  intro op
  induction op with
  | Scan base rel b => intro _; simp [Op.preds, Op.filts]
  | FilterScan base rel b fs idata =>
    intro hg
    refine ⟨by simp [Op.preds], ?_⟩
    intro f hf
    simp only [Op.bindings, List.mem_singleton]
    exact (hg.2.2.2.2 f hf).1
  | Join base l r p ht req reqL reqR cl cr ihl ihr =>
    intro hg
    obtain ⟨hgl, hgr, _, _, hpl, hpr, _⟩ := hg
    obtain ⟨l1, l2⟩ := ihl hgl
    obtain ⟨r1, r2⟩ := ihr hgr
    constructor
    · intro q hq
      simp only [Op.preds, List.mem_cons, List.mem_append] at hq
      simp only [Op.bindings, List.mem_append]
      rcases hq with rfl | hq | hq
      · exact ⟨Or.inl hpl, Or.inr hpr⟩
      · exact ⟨Or.inl (l1 q hq).1, Or.inl (l1 q hq).2⟩
      · exact ⟨Or.inr (r1 q hq).1, Or.inr (r1 q hq).2⟩
    · intro f hf
      simp only [Op.filts, List.mem_append] at hf
      simp only [Op.bindings, List.mem_append]
      rcases hf with hf | hf
      · exact Or.inl (l2 f hf)
      · exact Or.inr (r2 f hf)
  | SelfJoin base i p ius idata cd ih =>
    intro hg
    obtain ⟨hgi, _, hpl, hpr, _⟩ := hg
    obtain ⟨i1, i2⟩ := ih hgi
    constructor
    · intro q hq
      simp only [Op.preds, List.mem_cons] at hq
      simp only [Op.bindings]
      rcases hq with rfl | hq
      · exact ⟨hpl, hpr⟩
      · exact i1 q hq
    · intro f hf
      exact i2 f hf

theorem passingRows_nil (rel : Relation) : passingRows rel [] = List.range rel.size_ := by
  simp [passingRows, rowPasses]

theorem leaf_rows_spec (ctx : Nat → Relation) (rel : Relation) (b : Nat) (fs : List FilterInfo)
    (hrel : rel = ctx b) (hfs : ∀ f ∈ fs, f.filter_column.binding = b) :
    ((passingRows rel fs).map (Asg.single b)).Nodup ∧
    ∀ a, a ∈ (passingRows rel fs).map (Asg.single b) ↔ Sat ctx [b] [] fs a := by
  constructor
  · apply List.Nodup.map
    · intro i j h
      have := congrFun h b
      simpa [Asg.single] using this
    · exact (List.nodup_range _).filter _
  · intro a
    simp only [List.mem_map, passingRows, List.mem_filter, List.mem_range, rowPasses,
      List.all_eq_true, Sat, List.mem_singleton, forall_eq, List.not_mem_nil, false_implies,
      implies_true, true_and]
    constructor
    · rintro ⟨i, ⟨hi, hp⟩, rfl⟩
      refine ⟨by simpa [Asg.single, ← hrel] using hi, fun x hx => by simp [Asg.single, hx], ?_⟩
      intro f hf
      have := hp f hf
      simpa [val, hfs f hf, Asg.single, ← hrel] using this
    · rintro ⟨h1, h2, h3⟩
      refine ⟨a b, ⟨by rw [hrel]; exact h1, ?_⟩, ?_⟩
      · intro f hf
        have := h3 f hf
        simpa [val, hfs f hf, ← hrel] using this
      · funext x
        by_cases hx : x = b
        · simp [Asg.single, hx]
        · simp [Asg.single, hx, h2 x hx]

theorem leaf_column (ctx : Nat → Relation) (rel : Relation) (b : Nat) (s : SelectInfo)
    (col : Column) (idxs : List Nat) (hrel : rel = ctx b) (hb : s.binding = b)
    (hcol : rel.columns_[s.col_id]? = some col) :
    gather col idxs = (idxs.map (Asg.single b)).map (val ctx s) := by
  rw [List.map_map]
  unfold gather
  apply List.map_congr_left
  intro i _
  simp only [Function.comp, val, hb, ← hrel, Asg.single, if_true]
  exact (Relation.cell_of_getElem? hcol i).symm

theorem Good_run (ord : HTOrder) (rid : Nat → Nat) (ctx : Nat → Relation) :
    ∀ (n : Nat) (op : Op), op.height ≤ n → Good rid ctx op →
      ∃ (op2 : Op) (rows : List Asg), op.run ord = some op2 ∧ op2.result_size = rows.length ∧
        rows.Nodup ∧
        (∀ a, a ∈ rows ↔ Sat ctx op.bindings op.preds op.filts a) ∧
        ∀ s, op.Acc s → op2.column s = some (rows.map (val ctx s)) := by
  intro n
  induction n with
  | zero =>
    intro op hh _
    exact absurd (Op.height_pos op) (by omega)
  | succ n ih =>
    intro op hh hg
    cases op with
    | Scan base rel b =>
      obtain ⟨hrel, hwf, hinv⟩ := hg
      obtain ⟨hnd, hsat⟩ := leaf_rows_spec ctx rel b [] hrel (fun f hf => by cases hf)
      rw [passingRows_nil] at hnd hsat
      refine ⟨.Scan { base with result_size_ := rel.size_ } rel b,
        (List.range rel.size_).map (Asg.single b), rfl, by simp [Op.result_size, Op.base],
        hnd, hsat, ?_⟩
      intro s hs
      obtain ⟨col, h1, h2, h3⟩ := Scan_column rel b base hinv rel.size_ s hs
      rw [h3, ← leaf_column ctx rel b s col _ hrel h2 h1]
      have hlen : col.length = rel.size_ := hwf col (List.getElem?_mem h1)
      rw [← hlen, gather_range]
    | FilterScan base rel b fs idata =>
      obtain ⟨hrel, hwf, hinv, hrs, hfs⟩ := hg
      obtain ⟨hnd, hsat⟩ := leaf_rows_spec ctx rel b fs hrel (fun f hf => (hfs f hf).1)
      refine ⟨_, (passingRows rel fs).map (Asg.single b),
        FilterScan_run_eq ord rel b base fs idata hwf (fun f hf => (hfs f hf).2) hinv,
        by simp [Op.result_size, Op.base, hrs], hnd, hsat, ?_⟩
      intro s hs
      obtain ⟨col, h1, h2, h3⟩ := FilterScan_column rel b base fs idata hinv
        (base.result_size_ + (passingRows rel fs).length) (passingRows rel fs) s hs
      rw [h3, leaf_column ctx rel b s col _ hrel h2 h1]
    | Join base l r p ht req reqL reqR cl cr =>
      obtain ⟨hgl, hgr, hinv, hdisj, hpl, hpr, hvl, hvr, haL, haR⟩ := hg
      simp only [Op.height] at hh
      have hhl : l.height ≤ n := by have := Nat.le_max_left l.height r.height; omega
      have hhr : r.height ≤ n := by have := Nat.le_max_right l.height r.height; omega
      obtain ⟨l1, hl1, gl1, el1, el2, el3, al1, al2⟩ := (Good_require rid ctx l p.left hgl hvl).1 hpl
      obtain ⟨r1, hr1, gr1, er1, er2, er3, ar1, ar2⟩ :=
        (Good_require rid ctx r p.right hgr hvr).1 hpr
      obtain ⟨l2, rowsL, hl2, sizeL, ndL, satL, colL⟩ :=
        ih l1 (by rw [Op.require_height _ _ _ _ hl1]; exact hhl) gl1
      obtain ⟨r2, rowsR, hr2, sizeR, ndR, satR, colR⟩ :=
        ih r1 (by rw [Op.require_height _ _ _ _ hr1]; exact hhr) gr1
      rw [el1, el2, el3] at satL
      rw [er1, er2, er3] at satR
      have hcl : ∀ s ∈ p.left :: reqL,
          ∃ col, l2.column s = some col ∧ col.length = l2.result_size := by
        intro s hs
        have ha : l1.Acc s := by
          rcases List.mem_cons.mp hs with rfl | h
          · exact al1
          · exact al2 s (haL s h)
        exact ⟨_, colL s ha, by rw [List.length_map, sizeL]⟩
      have hcr : ∀ s ∈ p.right :: reqR,
          ∃ col, r2.column s = some col ∧ col.length = r2.result_size := by
        intro s hs
        have ha : r1.Acc s := by
          rcases List.mem_cons.mp hs with rfl | h
          · exact ar1
          · exact ar2 s (haR s h)
        exact ⟨_, colR s ha, by rw [List.length_map, sizeR]⟩
      obtain ⟨j2, hrun, hsize, hcolL, hcolR, _⟩ := Join_run_spec ord base l r p ht req reqL reqR
        cl cr hinv true true l1 r1 l2 r2 hl1 hr1 hl2 hr2 hcl hcr
      have hkL : l2.columnD p.left = rowsL.map (val ctx p.left) :=
        Op.columnD_of_column (colL _ al1)
      have hkR : r2.columnD p.right = rowsR.map (val ctx p.right) :=
        Op.columnD_of_column (colR _ ar1)
      rw [hkL, hkR, sizeL, sizeR] at hsize hcolL hcolR
      obtain ⟨cl1, cl2⟩ := Good_closed rid ctx l hgl
      obtain ⟨cr1, cr2⟩ := Good_closed rid ctx r hgr
      have hpairs : ∀ pr, pr ∈ joinPairs ord (rowsL.map (val ctx p.left))
          (rowsR.map (val ctx p.right)) rowsL.length rowsR.length ↔
          pr.1 < rowsL.length ∧ pr.2 < rowsR.length ∧
          val ctx p.left (rowsL.getD pr.1 Asg.zero) = val ctx p.right (rowsR.getD pr.2 Asg.zero) := by
        intro pr
        rw [mem_joinPairs]
        constructor
        · rintro ⟨h1, h2, h3⟩
          rw [cellAt_map _ _ _ Asg.zero, cellAt_map _ _ _ Asg.zero, if_pos h1, if_pos h2] at h3
          exact ⟨h1, h2, h3⟩
        · rintro ⟨h1, h2, h3⟩
          rw [cellAt_map _ _ _ Asg.zero, cellAt_map _ _ _ Asg.zero, if_pos h1, if_pos h2]
          exact ⟨h1, h2, h3⟩
      obtain ⟨ndJ, satJ⟩ := join_rows_spec ctx l.bindings r.bindings l.preds r.preds l.filts
        r.filts p rowsL rowsR _ ndL satL ndR satR hdisj hpl hpr cl1 cr1 cl2 cr2
        (nodup_joinPairs ord _ _ _ _) hpairs
      refine ⟨j2, joinRows l.bindings rowsL rowsR (joinPairs ord (rowsL.map (val ctx p.left))
          (rowsR.map (val ctx p.right)) rowsL.length rowsR.length), hrun,
        by rw [hsize]; simp [joinRows], ndJ, satJ, ?_⟩
      intro s hs
      simp only [Op.Acc] at hs
      rcases List.mem_append.mp ((hinv.2.2.2.2.2.2 s).mp hs) with h | h
      · rw [hcolL s h, Op.columnD_of_column (colL s (al2 s (haL s h)))]
        simp only [joinRows, List.map_map]
        congr 1
        apply List.map_congr_left
        intro pr hpr'
        have hb : s.binding ∈ l.bindings := Good_acc_binding rid ctx l s hgl (haL s h)
        simp only [Function.comp]
        rw [val_merge_left _ _ _ _ _ hb, cellAt_map _ _ _ Asg.zero, if_pos ((hpairs pr).mp hpr').1]
      · rw [hcolR s h, Op.columnD_of_column (colR s (ar2 s (haR s h)))]
        simp only [joinRows, List.map_map]
        congr 1
        apply List.map_congr_left
        intro pr hpr'
        have hb : s.binding ∈ r.bindings := Good_acc_binding rid ctx r s hgr (haR s h)
        have hb' : s.binding ∉ l.bindings := fun h' => hdisj _ h' hb
        simp only [Function.comp]
        rw [val_merge_right _ _ _ _ _ hb', cellAt_map _ _ _ Asg.zero,
          if_pos ((hpairs pr).mp hpr').2.1]
    | SelfJoin base i p ius idata cd =>
      obtain ⟨hgi, hinv, hpl, hpr, hvl, hvr, hius⟩ := hg
      simp only [Op.height] at hh
      obtain ⟨i1, hi1, gi1, e1, e2, e3, a1, a2⟩ := (Good_require rid ctx i p.left hgi hvl).1 hpl
      obtain ⟨i2, hi2, gi2, f1, f2, f3, b1, b2⟩ :=
        (Good_require rid ctx i1 p.right gi1 hvr).1 (by rw [e1]; exact hpr)
      obtain ⟨i3, rowsI, hi3, sizeI, ndI, satI, colI⟩ :=
        ih i2 (by rw [Op.require_height _ _ _ _ hi2, Op.require_height _ _ _ _ hi1]; omega) gi2
      rw [f1, f2, f3, e1, e2, e3] at satI
      have hc : ∀ s ∈ p.left :: p.right :: ius,
          ∃ col, i3.column s = some col ∧ col.length = i3.result_size := by
        intro s hs
        have ha : i2.Acc s := by
          rcases List.mem_cons.mp hs with rfl | h
          · exact b2 _ a1
          · rcases List.mem_cons.mp h with rfl | h
            · exact b1
            · exact b2 s (a2 s (hius s h).1)
        exact ⟨_, colI s ha, by rw [List.length_map, sizeI]⟩
      obtain ⟨sj2, hrun, hsize, _, hcol⟩ := SelfJoin_run_spec ord base i p ius idata cd hinv
        true true i1 i2 i3 hi1 hi2 hi3 hc
      have hkL : i3.columnD p.left = rowsI.map (val ctx p.left) :=
        Op.columnD_of_column (colI _ (b2 _ a1))
      have hkR : i3.columnD p.right = rowsI.map (val ctx p.right) :=
        Op.columnD_of_column (colI _ b1)
      have hidx : selfJoinRows (i3.columnD p.left) (i3.columnD p.right) i3.result_size
          = (List.range rowsI.length).filter (fun t =>
              (fun a => decide (val ctx p.left a = val ctx p.right a)) (rowsI.getD t Asg.zero)) := by
        rw [hkL, hkR, sizeI]
        unfold selfJoinRows
        apply List.filter_congr
        intro t ht
        have ht' := List.mem_range.mp ht
        simp only [cellAt_map _ _ _ Asg.zero, if_pos ht']
      refine ⟨sj2, rowsI.filter (fun a => decide (val ctx p.left a = val ctx p.right a)), hrun,
        ?_, ndI.filter _, ?_, ?_⟩
      · rw [hsize, hidx, ← filter_index rowsI, List.length_map]
      · intro a
        simp only [List.mem_filter, satI, decide_eq_true_eq, Op.bindings, Op.preds, Op.filts, Sat,
          List.mem_cons, forall_eq_or_imp]
        tauto
      · intro s hs
        simp only [Op.Acc] at hs
        rw [hcol s hs, hidx, Op.columnD_of_column (colI s (b2 s (a2 s (hius s hs).1))),
          ← filter_index rowsI, List.map_map]
        unfold gather
        refine congrArg some ?_
        apply List.map_congr_left
        intro t ht
        have ht' := List.mem_range.mp (List.mem_filter.mp ht).1
        simp only [Function.comp]
        rw [cellAt_map _ _ _ Asg.zero, if_pos ht']


/-! ## The planner -/

theorem Linked.remove {Q Q' : List PredicateInfo} {U U' : List Nat} (t : PredicateInfo)
    (hQ : ∀ p ∈ Q, p = t ∨ p ∈ Q') (hl : t.left.binding ∈ U') (hr : t.right.binding ∈ U')
    (hU : ∀ b ∈ U, b ∈ U') {b : Nat} (h : Linked Q U b) : Linked Q' U' b := by
  induction h with
  | base b hb => exact Linked.base b (hU b hb)
  | left p hp _ ih =>
    rcases hQ p hp with rfl | hp'
    · exact Linked.base _ hl
    · exact Linked.left p hp' ih
  | right p hp _ ih =>
    rcases hQ p hp with rfl | hp'
    · exact Linked.base _ hr
    · exact Linked.right p hp' ih

theorem Linked.mono {Q Q' : List PredicateInfo} {U U' : List Nat}
    (hQ : ∀ p ∈ Q, p ∈ Q') (hU : ∀ b ∈ U, b ∈ U') {b : Nat} (h : Linked Q U b) :
    Linked Q' U' b := by
  induction h with
  | base b hb => exact Linked.base b (hU b hb)
  | left p hp _ ih => exact Linked.left p (hQ p hp) ih
  | right p hp _ ih => exact Linked.right p (hQ p hp) ih

theorem Linked.exists_touching {Q : List PredicateInfo} {U : List Nat} {b : Nat}
    (h : Linked Q U b) : b ∈ U ∨ ∃ p ∈ Q, touches U p := by
  induction h with
  | base b hb => exact Or.inl hb
  | left p hp _ ih =>
    rcases ih with h | h
    · exact Or.inr ⟨p, hp, Or.inr h⟩
    · exact Or.inr h
  | right p hp _ ih =>
    rcases ih with h | h
    · exact Or.inr ⟨p, hp, Or.inl h⟩
    · exact Or.inr h

theorem exists_first_touching (U : List Nat) :
    ∀ (Q : List PredicateInfo), (∃ p ∈ Q, touches U p) →
      ∃ N t R, Q = N ++ t :: R ∧ (∀ n ∈ N, ¬ touches U n) ∧ touches U t := by
  intro Q
  induction Q with
  | nil => rintro ⟨p, hp, _⟩; cases hp
  | cons x xs ih =>
    intro h
    by_cases hx : touches U x
    · exact ⟨[], x, xs, rfl, fun n hn => absurd hn (List.not_mem_nil n), hx⟩
    · have : ∃ p ∈ xs, touches U p := by
        obtain ⟨p, hp, ht⟩ := h
        rcases List.mem_cons.mp hp with rfl | hp'
        · exact absurd ht hx
        · exact ⟨p, hp', ht⟩
      obtain ⟨N, t, R, e, h1, h2⟩ := ih this
      refine ⟨x :: N, t, R, by rw [e]; rfl, ?_, h2⟩
      intro n hn
      rcases List.mem_cons.mp hn with rfl | hn'
      · exact hx
      · exact h1 n hn'

theorem QueryInfo.Resolved.valid {rels : List Relation} {q : QueryInfo} {s : SelectInfo}
    (h : q.Resolved rels s) : Valid q.rid (q.ctx rels) s := ⟨h.2.1, h.2.2.2⟩

theorem addScan_spec (rels : List Relation) (q : QueryInfo) (used : List Nat) (info : SelectInfo)
    (hwf : ∀ r ∈ rels, r.WF) (hres : q.Resolved rels info)
    (hfil : ∀ f ∈ q.filters_, q.Resolved rels f.filter_column)
    (hnew : info.binding ∉ used) :
    ∃ leaf, addScan rels used info q = some (used ++ [info.binding], leaf) ∧
      Good q.rid (q.ctx rels) leaf ∧ leaf.bindings = [info.binding] ∧ leaf.preds = [] ∧
      (∀ f, f ∈ leaf.filts ↔ f ∈ q.filters_ ∧ f.filter_column.binding = info.binding) := by
  obtain ⟨_, hrid, hlt, _⟩ := hres
  have hrel : rels[info.rel_id]? = some (q.ctx rels info.binding) := by
    rw [List.getElem?_eq_getElem hlt, QueryInfo.ctx, ← hrid, List.getD_eq_getElem _ _ hlt]
  have hrelwf : (q.ctx rels info.binding).WF :=
    hwf _ (List.getElem?_mem hrel)
  unfold addScan
  simp only [usedEmplace, hnew, if_false, getRelation, hrel]
  cases hf : q.filters_.filter (fun f => decide (f.filter_column.binding = info.binding)) with
  | nil =>
    refine ⟨Op.mkScan (q.ctx rels info.binding) info.binding, by simp, ?_, rfl, rfl, ?_⟩
    · exact Good.scan ⟨rfl, hrelwf, ScanInv_init _ _⟩
    · intro f
      simp only [Op.filts, Op.mkScan, List.not_mem_nil, false_iff, not_and]
      intro hfm hb
      have : f ∈ q.filters_.filter (fun f => decide (f.filter_column.binding = info.binding)) :=
        List.mem_filter.mpr ⟨hfm, by simpa using hb⟩
      rw [hf] at this
      cases this
  | cons f0 rest =>
    have hmem : ∀ f, f ∈ f0 :: rest ↔ f ∈ q.filters_ ∧ f.filter_column.binding = info.binding := by
      intro f
      rw [← hf, List.mem_filter]
      simp
    have hb0 : f0.filter_column.binding = info.binding := ((hmem f0).mp (List.mem_cons_self _ _)).2
    refine ⟨.FilterScan Operator.init (q.ctx rels info.binding) info.binding (f0 :: rest) [],
      by simp [Op.mkFilterScan, hb0], ?_, rfl, rfl, ?_⟩
    · refine Good.filterScan ⟨rfl, hrelwf, FilterScanInv_init _ _, rfl, ?_⟩
      intro f hfm
      obtain ⟨h1, h2⟩ := (hmem f).mp hfm
      refine ⟨h2, ?_⟩
      have := (hfil f h1).2.2.2
      rw [h2] at this
      exact this
    · intro f
      simp only [Op.filts]
      exact hmem f


/-! ## The planning loop -/

theorem analyze_left {U : List Nat} {l r : SelectInfo} (hl : l.binding ∈ U) (hr : r.binding ∉ U) :
    analyzeInputOfJoin U l r = QueryGraphProvides.Left := by
  simp [analyzeInputOfJoin, hl, hr]

theorem analyze_right {U : List Nat} {l r : SelectInfo} (hl : l.binding ∉ U) (hr : r.binding ∈ U) :
    analyzeInputOfJoin U l r = QueryGraphProvides.Right := by
  simp [analyzeInputOfJoin, hl, hr]

theorem analyze_both {U : List Nat} {l r : SelectInfo} (hl : l.binding ∈ U) (hr : r.binding ∈ U) :
    analyzeInputOfJoin U l r = QueryGraphProvides.Both := by
  simp [analyzeInputOfJoin, hl, hr]

theorem analyze_none {U : List Nat} {l r : SelectInfo} (hl : l.binding ∉ U) (hr : r.binding ∉ U) :
    analyzeInputOfJoin U l r = QueryGraphProvides.None := by
  simp [analyzeInputOfJoin, hl, hr]

theorem getElem?_append_cons {α : Type} (D : List α) (x : α) (R : List α) :
    (D ++ x :: R)[D.length]? = some x := by
  rw [List.getElem?_append_right (Nat.le_refl _), Nat.sub_self]
  exact List.getElem?_cons_zero

theorem PlanInv.congr {rels : List Relation} {q : QueryInfo} {used : List Nat} {root : Op}
    {Q Q' : List PredicateInfo} (h : PlanInv rels q used root Q) (hQ : ∀ p, p ∈ Q' ↔ p ∈ Q) :
    PlanInv rels q used root Q' := by
  obtain ⟨h1, h2, h3, h4, h5, h6, h7, h8⟩ := h
  refine ⟨h1, h2, h3, h4, fun p hp => h5 p ((hQ p).mp hp), ?_, h7, ?_⟩
  · intro p hp
    rcases h6 p hp with h | h
    · exact Or.inl h
    · exact Or.inr ((hQ p).mpr h)
  · intro p hp
    exact Linked.mono (fun x hx => (hQ x).mpr hx) (fun _ hb => hb) (h8 p ((hQ p).mp hp))

theorem planLoop_skip (rels : List Relation) (q : QueryInfo) (used : List Nat) (root : Op) :
    ∀ (N D rest : List PredicateInfo) (fuel : Nat), (∀ n ∈ N, ¬ touches used n) →
      planLoop rels q (fuel + N.length) (D ++ N ++ rest) D.length used root =
        planLoop rels q fuel ((D ++ N) ++ (rest ++ N)) (D ++ N).length used root := by
  intro N
  induction N with
  | nil => intro D rest fuel _; simp
  | cons n N ih =>
    intro D rest fuel hN
    have hn : ¬ touches used n := hN n (List.mem_cons_self _ _)
    have hnl : n.left.binding ∉ used := fun h => hn (Or.inl h)
    have hnr : n.right.binding ∉ used := fun h => hn (Or.inr h)
    have hget : (D ++ n :: N ++ rest)[D.length]? = some n := by
      rw [List.append_assoc, List.cons_append]
      exact getElem?_append_cons D n (N ++ rest)
    have hfuel : fuel + (n :: N).length = (fuel + N.length) + 1 := by
      simp only [List.length_cons]; omega
    rw [hfuel, planLoop]
    simp only [hget, analyze_none hnl hnr]
    have e1 : D ++ n :: N ++ rest ++ [n] = (D ++ [n]) ++ N ++ (rest ++ [n]) := by
      simp [List.append_assoc]
    have e2 : D.length + 1 = (D ++ [n]).length := by simp
    rw [e1, e2, ih (D ++ [n]) (rest ++ [n]) fuel (fun x hx => hN x (List.mem_cons_of_mem _ hx))]
    have e3 : (D ++ [n] ++ N) = D ++ n :: N := by simp [List.append_assoc]
    have e4 : rest ++ [n] ++ N = rest ++ n :: N := by simp [List.append_assoc]
    rw [e3, e4]

theorem planLoop_consume (rels : List Relation) (q : QueryInfo) (hwf : QueryWF rels q)
    (used : List Nat) (root : Op) (t : PredicateInfo) (R D : List PredicateInfo) (fuel : Nat)
    (hinv : PlanInv rels q used root (t :: R)) (ht : touches used t) :
    ∃ used1 root1, planLoop rels q (fuel + 1) (D ++ t :: R) D.length used root =
        planLoop rels q fuel ((D ++ [t]) ++ R) (D ++ [t]).length used1 root1 ∧
      PlanInv rels q used1 root1 R := by
  obtain ⟨hg, hU, hB, hP, hQ, hall, hF, hL⟩ := hinv
  have htq : t ∈ q.predicates_ := hQ t (List.mem_cons_self _ _)
  obtain ⟨hresL, hresR⟩ := hwf.predsResolved t htq
  have e1 : D ++ [t] ++ R = D ++ t :: R := by simp [List.append_assoc]
  have e2 : (D ++ [t]).length = D.length + 1 := by simp
  have hall1 : ∀ (ps : List PredicateInfo), (∀ x, x ∈ ps ↔ x = t ∨ x ∈ root.preds) →
      ∀ p ∈ q.predicates_, p ∈ ps ∨ p ∈ R := by
    intro ps hps p hp
    rcases hall p hp with h | h
    · exact Or.inl ((hps p).mpr (Or.inr h))
    · rcases List.mem_cons.mp h with rfl | h'
      · exact Or.inl ((hps p).mpr (Or.inl rfl))
      · exact Or.inr h'
  rw [planLoop, e1, e2]
  simp only [getElem?_append_cons]
  by_cases hl : t.left.binding ∈ used
  · by_cases hr : t.right.binding ∈ used
    · -- both sides are in the tree
      refine ⟨used, Op.mkSelfJoin root t, by simp only [analyze_both hl hr], ?_⟩
      refine ⟨Good.selfJoin ⟨hg, SelfJoinInv_init, (hU _).mp hl, (hU _).mp hr, hresL.valid,
        hresR.valid, fun s hs => absurd hs (List.not_mem_nil s)⟩, hU, hB, ?_, ?_, ?_, hF, ?_⟩
      · intro p hp
        simp only [Op.mkSelfJoin, Op.preds, List.mem_cons] at hp
        rcases hp with rfl | hp
        · exact htq
        · exact hP p hp
      · exact fun p hp => hQ p (List.mem_cons_of_mem _ hp)
      · exact hall1 _ (fun x => by simp [Op.mkSelfJoin, Op.preds])
      · intro p hp
        exact Linked.remove t (fun x hx => List.mem_cons.mp hx) hl hr (fun _ hb => hb)
          (hL p (List.mem_cons_of_mem _ hp))
    · -- the tree provides the left side
      obtain ⟨leaf, hscan, hgl, hbl, hpl, hfl⟩ :=
        addScan_spec rels q used t.right hwf.relsWF hresR hwf.filtersResolved hr
      refine ⟨used ++ [t.right.binding], Op.mkJoin root leaf t,
        by simp only [analyze_left hl hr, hscan], ?_⟩
      have hbs : (Op.mkJoin root leaf t).bindings = root.bindings ++ [t.right.binding] := by
        simp [Op.mkJoin, Op.bindings, hbl]
      refine ⟨Good.join ⟨hg, hgl, JoinInv_init, ?_, (hU _).mp hl, by rw [hbl]; simp,
        hresL.valid, hresR.valid, fun s hs => absurd hs (List.not_mem_nil s),
        fun s hs => absurd hs (List.not_mem_nil s)⟩, ?_, ?_, ?_, ?_, ?_, ?_, ?_⟩
      · intro b hb
        rw [hbl]
        simp only [List.mem_singleton]
        rintro rfl
        exact hr ((hU _).mpr hb)
      · intro b
        rw [hbs]
        simp only [List.mem_append, hU b]
      · intro b hb
        rw [hbs] at hb
        rcases List.mem_append.mp hb with h | h
        · exact hB b h
        · exact ⟨t, htq, Or.inr (List.mem_singleton.mp h)⟩
      · intro p hp
        simp only [Op.mkJoin, Op.preds, hpl, List.append_nil, List.mem_cons] at hp
        rcases hp with rfl | hp
        · exact htq
        · exact hP p hp
      · exact fun p hp => hQ p (List.mem_cons_of_mem _ hp)
      · exact hall1 _ (fun x => by simp [Op.mkJoin, Op.preds, hpl])
      · intro f
        rw [hbs]
        simp only [Op.mkJoin, Op.filts, List.mem_append, hF f, hfl f, List.mem_singleton]
        tauto
      · intro p hp
        exact Linked.remove t (fun x hx => List.mem_cons.mp hx)
          (List.mem_append_left _ hl) (List.mem_append_right _ (List.mem_singleton_self _))
          (fun _ hb => List.mem_append_left _ hb) (hL p (List.mem_cons_of_mem _ hp))
  · have hr : t.right.binding ∈ used := by
      rcases ht with h | h
      · exact absurd h hl
      · exact h
    obtain ⟨leaf, hscan, hgl, hbl, hpl, hfl⟩ :=
      addScan_spec rels q used t.left hwf.relsWF hresL hwf.filtersResolved hl
    refine ⟨used ++ [t.left.binding], Op.mkJoin leaf root t,
      by simp only [analyze_right hl hr, hscan], ?_⟩
    have hbs : (Op.mkJoin leaf root t).bindings = [t.left.binding] ++ root.bindings := by
      simp [Op.mkJoin, Op.bindings, hbl]
    refine ⟨Good.join ⟨hgl, hg, JoinInv_init, ?_, by rw [hbl]; simp, (hU _).mp hr,
      hresL.valid, hresR.valid, fun s hs => absurd hs (List.not_mem_nil s),
      fun s hs => absurd hs (List.not_mem_nil s)⟩, ?_, ?_, ?_, ?_, ?_, ?_, ?_⟩
    · intro b hb
      rw [hbl] at hb
      rw [List.mem_singleton.mp hb]
      exact fun h => hl ((hU _).mpr h)
    · intro b
      rw [hbs]
      simp only [List.mem_append, hU b, List.mem_singleton]
      tauto
    · intro b hb
      rw [hbs] at hb
      rcases List.mem_append.mp hb with h | h
      · exact ⟨t, htq, Or.inl (List.mem_singleton.mp h)⟩
      · exact hB b h
    · intro p hp
      simp only [Op.mkJoin, Op.preds, hpl, List.nil_append, List.mem_cons] at hp
      rcases hp with rfl | hp
      · exact htq
      · exact hP p hp
    · exact fun p hp => hQ p (List.mem_cons_of_mem _ hp)
    · exact hall1 _ (fun x => by simp [Op.mkJoin, Op.preds, hpl])
    · intro f
      rw [hbs]
      simp only [Op.mkJoin, Op.filts, List.mem_append, hF f, hfl f, List.mem_singleton]
      tauto
    · intro p hp
      exact Linked.remove t (fun x hx => List.mem_cons.mp hx)
        (List.mem_append_right _ (List.mem_singleton_self _)) (List.mem_append_left _ hr)
        (fun _ hb => List.mem_append_left _ hb) (hL p (List.mem_cons_of_mem _ hp))


/-! ## The planner returns, and what it returns -/

theorem planLoop_spec (rels : List Relation) (q : QueryInfo) (hwf : QueryWF rels q) :
    ∀ (m : Nat) (Q D : List PredicateInfo) (used : List Nat) (root : Op) (fuel : Nat),
      Q.length = m → PlanInv rels q used root Q → m * m ≤ fuel →
      ∃ used1 root1, planLoop rels q fuel (D ++ Q) D.length used root = some root1 ∧
        PlanInv rels q used1 root1 [] := by
  intro m
  induction m with
  | zero =>
    intro Q D used root fuel hlen hinv _
    have hQ : Q = [] := List.length_eq_zero.mp hlen
    subst hQ
    refine ⟨used, root, ?_, hinv⟩
    cases fuel with
    | zero => simp [planLoop]
    | succ f =>
      rw [planLoop]
      have : (D ++ ([] : List PredicateInfo))[D.length]? = none := by
        simp
      simp only [this]
  | succ m ih =>
    intro Q D used root fuel hlen hinv hfuel
    have hex : ∃ p ∈ Q, touches used p := by
      cases Q with
      | nil => cases hlen
      | cons p Q1 =>
        rcases (hinv.2.2.2.2.2.2.2 p (List.mem_cons_self _ _)).exists_touching with h | h
        · exact ⟨p, List.mem_cons_self _ _, Or.inl h⟩
        · exact h
    obtain ⟨N, t, R, hsplit, hN, ht⟩ := exists_first_touching used Q hex
    subst hsplit
    have hlen1 : N.length + R.length = m := by
      simp only [List.length_append, List.length_cons] at hlen
      omega
    have hinv1 : PlanInv rels q used root (t :: (R ++ N)) := by
      refine hinv.congr ?_
      intro p
      simp only [List.mem_cons, List.mem_append]
      tauto
    obtain ⟨f1, hf1⟩ : ∃ f1, fuel = (f1 + 1) + N.length := by
      refine ⟨fuel - 1 - N.length, ?_⟩
      have : (m + 1) * (m + 1) = m * m + 2 * m + 1 := by ring
      omega
    have hf1m : m * m ≤ f1 := by
      have : (m + 1) * (m + 1) = m * m + 2 * m + 1 := by ring
      omega
    have e0 : D ++ (N ++ t :: R) = D ++ N ++ (t :: R) := by simp [List.append_assoc]
    rw [hf1, e0, planLoop_skip rels q used root N D (t :: R) (f1 + 1) hN]
    have e1 : t :: R ++ N = t :: (R ++ N) := rfl
    rw [e1]
    obtain ⟨used1, root1, hstep, hinv2⟩ :=
      planLoop_consume rels q hwf used root t (R ++ N) (D ++ N) f1 hinv1 ht
    rw [hstep]
    exact ih (R ++ N) (D ++ N ++ [t]) used1 root1 f1
      (by simp only [List.length_append]; omega) hinv2 hf1m

theorem mem_joinBindings (q : QueryInfo) (b : Nat) :
    b ∈ q.joinBindings ↔ ∃ p ∈ q.predicates_, b = p.left.binding ∨ b = p.right.binding := by
  simp only [QueryInfo.joinBindings, List.mem_dedup, List.mem_flatMap, List.mem_cons,
    List.mem_singleton, List.not_mem_nil, or_false]

theorem planTree_spec (rels : List Relation) (q : QueryInfo) (hwf : QueryWF rels q)
    (fuel : Nat) (hfuel : q.predicates_.length * q.predicates_.length ≤ fuel) :
    ∃ root, planTree rels fuel q = some root ∧ Good q.rid (q.ctx rels) root ∧
      (∀ b, b ∈ root.bindings ↔ b ∈ q.joinBindings) ∧
      (∀ p, p ∈ root.preds ↔ p ∈ q.predicates_) ∧
      (∀ f, f ∈ root.filts ↔ f ∈ q.filters_) := by
  cases hps : q.predicates_ with
  | nil => exact absurd hps hwf.nonempty
  | cons p0 rest =>
    have hp0 : p0 ∈ q.predicates_ := by rw [hps]; exact List.mem_cons_self _ _
    obtain ⟨hresL, hresR⟩ := hwf.predsResolved p0 hp0
    have hdist := hwf.distinct p0 hp0
    obtain ⟨leafL, hscanL, hgL, hbL, hpL, hfL⟩ :=
      addScan_spec rels q [] p0.left hwf.relsWF hresL hwf.filtersResolved (List.not_mem_nil _)
    obtain ⟨leafR, hscanR, hgR, hbR, hpR, hfR⟩ :=
      addScan_spec rels q ([] ++ [p0.left.binding]) p0.right hwf.relsWF hresR
        hwf.filtersResolved (by simpa using fun h => hdist h.symm)
    have hinv : PlanInv rels q ([] ++ [p0.left.binding] ++ [p0.right.binding])
        (Op.mkJoin leafL leafR p0) rest := by
      have hbs : (Op.mkJoin leafL leafR p0).bindings = [p0.left.binding, p0.right.binding] := by
        simp [Op.mkJoin, Op.bindings, hbL, hbR]
      refine ⟨Good.join ⟨hgL, hgR, JoinInv_init, ?_, by rw [hbL]; simp, by rw [hbR]; simp,
        hresL.valid, hresR.valid, fun s hs => absurd hs (List.not_mem_nil s),
        fun s hs => absurd hs (List.not_mem_nil s)⟩, ?_, ?_, ?_, ?_, ?_, ?_, ?_⟩
      · intro b hb
        rw [hbL] at hb
        rw [hbR, List.mem_singleton.mp hb]
        simpa using hdist
      · intro b
        rw [hbs]
        simp
      · intro b hb
        rw [hbs] at hb
        simp only [List.mem_cons, List.mem_singleton, List.not_mem_nil, or_false] at hb
        exact ⟨p0, hp0, hb⟩
      · intro p hp
        simp only [Op.mkJoin, Op.preds, hpL, hpR, List.append_nil, List.mem_singleton] at hp
        rw [hp]
        exact hp0
      · intro p hp
        rw [hps]
        exact List.mem_cons_of_mem _ hp
      · intro p hp
        rw [hps] at hp
        simp only [Op.mkJoin, Op.preds, hpL, hpR, List.append_nil, List.mem_singleton]
        exact List.mem_cons.mp hp
      · intro f
        rw [hbs]
        simp only [Op.mkJoin, Op.filts, List.mem_append, hfL f, hfR f, List.mem_cons,
          List.mem_singleton, List.not_mem_nil, or_false]
        tauto
      · intro p hp
        have hc := hwf.connected p (by rw [hps]; exact List.mem_cons_of_mem _ hp)
        rw [hps] at hc
        have hfb : q.firstBindings = [p0.left.binding, p0.right.binding] := by
          simp [QueryInfo.firstBindings, hps]
        rw [hfb] at hc
        exact Linked.remove p0 (fun x hx => List.mem_cons.mp hx) (by simp) (by simp)
          (fun b hb => by simpa using hb) hc
    have hlen : rest.length * rest.length ≤ fuel := by
      rw [hps] at hfuel
      simp only [List.length_cons] at hfuel
      have : (rest.length + 1) * (rest.length + 1) = rest.length * rest.length +
          2 * rest.length + 1 := by ring
      omega
    obtain ⟨used1, root1, hloop, hfin⟩ :=
      planLoop_spec rels q hwf rest.length rest [p0] _ _ fuel rfl hinv hlen
    obtain ⟨hg, hU, hB, hP, _, hall, hF, _⟩ := hfin
    refine ⟨root1, ?_, hg, ?_, ?_, ?_⟩
    · have h0 : q.predicates_[0]? = some p0 := by
        rw [hps]; exact List.getElem?_cons_zero
      simp only [planTree, h0, hscanL, hscanR]
      rw [hps]
      exact hloop
    · have hclosed := (Good_closed q.rid (q.ctx rels) root1 hg).1
      intro b
      rw [mem_joinBindings]
      constructor
      · exact hB b
      · rintro ⟨p, hp, hb⟩
        rcases hall p hp with h | h
        · rcases hb with rfl | rfl
          · exact (hclosed p h).1
          · exact (hclosed p h).2
        · cases h
    · intro p
      rw [← hps]
      constructor
      · exact hP p
      · intro hp
        rcases hall p hp with h | h
        · exact h
        · cases h
    · intro f
      rw [hF f]
      constructor
      · exact fun h => h.1
      · intro hf
        refine ⟨hf, ?_⟩
        obtain ⟨p, hp, hb⟩ := (mem_joinBindings q _).mp (hwf.filtersJoined f hf)
        rcases hall p hp with h | h
        · have hclosed := (Good_closed q.rid (q.ctx rels) root1 hg).1 p h
          rcases hb with hb | hb
          · rw [hb]; exact hclosed.1
          · rw [hb]; exact hclosed.2
        · cases h


/-! ## From the planned tree to the output line -/

theorem Good_requireAll (rid : Nat → Nat) (ctx : Nat → Relation) :
    ∀ (ss : List SelectInfo) (op : Op), Good rid ctx op →
      (∀ s ∈ ss, Valid rid ctx s ∧ s.binding ∈ op.bindings) →
      ∃ op1, op.requireAll ss = some op1 ∧ Good rid ctx op1 ∧ op1.bindings = op.bindings ∧
        op1.preds = op.preds ∧ op1.filts = op.filts ∧ (∀ s ∈ ss, op1.Acc s) ∧
        ∀ t, op.Acc t → op1.Acc t := by
  intro ss
  induction ss with
  | nil => intro op hg _; exact ⟨op, rfl, hg, rfl, rfl, rfl, fun s hs => absurd hs (List.not_mem_nil s), fun _ h => h⟩
  | cons s ss ih =>
    intro op hg hss
    obtain ⟨hv, hb⟩ := hss s (List.mem_cons_self _ _)
    obtain ⟨op1, hreq, hg1, hb1, hp1, hf1, hacc, hmono⟩ := (Good_require rid ctx op s hg hv).1 hb
    obtain ⟨op2, hreq2, hg2, hb2, hp2, hf2, hacc2, hmono2⟩ := ih op1 hg1 (fun t ht => by
      rw [hb1]; exact hss t (List.mem_cons_of_mem _ ht))
    refine ⟨op2, ?_, hg2, hb2.trans hb1, hp2.trans hp1, hf2.trans hf1, ?_,
      fun t ht => hmono2 t (hmono t ht)⟩
    · simp only [Op.requireAll, hreq]
      exact hreq2
    · intro t ht
      rcases List.mem_cons.mp ht with rfl | ht
      · exact hmono2 _ hacc
      · exact hacc2 t ht

theorem Sat_congr (ctx : Nat → Relation) {B B1 : List Nat} {P P1 : List PredicateInfo}
    {F F1 : List FilterInfo} (hB : ∀ b, b ∈ B ↔ b ∈ B1) (hP : ∀ p, p ∈ P ↔ p ∈ P1)
    (hF : ∀ f, f ∈ F ↔ f ∈ F1) (a : Asg) : Sat ctx B P F a ↔ Sat ctx B1 P1 F1 a := by
  simp only [Sat, hB, hP, hF]

theorem formatLoop_go (rs n : Nat) :
    ∀ (rest : List Nat) (r i : Nat) (out : String), i + rest.length + 1 = n →
      formatLoop rs n (r :: rest) i out =
        String.intercalate.go (out ++ token rs r) " " (rest.map (token rs)) := by
  intro rest
  induction rest with
  | nil =>
    intro r i out h
    have hi : ¬ i < n - 1 := by simp only [List.length_nil] at h; omega
    simp only [formatLoop, token, hi, if_false, List.map_nil, String.intercalate.go]
  | cons r1 rest ih =>
    intro r i out h
    have hi : i < n - 1 := by simp only [List.length_cons] at h; omega
    rw [formatLoop]
    simp only [hi, if_true]
    rw [ih r1 (i + 1) _ (by simp only [List.length_cons] at h; omega)]
    simp only [List.map_cons, String.intercalate.go, token]

theorem formatLoop_eq (rs : Nat) (results : List Nat) :
    formatLoop rs results.length results 0 "" = String.intercalate " " (results.map (token rs)) := by
  cases results with
  | nil => rfl
  | cons r rest =>
    rw [formatLoop_go rs (r :: rest).length rest r 0 "" (by simp)]
    simp only [List.map_cons, String.intercalate]
    rw [String.empty_append]


/-! ## Enumerating assignments -/

theorem mem_allAsg (ctx : Nat → Relation) :
    ∀ (B : List Nat), B.Nodup → ∀ (a : Asg),
      a ∈ allAsg ctx B ↔ (∀ b ∈ B, a b < (ctx b).size_) ∧ (∀ b, b ∉ B → a b = 0) := by
  intro B
  induction B with
  | nil =>
    intro _ a
    simp only [allAsg, List.mem_singleton, List.not_mem_nil, false_imp_iff, implies_true,
      true_and, not_false_eq_true, true_imp_iff]
    constructor
    · intro h b; rw [h]; rfl
    · intro h; funext b; exact h b
  | cons b B ih =>
    intro hnd a
    obtain ⟨hb, hB⟩ := List.nodup_cons.mp hnd
    simp only [allAsg, List.mem_flatMap, List.mem_map, List.mem_range]
    constructor
    · rintro ⟨a0, ha0, i, hi, rfl⟩
      obtain ⟨h1, h2⟩ := (ih hB a0).mp ha0
      constructor
      · intro x hx
        by_cases hxb : x = b
        · subst hxb; simpa [Asg.set] using hi
        · have : x ∈ B := by
            rcases List.mem_cons.mp hx with h | h
            · exact absurd h hxb
            · exact h
          simpa [Asg.set, hxb] using h1 x this
      · intro x hx
        have hxb : x ≠ b := fun h => hx (h ▸ List.mem_cons_self _ _)
        have hxB : x ∉ B := fun h => hx (List.mem_cons_of_mem _ h)
        simpa [Asg.set, hxb] using h2 x hxB
    · rintro ⟨h1, h2⟩
      refine ⟨a.set b 0, (ih hB _).mpr ⟨?_, ?_⟩, a b, h1 b (List.mem_cons_self _ _), ?_⟩
      · intro x hx
        have hxb : x ≠ b := fun h => hb (h ▸ hx)
        simpa [Asg.set, hxb] using h1 x (List.mem_cons_of_mem _ hx)
      · intro x hx
        by_cases hxb : x = b
        · simp [Asg.set, hxb]
        · have : x ∉ b :: B := by
            intro h
            rcases List.mem_cons.mp h with h | h
            · exact hxb h
            · exact hx h
          simpa [Asg.set, hxb] using h2 x this
      · funext x
        by_cases hxb : x = b
        · simp [Asg.set, hxb]
        · simp [Asg.set, hxb]

theorem nodup_allAsg (ctx : Nat → Relation) :
    ∀ (B : List Nat), B.Nodup → (allAsg ctx B).Nodup := by
  intro B
  induction B with
  | nil => intro _; simp [allAsg]
  | cons b B ih =>
    intro hnd
    obtain ⟨hb, hB⟩ := List.nodup_cons.mp hnd
    simp only [allAsg]
    rw [List.nodup_flatMap]
    constructor
    · intro a _
      refine (List.nodup_range _).map_on ?_
      intro i _ j _ hij
      have := congrFun hij b
      simpa [Asg.set] using this
    · have hp : List.Pairwise (fun a1 a2 : Asg => a1 ≠ a2) (allAsg ctx B) := ih hB
      refine (List.Pairwise.and_mem.mp hp).imp ?_
      rintro a1 a2 ⟨h1, h2, hne⟩
      intro x hx1 hx2
      simp only [List.mem_map, List.mem_range] at hx1 hx2
      obtain ⟨i, _, hi⟩ := hx1
      obtain ⟨j, _, hj⟩ := hx2
      apply hne
      funext y
      by_cases hyb : y = b
      · rw [hyb, ((mem_allAsg ctx B hB a1).mp h1).2 b hb, ((mem_allAsg ctx B hB a2).mp h2).2 b hb]
      · have := congrFun (hi.trans hj.symm) y
        simpa [Asg.set, hyb] using this

theorem mem_satisfying (ctx : Nat → Relation) (B : List Nat) (hB : B.Nodup)
    (P : List PredicateInfo) (F : List FilterInfo) (a : Asg) :
    a ∈ satisfying ctx B P F ↔ Sat ctx B P F a := by
  simp only [satisfying, List.mem_filter, mem_allAsg ctx B hB, holdsAll, Bool.and_eq_true,
    List.all_eq_true, decide_eq_true_eq, Sat]
  tauto

theorem nodup_satisfying (ctx : Nat → Relation) (B : List Nat) (hB : B.Nodup)
    (P : List PredicateInfo) (F : List FilterInfo) : (satisfying ctx B P F).Nodup :=
  (nodup_allAsg ctx B hB).filter _

theorem nodup_joinBindings (q : QueryInfo) : q.joinBindings.Nodup := List.nodup_dedup _


/-! ## The decimal form -/

theorem digit_char (d : Nat) (hd : d < 10) :
    (Char.ofNat (48 + d)).isDigit = true ∧ (Char.ofNat (48 + d)).toNat - 48 = d ∧
    Char.ofNat (48 + d) ≠ ' ' ∧ Char.ofNat (48 + d) ≠ '\n' ∧ Char.ofNat (48 + d) ≠ 'N' := by
  interval_cases d <;> decide

theorem decimalDigits_spec :
    ∀ (fuel n : Nat) (acc : List Char), ∃ ds, decimalDigits fuel n acc = ds ++ acc ∧
      (∀ ch ∈ ds, ∃ d, d < 10 ∧ ch = Char.ofNat (48 + d)) ∧ (fuel ≠ 0 → ds ≠ []) := by
  intro fuel
  induction fuel with
  | zero => intro n acc; exact ⟨[], rfl, fun ch h => absurd h (List.not_mem_nil ch), fun h => absurd rfl h⟩
  | succ fuel ih =>
    intro n acc
    by_cases h : n / 10 = 0
    · refine ⟨[Char.ofNat (48 + n % 10)], by simp [decimalDigits, h], ?_, fun _ => by simp⟩
      intro ch hch
      exact ⟨n % 10, Nat.mod_lt _ (by decide), List.mem_singleton.mp hch⟩
    · obtain ⟨ds, hds, hall, _⟩ := ih (n / 10) (Char.ofNat (48 + n % 10) :: acc)
      refine ⟨ds ++ [Char.ofNat (48 + n % 10)], by simp [decimalDigits, h, hds], ?_,
        fun _ => by simp⟩
      intro ch hch
      rcases List.mem_append.mp hch with h1 | h1
      · exact hall ch h1
      · exact ⟨n % 10, Nat.mod_lt _ (by decide), List.mem_singleton.mp h1⟩

theorem decimalDigits_value :
    ∀ (fuel n : Nat) (acc : List Char), n < fuel →
      (decimalDigits fuel n acc).foldl (fun v ch => 10 * v + (ch.toNat - 48)) 0 =
        acc.foldl (fun v ch => 10 * v + (ch.toNat - 48)) n := by
  intro fuel
  induction fuel with
  | zero => intro n acc h; omega
  | succ fuel ih =>
    intro n acc hn
    have hd := (digit_char (n % 10) (Nat.mod_lt _ (by decide))).2.1
    by_cases h : n / 10 = 0
    · have hn10 : n % 10 = n := by omega
      rw [hn10] at hd
      simp only [decimalDigits, h, if_true, List.foldl_cons, hn10, hd, Nat.mul_zero, Nat.zero_add]
    · have hlt : n / 10 < fuel := by omega
      simp only [decimalDigits, h, if_false]
      rw [ih (n / 10) _ hlt]
      simp only [List.foldl_cons, hd]
      congr 1
      omega

theorem to_string_digits (n : Nat) :
    to_string n ≠ "" ∧ (∀ ch ∈ (to_string n).data, ch.isDigit = true) ∧
    decimalValue (to_string n) = n := by
  obtain ⟨ds, hds, hall, hne⟩ := decimalDigits_spec (n + 1) n []
  refine ⟨?_, ?_, ?_⟩
  · intro h
    have h1 : (to_string n).data = [] := by rw [h]
    simp only [to_string, hds, List.append_nil] at h1
    exact hne (Nat.succ_ne_zero n) h1
  · intro ch hch
    simp only [to_string, hds, List.append_nil] at hch
    obtain ⟨d, hd, rfl⟩ := hall ch hch
    exact (digit_char d hd).1
  · simp only [decimalValue, to_string]
    rw [decimalDigits_value (n + 1) n [] (Nat.lt_succ_self n)]
    rfl

theorem to_string_ne_null (n : Nat) : to_string n ≠ "NULL" := by
  intro h
  have h1 := (to_string_digits n).2.1 'N' (by rw [h]; decide)
  exact absurd h1 (by decide)

theorem to_string_no_sep (n : Nat) :
    ' ' ∉ (to_string n).data ∧ '\n' ∉ (to_string n).data := by
  constructor
  · intro h
    exact absurd ((to_string_digits n).2.1 _ h) (by decide)
  · intro h
    exact absurd ((to_string_digits n).2.1 _ h) (by decide)

/-! ## The whole of `Joiner::join` -/

theorem join_core (ord : HTOrder) (rels : List Relation) (q : QueryInfo) (fuel : Nat)
    (hwf : QueryWF rels q) (hfuel : q.predicates_.length * q.predicates_.length ≤ fuel) :
    ∃ (root root1 root2 : Op) (rows : List Asg),
      planTree rels fuel q = some root ∧ root.requireAll q.selections_ = some root1 ∧
      root1.run ord = some root2 ∧ root2.result_size = rows.length ∧ rows.Nodup ∧
      (∀ a, a ∈ rows ↔ Sat (q.ctx rels) q.joinBindings q.predicates_ q.filters_ a) ∧
      (Checksum.init root q.selections_).run ord = some
        ⟨root2, q.selections_,
          q.selections_.map (fun s => (rows.map (val (q.ctx rels) s)).sum % 2 ^ 64),
          if q.selections_ = [] then 0 else rows.length⟩ ∧
      Joiner.join ord rels fuel q = some (String.intercalate " "
        (q.selections_.map (fun s =>
          token rows.length ((rows.map (val (q.ctx rels) s)).sum % 2 ^ 64))) ++ "\n") := by
  obtain ⟨root, hplan, hg, hB, hP, hF⟩ := planTree_spec rels q hwf fuel hfuel
  obtain ⟨root1, hreq, hg1, hb1, hp1, hf1, hacc, _⟩ :=
    Good_requireAll q.rid (q.ctx rels) q.selections_ root hg (fun s hs =>
      ⟨(hwf.selectionsResolved s hs).valid, (hB _).mpr (hwf.selectionsJoined s hs)⟩)
  obtain ⟨root2, rows, hrun, hsize, hnd, hmem, hcol⟩ :=
    Good_run ord q.rid (q.ctx rels) root1.height root1 (Nat.le_refl _) hg1
  have hmem1 : ∀ a, a ∈ rows ↔ Sat (q.ctx rels) q.joinBindings q.predicates_ q.filters_ a := by
    intro a
    rw [hmem a, hb1, hp1, hf1]
    exact Sat_congr (q.ctx rels) hB hP hF a
  have hcs := Checksum_run_eq ord root q.selections_ root1 root2 hreq hrun (fun s hs =>
    ⟨_, hcol s (hacc s hs), by rw [List.length_map, hsize]⟩)
  have hsums : q.selections_.map (fun s => (root2.columnD s).sum % 2 ^ 64) =
      q.selections_.map (fun s => (rows.map (val (q.ctx rels) s)).sum % 2 ^ 64) := by
    apply List.map_congr_left
    intro s hs
    rw [Op.columnD_of_column (hcol s (hacc s hs))]
  rw [hsums, hsize] at hcs
  refine ⟨root, root1, root2, rows, hplan, hreq, hrun, hsize, hnd, hmem1, hcs, ?_⟩
  simp only [Joiner.join, hplan, hcs]
  rw [formatLoop_eq, List.map_map]
  cases hsel : q.selections_ with
  | nil => rfl
  | cons s ss => simp only [if_false, reduceCtorEq]; rfl


/-! ## The characters of the output line -/

theorem intercalate_go_data (s : String) :
    ∀ (l : List String) (acc : String),
      (String.intercalate.go acc s l).data = acc.data ++ l.flatMap (fun t => s.data ++ t.data) := by
  intro l
  induction l with
  | nil => intro acc; simp [String.intercalate.go]
  | cons a l ih =>
    intro acc
    simp only [String.intercalate.go, ih, String.data_append, List.flatMap_cons,
      List.append_assoc]

theorem count_flatMap_sep (x : Char) (k : Nat) :
    ∀ (l : List String), (∀ t ∈ l, x ∉ t.data) → (" ".data).count x = k →
      (l.flatMap (fun t => " ".data ++ t.data)).count x = k * l.length := by
  intro l
  induction l with
  | nil => intro _ _; simp
  | cons a l ih =>
    intro h hk
    have ha : a.data.count x = 0 := List.count_eq_zero.mpr (h a (List.mem_cons_self _ _))
    rw [List.flatMap_cons, List.count_append, List.count_append, hk, ha,
      ih (fun t ht => h t (List.mem_cons_of_mem _ ht)) hk, List.length_cons]
    ring

theorem line_shape (line : List String)
    (h : ∀ t ∈ line, ' ' ∉ t.data ∧ '\n' ∉ t.data) :
    (String.intercalate " " line ++ "\n").data.getLast? = some '\n' ∧
    (String.intercalate " " line ++ "\n").data.count '\n' = 1 ∧
    (String.intercalate " " line ++ "\n").data.count ' ' = line.length - 1 := by
  have hlast : ∀ (cs : List Char), (cs ++ "\n".data).getLast? = some '\n' := by
    intro cs
    have : "\n".data = ['\n'] := rfl
    rw [this, List.getLast?_append]
    rfl
  refine ⟨by rw [String.data_append]; exact hlast _, ?_, ?_⟩
  · cases line with
    | nil => rfl
    | cons a l =>
      have ha : a.data.count '\n' = 0 :=
        List.count_eq_zero.mpr (h a (List.mem_cons_self _ _)).2
      have hl := count_flatMap_sep '\n' 0 l
        (fun t ht => (h t (List.mem_cons_of_mem _ ht)).2) rfl
      rw [String.data_append, String.intercalate, intercalate_go_data, List.count_append,
        List.count_append, ha, hl]
      have : ("\n".data).count '\n' = 1 := rfl
      rw [this]
      simp
  · cases line with
    | nil => rfl
    | cons a l =>
      have ha : a.data.count ' ' = 0 :=
        List.count_eq_zero.mpr (h a (List.mem_cons_self _ _)).1
      have hl := count_flatMap_sep ' ' 1 l
        (fun t ht => (h t (List.mem_cons_of_mem _ ht)).1) rfl
      rw [String.data_append, String.intercalate, intercalate_go_data, List.count_append,
        List.count_append, ha, hl]
      have : ("\n".data).count ' ' = 0 := rfl
      rw [this]
      simp

theorem token_shape (rs r : Nat) :
    token rs r ≠ "" ∧ ' ' ∉ (token rs r).data ∧ '\n' ∉ (token rs r).data := by
  by_cases h : rs = 0
  · simp only [token, h, if_true]
    decide
  · simp only [token, h, if_false]
    exact ⟨(to_string_digits r).1, (to_string_no_sep r).1, (to_string_no_sep r).2⟩

theorem Example.query_wf : QueryWF Example.rels Example.query := by
  refine ⟨by decide, by decide, by decide, ?_, by decide, by decide, ?_,
    fun f hf => absurd hf (List.not_mem_nil f), ?_⟩
  · intro p hp
    have : p = ⟨⟨0, 0, 0⟩, ⟨1, 1, 0⟩⟩ := by simpa [Example.query] using hp
    subst this
    exact Linked.base _ (by decide)
  · unfold QueryInfo.Resolved; decide
  · unfold QueryInfo.Resolved; decide

theorem Example.emptyQuery_wf : QueryWF Example.rels Example.emptyQuery := by
  refine ⟨by decide, by decide, by decide, ?_, by decide, by decide, ?_, ?_, ?_⟩
  · intro p hp
    have : p = ⟨⟨0, 0, 0⟩, ⟨1, 1, 0⟩⟩ := by simpa [Example.emptyQuery] using hp
    subst this
    exact Linked.base _ (by decide)
  · unfold QueryInfo.Resolved; decide
  · unfold QueryInfo.Resolved; decide
  · unfold QueryInfo.Resolved; decide

theorem Example.crossQuery_wf : QueryWF Example.rels Example.crossQuery := by
  refine ⟨by decide, by decide, by decide, ?_, by decide, by decide, ?_,
    fun f hf => absurd hf (List.not_mem_nil f), ?_⟩
  · intro p hp
    have : p = ⟨⟨0, 0, 0⟩, ⟨1, 1, 0⟩⟩ := by simpa [Example.crossQuery] using hp
    subst this
    exact Linked.base _ (by decide)
  · unfold QueryInfo.Resolved; decide
  · unfold QueryInfo.Resolved; decide


/-! ## Sums do not depend on the enumeration -/

theorem enum_perm {rows1 rows2 : List Asg} (h1 : rows1.Nodup) (h2 : rows2.Nodup)
    (h : ∀ a, a ∈ rows1 ↔ a ∈ rows2) : rows1.Perm rows2 :=
  (List.perm_ext_iff_of_nodup h1 h2).mpr h

theorem enum_sum_eq {rows1 rows2 : List Asg} (h1 : rows1.Nodup) (h2 : rows2.Nodup)
    (h : ∀ a, a ∈ rows1 ↔ a ∈ rows2) (f : Asg → Nat) :
    (rows1.map f).sum = (rows2.map f).sum :=
  ((enum_perm h1 h2 h).map f).sum_eq


/-! ## `require` on any tree -/

theorem Op.require_static :
    ∀ (op : Op) (s : SelectInfo) (b : Bool) (op1 : Op), op.require s = some (b, op1) →
      op1.bindings = op.bindings ∧ (∀ x, op1.relationOf x = op.relationOf x) ∧
      (op.Sound → op1.Sound) := by
  intro op
  induction op with
  | Scan base rel bd =>
    intro s b op1 h
    simp only [Op.require] at h
    split at h
    · cases h; exact ⟨rfl, fun _ => rfl, fun h => h⟩
    · split at h
      · cases h
      · cases h; exact ⟨rfl, fun _ => rfl, fun h => h⟩
  | FilterScan base rel bd fs idata =>
    intro s b op1 h
    simp only [Op.require] at h
    split at h
    · cases h; exact ⟨rfl, fun _ => rfl, fun h => h⟩
    · split at h
      · cases h
      · split at h
        · cases h; exact ⟨rfl, fun _ => rfl, fun h => h⟩
        · cases h; exact ⟨rfl, fun _ => rfl, fun h => h⟩
  | Join base l r p ht req reqL reqR cl cr ihl ihr =>
    intro s b op1 h
    simp only [Op.require] at h
    split at h
    · cases h; exact ⟨rfl, fun _ => rfl, fun h => h⟩
    · split at h
      · cases h
      · rename_i l1 hl
        obtain ⟨e1, e2, e3⟩ := ihl s true l1 hl
        cases h
        exact ⟨by simp only [Op.bindings, e1], fun x => by simp only [Op.relationOf, e2],
          fun hs => ⟨e3 hs.1, hs.2⟩⟩
      · rename_i l1 hl
        obtain ⟨e1, e2, e3⟩ := ihl s false l1 hl
        split at h
        · cases h
        · rename_i r1 hr
          obtain ⟨f1, f2, f3⟩ := ihr s true r1 hr
          cases h
          exact ⟨by simp only [Op.bindings, e1, f1],
            fun x => by simp only [Op.relationOf, e2, f2], fun hs => ⟨e3 hs.1, f3 hs.2⟩⟩
        · rename_i r1 hr
          obtain ⟨f1, f2, f3⟩ := ihr s false r1 hr
          cases h
          exact ⟨by simp only [Op.bindings, e1, f1],
            fun x => by simp only [Op.relationOf, e2, f2], fun hs => ⟨e3 hs.1, f3 hs.2⟩⟩
  | SelfJoin base i p ius idata cd ih =>
    intro s b op1 h
    simp only [Op.require] at h
    split at h
    · cases h; exact ⟨rfl, fun _ => rfl, fun h => h⟩
    · split at h
      · cases h
      · rename_i i1 hi
        obtain ⟨e1, e2, e3⟩ := ih s true i1 hi
        cases h
        exact ⟨by simp only [Op.bindings, e1], fun x => by simp only [Op.relationOf, e2], e3⟩
      · rename_i i1 hi
        obtain ⟨e1, e2, e3⟩ := ih s false i1 hi
        cases h
        exact ⟨by simp only [Op.bindings, e1], fun x => by simp only [Op.relationOf, e2], e3⟩

theorem Op.relationOf_none_iff : ∀ (op : Op) (x : Nat), op.relationOf x = none ↔ x ∉ op.bindings := by
  intro op
  induction op with
  | Scan base rel b => intro x; by_cases h : x = b <;> simp [Op.relationOf, Op.bindings, h]
  | FilterScan base rel b fs idata =>
    intro x; by_cases h : x = b <;> simp [Op.relationOf, Op.bindings, h]
  | Join base l r p ht req reqL reqR cl cr ihl ihr =>
    intro x
    simp only [Op.relationOf, Op.bindings, List.mem_append, not_or, ← ihl x, ← ihr x]
    cases h : l.relationOf x with
    | none => simp
    | some rel => simp
  | SelfJoin base i p ius idata cd ih => intro x; simp only [Op.relationOf, Op.bindings, ih x]

theorem Op.Acc_Seen : ∀ (op : Op) (s : SelectInfo), op.Acc s → op.Seen s := by
  intro op s h
  cases op with
  | Scan base rel b => exact h
  | FilterScan base rel b fs idata => exact h
  | Join base l r p ht req reqL reqR cl cr => exact h
  | SelfJoin base i p ius idata cd =>
    simp only [Op.Acc] at h
    simp only [Op.Seen]
    exact (setCount_iff ius s).mpr (List.mem_map_of_mem _ h)


/-! ## `require` on a leaf, from its result -/

theorem Scan_require_inv (rel : Relation) (bd : Nat) (base : Operator) (s : SelectInfo)
    (b : Bool) (op1 : Op) (hr : (Op.Scan base rel bd).Ready)
    (h : (Op.Scan base rel bd).require s = some (b, op1)) :
    op1.Ready ∧ (b = true ↔ s.binding = bd) ∧ (b = false → op1 = Op.Scan base rel bd) ∧
    (b = true → op1.Acc s) ∧ (∀ t, (Op.Scan base rel bd).Acc t → op1.Acc t) := by
  obtain ⟨hinv, hcols⟩ := hr
  by_cases hb : s.binding = bd
  · cases hcol : rel.columns_[s.col_id]? with
    | none => simp [Op.require, hb, hcol] at h
    | some col =>
      have hc : s.col_id < rel.columns_.length := by
        by_contra hn
        rw [List.getElem?_eq_none (Nat.le_of_not_lt hn)] at hcol
        cases hcol
      obtain ⟨base1, h1, hinv1, _, hacc, hmono, _⟩ := Scan_require_acc rel bd base s hb hc hinv
      have hexp : (Op.Scan base rel bd).require s = some (true, .Scan { base with
          result_columns_ := base.result_columns_ ++ [col]
          select_to_result_col_id_ := base.select_to_result_col_id_.assign s
            ((base.result_columns_ ++ [col]).length - 1) } rel bd) := by
        simp only [Op.require, hb, ne_eq, not_true_eq_false, if_false, hcol]
      have hbase : base1 = { base with
          result_columns_ := base.result_columns_ ++ [col]
          select_to_result_col_id_ := base.select_to_result_col_id_.assign s
            ((base.result_columns_ ++ [col]).length - 1) } := by
        rw [h1] at hexp
        injection hexp with hexp
        injection hexp with _ hexp
        injection hexp
      rw [h1] at h
      cases h
      refine ⟨⟨hinv1, ?_⟩, by simp [hb], fun hf => Bool.noConfusion hf, fun _ => hacc, hmono⟩
      intro c hcm
      rw [hbase] at hcm
      rcases List.mem_append.mp hcm with h2 | h2
      · exact hcols c h2
      · rw [List.mem_singleton.mp h2]
        exact List.getElem?_mem hcol
  · rw [Scan_require_rej rel bd base s hb] at h
    cases h
    exact ⟨⟨hinv, hcols⟩, by simp [hb], fun _ => rfl, fun hf => Bool.noConfusion hf,
      fun _ ht => ht⟩

theorem FilterScan_require_inv (rel : Relation) (bd : Nat) (base : Operator)
    (fs : List FilterInfo) (idata : List Column) (s : SelectInfo)
    (b : Bool) (op1 : Op) (hr : (Op.FilterScan base rel bd fs idata).Ready)
    (h : (Op.FilterScan base rel bd fs idata).require s = some (b, op1)) :
    op1.Ready ∧ (b = true ↔ s.binding = bd) ∧
    (b = false → op1 = Op.FilterScan base rel bd fs idata) ∧
    (b = true → op1.Acc s) ∧ (∀ t, (Op.FilterScan base rel bd fs idata).Acc t → op1.Acc t) := by
  obtain ⟨hinv, hrs⟩ := hr
  by_cases hb : s.binding = bd
  · cases hcol : rel.columns_[s.col_id]? with
    | none => simp [Op.require, hb, hcol] at h
    | some col =>
      have hc : s.col_id < rel.columns_.length := by
        by_contra hn
        rw [List.getElem?_eq_none (Nat.le_of_not_lt hn)] at hcol
        cases hcol
      obtain ⟨base1, idata1, h1, hinv1, hrs1, hacc, hmono, _⟩ :=
        FilterScan_require_acc rel bd base fs idata s hb hc hinv
      rw [h1] at h
      cases h
      exact ⟨⟨hinv1, hrs1.trans hrs⟩, by simp [hb], fun hf => Bool.noConfusion hf,
        fun _ => hacc, hmono⟩
  · rw [FilterScan_require_rej rel bd base fs idata s hb] at h
    cases h
    exact ⟨⟨hinv, hrs⟩, by simp [hb], fun _ => rfl, fun hf => Bool.noConfusion hf,
      fun _ ht => ht⟩

theorem Ready_seen_binding :
    ∀ (op : Op) (s : SelectInfo), op.Ready → op.Seen s → s.binding ∈ op.bindings := by
  intro op
  induction op with
  | Scan base rel b =>
    intro s hr hs
    simp only [Op.Seen] at hs
    cases hm : base.select_to_result_col_id_ s with
    | none => exact absurd hm hs
    | some k => simp [Op.bindings, (hr.1 s k hm).1]
  | FilterScan base rel b fs idata =>
    intro s hr hs
    simp only [Op.Seen] at hs
    cases hm : base.select_to_result_col_id_ s with
    | none => exact absurd hm hs
    | some k => simp [Op.bindings, (hr.1.2.2 s k hm).1]
  | Join base l r p ht req reqL reqR cl cr ihl ihr =>
    intro s hr hs
    obtain ⟨hinv, _, hrl, hrr, haL, haR⟩ := hr
    simp only [Op.Seen] at hs
    rcases List.mem_append.mp ((hinv.2.2.2.2.2.2 s).mp hs) with h | h
    · exact List.mem_append_left _ (ihl s hrl (haL s h))
    · exact List.mem_append_right _ (ihr s hrr (haR s h).1)
  | SelfJoin base i p ius idata cd ih =>
    intro s hr hs
    obtain ⟨_, hri, hius⟩ := hr
    simp only [Op.Seen] at hs
    obtain ⟨y, hy, hk⟩ := List.mem_map.mp ((setCount_iff ius s).mp hs)
    have hyb : y.binding = s.binding := congrArg Prod.fst hk
    have := ih y hri (hius y hy)
    rw [hyb] at this
    exact this


/-! ## `require` on any tree, from its result -/

theorem Ready_require :
    ∀ (op : Op) (s : SelectInfo) (b : Bool) (op1 : Op), op.Ready →
      op.require s = some (b, op1) →
      op1.Ready ∧ (b = true ↔ s.binding ∈ op.bindings) ∧ (b = false → op1 = op) ∧
      (b = true → op1.Seen s) ∧ (∀ t, op.Seen t → op1.Seen t) ∧ (∀ t, op.Acc t → op1.Acc t) ∧
      (b = true → op1.Acc s ∨ op.Seen s) := by
  intro op
  induction op with
  | Scan base rel bd =>
    intro s b op1 hr h
    obtain ⟨h1, h2, h3, h4, h5⟩ := Scan_require_inv rel bd base s b op1 hr h
    refine ⟨h1, by simpa [Op.bindings] using h2, h3, fun hb => Op.Acc_Seen _ _ (h4 hb), ?_, h5,
      fun hb => Or.inl (h4 hb)⟩
    intro t ht
    exact Op.Acc_Seen _ _ (h5 t ht)
  | FilterScan base rel bd fs idata =>
    intro s b op1 hr h
    obtain ⟨h1, h2, h3, h4, h5⟩ := FilterScan_require_inv rel bd base fs idata s b op1 hr h
    refine ⟨h1, by simpa [Op.bindings] using h2, h3, fun hb => Op.Acc_Seen _ _ (h4 hb), ?_, h5,
      fun hb => Or.inl (h4 hb)⟩
    intro t ht
    exact Op.Acc_Seen _ _ (h5 t ht)
  | Join base l r p ht req reqL reqR cl cr ihl ihr =>
    intro s b op1 hr h
    have hr0 := hr
    obtain ⟨hinv, hmap, hrl, hrr, haL, haR⟩ := hr
    by_cases hs : s ∈ req
    · simp only [Op.require, hs, if_true, Option.some.injEq, Prod.mk.injEq] at h
      obtain ⟨rfl, rfl⟩ := h
      exact ⟨hr0, by simpa using Ready_seen_binding _ s hr0 hs, fun hf => Bool.noConfusion hf,
        fun _ => hs, fun _ h => h, fun _ h => h, fun _ => Or.inl hs⟩
    · simp only [Op.require, hs, if_false] at h
      cases hl : l.require s with
      | none => simp [hl] at h
      | some res =>
        obtain ⟨bl, l1⟩ := res
        obtain ⟨g1, g2, g3, g4, g5, _, _⟩ := ihl s bl l1 hrl hl
        have hst := (Op.require_static l s bl l1 hl).1
        cases bl with
        | true =>
          simp only [hl, Option.some.injEq, Prod.mk.injEq] at h
          obtain ⟨rfl, rfl⟩ := h
          refine ⟨⟨JoinInv_addL hinv s hs, hmap, g1, hrr, ?_, ?_⟩, ?_,
            fun hf => Bool.noConfusion hf, fun _ => by simp [Op.Seen], ?_, ?_,
            fun _ => Or.inl (by simp [Op.Acc])⟩
          · intro t ht
            rcases List.mem_append.mp ht with h1 | h1
            · exact g5 t (haL t h1)
            · rw [List.mem_singleton.mp h1]; exact g4 rfl
          · intro t ht
            rw [hst]
            exact haR t ht
          · simp only [Op.bindings, List.mem_append, true_iff]
            exact Or.inl (g2.mp rfl)
          · intro t ht
            simp only [Op.Seen] at ht ⊢
            exact List.mem_append_left _ ht
          · intro t ht
            simp only [Op.Acc] at ht ⊢
            exact List.mem_append_left _ ht
        | false =>
          have hl1 : l1 = l := g3 rfl
          subst hl1
          have hnl : s.binding ∉ l1.bindings := fun hm => Bool.noConfusion (g2.mpr hm)
          simp only [hl] at h
          cases hrq : r.require s with
          | none => simp [hrq] at h
          | some res2 =>
            obtain ⟨br, r1⟩ := res2
            obtain ⟨k1, k2, k3, k4, k5, _, _⟩ := ihr s br r1 hrr hrq
            cases br with
            | true =>
              simp only [hrq, Option.some.injEq, Prod.mk.injEq] at h
              obtain ⟨rfl, rfl⟩ := h
              refine ⟨⟨JoinInv_addR hinv s hs, hmap, hrl, k1, haL, ?_⟩, ?_,
                fun hf => Bool.noConfusion hf, fun _ => by simp [Op.Seen], ?_, ?_,
                fun _ => Or.inl (by simp [Op.Acc])⟩
              · intro t ht
                rcases List.mem_append.mp ht with h1 | h1
                · exact ⟨k5 t (haR t h1).1, (haR t h1).2⟩
                · rw [List.mem_singleton.mp h1]; exact ⟨k4 rfl, hnl⟩
              · simp only [Op.bindings, List.mem_append, true_iff]
                exact Or.inr (k2.mp rfl)
              · intro t ht
                simp only [Op.Seen] at ht ⊢
                exact List.mem_append_left _ ht
              · intro t ht
                simp only [Op.Acc] at ht ⊢
                exact List.mem_append_left _ ht
            | false =>
              have hr1 : r1 = r := k3 rfl
              subst hr1
              simp only [hrq, Option.some.injEq, Prod.mk.injEq] at h
              obtain ⟨rfl, rfl⟩ := h
              have hnr : s.binding ∉ r1.bindings := fun hm => Bool.noConfusion (k2.mpr hm)
              refine ⟨hr0, ?_, fun _ => rfl, fun hf => Bool.noConfusion hf, fun _ h => h,
                fun _ h => h, fun hf => Bool.noConfusion hf⟩
              simp only [Op.bindings, List.mem_append, false_iff, not_or, Bool.false_eq_true]
              exact ⟨hnl, hnr⟩
  | SelfJoin base i p ius idata cd ih =>
    intro s b op1 hr h
    have hr0 := hr
    obtain ⟨hinv, hri, hius⟩ := hr
    by_cases hs : setCount ius s = true
    · simp only [Op.require, hs, if_true, Option.some.injEq, Prod.mk.injEq] at h
      obtain ⟨rfl, rfl⟩ := h
      refine ⟨hr0, by simpa using Ready_seen_binding _ s hr0 hs, fun hf => Bool.noConfusion hf,
        fun _ => hs, fun _ h => h, fun _ h => h, fun _ => Or.inr hs⟩
    · have hs' : setCount ius s = false := by simpa using hs
      simp only [Op.require, hs', Bool.false_eq_true, if_false] at h
      cases hi : i.require s with
      | none => simp [hi] at h
      | some res =>
        obtain ⟨bi, i1⟩ := res
        obtain ⟨g1, g2, g3, g4, g5, _, _⟩ := ih s bi i1 hri hi
        have hperm := setEmplace_perm ius s hs'
        cases bi with
        | true =>
          simp only [hi, Option.some.injEq, Prod.mk.injEq] at h
          obtain ⟨rfl, rfl⟩ := h
          refine ⟨⟨SelfJoinInv_add hinv s hs', g1, ?_⟩, ?_, fun hf => Bool.noConfusion hf,
            fun _ => setCount_setEmplace ius s, ?_, ?_,
            fun _ => Or.inl (hperm.mem_iff.mpr (List.mem_cons_self _ _))⟩
          · intro t ht
            rcases List.mem_cons.mp (hperm.mem_iff.mp ht) with h1 | h1
            · rw [h1]; exact g4 rfl
            · exact g5 t (hius t h1)
          · simp only [Op.bindings, true_iff]
            exact g2.mp rfl
          · intro t ht
            simp only [Op.Seen] at ht ⊢
            rw [setCount_iff] at ht ⊢
            obtain ⟨y, hy, hk⟩ := List.mem_map.mp ht
            exact List.mem_map.mpr ⟨y, hperm.mem_iff.mpr (List.mem_cons_of_mem _ hy), hk⟩
          · intro t ht
            simp only [Op.Acc] at ht ⊢
            exact hperm.mem_iff.mpr (List.mem_cons_of_mem _ ht)
        | false =>
          have hi1 : i1 = i := g3 rfl
          subst hi1
          simp only [hi, Option.some.injEq, Prod.mk.injEq] at h
          obtain ⟨rfl, rfl⟩ := h
          refine ⟨hr0, ?_, fun _ => rfl, fun hf => Bool.noConfusion hf, fun _ h => h,
            fun _ h => h, fun hf => Bool.noConfusion hf⟩
          simp only [Op.bindings, false_iff, Bool.false_eq_true]
          exact fun hm => Bool.noConfusion (g2.mpr hm)

theorem Ready_require_ne_none :
    ∀ (op : Op) (s : SelectInfo), op.Ready → op.InRange s → op.require s ≠ none := by
  intro op
  induction op with
  | Scan base rel bd =>
    intro s _ hin
    by_cases hb : s.binding = bd
    · have hc : s.col_id < rel.columns_.length := by
        simpa [Op.InRange, Op.relationOf, hb] using hin
      simp [Op.require, hb, ne_eq, not_true_eq_false, if_false,
        List.getElem?_eq_getElem hc]
    · rw [Scan_require_rej rel bd base s hb]; exact fun h => Option.noConfusion h
  | FilterScan base rel bd fs idata =>
    intro s _ hin
    by_cases hb : s.binding = bd
    · have hc : s.col_id < rel.columns_.length := by
        simpa [Op.InRange, Op.relationOf, hb] using hin
      cases hm : base.select_to_result_col_id_ s with
      | none =>
        simp [Op.require, hb, ne_eq, not_true_eq_false, if_false,
        List.getElem?_eq_getElem hc, hm]
      | some k =>
        simp [Op.require, hb, ne_eq, not_true_eq_false, if_false,
        List.getElem?_eq_getElem hc, hm]
    · rw [FilterScan_require_rej rel bd base fs idata s hb]; exact fun h => Option.noConfusion h
  | Join base l r p ht req reqL reqR cl cr ihl ihr =>
    intro s hr hin
    obtain ⟨_, _, hrl, hrr, _, _⟩ := hr
    by_cases hs : s ∈ req
    · simp [Op.require, hs, if_true]
    · have hinl : l.InRange s := by
        simp only [Op.InRange, Op.relationOf] at hin ⊢
        cases hrel : l.relationOf s.binding with
        | none => trivial
        | some rel => simpa [hrel] using hin
      obtain ⟨⟨bl, l1⟩, hl⟩ := Option.ne_none_iff_exists'.mp (ihl s hrl hinl)
      cases bl with
      | true =>
        simp [Op.require, hs, if_false, hl]
      | false =>
        have hnl : s.binding ∉ l.bindings := fun hm =>
          Bool.noConfusion ((Ready_require l s false l1 hrl hl).2.1.mpr hm)
        have hrel : l.relationOf s.binding = none := (Op.relationOf_none_iff l _).mpr hnl
        have hinr : r.InRange s := by
          simp only [Op.InRange, Op.relationOf, hrel] at hin ⊢
          exact hin
        obtain ⟨⟨br, r1⟩, hrq⟩ := Option.ne_none_iff_exists'.mp (ihr s hrr hinr)
        cases br with
        | true =>
          simp [Op.require, hs, if_false, hl, hrq]
        | false =>
          simp [Op.require, hs, if_false, hl, hrq]
  | SelfJoin base i p ius idata cd ih =>
    intro s hr hin
    by_cases hs : setCount ius s = true
    · simp [Op.require, hs, if_true]
    · have hs' : setCount ius s = false := by simpa using hs
      obtain ⟨⟨bi, i1⟩, hi⟩ := Option.ne_none_iff_exists'.mp (ih s hr.2.1 hin)
      cases bi with
      | true =>
        simp [Op.require, hs', Bool.false_eq_true, if_false, hi]
      | false =>
        simp [Op.require, hs', Bool.false_eq_true, if_false, hi]

theorem Ready_require_defined (op : Op) (s : SelectInfo) (hr : op.Ready) (hin : op.InRange s) :
    ∃ b op1, op.require s = some (b, op1) := by
  obtain ⟨⟨b, op1⟩, h⟩ := Option.ne_none_iff_exists'.mp (Ready_require_ne_none op s hr hin)
  exact ⟨b, op1, h⟩


/-! ## What a `run` that returned went through -/

theorem Op.runFuel_Join_inv (ord : HTOrder) (n : Nat) (base : Operator) (l r : Op)
    (p : PredicateInfo) (ht : List (Nat × Nat)) (req reqL reqR : List SelectInfo)
    (cl cr : List Column) (j2 : Op)
    (h : Op.runFuel ord (n + 1) (.Join base l r p ht req reqL reqR cl cr) = some j2) :
    ∃ b1 l1 b2 r1 l2 r2, l.require p.left = some (b1, l1) ∧ r.require p.right = some (b2, r1) ∧
      Op.runFuel ord n l1 = some l2 ∧ Op.runFuel ord n r1 = some r2 ∧
      Join.runCore ord base l2 r2 p ht req reqL reqR cl cr = some j2 := by
  rw [Op.runFuel] at h
  cases h1 : l.require p.left with
  | none => simp [h1] at h
  | some pr1 =>
    obtain ⟨b1, l1⟩ := pr1
    simp only [h1] at h
    cases h2 : r.require p.right with
    | none => simp [h2] at h
    | some pr2 =>
      obtain ⟨b2, r1⟩ := pr2
      simp only [h2] at h
      cases h3 : Op.runFuel ord n l1 with
      | none => simp [h3] at h
      | some l2 =>
        simp only [h3] at h
        cases h4 : Op.runFuel ord n r1 with
        | none => simp [h4] at h
        | some r2 =>
          simp only [h4] at h
          exact ⟨b1, l1, b2, r1, l2, r2, rfl, rfl, h3, h4, h⟩

theorem Op.runFuel_SelfJoin_inv (ord : HTOrder) (n : Nat) (base : Operator) (i : Op)
    (p : PredicateInfo) (ius : List SelectInfo) (idata cd : List Column) (sj2 : Op)
    (h : Op.runFuel ord (n + 1) (.SelfJoin base i p ius idata cd) = some sj2) :
    ∃ b1 i1 b2 i2 i3, i.require p.left = some (b1, i1) ∧ i1.require p.right = some (b2, i2) ∧
      Op.runFuel ord n i2 = some i3 ∧ SelfJoin.runCore base i3 p ius cd = some sj2 := by
  rw [Op.runFuel] at h
  cases h1 : i.require p.left with
  | none => simp [h1] at h
  | some pr1 =>
    obtain ⟨b1, i1⟩ := pr1
    simp only [h1] at h
    cases h2 : i1.require p.right with
    | none => simp [h2] at h
    | some pr2 =>
      obtain ⟨b2, i2⟩ := pr2
      simp only [h2] at h
      cases h3 : Op.runFuel ord n i2 with
      | none => simp [h3] at h
      | some i3 =>
        simp only [h3] at h
        exact ⟨b1, i1, b2, i2, i3, rfl, h2, h3, h⟩

theorem Op.runFuel_to_run (ord : HTOrder) :
    ∀ (n : Nat) (op x : Op), Op.runFuel ord n op = some x → op.run ord = some x := by
  intro n
  induction n with
  | zero => intro op x h; simp [Op.runFuel] at h
  | succ n ih =>
    intro op x h
    cases op with
    | Scan base rel bd => simpa [Op.run, Op.height, Op.runFuel] using h
    | FilterScan base rel bd fs idata => simpa [Op.run, Op.height, Op.runFuel] using h
    | Join base l r p ht req reqL reqR cl cr =>
      obtain ⟨b1, l1, b2, r1, l2, r2, h1, h2, h3, h4, h5⟩ :=
        Op.runFuel_Join_inv ord n base l r p ht req reqL reqR cl cr x h
      rw [Op.run_Join ord base l r p ht req reqL reqR cl cr b1 b2 l1 r1 l2 r2 h1 h2
        (ih _ _ h3) (ih _ _ h4)]
      exact h5
    | SelfJoin base i p ius idata cd =>
      obtain ⟨b1, i1, b2, i2, i3, h1, h2, h3, h4⟩ :=
        Op.runFuel_SelfJoin_inv ord n base i p ius idata cd x h
      rw [Op.run_SelfJoin ord base i p ius idata cd b1 b2 i1 i2 i3 h1 h2 (ih _ _ h3)]
      exact h4

theorem Op.run_Join_inv (ord : HTOrder) (base : Operator) (l r : Op)
    (p : PredicateInfo) (ht : List (Nat × Nat)) (req reqL reqR : List SelectInfo)
    (cl cr : List Column) (j2 : Op)
    (h : (Op.Join base l r p ht req reqL reqR cl cr).run ord = some j2) :
    ∃ b1 l1 b2 r1 l2 r2, l.require p.left = some (b1, l1) ∧ r.require p.right = some (b2, r1) ∧
      l1.run ord = some l2 ∧ r1.run ord = some r2 ∧
      Join.runCore ord base l2 r2 p ht req reqL reqR cl cr = some j2 := by
  obtain ⟨b1, l1, b2, r1, l2, r2, h1, h2, h3, h4, h5⟩ :=
    Op.runFuel_Join_inv ord _ base l r p ht req reqL reqR cl cr j2 h
  exact ⟨b1, l1, b2, r1, l2, r2, h1, h2, Op.runFuel_to_run ord _ _ _ h3,
    Op.runFuel_to_run ord _ _ _ h4, h5⟩

theorem Op.run_SelfJoin_inv (ord : HTOrder) (base : Operator) (i : Op)
    (p : PredicateInfo) (ius : List SelectInfo) (idata cd : List Column) (sj2 : Op)
    (h : (Op.SelfJoin base i p ius idata cd).run ord = some sj2) :
    ∃ b1 i1 b2 i2 i3, i.require p.left = some (b1, i1) ∧ i1.require p.right = some (b2, i2) ∧
      i2.run ord = some i3 ∧ SelfJoin.runCore base i3 p ius cd = some sj2 := by
  obtain ⟨b1, i1, b2, i2, i3, h1, h2, h3, h4⟩ :=
    Op.runFuel_SelfJoin_inv ord _ base i p ius idata cd sj2 h
  exact ⟨b1, i1, b2, i2, i3, h1, h2, Op.runFuel_to_run ord _ _ _ h3, h4⟩

theorem resolveCols_inv (child : Op) :
    ∀ (ss : List SelectInfo) (cols : List Column), resolveCols child ss = some cols →
      ∀ s ∈ ss, ∃ col, child.column s = some col := by
  intro ss
  induction ss with
  | nil => intro _ _ s hs; cases hs
  | cons t rest ih =>
    intro cols h s hs
    rw [resolveCols] at h
    cases hr : child.resolve t with
    | none => simp [hr] at h
    | some k =>
      simp only [hr] at h
      cases hg : child.getResults[k]? with
      | none => simp [hg] at h
      | some c =>
        simp only [hg] at h
        cases hrest : resolveCols child rest with
        | none => simp [hrest] at h
        | some cs =>
          rcases List.mem_cons.mp hs with rfl | hs1
          · exact ⟨c, by simp only [Op.column, hr, hg]⟩
          · exact ih cs hrest s hs1

theorem Join_buildProbe_inv (ord : HTOrder) (base : Operator) (left right : Op)
    (p : PredicateInfo) (ht : List (Nat × Nat)) (req reqL reqR : List SelectInfo)
    (cl cr : List Column) (j : Op)
    (h : Join.buildProbe ord base left right p ht req reqL reqR cl cr = some j) :
    (∀ s ∈ p.left :: reqL, ∃ col, left.column s = some col) ∧
    (∀ s ∈ p.right :: reqR, ∃ col, right.column s = some col) := by
  unfold Join.buildProbe at h
  cases hL : resolveCols left reqL with
  | none => simp [hL] at h
  | some newL =>
    simp only [hL] at h
    cases hR : resolveCols right reqR with
    | none => simp [hR] at h
    | some newR =>
      simp only [hR] at h
      cases hpl : left.resolve p.left with
      | none => simp [hpl] at h
      | some kl =>
        cases hpr : right.resolve p.right with
        | none => simp [hpl, hpr] at h
        | some kr =>
          simp only [hpl, hpr] at h
          cases hgl : left.getResults[kl]? with
          | none => simp [hgl] at h
          | some colL =>
            cases hgr : right.getResults[kr]? with
            | none => simp [hgl, hgr] at h
            | some colR =>
              constructor
              · intro s hs
                rcases List.mem_cons.mp hs with rfl | hs1
                · exact ⟨colL, by simp only [Op.column, hpl, hgl]⟩
                · exact resolveCols_inv left reqL newL hL s hs1
              · intro s hs
                rcases List.mem_cons.mp hs with rfl | hs1
                · exact ⟨colR, by simp only [Op.column, hpr, hgr]⟩
                · exact resolveCols_inv right reqR newR hR s hs1

theorem SelfJoin_runCore_inv (base : Operator) (i : Op) (p : PredicateInfo)
    (ius : List SelectInfo) (cd : List Column) (sj : Op)
    (h : SelfJoin.runCore base i p ius cd = some sj) :
    ∀ s ∈ p.left :: p.right :: ius, ∃ col, i.column s = some col := by
  unfold SelfJoin.runCore at h
  cases hI : resolveCols i ius with
  | none => simp [hI] at h
  | some new =>
    simp only [hI] at h
    cases hpl : i.resolve p.left with
    | none => simp [hpl] at h
    | some kl =>
      cases hpr : i.resolve p.right with
      | none => simp [hpl, hpr] at h
      | some kr =>
        simp only [hpl, hpr] at h
        cases hgl : i.getResults[kl]? with
        | none => simp [hgl] at h
        | some colL =>
          cases hgr : i.getResults[kr]? with
          | none => simp [hgl, hgr] at h
          | some colR =>
            intro s hs
            rcases List.mem_cons.mp hs with rfl | hs1
            · exact ⟨colL, by simp only [Op.column, hpl, hgl]⟩
            · rcases List.mem_cons.mp hs1 with rfl | hs2
              · exact ⟨colR, by simp only [Op.column, hpr, hgr]⟩
              · exact resolveCols_inv i ius new hI s hs2


/-! ## `run` on any tree -/

theorem Op.ColumnsFull.root : ∀ {op : Op}, op.ColumnsFull →
    ∀ col ∈ op.getResults, col.length = op.result_size := by
  intro op h
  cases op with
  | Scan base rel b => exact h
  | FilterScan base rel b fs idata => exact h
  | Join base l r p ht req reqL reqR cl cr => exact h.1
  | SelfJoin base i p ius idata cd => exact h.1

theorem Op.ColumnsFull.column {op : Op} (h : op.ColumnsFull) {s : SelectInfo} {col : Column}
    (hc : op.column s = some col) : col.length = op.result_size := by
  obtain ⟨k, _, hk⟩ := Op.column_unfold hc
  exact h.root col (List.getElem?_mem hk)

theorem Op.Exposes.exposes_congr {src src1 : SelectInfo → Column} {op : Op} (h : op.Exposes src)
    (he : ∀ s k, op.resolve s = some k → src s = src1 s) : op.Exposes src1 := by
  intro s k hk
  rw [← he s k hk]
  exact h s k hk

theorem Op.Exposes.exposed_column {src : SelectInfo → Column} {op : Op} (h : op.Exposes src)
    {s : SelectInfo} {col : Column} (hc : op.column s = some col) :
    ∃ ids : List Nat, ids.length = op.result_size ∧ (∀ i ∈ ids, i < (src s).length) ∧
      col = gather (src s) ids := by
  obtain ⟨k, hr, hk⟩ := Op.column_unfold hc
  obtain ⟨ids, h1, h2, h3⟩ := h s k hr
  rw [hk] at h3
  exact ⟨ids, h1, h2, Option.some.inj h3⟩

theorem cellAt_gather (src : Column) (ids : List Nat) (t : Nat) (ht : t < ids.length) :
    cellAt (gather src ids) t = cellAt src (ids.getD t 0) := by
  unfold gather
  rw [cellAt_map (cellAt src) ids t 0, if_pos ht]

theorem getD_mem_nat {ids : List Nat} {t : Nat} (ht : t < ids.length) : ids.getD t 0 ∈ ids := by
  rw [List.getD_eq_getElem _ _ ht]; exact List.getElem_mem _

theorem map_cellAt_gather {α : Type} (src : Column) (ids : List Nat) (sel : List α)
    (f : α → Nat) (h : ∀ x ∈ sel, f x < ids.length) :
    sel.map (fun x => cellAt (gather src ids) (f x)) =
      gather src (sel.map (fun x => ids.getD (f x) 0)) := by
  unfold gather
  rw [List.map_map]
  apply List.map_congr_left
  intro x hx
  have := cellAt_gather src ids (f x) (h x hx)
  unfold gather at this
  simpa using this

theorem Join_buildProbe_spec (ord : HTOrder) (base : Operator) (left right : Op)
    (p : PredicateInfo) (req reqL reqR : List SelectInfo) (j : Op)
    (srcL srcR : SelectInfo → Column)
    (htmp : base.tmp_results_ = (reqL ++ reqR).map (fun _ => []))
    (hrs : base.result_size_ = 0) (hmap : base.select_to_result_col_id_ = ColMap.empty)
    (hnd : (reqL ++ reqR).Nodup)
    (hAl : left.ColumnsFull) (hAr : right.ColumnsFull)
    (hBl : left.Exposes srcL) (hBr : right.Exposes srcR)
    (h : Join.buildProbe ord base left right p [] req reqL reqR [] [] = some j) :
    j.ColumnsFull ∧ j.Exposes (fun s => if s ∈ reqL then srcL s else srcR s) ∧
    (∀ s k, j.resolve s = some k → s ∈ reqL ++ reqR) ∧
    (∀ s ∈ reqL ++ reqR, j.resolve s ≠ none) := by
  obtain ⟨hexL, hexR⟩ := Join_buildProbe_inv ord base left right p [] req reqL reqR [] [] j h
  have hL : ∀ s ∈ p.left :: reqL, ∃ col, left.column s = some col ∧
      col.length = left.result_size := fun s hs => by
    obtain ⟨col, hc⟩ := hexL s hs
    exact ⟨col, hc, hAl.column hc⟩
  have hR : ∀ s ∈ p.right :: reqR, ∃ col, right.column s = some col ∧
      col.length = right.result_size := fun s hs => by
    obtain ⟨col, hc⟩ := hexR s hs
    exact ⟨col, hc, hAr.column hc⟩
  have hclosed := Join_buildProbe_eq ord base left right p req reqL reqR htmp
    (fun s hs => hL s (List.mem_cons_of_mem _ hs)) (fun s hs => hR s (List.mem_cons_of_mem _ hs))
    (hL _ (List.mem_cons_self _ _)) (hR _ (List.mem_cons_self _ _))
  rw [hclosed] at h
  have hj := (Option.some.inj h).symm
  have hndL : reqL.Nodup := (List.nodup_append.mp hnd).1
  have hndR : reqR.Nodup := (List.nodup_append.mp hnd).2.1
  have hdisj := (List.nodup_append.mp hnd).2.2
  obtain ⟨hcL, hcR⟩ := Join_result_column base.select_to_result_col_id_ base.result_columns_
    (base.result_size_ + (probePairs ord (left.columnD p.left) (right.columnD p.right)
      left.result_size right.result_size).length) left right p
    (buildTable (left.columnD p.left) left.result_size) req reqL reqR
    (reqL.map left.columnD) (reqR.map right.columnD)
    (fun s => (probePairs ord (left.columnD p.left) (right.columnD p.right)
      left.result_size right.result_size).map (fun pr => cellAt (left.columnD s) pr.1))
    (fun s => (probePairs ord (left.columnD p.left) (right.columnD p.right)
      left.result_size right.result_size).map (fun pr => cellAt (right.columnD s) pr.2)) hnd
  rw [← hj] at hcL hcR
  have hsize : j.result_size = (probePairs ord (left.columnD p.left) (right.columnD p.right)
      left.result_size right.result_size).length := by
    rw [hj]; simp [Op.result_size, Op.base, hrs]
  have hkeys : ∀ s k, j.resolve s = some k → s ∈ reqL ++ reqR := by
    intro s k hk
    rw [hj] at hk
    simp only [Op.resolve, Op.base] at hk
    rw [assignCols_eq _ _ _ _ hndR, assignCols_eq _ _ _ _ hndL, hmap] at hk
    by_cases h1 : s ∈ reqR
    · exact List.mem_append_right _ h1
    · by_cases h2 : s ∈ reqL
      · exact List.mem_append_left _ h2
      · simp [h1, h2, ColMap.empty] at hk
  refine ⟨?_, ?_, hkeys, ?_⟩
  · rw [hj]
    refine ⟨?_, hAl, hAr⟩
    intro col hc
    simp only [Op.getResults, Op.base, Op.result_size, hrs, Nat.zero_add, List.mem_append,
      List.mem_map] at hc ⊢
    rcases hc with ⟨s, _, rfl⟩ | ⟨s, _, rfl⟩
    · simp
    · simp
  · intro s k hk
    rcases List.mem_append.mp (hkeys s k hk) with hs | hs
    · obtain ⟨k1, hk1, hg⟩ := Op.column_unfold (hcL s hs)
      rw [hk] at hk1
      obtain ⟨col, hc, _⟩ := hL s (List.mem_cons_of_mem _ hs)
      obtain ⟨ids, hi1, hi2, hi3⟩ := hBl.exposed_column hc
      have hD : left.columnD s = gather (srcL s) ids := by
        rw [Op.columnD_of_column hc, hi3]
      refine ⟨(probePairs ord (left.columnD p.left) (right.columnD p.right)
        left.result_size right.result_size).map (fun pr => ids.getD pr.1 0), ?_, ?_, ?_⟩
      · rw [List.length_map, hsize]
      · intro i hi
        obtain ⟨pr, hpr, rfl⟩ := List.mem_map.mp hi
        have hlt : pr.1 < ids.length := by
          rw [hi1]; exact ((mem_probePairs ord _ _ _ _ pr).mp hpr).1
        simp only [if_pos hs]
        exact hi2 _ (getD_mem_nat hlt)
      · rw [Option.some.inj hk1, hg]
        simp only [if_pos hs, hD]
        congr 1
        exact map_cellAt_gather (srcL s) ids _ (fun pr : Nat × Nat => pr.1) (fun pr hpr => by
          rw [hi1]; exact ((mem_probePairs ord _ _ _ _ pr).mp hpr).1)
    · have hnl : s ∉ reqL := fun h1 => hdisj h1 hs
      obtain ⟨k1, hk1, hg⟩ := Op.column_unfold (hcR s hs)
      rw [hk] at hk1
      obtain ⟨col, hc, _⟩ := hR s (List.mem_cons_of_mem _ hs)
      obtain ⟨ids, hi1, hi2, hi3⟩ := hBr.exposed_column hc
      have hD : right.columnD s = gather (srcR s) ids := by
        rw [Op.columnD_of_column hc, hi3]
      refine ⟨(probePairs ord (left.columnD p.left) (right.columnD p.right)
        left.result_size right.result_size).map (fun pr => ids.getD pr.2 0), ?_, ?_, ?_⟩
      · rw [List.length_map, hsize]
      · intro i hi
        obtain ⟨pr, hpr, rfl⟩ := List.mem_map.mp hi
        have hlt : pr.2 < ids.length := by
          rw [hi1]; exact ((mem_probePairs ord _ _ _ _ pr).mp hpr).2.1
        simp only [if_neg hnl]
        exact hi2 _ (getD_mem_nat hlt)
      · rw [Option.some.inj hk1, hg]
        simp only [if_neg hnl, hD]
        congr 1
        exact map_cellAt_gather (srcR s) ids _ (fun pr : Nat × Nat => pr.2) (fun pr hpr => by
          rw [hi1]; exact ((mem_probePairs ord _ _ _ _ pr).mp hpr).2.1)
  · intro s hs
    rcases List.mem_append.mp hs with h1 | h1
    · obtain ⟨k1, hk1, _⟩ := Op.column_unfold (hcL s h1)
      rw [hk1]; exact fun hn => Option.noConfusion hn
    · obtain ⟨k1, hk1, _⟩ := Op.column_unfold (hcR s h1)
      rw [hk1]; exact fun hn => Option.noConfusion hn


/-! ## `run` on any tree: the `SelfJoin` and the whole tree -/

theorem SelfJoin_runCore_spec (base : Operator) (i : Op) (p : PredicateInfo)
    (ius : List SelectInfo) (sj : Op) (src : SelectInfo → Column)
    (htmp : base.tmp_results_ = ius.map (fun _ => []))
    (hrs : base.result_size_ = 0) (hmap : base.select_to_result_col_id_ = ColMap.empty)
    (hAi : i.ColumnsFull) (hBi : i.Exposes src)
    (h : SelfJoin.runCore base i p ius [] = some sj) :
    sj.ColumnsFull ∧ sj.Exposes src ∧ (∀ s k, sj.resolve s = some k → s ∈ ius) ∧
    (∀ s ∈ ius, sj.resolve s ≠ none) := by
  have hex := SelfJoin_runCore_inv base i p ius [] sj h
  have hI : ∀ s ∈ p.left :: p.right :: ius, ∃ col, i.column s = some col ∧
      col.length = i.result_size := fun s hs => by
    obtain ⟨col, hc⟩ := hex s hs
    exact ⟨col, hc, hAi.column hc⟩
  have hclosed := SelfJoin_runCore_eq base i p ius htmp
    (fun s hs => hI s (List.mem_cons_of_mem _ (List.mem_cons_of_mem _ hs)))
    (hI _ (List.mem_cons_self _ _)) (hI _ (List.mem_cons_of_mem _ (List.mem_cons_self _ _)))
  rw [hclosed] at h
  have hj := (Option.some.inj h).symm
  have hkeys : ∀ s k, sj.resolve s = some k → s ∈ ius ∧ k = ius.indexOf s := by
    intro s k hk
    rw [hj] at hk
    simp only [Op.resolve, Op.base] at hk
    rw [emplaceCols_eq, hmap] at hk
    by_cases h1 : s ∈ ius
    · simp only [ColMap.empty, if_pos h1, Nat.zero_add, Option.some.injEq] at hk
      exact ⟨h1, hk.symm⟩
    · simp [ColMap.empty, h1] at hk
  have hsize : sj.result_size = ((List.range i.result_size).filter
      (fun t => decide (cellAt (i.columnD p.left) t = cellAt (i.columnD p.right) t))).length := by
    rw [hj]; simp [Op.result_size, Op.base, hrs]
  refine ⟨?_, ?_, fun s k hk => (hkeys s k hk).1, ?_⟩
  · rw [hj]
    refine ⟨?_, hAi⟩
    intro col hc
    simp only [Op.getResults, Op.base, Op.result_size, hrs, Nat.zero_add, List.mem_map] at hc ⊢
    obtain ⟨s, _, rfl⟩ := hc
    exact gather_length _ _
  · intro s k hk
    obtain ⟨hs, hkidx⟩ := hkeys s k hk
    obtain ⟨col, hc, _⟩ := hI s (List.mem_cons_of_mem _ (List.mem_cons_of_mem _ hs))
    obtain ⟨ids, hi1, hi2, hi3⟩ := hBi.exposed_column hc
    have hD : i.columnD s = gather (src s) ids := by rw [Op.columnD_of_column hc, hi3]
    have hlt : ∀ t ∈ (List.range i.result_size).filter
        (fun t => decide (cellAt (i.columnD p.left) t = cellAt (i.columnD p.right) t)),
        t < ids.length := by
      intro t ht
      rw [hi1]
      exact List.mem_range.mp (List.mem_filter.mp ht).1
    refine ⟨((List.range i.result_size).filter
      (fun t => decide (cellAt (i.columnD p.left) t = cellAt (i.columnD p.right) t))).map
        (fun t => ids.getD t 0), ?_, ?_, ?_⟩
    · rw [List.length_map, hsize]
    · intro x hx
      obtain ⟨t, ht, rfl⟩ := List.mem_map.mp hx
      exact hi2 _ (getD_mem_nat (hlt t ht))
    · rw [hkidx, hj]
      simp only [Op.getResults, Op.base]
      rw [getElem?_map_indexOf ius _ s hs, hD]
      congr 1
      exact map_cellAt_gather (src s) ids _ (fun t : Nat => t) hlt
  · intro s hs
    rw [hj]
    simp only [Op.resolve, Op.base]
    rw [emplaceCols_eq, hmap]
    simp [ColMap.empty, hs]

theorem Op.sourceColumn_require (op : Op) (s : SelectInfo) (b : Bool) (op1 : Op)
    (h : op.require s = some (b, op1)) : op1.sourceColumn = op.sourceColumn := by
  funext t
  simp only [Op.sourceColumn, (Op.require_static op s b op1 h).2.1]

theorem Join_source_left (base : Operator) (l r : Op) (p : PredicateInfo)
    (ht : List (Nat × Nat)) (req reqL reqR : List SelectInfo) (cl cr : List Column)
    (s : SelectInfo) (hb : s.binding ∈ l.bindings) :
    (Op.Join base l r p ht req reqL reqR cl cr).sourceColumn s = l.sourceColumn s := by
  simp only [Op.sourceColumn, Op.relationOf]
  cases hrel : l.relationOf s.binding with
  | none => exact absurd hb ((Op.relationOf_none_iff l _).mp hrel)
  | some rel => rfl

theorem Join_source_right (base : Operator) (l r : Op) (p : PredicateInfo)
    (ht : List (Nat × Nat)) (req reqL reqR : List SelectInfo) (cl cr : List Column)
    (s : SelectInfo) (hb : s.binding ∉ l.bindings) :
    (Op.Join base l r p ht req reqL reqR cl cr).sourceColumn s = r.sourceColumn s := by
  simp only [Op.sourceColumn, Op.relationOf, (Op.relationOf_none_iff l _).mpr hb]


/-! ## `run` on any tree: the induction -/

theorem Ready_run (ord : HTOrder) :
    ∀ (n : Nat) (op : Op), op.height ≤ n → op.Ready → op.Sound →
      ∀ op2, op.run ord = some op2 →
        op2.ColumnsFull ∧ op2.Exposes op.sourceColumn ∧ (∀ s, op.Acc s → op2.resolve s ≠ none) := by
  intro n
  induction n with
  | zero =>
    intro op hn
    have := Op.height_pos op
    omega
  | succ n ih =>
    intro op hn hr hs op2 hrun
    cases op with
    | Scan base rel b =>
      obtain ⟨hinv, hcols⟩ := hr
      simp only [Op.run, Op.height, Op.runFuel, Option.some.injEq] at hrun
      subst hrun
      refine ⟨?_, ?_, ?_⟩
      · intro col hc
        simp only [Op.getResults] at hc
        simp only [Op.result_size, Op.base]
        exact hs col (hcols col hc)
      · intro s k hk
        simp only [Op.resolve, Op.base] at hk
        obtain ⟨hb, col, h1, h2⟩ := hinv s k hk
        have hsrc : (Op.Scan base rel b).sourceColumn s = col := by
          simp only [Op.sourceColumn, Op.relationOf, hb, if_true]
          have hlt : s.col_id < rel.columns_.length := by
            by_contra hcon
            rw [List.getElem?_eq_none (Nat.le_of_not_lt hcon)] at h1
            cases h1
          rw [List.getD_eq_getElem _ _ hlt]
          rw [List.getElem?_eq_getElem hlt] at h1
          exact Option.some.inj h1
        have hlen : col.length = rel.size_ := hs col (List.getElem?_mem h1)
        refine ⟨List.range rel.size_, by simp [Op.result_size, Op.base], ?_, ?_⟩
        · intro i hi
          rw [hsrc, hlen]
          exact List.mem_range.mp hi
        · simp only [Op.getResults]
          rw [h2, hsrc, ← hlen, gather_range]
      · intro s ha
        exact ha
    | FilterScan base rel b fs idata =>
      obtain ⟨hinv, hrs⟩ := hr
      obtain ⟨hwf, hfs⟩ := hs
      rw [FilterScan_run_eq ord rel b base fs idata hwf hfs hinv] at hrun
      have hj := (Option.some.inj hrun).symm
      subst hj
      refine ⟨?_, ?_, ?_⟩
      · intro col hc
        simp only [Op.getResults, Op.base, List.mem_map] at hc
        obtain ⟨c0, _, rfl⟩ := hc
        simp [Op.result_size, Op.base, hrs, gather_length]
      · intro s k hk
        simp only [Op.resolve, Op.base] at hk
        obtain ⟨hb, col, h1, h2⟩ := hinv.2.2 s k hk
        have hsrc : (Op.FilterScan base rel b fs idata).sourceColumn s = col := by
          simp only [Op.sourceColumn, Op.relationOf, hb, if_true]
          have hlt : s.col_id < rel.columns_.length := by
            by_contra hcon
            rw [List.getElem?_eq_none (Nat.le_of_not_lt hcon)] at h1
            cases h1
          rw [List.getD_eq_getElem _ _ hlt]
          rw [List.getElem?_eq_getElem hlt] at h1
          exact Option.some.inj h1
        have hlen : col.length = rel.size_ := hwf col (List.getElem?_mem h1)
        refine ⟨passingRows rel fs, by simp [Op.result_size, Op.base, hrs], ?_, ?_⟩
        · intro i hi
          rw [hsrc, hlen]
          exact List.mem_range.mp (List.mem_filter.mp hi).1
        · simp only [Op.getResults, Op.base, List.getElem?_map, h2, Option.map_some']
          rw [hsrc]
      · intro s ha
        exact ha
    | Join base l r p ht req reqL reqR cl cr =>
      have hr0 := hr
      obtain ⟨hinv, hmap, hrl, hrr, haL, haR⟩ := hr
      obtain ⟨hsl, hsr⟩ := hs
      obtain ⟨htmp, hrs, rfl, rfl, rfl, hnd, hreq⟩ := hinv
      obtain ⟨b1, l1, b2, r1, l2, r2, h1, h2, h3, h4, h5⟩ :=
        Op.run_Join_inv ord base l r p [] req reqL reqR [] [] op2 hrun
      have hhl : l1.height ≤ n := by
        rw [Op.require_height _ _ _ _ h1]
        simp only [Op.height] at hn
        omega
      have hhr : r1.height ≤ n := by
        rw [Op.require_height _ _ _ _ h2]
        simp only [Op.height] at hn
        omega
      obtain ⟨hAl, hBl, _⟩ := ih l1 hhl (Ready_require l p.left b1 l1 hrl h1).1
        ((Op.require_static l p.left b1 l1 h1).2.2 hsl) l2 h3
      obtain ⟨hAr, hBr, _⟩ := ih r1 hhr (Ready_require r p.right b2 r1 hrr h2).1
        ((Op.require_static r p.right b2 r1 h2).2.2 hsr) r2 h4
      rw [Op.sourceColumn_require l p.left b1 l1 h1] at hBl
      rw [Op.sourceColumn_require r p.right b2 r1 h2] at hBr
      have hsrcL : ∀ s ∈ reqL, l.sourceColumn s =
          (Op.Join base l r p [] req reqL reqR [] []).sourceColumn s := fun s hm =>
        (Join_source_left base l r p [] req reqL reqR [] [] s
          (Ready_seen_binding l s hrl (haL s hm))).symm
      have hsrcR : ∀ s ∈ reqR, r.sourceColumn s =
          (Op.Join base l r p [] req reqL reqR [] []).sourceColumn s := fun s hm =>
        (Join_source_right base l r p [] req reqL reqR [] [] s (haR s hm).2).symm
      have hdisj := (List.nodup_append.mp hnd).2.2
      unfold Join.runCore at h5
      by_cases hsw : l2.result_size > r2.result_size
      · rw [if_pos hsw] at h5
        have htmp1 : base.tmp_results_ = (reqR ++ reqL).map (fun _ => ([] : Column)) := by
          rw [htmp]; simp; omega
        have hnd1 : (reqR ++ reqL).Nodup := (List.perm_append_comm.nodup_iff).mp hnd
        obtain ⟨g1, g2, g3, g4⟩ := Join_buildProbe_spec ord base r2 l2 ⟨p.right, p.left⟩ req
          reqR reqL op2 r.sourceColumn l.sourceColumn htmp1 hrs hmap hnd1 hAr hAl hBr hBl h5
        refine ⟨g1, g2.exposes_congr ?_, ?_⟩
        · intro s k hk
          rcases List.mem_append.mp (g3 s k hk) with hm | hm
          · simp only [if_pos hm]; exact hsrcR s hm
          · have hnr : s ∉ reqR := fun hm1 => hdisj hm hm1
            simp only [if_neg hnr]; exact hsrcL s hm
        · intro s ha
          simp only [Op.Acc] at ha
          exact g4 s (List.perm_append_comm.mem_iff.mp ((hreq s).mp ha))
      · rw [if_neg hsw] at h5
        obtain ⟨g1, g2, g3, g4⟩ := Join_buildProbe_spec ord base l2 r2 p req
          reqL reqR op2 l.sourceColumn r.sourceColumn htmp hrs hmap hnd hAl hAr hBl hBr h5
        refine ⟨g1, g2.exposes_congr ?_, ?_⟩
        · intro s k hk
          rcases List.mem_append.mp (g3 s k hk) with hm | hm
          · simp only [if_pos hm]; exact hsrcL s hm
          · have hnl : s ∉ reqL := fun hm1 => hdisj hm1 hm
            simp only [if_neg hnl]; exact hsrcR s hm
        · intro s ha
          simp only [Op.Acc] at ha
          exact g4 s ((hreq s).mp ha)
    | SelfJoin base i p ius idata cd =>
      obtain ⟨hinv, hri, hius⟩ := hr
      obtain ⟨htmp, hrs, rfl, hmap, _⟩ := hinv
      obtain ⟨b1, i1, b2, i2, i3, h1, h2, h3, h4⟩ :=
        Op.run_SelfJoin_inv ord base i p ius idata [] op2 hrun
      have hh : i2.height ≤ n := by
        rw [Op.require_height _ _ _ _ h2, Op.require_height _ _ _ _ h1]
        simp only [Op.height] at hn
        omega
      have hri1 := (Ready_require i p.left b1 i1 hri h1).1
      obtain ⟨hAi, hBi, _⟩ := ih i2 hh (Ready_require i1 p.right b2 i2 hri1 h2).1
        ((Op.require_static i1 p.right b2 i2 h2).2.2
          ((Op.require_static i p.left b1 i1 h1).2.2 hs)) i3 h3
      rw [Op.sourceColumn_require i1 p.right b2 i2 h2,
        Op.sourceColumn_require i p.left b1 i1 h1] at hBi
      obtain ⟨g1, g2, _, g4⟩ := SelfJoin_runCore_spec base i3 p ius op2 i.sourceColumn
        htmp hrs hmap hAi hBi h4
      refine ⟨g1, g2.exposes_congr ?_, ?_⟩
      · intro s k _
        simp only [Op.sourceColumn, Op.relationOf]
      · intro s ha
        exact g4 s ha


/-! ## Counting output rows -/

theorem Join_copy2Result_count (cl cr : List Column) (i j : Nat) (st st1 : List Column × Nat)
    (h : Join.copy2Result cl cr i j st = some st1) : st1.2 = st.2 + 1 := by
  obtain ⟨tmp, rs⟩ := st
  simp only [Join.copy2Result] at h
  cases h1 : pushCols cl i 0 tmp with
  | none => simp [h1] at h
  | some tmp1 =>
    simp only [h1] at h
    cases h2 : pushCols cr j cl.length tmp1 with
    | none => simp [h2] at h
    | some tmp2 =>
      simp only [h2, Option.some.injEq] at h
      rw [← h]

theorem Join_copyRange_count (cl cr : List Column) (j : Nat) :
    ∀ (ids : List Nat) (st st1 : List Column × Nat),
      Join.copyRange cl cr j ids st = some st1 → st1.2 = st.2 + ids.length := by
  intro ids
  induction ids with
  | nil => intro st st1 h; simp only [Join.copyRange, Option.some.injEq] at h; rw [← h]; rfl
  | cons i is ih =>
    intro st st1 h
    rw [Join.copyRange] at h
    cases h1 : Join.copy2Result cl cr i j st with
    | none => simp [h1] at h
    | some st2 =>
      simp only [h1] at h
      rw [ih st2 st1 h, Join_copy2Result_count cl cr i j st st2 h1, List.length_cons]
      omega

theorem equal_range_length_le (ord : HTOrder) (ht : List (Nat × Nat)) (key : Nat) :
    (ord.equal_range ht key).length ≤ ht.length := by
  rw [(ord.perm ht key).length_eq]
  unfold matchingRows
  rw [List.length_map]
  exact List.length_filter_le _ _

theorem Join_probe_count (ord : HTOrder) (ht : List (Nat × Nat)) (key : Column)
    (cl cr : List Column) :
    ∀ (rows : List Nat) (st st1 : List Column × Nat),
      Join.probe ord ht key cl cr rows st = some st1 →
        st1.2 ≤ st.2 + rows.length * ht.length := by
  intro rows
  induction rows with
  | nil => intro st st1 h; simp only [Join.probe, Option.some.injEq] at h; rw [← h]; simp
  | cons i is ih =>
    intro st st1 h
    rw [Join.probe] at h
    cases hk : key[i]? with
    | none => simp [hk] at h
    | some rightKey =>
      simp only [hk] at h
      cases hc : Join.copyRange cl cr i (ord.equal_range ht rightKey) st with
      | none => simp [hc] at h
      | some st2 =>
        simp only [hc] at h
        have h1 := ih st2 st1 h
        have h2 := Join_copyRange_count cl cr i _ st st2 hc
        have h3 := equal_range_length_le ord ht rightKey
        rw [List.length_cons, Nat.succ_mul]
        omega

theorem Join_build_length (key : Column) :
    ∀ (rows : List Nat) (ht ht1 : List (Nat × Nat)), Join.build key rows ht = some ht1 →
      ht1.length = ht.length + rows.length := by
  intro rows
  induction rows with
  | nil => intro ht ht1 h; simp only [Join.build, Option.some.injEq] at h; rw [← h]; rfl
  | cons i is ih =>
    intro ht ht1 h
    rw [Join.build] at h
    cases hk : key[i]? with
    | none => simp [hk] at h
    | some k =>
      simp only [hk] at h
      rw [ih _ _ h]
      simp only [List.length_append, List.length_cons, List.length_nil]
      omega

theorem Join_buildProbe_count (ord : HTOrder) (base : Operator) (left right : Op)
    (p : PredicateInfo) (req reqL reqR : List SelectInfo) (cl cr : List Column) (j : Op)
    (hrs : base.result_size_ = 0)
    (h : Join.buildProbe ord base left right p [] req reqL reqR cl cr = some j) :
    j.inputSize = left.result_size * right.result_size ∧ j.result_size ≤ j.inputSize := by
  unfold Join.buildProbe at h
  cases hL : resolveCols left reqL with
  | none => simp [hL] at h
  | some newL =>
    simp only [hL] at h
    cases hR : resolveCols right reqR with
    | none => simp [hR] at h
    | some newR =>
      simp only [hR] at h
      cases hpl : left.resolve p.left with
      | none => simp [hpl] at h
      | some kl =>
        cases hpr : right.resolve p.right with
        | none => simp [hpl, hpr] at h
        | some kr =>
          simp only [hpl, hpr] at h
          cases hgl : left.getResults[kl]? with
          | none => simp [hgl] at h
          | some colL =>
            cases hgr : right.getResults[kr]? with
            | none => simp [hgl, hgr] at h
            | some colR =>
              simp only [hgl, hgr] at h
              cases hb : Join.build colL (List.range left.result_size) [] with
              | none => simp [hb] at h
              | some ht1 =>
                simp only [hb] at h
                cases hp : Join.probe ord ht1 colR (cl ++ newL) (cr ++ newR)
                    (List.range right.result_size) (base.tmp_results_, base.result_size_) with
                | none => simp [hp] at h
                | some st =>
                  obtain ⟨tmp, rs⟩ := st
                  simp only [hp, Option.some.injEq] at h
                  subst h
                  have h1 := Join_probe_count ord ht1 colR _ _ _ _ _ hp
                  have h2 := Join_build_length colL _ _ _ hb
                  simp only [List.length_range, List.length_nil, Nat.zero_add, hrs] at h1 h2
                  refine ⟨rfl, ?_⟩
                  simp only [Op.inputSize, Op.result_size, Op.base]
                  rw [h2] at h1
                  rw [Nat.mul_comm]
                  exact h1

theorem SelfJoin_loop_count (left_col right_col : Column) (copy_data : List Column) :
    ∀ (rows : List Nat) (st st1 : List Column × Nat),
      SelfJoin.loop left_col right_col copy_data rows st = some st1 →
        st1.2 ≤ st.2 + rows.length := by
  intro rows
  induction rows with
  | nil => intro st st1 h; simp only [SelfJoin.loop, Option.some.injEq] at h; rw [← h]; simp
  | cons i is ih =>
    intro st st1 h
    obtain ⟨tmp, rs⟩ := st
    rw [SelfJoin.loop] at h
    cases ha : left_col[i]? with
    | none => simp [ha] at h
    | some a =>
      cases hb : right_col[i]? with
      | none => simp [ha, hb] at h
      | some b =>
        simp only [ha, hb] at h
        by_cases hab : a = b
        · simp only [hab, if_true] at h
          cases hp : pushCols copy_data i 0 tmp with
          | none => simp [hp] at h
          | some tmp1 =>
            simp only [hp] at h
            have := ih _ _ h
            simp only [List.length_cons] at this ⊢
            omega
        · simp only [hab, if_false] at h
          have := ih _ _ h
          simp only [List.length_cons] at this ⊢
          omega

theorem FilterScan_loop_count (rel : Relation) (fs : List FilterInfo) (input_data : List Column) :
    ∀ (rows : List Nat) (st st1 : List Column × Nat),
      FilterScan.loop rel fs input_data rows st = some st1 → st1.2 ≤ st.2 + rows.length := by
  intro rows
  induction rows with
  | nil => intro st st1 h; simp only [FilterScan.loop, Option.some.injEq] at h; rw [← h]; simp
  | cons i is ih =>
    intro st st1 h
    obtain ⟨tmp, rs⟩ := st
    rw [FilterScan.loop] at h
    cases ha : applyFilters rel i fs true with
    | none => simp [ha] at h
    | some pass =>
      cases pass with
      | false =>
        simp only [ha] at h
        have := ih _ _ h
        simp only [List.length_cons] at this ⊢
        omega
      | true =>
        simp only [ha] at h
        cases hp : pushCols input_data i 0 tmp with
        | none => simp [hp] at h
        | some tmp1 =>
          simp only [hp] at h
          have := ih _ _ h
          simp only [List.length_cons] at this ⊢
          omega

theorem Op.run_count (ord : HTOrder) (op op2 : Op) (hu : op.Unrun)
    (hrun : op.run ord = some op2) : op2.result_size ≤ op2.inputSize := by
  cases op with
  | Scan base rel b =>
    simp only [Op.run, Op.height, Op.runFuel, Option.some.injEq] at hrun
    subst hrun
    simp [Op.result_size, Op.base, Op.inputSize]
  | FilterScan base rel b fs idata =>
    simp only [Op.run, Op.height, Op.runFuel] at hrun
    cases hl : FilterScan.loop rel fs idata (List.range rel.size_)
        (base.tmp_results_, base.result_size_) with
    | none => simp [hl] at hrun
    | some st =>
      obtain ⟨tmp, rs⟩ := st
      simp only [hl, Option.some.injEq] at hrun
      subst hrun
      have h1 := FilterScan_loop_count rel fs idata _ _ _ hl
      have h0 : base.result_size_ = 0 := hu
      simp only [List.length_range, h0, Nat.zero_add] at h1
      simpa [Op.result_size, Op.base, Op.inputSize] using h1
  | Join base l r p ht req reqL reqR cl cr =>
    obtain ⟨hrs, rfl⟩ := hu
    obtain ⟨b1, l1, b2, r1, l2, r2, _, _, _, _, h5⟩ :=
      Op.run_Join_inv ord base l r p [] req reqL reqR cl cr op2 hrun
    unfold Join.runCore at h5
    by_cases hsw : l2.result_size > r2.result_size
    · rw [if_pos hsw] at h5
      exact (Join_buildProbe_count ord base r2 l2 _ req reqR reqL cl cr op2 hrs h5).2
    · rw [if_neg hsw] at h5
      exact (Join_buildProbe_count ord base l2 r2 _ req reqL reqR cl cr op2 hrs h5).2
  | SelfJoin base i p ius idata cd =>
    have hrs : base.result_size_ = 0 := hu
    obtain ⟨b1, i1, b2, i2, i3, _, _, _, h4⟩ :=
      Op.run_SelfJoin_inv ord base i p ius idata cd op2 hrun
    unfold SelfJoin.runCore at h4
    cases hI : resolveCols i3 ius with
    | none => simp [hI] at h4
    | some new =>
      simp only [hI] at h4
      cases hpl : i3.resolve p.left with
      | none => simp [hpl] at h4
      | some kl =>
        cases hpr : i3.resolve p.right with
        | none => simp [hpl, hpr] at h4
        | some kr =>
          simp only [hpl, hpr] at h4
          cases hgl : i3.getResults[kl]? with
          | none => simp [hgl] at h4
          | some colL =>
            cases hgr : i3.getResults[kr]? with
            | none => simp [hgl, hgr] at h4
            | some colR =>
              simp only [hgl, hgr] at h4
              cases hlp : SelfJoin.loop colL colR (cd ++ new) (List.range i3.result_size)
                  (base.tmp_results_, base.result_size_) with
              | none => simp [hlp] at h4
              | some st =>
                obtain ⟨tmp, rs⟩ := st
                simp only [hlp, Option.some.injEq] at h4
                subst h4
                have h1 := SelfJoin_loop_count colL colR _ _ _ _ hlp
                simp only [List.length_range, hrs, Nat.zero_add] at h1
                simpa [Op.result_size, Op.base, Op.inputSize] using h1

theorem Op.run_Join_inputSize (ord : HTOrder) (base : Operator) (l r : Op) (p : PredicateInfo)
    (req reqL reqR : List SelectInfo) (cl cr : List Column) (op2 : Op)
    (hrs : base.result_size_ = 0)
    (hrun : (Op.Join base l r p [] req reqL reqR cl cr).run ord = some op2) :
    ∃ b1 l1 b2 r1 l2 r2, l.require p.left = some (b1, l1) ∧ r.require p.right = some (b2, r1) ∧
      l1.run ord = some l2 ∧ r1.run ord = some r2 ∧
      op2.inputSize = l2.result_size * r2.result_size := by
  obtain ⟨b1, l1, b2, r1, l2, r2, h1, h2, h3, h4, h5⟩ :=
    Op.run_Join_inv ord base l r p [] req reqL reqR cl cr op2 hrun
  refine ⟨b1, l1, b2, r1, l2, r2, h1, h2, h3, h4, ?_⟩
  unfold Join.runCore at h5
  by_cases hsw : l2.result_size > r2.result_size
  · rw [if_pos hsw] at h5
    rw [(Join_buildProbe_count ord base r2 l2 _ req reqR reqL cl cr op2 hrs h5).1, Nat.mul_comm]
  · rw [if_neg hsw] at h5
    exact (Join_buildProbe_count ord base l2 r2 _ req reqL reqR cl cr op2 hrs h5).1

theorem Op.run_SelfJoin_inputSize (ord : HTOrder) (base : Operator) (i : Op)
    (p : PredicateInfo) (ius : List SelectInfo) (idata cd : List Column) (op2 : Op)
    (hrun : (Op.SelfJoin base i p ius idata cd).run ord = some op2) :
    ∃ b1 i1 b2 i2 i3, i.require p.left = some (b1, i1) ∧ i1.require p.right = some (b2, i2) ∧
      i2.run ord = some i3 ∧ op2.inputSize = i3.result_size := by
  obtain ⟨b1, i1, b2, i2, i3, h1, h2, h3, h4⟩ :=
    Op.run_SelfJoin_inv ord base i p ius idata cd op2 hrun
  refine ⟨b1, i1, b2, i2, i3, h1, h2, h3, ?_⟩
  unfold SelfJoin.runCore at h4
  cases hI : resolveCols i3 ius with
  | none => simp [hI] at h4
  | some new =>
    simp only [hI] at h4
    cases hpl : i3.resolve p.left with
    | none => simp [hpl] at h4
    | some kl =>
      cases hpr : i3.resolve p.right with
      | none => simp [hpl, hpr] at h4
      | some kr =>
        simp only [hpl, hpr] at h4
        cases hgl : i3.getResults[kl]? with
        | none => simp [hgl] at h4
        | some colL =>
          cases hgr : i3.getResults[kr]? with
          | none => simp [hgl, hgr] at h4
          | some colR =>
            simp only [hgl, hgr] at h4
            cases hlp : SelfJoin.loop colL colR (cd ++ new) (List.range i3.result_size)
                (base.tmp_results_, base.result_size_) with
            | none => simp [hlp] at h4
            | some st =>
              obtain ⟨tmp, rs⟩ := st
              simp only [hlp, Option.some.injEq] at h4
              subst h4
              rfl


/-! ## Constructed trees and sequences of `require` -/

theorem Ready_mkScan (rel : Relation) (b : Nat) : (Op.mkScan rel b).Ready :=
  ⟨ScanInv_init rel b, fun col h => absurd h (List.not_mem_nil col)⟩

theorem Ready_mkFilterScan (rel : Relation) (fs : List FilterInfo) (op : Op)
    (h : Op.mkFilterScan rel fs = some op) : op.Ready := by
  cases fs with
  | nil => cases h
  | cons f rest =>
    simp only [Op.mkFilterScan, Option.some.injEq] at h
    subst h
    exact ⟨FilterScanInv_init rel _, rfl⟩

theorem Ready_mkJoin (l r : Op) (p : PredicateInfo) (hl : l.Ready) (hr : r.Ready) :
    (Op.mkJoin l r p).Ready :=
  ⟨JoinInv_init, rfl, hl, hr, fun s h => absurd h (List.not_mem_nil s),
    fun s h => absurd h (List.not_mem_nil s)⟩

theorem Ready_mkSelfJoin (i : Op) (p : PredicateInfo) (hi : i.Ready) :
    (Op.mkSelfJoin i p).Ready :=
  ⟨SelfJoinInv_init, hi, fun s h => absurd h (List.not_mem_nil s)⟩

theorem Ready_requireAll :
    ∀ (ss : List SelectInfo) (op op1 : Op), op.Ready → op.requireAll ss = some op1 →
      op1.Ready ∧ (op.Sound → op1.Sound) ∧ (∀ t, op.Acc t → op1.Acc t) ∧
      op1.sourceColumn = op.sourceColumn ∧ op1.bindings = op.bindings := by
  intro ss
  induction ss with
  | nil =>
    intro op op1 hr h
    simp only [Op.requireAll, Option.some.injEq] at h
    subst h
    exact ⟨hr, fun h => h, fun _ h => h, rfl, rfl⟩
  | cons s rest ih =>
    intro op op1 hr h
    rw [Op.requireAll] at h
    cases hq : op.require s with
    | none => simp [hq] at h
    | some res =>
      obtain ⟨b, opm⟩ := res
      simp only [hq] at h
      obtain ⟨g1, _, _, _, _, g6, _⟩ := Ready_require op s b opm hr hq
      obtain ⟨k1, k2, k3, k4, k5⟩ := ih opm op1 g1 h
      obtain ⟨e1, _, e3⟩ := Op.require_static op s b opm hq
      exact ⟨k1, fun hs => k2 (e3 hs), fun t ht => k3 t (g6 t ht),
        k4.trans (Op.sourceColumn_require op s b opm hq), k5.trans e1⟩

theorem Example.join0_ready : Example.join0.Ready :=
  Ready_mkJoin _ _ _ (Ready_mkScan _ _) (Ready_mkScan _ _)

theorem Example.join0_sound : Example.join0.Sound :=
  ⟨(by decide : (createRelation 10 5).WF), (by decide : (createRelation 5 3).WF)⟩

theorem Example.join2_ready : Example.join2.Ready :=
  (Ready_requireAll [⟨4294967295, 0, 1⟩, ⟨4294967295, 1, 3⟩] Example.join0 Example.join2
    Example.join0_ready rfl).1

theorem Example.join2_sound : Example.join2.Sound :=
  ⟨(by decide : (createRelation 10 5).WF), (by decide : (createRelation 5 3).WF)⟩


/-! ## Characters of decimal numbers -/

theorem isDigit_not_sep {ch : Char} (h : ch.isDigit = true) :
    ch ≠ ' ' ∧ ch ≠ '.' ∧ ch ≠ '&' ∧ ch ≠ '|' ∧ ch ≠ '<' ∧ ch ≠ '>' ∧ ch ≠ '=' ∧
    ch ≠ '-' ∧ ch ≠ '+' ∧ isspace ch = false := by
  have hr : 48 ≤ ch.val ∧ ch.val ≤ 57 := by
    simpa [Char.isDigit] using h
  have hn : 48 ≤ ch.toNat ∧ ch.toNat ≤ 57 := by
    obtain ⟨h1, h2⟩ := hr
    exact ⟨UInt32.le_toNat_of_le (by decide) h1, UInt32.toNat_le_of_le (by decide) h2⟩
  have hne : ∀ c : Char, (c.toNat < 48 ∨ 57 < c.toNat) → ch ≠ c := by
    intro c hc heq
    rw [heq] at hn
    omega
  refine ⟨hne _ (by decide), hne _ (by decide), hne _ (by decide), hne _ (by decide),
    hne _ (by decide), hne _ (by decide), hne _ (by decide), hne _ (by decide),
    hne _ (by decide), ?_⟩
  simp only [isspace, Bool.or_eq_false_iff, decide_eq_false_iff_not]
  refine ⟨⟨⟨⟨⟨hne _ (by decide), hne _ (by decide)⟩, hne _ (by decide)⟩, hne _ (by decide)⟩,
    by omega⟩, by omega⟩

theorem to_string_data_ne_nil (n : Nat) : (to_string n).data ≠ [] := by
  intro h
  exact (to_string_digits n).1 (String.ext h)

theorem to_string_isDigit (n : Nat) : ∀ ch ∈ (to_string n).data, ch.isDigit = true :=
  (to_string_digits n).2.1

theorem stoul_to_string (n : Nat) (hn : n < 2 ^ 64) : stoul (to_string n) = some n := by
  have hne := to_string_data_ne_nil n
  have hdig := to_string_isDigit n
  have hval : (to_string n).data.foldl (fun acc ch => 10 * acc + (ch.toNat - 48)) 0 = n :=
    (to_string_digits n).2.2
  cases hd : (to_string n).data with
  | nil => exact absurd hd hne
  | cons c cs =>
    have hc : c.isDigit = true := hdig c (by rw [hd]; exact List.mem_cons_self _ _)
    obtain ⟨_, _, _, _, _, _, _, hminus, hplus, hsp⟩ := isDigit_not_sep hc
    have h1 : (c :: cs).dropWhile isspace = c :: cs := by
      simp [List.dropWhile, hsp]
    have h2 : stoulSign (c :: cs) = (false, c :: cs) := by
      unfold stoulSign
      split
      · rename_i rest heq
        exact absurd (List.cons.inj heq).1 hminus
      · rename_i rest heq
        exact absurd (List.cons.inj heq).1 hplus
      · rfl
    have h3 : (c :: cs).takeWhile Char.isDigit = c :: cs := by
      rw [List.takeWhile_eq_self_iff]
      intro x hx
      exact hdig x (by rw [hd]; exact hx)
    rw [hd] at hval
    simp only [stoul, hd, h1, h2, h3, hval]
    have h64 : ¬ 2 ^ 64 ≤ n := Nat.not_le.mpr hn
    rw [if_neg (by simp), if_neg h64]
    simp


/-! ## Splitting a line at a delimiter -/

theorem getlineLoop_token (d : Char) :
    ∀ (u rest cur : List Char), d ∉ u →
      getlineLoop d (u ++ rest) (some cur) = getlineLoop d rest (some (cur ++ u)) := by
  intro u
  induction u with
  | nil => intro rest cur _; simp
  | cons c cs ih =>
    intro rest cur h
    have hc : c ≠ d := fun he => h (he ▸ List.mem_cons_self _ _)
    have hcs : d ∉ cs := fun hm => h (List.mem_cons_of_mem _ hm)
    rw [List.cons_append, getlineLoop, if_neg hc, ih rest _ hcs]
    simp

theorem getlineLoop_start (d : Char) (u rest : List Char) (h : d ∉ u) (hne : u ≠ []) :
    getlineLoop d (u ++ rest) none = getlineLoop d rest (some u) := by
  cases u with
  | nil => exact absurd rfl hne
  | cons c cs =>
    have hc : c ≠ d := fun he => h (he ▸ List.mem_cons_self _ _)
    have hcs : d ∉ cs := fun hm => h (List.mem_cons_of_mem _ hm)
    rw [List.cons_append, getlineLoop, if_neg hc, getlineLoop_token d cs rest _ hcs]
    simp

theorem getlineLoop_delim (d : Char) (rest : List Char) (cur : Option (List Char)) :
    getlineLoop d (d :: rest) cur = String.mk (cur.getD []) :: getlineLoop d rest none := by
  rw [getlineLoop, if_pos rfl]

theorem getlineLoop_joined (d : Char) :
    ∀ (l : List String) (a : String), (∀ t ∈ a :: l, d ∉ t.data) →
      (∀ t, (a :: l).getLast? = some t → t ≠ "") →
      getlineLoop d (a.data ++ l.flatMap (fun t => d :: t.data)) none = a :: l := by
  intro l
  induction l with
  | nil =>
    intro a h hl
    have hne : a.data ≠ [] := fun he => hl a rfl (String.ext he)
    rw [List.flatMap_nil, getlineLoop_start d a.data [] (h a (List.mem_cons_self _ _)) hne]
    rfl
  | cons b l ih =>
    intro a h hl
    have hb := ih b (fun t ht => h t (List.mem_cons_of_mem _ ht)) (fun t ht => hl t (by
      rw [List.getLast?_cons_cons]; exact ht))
    rw [List.flatMap_cons, List.cons_append]
    by_cases hne : a.data = []
    · rw [hne, List.nil_append, getlineLoop_delim, hb]
      have : a = String.mk [] := String.ext hne
      rw [this]
      rfl
    · rw [getlineLoop_start d a.data _ (h a (List.mem_cons_self _ _)) hne, getlineLoop_delim, hb]
      rfl

theorem intercalate_data (sep : String) (d : Char) (hsep : sep.data = [d]) :
    ∀ (ts : List String), (String.intercalate sep ts).data =
      match ts with
      | [] => []
      | a :: l => a.data ++ l.flatMap (fun t => d :: t.data) := by
  intro ts
  cases ts with
  | nil => rfl
  | cons a l =>
    simp only [String.intercalate]
    rw [intercalate_go_data, hsep]
    rfl

theorem splitString_intercalate (sep : String) (d : Char) (hsep : sep.data = [d])
    (ts : List String) (h : ∀ t ∈ ts, d ∉ t.data)
    (hl : ∀ t, ts.getLast? = some t → t ≠ "") :
    splitString (String.intercalate sep ts) d = ts := by
  unfold splitString
  rw [intercalate_data sep d hsep ts]
  cases ts with
  | nil => rfl
  | cons a l => exact getlineLoop_joined d l a h hl


/-! ## Reading plain decimal numbers -/

theorem to_string_no_char (n : Nat) (ch : Char) (h : ch.isDigit = false) :
    ch ∉ (to_string n).data := by
  intro hm
  have := to_string_isDigit n ch hm
  rw [h] at this
  exact Bool.noConfusion this

theorem to_string_ne_empty (n : Nat) : to_string n ≠ "" := by
  intro h
  exact to_string_data_ne_nil n (by rw [h])

theorem pushNumbers_to_string :
    ∀ (ns result : List Nat), (∀ n ∈ ns, n < 2 ^ 32) →
      pushNumbers (ns.map to_string) result = some (result ++ ns) := by
  intro ns
  induction ns with
  | nil => intro result _; simp [pushNumbers]
  | cons n ns ih =>
    intro result h
    have hn : n < 2 ^ 32 := h n (List.mem_cons_self _ _)
    have h64 : n < 2 ^ 64 := Nat.lt_of_lt_of_le hn (by norm_num)
    rw [List.map_cons, pushNumbers, stoul_to_string n h64]
    simp only
    rw [Nat.mod_eq_of_lt hn, ih _ (fun m hm => h m (List.mem_cons_of_mem _ hm))]
    simp

theorem splitString_numbers (sep : String) (d : Char) (hsep : sep.data = [d])
    (hd : d.isDigit = false) (ns : List Nat) :
    splitString (String.intercalate sep (ns.map to_string)) d = ns.map to_string := by
  apply splitString_intercalate sep d hsep
  · intro t ht
    obtain ⟨n, _, rfl⟩ := List.mem_map.mp ht
    exact to_string_no_char n d hd
  · intro t ht
    have hm : t ∈ ns.map to_string := List.mem_of_getLast?_eq_some ht
    obtain ⟨n, _, rfl⟩ := List.mem_map.mp hm
    exact to_string_ne_empty n

theorem SelectInfo.sel_text_eq (s : SelectInfo) :
    s.text = String.intercalate "." ([s.binding, s.col_id].map to_string) := rfl

theorem parseRelColPair_text (mem : Stray) (s : SelectInfo) (h : s.Plain) :
    parseRelColPair mem s.text = some s.parsed := by
  unfold parseRelColPair splitStringUnsigned
  rw [SelectInfo.sel_text_eq, splitString_numbers "." '.' rfl (by decide),
    pushNumbers_to_string _ _ (by
      intro n hn
      simp only [List.mem_cons, List.mem_singleton, List.not_mem_nil, or_false] at hn
      rcases hn with rfl | rfl
      · exact h.1
      · exact h.2)]
  rfl

theorem SelectInfo.text_chars (s : SelectInfo) :
    ∀ ch ∈ s.text.data, ch.isDigit = true ∨ ch = '.' := by
  intro ch hm
  simp only [SelectInfo.text, String.data_append, List.mem_append] at hm
  rcases hm with (hm | hm) | hm
  · exact Or.inl (to_string_isDigit _ ch hm)
  · right
    exact List.mem_singleton.mp hm
  · exact Or.inl (to_string_isDigit _ ch hm)

theorem SelectInfo.sel_text_ne_empty (s : SelectInfo) : s.text ≠ "" := by
  intro h
  have : s.text.data = [] := by rw [h]
  simp only [SelectInfo.text, String.data_append, List.append_eq_nil] at this
  exact to_string_data_ne_nil _ this.2

theorem SelectInfo.text_dot (s : SelectInfo) : '.' ∈ s.text.data := by
  simp only [SelectInfo.text, String.data_append, List.mem_append]
  exact Or.inl (Or.inr (by decide))


/-! ## Reading the tokens of the `P` part -/

theorem intercalate_chars (sep : String) (ts : List String) (P : Char → Prop)
    (hsep : ∀ ch ∈ sep.data, P ch) (hts : ∀ t ∈ ts, ∀ ch ∈ t.data, P ch) :
    ∀ ch ∈ (String.intercalate sep ts).data, P ch := by
  intro ch hm
  cases ts with
  | nil => exact absurd hm (List.not_mem_nil ch)
  | cons a l =>
    simp only [String.intercalate] at hm
    rw [intercalate_go_data] at hm
    rcases List.mem_append.mp hm with hm | hm
    · exact hts a (List.mem_cons_self _ _) ch hm
    · obtain ⟨t, ht, hc⟩ := List.mem_flatMap.mp hm
      rcases List.mem_append.mp hc with hc | hc
      · exact hsep ch hc
      · exact hts t (List.mem_cons_of_mem _ ht) ch hc

theorem PredicateInfo.pred_text_eq (p : PredicateInfo) :
    p.text = String.intercalate "=" [p.left.text, p.right.text] := rfl

theorem FilterInfo.flt_text_eq (f : FilterInfo) :
    f.text = String.intercalate (String.singleton f.comparison.toChar)
      [f.filter_column.text, to_string f.constant] := rfl

theorem PredicateInfo.pred_text_data (p : PredicateInfo) :
    p.text.data = p.left.text.data ++ '=' :: p.right.text.data := by
  simp only [PredicateInfo.text, String.data_append]
  rw [List.append_assoc]
  rfl

theorem FilterInfo.flt_text_data (f : FilterInfo) :
    f.text.data =
      f.filter_column.text.data ++ f.comparison.toChar :: (to_string f.constant).data := by
  simp only [FilterInfo.text, String.data_append]
  rw [List.append_assoc]
  rfl

theorem SelectInfo.sel_text_no_char (s : SelectInfo) (ch : Char) (h : ch.isDigit = false)
    (hdot : ch ≠ '.') : ch ∉ s.text.data := by
  intro hm
  rcases s.text_chars ch hm with h1 | h1
  · rw [h] at h1; exact Bool.noConfusion h1
  · exact hdot h1

theorem contains_false_of_not_mem {l : List Char} {ch : Char} (h : ch ∉ l) :
    l.contains ch = false := by
  simpa using h

theorem contains_true_of_mem {l : List Char} {ch : Char} (h : ch ∈ l) :
    l.contains ch = true := by
  simpa using h

theorem splitPredicates_join (p : PredicateInfo) :
    splitPredicates p.text = [p.left.text, p.right.text] := by
  have hlt : p.text.data.contains '<' = false := by
    apply contains_false_of_not_mem
    rw [PredicateInfo.pred_text_data]
    intro hm
    rcases List.mem_append.mp hm with hm | hm
    · exact p.left.sel_text_no_char '<' (by decide) (by decide) hm
    · rcases List.mem_cons.mp hm with hm | hm
      · exact absurd hm (by decide)
      · exact p.right.sel_text_no_char '<' (by decide) (by decide) hm
  have hgt : p.text.data.contains '>' = false := by
    apply contains_false_of_not_mem
    rw [PredicateInfo.pred_text_data]
    intro hm
    rcases List.mem_append.mp hm with hm | hm
    · exact p.left.sel_text_no_char '>' (by decide) (by decide) hm
    · rcases List.mem_cons.mp hm with hm | hm
      · exact absurd hm (by decide)
      · exact p.right.sel_text_no_char '>' (by decide) (by decide) hm
  have heq : p.text.data.contains '=' = true := by
    apply contains_true_of_mem
    rw [PredicateInfo.pred_text_data]
    exact List.mem_append_right _ (List.mem_cons_self _ _)
  unfold splitPredicates comparisonTypes
  simp only [List.find?, Comparison.toChar, hlt, hgt, heq]
  rw [PredicateInfo.pred_text_eq]
  apply splitString_intercalate "=" '=' rfl
  · intro t ht
    simp only [List.mem_cons, List.mem_singleton, List.not_mem_nil, or_false] at ht
    rcases ht with rfl | rfl
    · exact p.left.sel_text_no_char '=' (by decide) (by decide)
    · exact p.right.sel_text_no_char '=' (by decide) (by decide)
  · intro t ht
    have : t = p.right.text := by
      simpa using ht.symm
    rw [this]
    exact p.right.sel_text_ne_empty

theorem FilterInfo.flt_text_no_char (f : FilterInfo) (ch : Char) (h : ch.isDigit = false)
    (hdot : ch ≠ '.') (hop : ch ≠ f.comparison.toChar) : ch ∉ f.text.data := by
  rw [FilterInfo.flt_text_data]
  intro hm
  rcases List.mem_append.mp hm with hm | hm
  · exact f.filter_column.sel_text_no_char ch h hdot hm
  · rcases List.mem_cons.mp hm with hm | hm
    · exact hop hm
    · exact to_string_no_char _ ch h hm

theorem FilterInfo.text_op (f : FilterInfo) : f.comparison.toChar ∈ f.text.data := by
  rw [FilterInfo.flt_text_data]
  exact List.mem_append_right _ (List.mem_cons_self _ _)

theorem Comparison.toChar_not_digit (cmp : Comparison) :
    cmp.toChar.isDigit = false ∧ cmp.toChar ≠ '.' := by
  cases cmp <;> exact ⟨by decide, by decide⟩

theorem splitString_filter (f : FilterInfo) :
    splitString f.text f.comparison.toChar =
      [f.filter_column.text, to_string f.constant] := by
  rw [FilterInfo.flt_text_eq]
  apply splitString_intercalate (String.singleton f.comparison.toChar) f.comparison.toChar rfl
  · intro t ht
    simp only [List.mem_cons, List.mem_singleton, List.not_mem_nil, or_false] at ht
    rcases ht with rfl | rfl
    · exact f.filter_column.sel_text_no_char _ f.comparison.toChar_not_digit.1
        f.comparison.toChar_not_digit.2
    · exact to_string_no_char _ _ f.comparison.toChar_not_digit.1
  · intro t ht
    have : t = to_string f.constant := by
      simpa using ht.symm
    rw [this]
    exact to_string_ne_empty _

theorem splitPredicates_filter (f : FilterInfo) :
    splitPredicates f.text = [f.filter_column.text, to_string f.constant] := by
  have hop := f.text_op
  have hsplit := splitString_filter f
  unfold splitPredicates comparisonTypes
  cases hc : f.comparison with
  | Less =>
    rw [hc] at hop hsplit
    have h1 : f.text.data.contains '<' = true := contains_true_of_mem hop
    simp only [List.find?, Comparison.toChar, h1]
    exact hsplit
  | Greater =>
    rw [hc] at hop hsplit
    have h0 : f.text.data.contains '<' = false :=
      contains_false_of_not_mem (f.flt_text_no_char '<' (by decide) (by decide)
        (by rw [hc]; decide))
    have h1 : f.text.data.contains '>' = true := contains_true_of_mem hop
    simp only [List.find?, Comparison.toChar, h0, h1]
    exact hsplit
  | Equal =>
    rw [hc] at hop hsplit
    have h0 : f.text.data.contains '<' = false :=
      contains_false_of_not_mem (f.flt_text_no_char '<' (by decide) (by decide)
        (by rw [hc]; decide))
    have h1 : f.text.data.contains '>' = false :=
      contains_false_of_not_mem (f.flt_text_no_char '>' (by decide) (by decide)
        (by rw [hc]; decide))
    have h2 : f.text.data.contains '=' = true := contains_true_of_mem hop
    simp only [List.find?, Comparison.toChar, h0, h1, h2]
    exact hsplit

theorem Comparison.ofChar_toChar (cmp : Comparison) :
    Comparison.ofChar cmp.toChar = some cmp := by
  cases cmp <;> rfl


/-! ## Parsing the tokens of a query text -/

theorem isConstant_text (s : SelectInfo) : isConstant s.text = false := by
  unfold isConstant
  rw [contains_true_of_mem s.text_dot]
  rfl

theorem isConstant_to_string (n : Nat) : isConstant (to_string n) = true := by
  unfold isConstant
  rw [contains_false_of_not_mem (to_string_no_char n '.' (by decide))]
  rfl

theorem QueryInfo.parsePredicate_join (mem : Stray) (q : QueryInfo) (p : PredicateInfo)
    (h : p.left.Plain ∧ p.right.Plain) :
    q.parsePredicate mem p.text =
      some { q with predicates_ := q.predicates_ ++ [p.parsed] } := by
  unfold QueryInfo.parsePredicate
  rw [splitPredicates_join]
  simp only [List.length_cons, List.length_nil, ne_eq, not_true_eq_false, if_false,
    List.getElem?_cons_zero, List.getElem?_cons_succ, isConstant_text, Bool.false_eq_true,
    parseRelColPair_text mem _ h.1, parseRelColPair_text mem _ h.2]
  rfl

theorem FilterInfo.text_at (f : FilterInfo) :
    f.text.data[f.filter_column.text.length]? = some f.comparison.toChar := by
  rw [FilterInfo.flt_text_data]
  have : f.filter_column.text.length = f.filter_column.text.data.length := rfl
  rw [this, List.getElem?_append_right (Nat.le_refl _), Nat.sub_self]
  exact List.getElem?_cons_zero

theorem QueryInfo.parsePredicate_filter (mem : Stray) (q : QueryInfo) (f : FilterInfo)
    (h : f.filter_column.Plain ∧ f.constant < 2 ^ 64) :
    q.parsePredicate mem f.text =
      some { q with filters_ := q.filters_ ++ [f.parsed] } := by
  unfold QueryInfo.parsePredicate
  rw [splitPredicates_filter]
  simp only [List.length_cons, List.length_nil, ne_eq, not_true_eq_false, if_false,
    List.getElem?_cons_zero, List.getElem?_cons_succ, isConstant_text, Bool.false_eq_true,
    parseRelColPair_text mem _ h.1, isConstant_to_string, if_true, stoul_to_string _ h.2,
    FilterInfo.text_at, Comparison.ofChar_toChar]
  rfl

theorem QueryInfo.parsePredicate_token (mem : Stray) (q : QueryInfo) (t : PToken) (h : t.Plain) :
    q.parsePredicate mem t.text =
      some { q with
        predicates_ := q.predicates_ ++ (joinsOf [t]).map PredicateInfo.parsed
        filters_ := q.filters_ ++ (filtersOf [t]).map FilterInfo.parsed } := by
  cases t with
  | join p =>
    rw [PToken.text, QueryInfo.parsePredicate_join mem q p h]
    simp [joinsOf, filtersOf]
  | filter f =>
    rw [PToken.text, QueryInfo.parsePredicate_filter mem q f h]
    simp [joinsOf, filtersOf]

theorem joinsOf_cons (t : PToken) (items : List PToken) :
    joinsOf (t :: items) = joinsOf [t] ++ joinsOf items := by
  cases t <;> simp [joinsOf]

theorem filtersOf_cons (t : PToken) (items : List PToken) :
    filtersOf (t :: items) = filtersOf [t] ++ filtersOf items := by
  cases t <;> simp [filtersOf]

theorem QueryInfo.parsePredicateList_items (mem : Stray) :
    ∀ (items : List PToken) (q : QueryInfo), (∀ t ∈ items, t.Plain) →
      q.parsePredicateList mem (items.map PToken.text) =
        some { q with
          predicates_ := q.predicates_ ++ (joinsOf items).map PredicateInfo.parsed
          filters_ := q.filters_ ++ (filtersOf items).map FilterInfo.parsed } := by
  intro items
  induction items with
  | nil => intro q _; simp [QueryInfo.parsePredicateList, joinsOf, filtersOf]
  | cons t items ih =>
    intro q h
    rw [List.map_cons, QueryInfo.parsePredicateList,
      QueryInfo.parsePredicate_token mem q t (h t (List.mem_cons_self _ _))]
    simp only
    rw [ih _ (fun u hu => h u (List.mem_cons_of_mem _ hu)), joinsOf_cons t items,
      filtersOf_cons t items]
    simp [List.append_assoc]

theorem PToken.tok_text_no_char (t : PToken) (ch : Char) (h : ch.isDigit = false)
    (hdot : ch ≠ '.') (h1 : ch ≠ '<') (h2 : ch ≠ '>') (h3 : ch ≠ '=') : ch ∉ t.text.data := by
  cases t with
  | join p =>
    rw [PToken.text, PredicateInfo.pred_text_data]
    intro hm
    rcases List.mem_append.mp hm with hm | hm
    · exact p.left.sel_text_no_char ch h hdot hm
    · rcases List.mem_cons.mp hm with hm | hm
      · exact h3 hm
      · exact p.right.sel_text_no_char ch h hdot hm
  | filter f =>
    rw [PToken.text]
    apply f.flt_text_no_char ch h hdot
    cases f.comparison
    · exact h1
    · exact h2
    · exact h3

theorem PToken.tok_text_ne_empty (t : PToken) : t.text ≠ "" := by
  intro h
  have hd : t.text.data = [] := by rw [h]
  cases t with
  | join p =>
    rw [PToken.text, PredicateInfo.pred_text_data] at hd
    simp at hd
  | filter f =>
    rw [PToken.text, FilterInfo.flt_text_data] at hd
    simp at hd

theorem QueryInfo.parsePredicates_items (mem : Stray) (q : QueryInfo) (items : List PToken)
    (h : ∀ t ∈ items, t.Plain) :
    q.parsePredicates mem (String.intercalate "&" (items.map PToken.text)) =
      some { q with
        predicates_ := q.predicates_ ++ (joinsOf items).map PredicateInfo.parsed
        filters_ := q.filters_ ++ (filtersOf items).map FilterInfo.parsed } := by
  unfold QueryInfo.parsePredicates
  rw [splitString_intercalate "&" '&' rfl (items.map PToken.text)
    (by
      intro t ht
      obtain ⟨u, _, rfl⟩ := List.mem_map.mp ht
      exact u.tok_text_no_char '&' (by decide) (by decide) (by decide) (by decide) (by decide))
    (by
      intro t ht
      have hm : t ∈ items.map PToken.text := List.mem_of_getLast?_eq_some ht
      obtain ⟨u, _, rfl⟩ := List.mem_map.mp hm
      exact u.tok_text_ne_empty)]
  exact QueryInfo.parsePredicateList_items mem items q h

theorem QueryInfo.parseSelectionList_sels (mem : Stray) :
    ∀ (sels : List SelectInfo) (q : QueryInfo), (∀ s ∈ sels, s.Plain) →
      q.parseSelectionList mem (sels.map SelectInfo.text) =
        some { q with selections_ := q.selections_ ++ sels.map SelectInfo.parsed } := by
  intro sels
  induction sels with
  | nil => intro q _; simp [QueryInfo.parseSelectionList]
  | cons s sels ih =>
    intro q h
    rw [List.map_cons, QueryInfo.parseSelectionList,
      parseRelColPair_text mem s (h s (List.mem_cons_self _ _))]
    simp only
    rw [ih _ (fun u hu => h u (List.mem_cons_of_mem _ hu))]
    simp [List.append_assoc]

theorem QueryInfo.parseSelections_sels (mem : Stray) (q : QueryInfo) (sels : List SelectInfo)
    (h : ∀ s ∈ sels, s.Plain) :
    q.parseSelections mem (String.intercalate " " (sels.map SelectInfo.text)) =
      some { q with selections_ := q.selections_ ++ sels.map SelectInfo.parsed } := by
  unfold QueryInfo.parseSelections
  rw [splitString_intercalate " " ' ' rfl (sels.map SelectInfo.text)
    (by
      intro t ht
      obtain ⟨u, _, rfl⟩ := List.mem_map.mp ht
      exact u.sel_text_no_char ' ' (by decide) (by decide))
    (by
      intro t ht
      have hm : t ∈ sels.map SelectInfo.text := List.mem_of_getLast?_eq_some ht
      obtain ⟨u, _, rfl⟩ := List.mem_map.mp hm
      exact u.sel_text_ne_empty)]
  exact QueryInfo.parseSelectionList_sels mem sels q h

theorem QueryInfo.parseRelationIds_ids (q : QueryInfo) (ids : List Nat)
    (h : ∀ n ∈ ids, n < 2 ^ 32) :
    q.parseRelationIds (String.intercalate " " (ids.map to_string)) =
      some { q with relation_ids_ := q.relation_ids_ ++ ids } := by
  unfold QueryInfo.parseRelationIds splitStringUnsigned
  rw [splitString_numbers " " ' ' rfl (by decide), pushNumbers_to_string _ _ h]


/-! ## Resolving the bindings of a parsed query -/

theorem readUnsigned_of_some (mem : Stray) {v : List Nat} {i r : Nat} (h : v[i]? = some r) :
    readUnsigned mem v i = r := by
  unfold readUnsigned
  rw [h]

theorem readUnsigned_of_lt (mem : Stray) {v : List Nat} {i : Nat} (h : i < v.length) :
    v[i]? = some (readUnsigned mem v i) := by
  unfold readUnsigned
  rw [List.getElem?_eq_getElem h]

theorem resolveIds_parsed (mem : Stray) (ids : List Nat) (s : SelectInfo)
    (h : s.binding < ids.length) :
    resolveIds mem ids s.parsed = s.resolved ids := by
  unfold resolveIds SelectInfo.parsed SelectInfo.resolved
  simp only [readUnsigned_of_some mem (List.getElem?_eq_getElem h),
    List.getD_eq_getElem?_getD, List.getElem?_eq_getElem h, Option.getD_some]

theorem resolveSelects_parsed (mem : Stray) (ids : List Nat) :
    ∀ (sels : List SelectInfo), (∀ s ∈ sels, s.binding < ids.length) →
      resolveSelects mem ids (sels.map SelectInfo.parsed) =
        sels.map (SelectInfo.resolved ids) := by
  intro sels
  induction sels with
  | nil => intro _; rfl
  | cons s sels ih =>
    intro h
    rw [List.map_cons, resolveSelects, resolveIds_parsed mem ids s (h s (List.mem_cons_self _ _)),
      ih (fun u hu => h u (List.mem_cons_of_mem _ hu))]
    rfl

theorem resolvePredicates_parsed (mem : Stray) (ids : List Nat) :
    ∀ (ps : List PredicateInfo),
      (∀ p ∈ ps, p.left.binding < ids.length ∧ p.right.binding < ids.length) →
      resolvePredicates mem ids (ps.map PredicateInfo.parsed) =
        ps.map (PredicateInfo.resolved ids) := by
  intro ps
  induction ps with
  | nil => intro _; rfl
  | cons p ps ih =>
    intro h
    have hp := h p (List.mem_cons_self _ _)
    rw [List.map_cons, resolvePredicates]
    simp only [PredicateInfo.parsed, resolveIds_parsed mem ids p.left hp.1,
      resolveIds_parsed mem ids p.right hp.2]
    rw [ih (fun u hu => h u (List.mem_cons_of_mem _ hu))]
    rfl

theorem resolveFilters_parsed (mem : Stray) (ids : List Nat) :
    ∀ (fs : List FilterInfo), (∀ f ∈ fs, f.filter_column.binding < ids.length) →
      resolveFilters mem ids (fs.map FilterInfo.parsed) =
        fs.map (FilterInfo.resolved ids) := by
  intro fs
  induction fs with
  | nil => intro _; rfl
  | cons f fs ih =>
    intro h
    have hf := h f (List.mem_cons_self _ _)
    rw [List.map_cons, resolveFilters]
    simp only [FilterInfo.parsed, resolveIds_parsed mem ids f.filter_column hf]
    rw [ih (fun u hu => h u (List.mem_cons_of_mem _ hu))]
    rfl

theorem mem_joinsOf {p : PredicateInfo} :
    ∀ {items : List PToken}, p ∈ joinsOf items → PToken.join p ∈ items := by
  intro items
  induction items with
  | nil => intro h; exact absurd h (List.not_mem_nil p)
  | cons t items ih =>
    intro h
    cases t with
    | join p1 =>
      rcases List.mem_cons.mp h with h | h
      · rw [h]; exact List.mem_cons_self _ _
      · exact List.mem_cons_of_mem _ (ih h)
    | filter f => exact List.mem_cons_of_mem _ (ih h)

theorem mem_filtersOf {f : FilterInfo} :
    ∀ {items : List PToken}, f ∈ filtersOf items → PToken.filter f ∈ items := by
  intro items
  induction items with
  | nil => intro h; exact absurd h (List.not_mem_nil f)
  | cons t items ih =>
    intro h
    cases t with
    | join p => exact List.mem_cons_of_mem _ (ih h)
    | filter f1 =>
      rcases List.mem_cons.mp h with h | h
      · rw [h]; exact List.mem_cons_self _ _
      · exact List.mem_cons_of_mem _ (ih h)

theorem queryText_eq (ids : List Nat) (items : List PToken) (sels : List SelectInfo) :
    queryText ids items sels = String.intercalate "|"
      [String.intercalate " " (ids.map to_string),
       String.intercalate "&" (items.map PToken.text),
       String.intercalate " " (sels.map SelectInfo.text)] := rfl

theorem splitString_queryText (ids : List Nat) (items : List PToken) (sels : List SelectInfo)
    (hsel : sels ≠ []) :
    splitString (queryText ids items sels) '|' =
      [String.intercalate " " (ids.map to_string),
       String.intercalate "&" (items.map PToken.text),
       String.intercalate " " (sels.map SelectInfo.text)] := by
  rw [queryText_eq]
  apply splitString_intercalate "|" '|' rfl
  · intro t ht
    simp only [List.mem_cons, List.mem_singleton, List.not_mem_nil, or_false] at ht
    rcases ht with rfl | rfl | rfl
    · intro hm
      refine intercalate_chars " " (ids.map to_string) (fun ch => ch ≠ '|') ?_ ?_ '|' hm rfl
      · intro ch hc
        have : ch = ' ' := List.mem_singleton.mp hc
        rw [this]; decide
      · intro t ht ch hc he
        obtain ⟨n, _, rfl⟩ := List.mem_map.mp ht
        exact to_string_no_char n '|' (by decide) (he ▸ hc)
    · intro hm
      refine intercalate_chars "&" (items.map PToken.text) (fun ch => ch ≠ '|') ?_ ?_ '|' hm rfl
      · intro ch hc
        have : ch = '&' := List.mem_singleton.mp hc
        rw [this]; decide
      · intro t ht ch hc he
        obtain ⟨u, _, rfl⟩ := List.mem_map.mp ht
        exact u.tok_text_no_char '|' (by decide) (by decide) (by decide) (by decide) (by decide)
          (he ▸ hc)
    · intro hm
      refine intercalate_chars " " (sels.map SelectInfo.text) (fun ch => ch ≠ '|') ?_ ?_ '|' hm rfl
      · intro ch hc
        have : ch = ' ' := List.mem_singleton.mp hc
        rw [this]; decide
      · intro t ht ch hc he
        obtain ⟨u, _, rfl⟩ := List.mem_map.mp ht
        exact u.sel_text_no_char '|' (by decide) (by decide) (he ▸ hc)
  · intro t ht
    have : t = String.intercalate " " (sels.map SelectInfo.text) := by
      simpa using ht.symm
    rw [this]
    intro he
    have hd : (String.intercalate " " (sels.map SelectInfo.text)).data = [] := by rw [he]
    cases sels with
    | nil => exact hsel rfl
    | cons s rest =>
      rw [List.map_cons] at hd
      simp only [String.intercalate] at hd
      rw [intercalate_go_data] at hd
      have := (List.append_eq_nil.mp hd).1
      exact s.sel_text_ne_empty (String.ext this)

theorem QueryInfo.parseQuery_text (mem : Stray) (q0 : QueryInfo) (ids : List Nat)
    (items : List PToken)
    (sels : List SelectInfo) (hsel : sels ≠ []) (hids : ∀ n ∈ ids, n < 2 ^ 32)
    (hitems : ∀ t ∈ items, t.Plain) (hsels : ∀ s ∈ sels, s.Plain)
    (hib : ∀ t ∈ items, ∀ b ∈ t.bindings, b < ids.length)
    (hsb : ∀ s ∈ sels, s.binding < ids.length) :
    q0.parseQuery mem (queryText ids items sels) =
      some ⟨ids, (joinsOf items).map (PredicateInfo.resolved ids),
        (filtersOf items).map (FilterInfo.resolved ids),
        sels.map (SelectInfo.resolved ids)⟩ := by
  unfold QueryInfo.parseQuery
  simp only [splitString_queryText ids items sels hsel, List.length_cons, List.length_nil,
    ne_eq, not_true_eq_false, if_false, List.getElem?_cons_zero, List.getElem?_cons_succ,
    QueryInfo.clear]
  rw [QueryInfo.parseRelationIds_ids _ ids hids]
  simp only
  rw [QueryInfo.parsePredicates_items mem _ items hitems]
  simp only
  rw [QueryInfo.parseSelections_sels mem _ sels hsels]
  simp only [QueryInfo.resolveRelationIds, List.nil_append]
  rw [resolveSelects_parsed mem ids sels hsb,
    resolvePredicates_parsed mem ids (joinsOf items) (fun p hp => by
      have hm := hib _ (mem_joinsOf hp)
      exact ⟨hm p.left.binding (by simp [PToken.bindings]),
        hm p.right.binding (by simp [PToken.bindings])⟩),
    resolveFilters_parsed mem ids (filtersOf items) (fun f hf => by
      have hm := hib _ (mem_filtersOf hf)
      exact hm f.filter_column.binding (by simp [PToken.bindings]))]

/-! ## Every accepted text gives a query resolved at the bindings in range -/

theorem resolveIds_binding (mem : Stray) (ids : List Nat) (s : SelectInfo) :
    (resolveIds mem ids s).binding = s.binding ∧ (resolveIds mem ids s).col_id = s.col_id :=
  ⟨rfl, rfl⟩

theorem resolveIds_spec (mem : Stray) (ids : List Nat) (s : SelectInfo)
    (h : (resolveIds mem ids s).binding < ids.length) :
    ids[(resolveIds mem ids s).binding]? = some (resolveIds mem ids s).rel_id :=
  readUnsigned_of_lt mem h

theorem resolveSelects_spec (mem : Stray) (ids : List Nat) :
    ∀ (l : List SelectInfo), ∀ s ∈ resolveSelects mem ids l, s.binding < ids.length →
      ids[s.binding]? = some s.rel_id := by
  intro l
  induction l with
  | nil => intro s hs; exact absurd hs (List.not_mem_nil s)
  | cons a l ih =>
    intro s hs hb
    rw [resolveSelects] at hs
    rcases List.mem_cons.mp hs with rfl | hs
    · exact resolveIds_spec mem ids a hb
    · exact ih s hs hb

theorem resolvePredicates_spec (mem : Stray) (ids : List Nat) :
    ∀ (l : List PredicateInfo), ∀ p ∈ resolvePredicates mem ids l,
      (p.left.binding < ids.length → ids[p.left.binding]? = some p.left.rel_id) ∧
      (p.right.binding < ids.length → ids[p.right.binding]? = some p.right.rel_id) := by
  intro l
  induction l with
  | nil => intro p hp; exact absurd hp (List.not_mem_nil p)
  | cons a l ih =>
    intro p hp
    rw [resolvePredicates] at hp
    rcases List.mem_cons.mp hp with rfl | hp
    · exact ⟨resolveIds_spec mem ids a.left, resolveIds_spec mem ids a.right⟩
    · exact ih p hp

theorem resolveFilters_spec (mem : Stray) (ids : List Nat) :
    ∀ (l : List FilterInfo), ∀ f ∈ resolveFilters mem ids l,
      f.filter_column.binding < ids.length →
      ids[f.filter_column.binding]? = some f.filter_column.rel_id := by
  intro l
  induction l with
  | nil => intro f hf; exact absurd hf (List.not_mem_nil f)
  | cons a l ih =>
    intro f hf hb
    rw [resolveFilters] at hf
    rcases List.mem_cons.mp hf with rfl | hf
    · exact resolveIds_spec mem ids a.filter_column hb
    · exact ih f hf hb

theorem QueryInfo.resolveRelationIds_spec (mem : Stray) (q : QueryInfo) :
    ∀ s ∈ (q.resolveRelationIds mem).selectInfos,
      s.binding < (q.resolveRelationIds mem).relation_ids_.length →
      (q.resolveRelationIds mem).relation_ids_[s.binding]? = some s.rel_id := by
  intro s hs hb
  simp only [QueryInfo.resolveRelationIds, QueryInfo.selectInfos, List.mem_append,
    List.mem_flatMap, List.mem_map, List.mem_cons, List.mem_singleton, List.not_mem_nil,
    or_false] at hs hb ⊢
  rcases hs with (hs | ⟨p, hp, hs⟩) | ⟨f, hf, hs⟩
  · exact resolveSelects_spec mem _ _ s hs hb
  · rcases hs with rfl | rfl
    · exact (resolvePredicates_spec mem _ _ p hp).1 hb
    · exact (resolvePredicates_spec mem _ _ p hp).2 hb
  · subst hs
    exact resolveFilters_spec mem _ _ f hf hb

theorem QueryInfo.parseQuery_inv {mem : Stray} {q q1 : QueryInfo} {raw : String}
    (h : q.parseQuery mem raw = some q1) :
    ∃ q3 : QueryInfo, q1 = q3.resolveRelationIds mem := by
  unfold QueryInfo.parseQuery at h
  simp only at h
  split at h
  · cases h
  · split at h
    · split at h
      · cases h
      · split at h
        · cases h
        · split at h
          · cases h
          · cases h
            exact ⟨_, rfl⟩
    · cases h

theorem QueryInfo.parseQuery_resolved {mem : Stray} {q q1 : QueryInfo} {raw : String}
    (h : q.parseQuery mem raw = some q1) :
    ∀ s ∈ q1.selectInfos, s.binding < q1.relation_ids_.length →
      q1.relation_ids_[s.binding]? = some s.rel_id := by
  obtain ⟨q3, rfl⟩ := QueryInfo.parseQuery_inv h
  exact QueryInfo.resolveRelationIds_spec mem q3


/-! ## The dump loops in closed form -/

theorem intercalate_go_append (s : String) :
    ∀ (l : List String) (a b : String),
      String.intercalate.go (a ++ b) s l = a ++ String.intercalate.go b s l := by
  intro l
  induction l with
  | nil => intro a b; rfl
  | cons x l ih =>
    intro a b
    simp only [String.intercalate.go]
    rw [String.append_assoc a b s, String.append_assoc a (b ++ s) x, ih]

theorem intercalate_go_list_append (s : String) :
    ∀ (l l2 : List String) (acc : String),
      String.intercalate.go acc s (l ++ l2) =
        String.intercalate.go (String.intercalate.go acc s l) s l2 := by
  intro l
  induction l with
  | nil => intro l2 acc; rfl
  | cons x l ih =>
    intro l2 acc
    simp only [List.cons_append, String.intercalate.go]
    exact ih l2 _

theorem intercalate_append (s : String) (xs ys : List String) :
    String.intercalate s (xs ++ ys) =
      String.intercalate s xs ++ (if xs ≠ [] ∧ ys ≠ [] then s else "") ++
        String.intercalate s ys := by
  cases xs with
  | nil =>
    simp only [List.nil_append, ne_eq, not_true_eq_false, false_and, if_false,
      String.intercalate]
    rw [String.append_empty, String.empty_append]
  | cons a l =>
    cases ys with
    | nil =>
      simp only [List.append_nil, ne_eq, not_true_eq_false, and_false, if_false,
        String.intercalate]
      rw [String.append_empty, String.append_empty]
    | cons y l2 =>
      have hc : (a :: l ≠ [] ∧ y :: l2 ≠ []) := ⟨List.cons_ne_nil _ _, List.cons_ne_nil _ _⟩
      rw [if_pos hc]
      simp only [List.cons_append, String.intercalate]
      rw [intercalate_go_list_append]
      simp only [String.intercalate.go]
      rw [intercalate_go_append]

theorem dumpLoop_go (d : String) (n : Nat) :
    ∀ (rest : List String) (t : String) (i : Nat) (ss : String), i + rest.length + 1 = n →
      dumpLoop d n (t :: rest) i ss = String.intercalate.go (ss ++ t) d rest := by
  intro rest
  induction rest with
  | nil =>
    intro t i ss h
    have hi : ¬ i < n - 1 := by simp only [List.length_nil] at h; omega
    simp only [dumpLoop, hi, if_false, String.intercalate.go]
  | cons t1 rest ih =>
    intro t i ss h
    have hi : i < n - 1 := by simp only [List.length_cons] at h; omega
    rw [dumpLoop]
    simp only [hi, if_true]
    rw [ih t1 (i + 1) _ (by simp only [List.length_cons] at h; omega)]
    simp only [String.intercalate.go]

theorem dumpLoop_eq (d : String) (texts : List String) (ss : String) :
    dumpLoop d texts.length texts 0 ss = ss ++ String.intercalate d texts := by
  cases texts with
  | nil =>
    simp only [dumpLoop, String.intercalate]
    rw [String.append_empty]
  | cons t rest =>
    rw [dumpLoop_go d (t :: rest).length rest t 0 ss (by simp)]
    simp only [String.intercalate]
    rw [intercalate_go_append]

theorem dumpLoop_map {α : Type} (d : String) (f : α → String) (l : List α) (ss : String) :
    dumpLoop d l.length (l.map f) 0 ss = ss ++ String.intercalate d (l.map f) := by
  have := dumpLoop_eq d (l.map f) ss
  rw [List.length_map] at this
  exact this

theorem push_eq_append (s : String) (ch : Char) : s.push ch = s ++ String.singleton ch := by
  apply String.ext
  simp [String.data_append]

theorem PredicateInfo.pred_dumpText_eq (p : PredicateInfo) : p.dumpText = p.text := by
  unfold PredicateInfo.dumpText PredicateInfo.text
  rw [push_eq_append]
  rfl

theorem FilterInfo.flt_dumpText_eq (f : FilterInfo) : f.dumpText = f.text := by
  unfold FilterInfo.dumpText FilterInfo.text
  rw [push_eq_append]
  rfl

theorem QueryInfo.query_dumpText_eq (q : QueryInfo) :
    q.dumpText =
      String.intercalate " " (q.relation_ids_.map to_string) ++ "|" ++
        String.intercalate "&"
          (q.predicates_.map PredicateInfo.text ++ q.filters_.map FilterInfo.text) ++ "|" ++
        String.intercalate " " (q.selections_.map SelectInfo.text) := by
  have hp : q.predicates_.map PredicateInfo.dumpText = q.predicates_.map PredicateInfo.text :=
    List.map_congr_left (fun p _ => p.pred_dumpText_eq)
  have hf : q.filters_.map FilterInfo.dumpText = q.filters_.map FilterInfo.text :=
    List.map_congr_left (fun f _ => f.flt_dumpText_eq)
  have hs : q.selections_.map SelectInfo.dumpText = q.selections_.map SelectInfo.text := rfl
  unfold QueryInfo.dumpText dumpPartPredicates dumpPartFilters dumpPartSelections
  simp only [dumpLoop_map, hp, hf, hs, push_eq_append]
  rw [String.empty_append, intercalate_append]
  by_cases hc : q.predicates_ ≠ [] ∧ q.filters_ ≠ []
  · have hc1 : q.predicates_.length ≠ 0 ∧ q.filters_.length ≠ 0 :=
      ⟨fun h => hc.1 (List.length_eq_zero.mp h), fun h => hc.2 (List.length_eq_zero.mp h)⟩
    have hc2 : List.map PredicateInfo.text q.predicates_ ≠ [] ∧
        List.map FilterInfo.text q.filters_ ≠ [] :=
      ⟨fun h => hc.1 (List.map_eq_nil_iff.mp h), fun h => hc.2 (List.map_eq_nil_iff.mp h)⟩
    rw [if_pos hc1, if_pos hc2]
    simp only [String.append_assoc]
    rfl
  · have hc1 : ¬ (q.predicates_.length ≠ 0 ∧ q.filters_.length ≠ 0) := by
      intro h
      exact hc ⟨fun he => h.1 (by rw [he]; rfl), fun he => h.2 (by rw [he]; rfl)⟩
    have hc2 : ¬ (List.map PredicateInfo.text q.predicates_ ≠ [] ∧
        List.map FilterInfo.text q.filters_ ≠ []) := by
      intro h
      exact hc ⟨fun he => h.1 (by rw [he]; rfl), fun he => h.2 (by rw [he]; rfl)⟩
    rw [if_neg hc1, if_neg hc2, String.append_empty]
    simp only [String.append_assoc]


/-! ## The SQL dump in closed form -/

theorem SelectInfo.dumpSQL_plain (s : SelectInfo) :
    s.dumpSQL false = "\"" ++ to_string s.binding ++ "\".c" ++ to_string s.col_id := by
  apply String.ext
  simp [SelectInfo.dumpSQL, wrapRelationName, String.data_append]

theorem SelectInfo.dumpSQL_sum (s : SelectInfo) :
    s.dumpSQL true =
      "SUM(\"" ++ to_string s.binding ++ "\".c" ++ to_string s.col_id ++ ")" := by
  apply String.ext
  simp [SelectInfo.dumpSQL, wrapRelationName, String.data_append]

theorem PredicateInfo.pred_dumpSQL_eq (p : PredicateInfo) :
    p.dumpSQL =
      "\"" ++ to_string p.left.binding ++ "\".c" ++ to_string p.left.col_id ++ "=\"" ++
        to_string p.right.binding ++ "\".c" ++ to_string p.right.col_id := by
  unfold PredicateInfo.dumpSQL
  rw [push_eq_append, SelectInfo.dumpSQL_plain, SelectInfo.dumpSQL_plain]
  apply String.ext
  simp [String.data_append]

theorem FilterInfo.flt_dumpSQL_eq (f : FilterInfo) :
    f.dumpSQL =
      "\"" ++ to_string f.filter_column.binding ++ "\".c" ++
        to_string f.filter_column.col_id ++ String.singleton f.comparison.toChar ++
        to_string f.constant := by
  unfold FilterInfo.dumpSQL
  rw [push_eq_append, SelectInfo.dumpSQL_plain]

theorem range_map_eq_enum {α : Type} (l : List Nat) (g : Nat → Nat → α) :
    (List.range l.length).map (fun i => g i (l.getD i 0)) =
      l.enum.map (fun ir => g ir.1 ir.2) := by
  apply List.ext_getElem
  · simp
  · intro i h1 h2
    simp only [List.length_map, List.length_range] at h1
    simp [List.getD_eq_getElem?_getD, List.getElem?_eq_getElem h1]

theorem QueryInfo.query_dumpSQL_eq (q : QueryInfo) :
    q.dumpSQL =
      "SELECT " ++ String.intercalate ", " (q.selections_.map (fun s => s.dumpSQL true)) ++
        " FROM " ++
        String.intercalate ", " ((List.range q.relation_ids_.length).map (fun i =>
          "r" ++ to_string (q.relation_ids_.getD i 0) ++ " " ++ wrapRelationName i)) ++
        " WHERE " ++
        String.intercalate " and "
          (q.predicates_.map PredicateInfo.dumpSQL ++ q.filters_.map FilterInfo.dumpSQL) ++
        ";" := by
  have hr := dumpLoop_eq ", " ((List.range q.relation_ids_.length).map (fun i =>
          "r" ++ to_string (q.relation_ids_.getD i 0) ++ " " ++ wrapRelationName i))
  simp only [List.length_map, List.length_range] at hr
  unfold QueryInfo.dumpSQL dumpPartSQLPredicates dumpPartSQLFilters
  simp only [dumpLoop_map, hr]
  rw [intercalate_append]
  by_cases hc : q.predicates_ ≠ [] ∧ q.filters_ ≠ []
  · have hc2 : List.map PredicateInfo.dumpSQL q.predicates_ ≠ [] ∧
        List.map FilterInfo.dumpSQL q.filters_ ≠ [] :=
      ⟨fun h => hc.1 (List.map_eq_nil_iff.mp h), fun h => hc.2 (List.map_eq_nil_iff.mp h)⟩
    rw [if_pos hc, if_pos hc2]
    simp only [String.append_assoc]
  · have hc2 : ¬ (List.map PredicateInfo.dumpSQL q.predicates_ ≠ [] ∧
        List.map FilterInfo.dumpSQL q.filters_ ≠ []) := by
      intro h
      exact hc ⟨fun he => h.1 (by rw [he]; rfl), fun he => h.2 (by rw [he]; rfl)⟩
    rw [if_neg hc, if_neg hc2, String.append_empty]
    simp only [String.append_assoc]


/-! ## Texts the parser rejects -/

theorem getLast?_cons_eq_some_delim (d : Char) (rest : List Char) :
    (d :: rest).getLast? = some d ↔ rest = [] ∨ rest.getLast? = some d := by
  cases rest with
  | nil => simp
  | cons x xs => rw [List.getLast?_cons_cons]; simp

theorem getLast?_cons_eq_some_other (d ch : Char) (hne : ch ≠ d) (rest : List Char) :
    (ch :: rest).getLast? = some d ↔ rest.getLast? = some d := by
  cases rest with
  | nil => simp [hne]
  | cons x xs => rw [List.getLast?_cons_cons]

theorem getlineLoop_length (d : Char) :
    ∀ (l : List Char) (cur : Option (List Char)),
      (getlineLoop d l cur).length =
        l.count d + (if (l = [] ∧ cur = none) ∨ l.getLast? = some d then 0 else 1) := by
  intro l
  induction l with
  | nil =>
    intro cur
    cases cur with
    | none => simp [getlineLoop]
    | some tok => simp [getlineLoop]
  | cons ch rest ih =>
    intro cur
    rw [getlineLoop]
    by_cases hc : ch = d
    · rw [if_pos hc, List.length_cons, ih none, hc, List.count_cons_self]
      have hiff := getLast?_cons_eq_some_delim d rest
      by_cases hl : rest = [] ∨ rest.getLast? = some d
      · have h1 : (rest = [] ∧ (none : Option (List Char)) = none) ∨ rest.getLast? = some d := by
          rcases hl with hl | hl
          · exact Or.inl ⟨hl, rfl⟩
          · exact Or.inr hl
        have h2 : (d :: rest = [] ∧ cur = none) ∨ (d :: rest).getLast? = some d :=
          Or.inr (hiff.mpr hl)
        rw [if_pos h1, if_pos h2]
      · have h1 : ¬ ((rest = [] ∧ (none : Option (List Char)) = none) ∨
            rest.getLast? = some d) := by
          intro h
          rcases h with h | h
          · exact hl (Or.inl h.1)
          · exact hl (Or.inr h)
        have h2 : ¬ ((d :: rest = [] ∧ cur = none) ∨ (d :: rest).getLast? = some d) := by
          intro h
          rcases h with h | h
          · exact List.cons_ne_nil _ _ h.1
          · exact hl (hiff.mp h)
        rw [if_neg h1, if_neg h2]
    · rw [if_neg hc, ih, List.count_cons_of_ne (fun h => hc h.symm)]
      have hiff := getLast?_cons_eq_some_other d ch hc rest
      by_cases hl : rest.getLast? = some d
      · have h1 : (rest = [] ∧ some (cur.getD [] ++ [ch]) = none) ∨ rest.getLast? = some d :=
          Or.inr hl
        have h2 : (ch :: rest = [] ∧ cur = none) ∨ (ch :: rest).getLast? = some d :=
          Or.inr (hiff.mpr hl)
        rw [if_pos h1, if_pos h2]
      · have h1 : ¬ ((rest = [] ∧ some (cur.getD [] ++ [ch]) = none) ∨
            rest.getLast? = some d) := by
          intro h
          rcases h with h | h
          · exact Option.noConfusion h.2
          · exact hl h
        have h2 : ¬ ((ch :: rest = [] ∧ cur = none) ∨ (ch :: rest).getLast? = some d) := by
          intro h
          rcases h with h | h
          · exact List.cons_ne_nil _ _ h.1
          · exact hl (hiff.mp h)
        rw [if_neg h1, if_neg h2]

theorem splitString_length (raw : String) (d : Char) :
    (splitString raw d).length = partCount raw d := by
  unfold splitString partCount
  rw [getlineLoop_length]
  simp only [and_true]

theorem stoul_none_of_not_starts (t : String) (h : startsWithNumber t = false) :
    stoul t = none := by
  unfold startsWithNumber at h
  unfold stoul
  simp only
  cases hb : (stoulSign (t.data.dropWhile isspace)).2 with
  | nil => simp
  | cons ch rest =>
    rw [hb] at h
    simp only at h
    simp [List.takeWhile, h]

theorem pushNumbers_none :
    ∀ (toks : List String) (result : List Nat), (∃ t ∈ toks, stoul t = none) →
      pushNumbers toks result = none := by
  intro toks
  induction toks with
  | nil =>
    intro result h
    obtain ⟨t, ht, _⟩ := h
    exact absurd ht (List.not_mem_nil t)
  | cons a toks ih =>
    intro result h
    obtain ⟨t, ht, hs⟩ := h
    rw [pushNumbers]
    cases ha : stoul a with
    | none => rfl
    | some v =>
      simp only
      rcases List.mem_cons.mp ht with rfl | hm
      · rw [hs] at ha; cases ha
      · exact ih _ ⟨t, hm, hs⟩

theorem parseRelColPair_none (mem : Stray) (tok : String)
    (h : ∃ piece ∈ splitString tok '.', startsWithNumber piece = false) :
    parseRelColPair mem tok = none := by
  obtain ⟨piece, hp, hs⟩ := h
  unfold parseRelColPair splitStringUnsigned
  rw [pushNumbers_none _ _ ⟨piece, hp, stoul_none_of_not_starts piece hs⟩]

theorem QueryInfo.parseSelectionList_none (mem : Stray) :
    ∀ (toks : List String) (q : QueryInfo), (∃ t ∈ toks, parseRelColPair mem t = none) →
      q.parseSelectionList mem toks = none := by
  intro toks
  induction toks with
  | nil =>
    intro q h
    obtain ⟨t, ht, _⟩ := h
    exact absurd ht (List.not_mem_nil t)
  | cons a toks ih =>
    intro q h
    obtain ⟨t, ht, hs⟩ := h
    rw [QueryInfo.parseSelectionList]
    cases ha : parseRelColPair mem a with
    | none => rfl
    | some v =>
      simp only
      rcases List.mem_cons.mp ht with rfl | hm
      · rw [hs] at ha; cases ha
      · exact ih _ ⟨t, hm, hs⟩

theorem QueryInfo.parsePredicate_none (mem : Stray) (q : QueryInfo) (tok : String)
    (h : ∃ side ∈ splitPredicates tok, '.' ∈ side.data ∧ parseRelColPair mem side = none) :
    q.parsePredicate mem tok = none := by
  obtain ⟨side, hm, hdot, hn⟩ := h
  have hconst : isConstant side = false := by
    unfold isConstant
    rw [contains_true_of_mem hdot]
    rfl
  unfold QueryInfo.parsePredicate
  simp only
  by_cases hlen : (splitPredicates tok).length ≠ 2
  · rw [if_pos hlen]
  · rw [if_neg hlen]
    have hlen2 : (splitPredicates tok).length = 2 := not_not.mp hlen
    obtain ⟨lhs, rhs, hsp⟩ := List.length_eq_two.mp hlen2
    rw [hsp] at hm ⊢
    simp only [List.getElem?_cons_zero, List.getElem?_cons_succ]
    simp only [List.mem_cons, List.mem_singleton, List.not_mem_nil, or_false] at hm
    rcases hm with rfl | rfl
    · rw [hconst]
      simp only [Bool.false_eq_true, if_false, hn]
    · by_cases hl : isConstant lhs = true
      · rw [if_pos hl]
      · rw [if_neg hl]
        cases hpl : parseRelColPair mem lhs with
        | none => rfl
        | some left_select =>
          simp only [hconst, Bool.false_eq_true, if_false, hn]

theorem QueryInfo.parsePredicateList_none (mem : Stray) :
    ∀ (toks : List String) (q : QueryInfo),
      (∃ t ∈ toks, ∀ q1 : QueryInfo, q1.parsePredicate mem t = none) →
      q.parsePredicateList mem toks = none := by
  intro toks
  induction toks with
  | nil =>
    intro q h
    obtain ⟨t, ht, _⟩ := h
    exact absurd ht (List.not_mem_nil t)
  | cons a toks ih =>
    intro q h
    obtain ⟨t, ht, hs⟩ := h
    rw [QueryInfo.parsePredicateList]
    cases ha : q.parsePredicate mem a with
    | none => rfl
    | some v =>
      simp only
      rcases List.mem_cons.mp ht with rfl | hm
      · rw [hs] at ha; cases ha
      · exact ih _ ⟨t, hm, hs⟩

theorem QueryInfo.parseQuery_parts (mem : Stray) (q : QueryInfo) (raw : String)
    (h : partCount raw '|' ≠ 3) : q.parseQuery mem raw = none := by
  unfold QueryInfo.parseQuery
  simp only
  rw [if_pos (by rw [splitString_length]; exact h)]

theorem QueryInfo.parseQuery_selection (mem : Stray) (q : QueryInfo) (raw r p s : String)
    (hparts : splitString raw '|' = [r, p, s])
    (h : ∃ tok ∈ splitString s ' ', parseRelColPair mem tok = none) :
    q.parseQuery mem raw = none := by
  unfold QueryInfo.parseQuery
  simp only [hparts, List.length_cons, List.length_nil, ne_eq, not_true_eq_false, if_false,
    List.getElem?_cons_zero, List.getElem?_cons_succ]
  cases h1 : q.clear.parseRelationIds r with
  | none => rfl
  | some q1 =>
    simp only
    cases h2 : q1.parsePredicates mem p with
    | none => rfl
    | some q2 =>
      simp only
      unfold QueryInfo.parseSelections
      rw [QueryInfo.parseSelectionList_none mem _ _ h]

theorem QueryInfo.parseQuery_predicate (mem : Stray) (q : QueryInfo) (raw r p s : String)
    (hparts : splitString raw '|' = [r, p, s])
    (h : ∃ tok ∈ splitString p '&', ∀ q1 : QueryInfo, q1.parsePredicate mem tok = none) :
    q.parseQuery mem raw = none := by
  unfold QueryInfo.parseQuery
  simp only [hparts, List.length_cons, List.length_nil, ne_eq, not_true_eq_false, if_false,
    List.getElem?_cons_zero, List.getElem?_cons_succ]
  cases h1 : q.clear.parseRelationIds r with
  | none => rfl
  | some q1 =>
    simp only
    unfold QueryInfo.parsePredicates
    rw [QueryInfo.parsePredicateList_none mem _ _ h]


/-! ## Output columns of a `Join` -/

theorem indexOf_of_getElem? {ss : List SelectInfo} (hnd : ss.Nodup) {k : Nat} {s : SelectInfo}
    (h : ss[k]? = some s) : s ∈ ss ∧ ss.indexOf s = k := by
  obtain ⟨hk, he⟩ := List.getElem?_eq_some.mp h
  refine ⟨List.getElem?_mem h, ?_⟩
  rw [← he]
  exact List.indexOf_getElem hnd k hk

theorem Join_buildProbe_layout (ord : HTOrder) (base : Operator) (left right : Op)
    (p : PredicateInfo) (ht : List (Nat × Nat)) (req reqL reqR : List SelectInfo)
    (cl cr : List Column) (j : Op) (hnd : (reqL ++ reqR).Nodup)
    (hlen : base.tmp_results_.length = reqL.length + reqR.length)
    (h : Join.buildProbe ord base left right p ht req reqL reqR cl cr = some j) :
    (∃ base2 ht2 cl2 cr2, j = Op.Join base2 left right p ht2 req reqL reqR cl2 cr2) ∧
    (∀ k s, reqL[k]? = some s → j.resolve s = some k) ∧
    (∀ k s, reqR[k]? = some s → j.resolve s = some (reqL.length + k)) ∧
    j.getResults.length = reqL.length + reqR.length := by
  have hglen := Join_buildProbe_length ord base left right p ht req reqL reqR cl cr j h
  have hndL : reqL.Nodup := (List.nodup_append.mp hnd).1
  have hndR : reqR.Nodup := (List.nodup_append.mp hnd).2.1
  have hdisj := (List.nodup_append.mp hnd).2.2
  unfold Join.buildProbe at h
  cases hL : resolveCols left reqL with
  | none => simp [hL] at h
  | some newL =>
    simp only [hL] at h
    cases hR : resolveCols right reqR with
    | none => simp [hR] at h
    | some newR =>
      simp only [hR] at h
      cases hpl : left.resolve p.left with
      | none => simp [hpl] at h
      | some kl =>
        cases hpr : right.resolve p.right with
        | none => simp [hpl, hpr] at h
        | some kr =>
          simp only [hpl, hpr] at h
          cases hgl : left.getResults[kl]? with
          | none => simp [hgl] at h
          | some colL =>
            cases hgr : right.getResults[kr]? with
            | none => simp [hgl, hgr] at h
            | some colR =>
              simp only [hgl, hgr] at h
              cases hb : Join.build colL (List.range left.result_size) ht with
              | none => simp [hb] at h
              | some ht1 =>
                simp only [hb] at h
                cases hpb : Join.probe ord ht1 colR (cl ++ newL) (cr ++ newR)
                    (List.range right.result_size) (base.tmp_results_, base.result_size_) with
                | none => simp [hpb] at h
                | some st =>
                  obtain ⟨tmp, rs⟩ := st
                  simp only [hpb, Option.some.injEq] at h
                  subst h
                  refine ⟨⟨_, _, _, _, rfl⟩, ?_, ?_, by rw [hglen, hlen]⟩
                  · intro k s hk
                    obtain ⟨hm, hi⟩ := indexOf_of_getElem? hndL hk
                    have hnr : s ∉ reqR := fun hr => hdisj hm hr
                    simp only [Op.resolve, Op.base]
                    rw [assignCols_eq reqR _ _ s hndR, if_neg hnr, assignCols_eq reqL _ _ s hndL,
                      if_pos hm, hi, Nat.zero_add]
                  · intro k s hk
                    obtain ⟨hm, hi⟩ := indexOf_of_getElem? hndR hk
                    simp only [Op.resolve, Op.base]
                    rw [assignCols_eq reqR _ _ s hndR, if_pos hm, hi]


/-! ## Order of the calls of `require` and `run` -/

theorem Event.Orderly_of_require (path : List Nat) (info : SelectInfo) (e : Event) :
    Event.Orderly (Event.require path info) e := by
  intro π s h
  cases h

theorem pairwise_orderly_of_requires (l : List Event)
    (h : ∀ e ∈ l, ∃ π s, e = Event.require π s) : l.Pairwise Event.Orderly := by
  induction l with
  | nil => exact List.Pairwise.nil
  | cons a l ih =>
    refine List.Pairwise.cons ?_ (ih (fun e he => h e (List.mem_cons_of_mem _ he)))
    intro b _
    obtain ⟨π, s, rfl⟩ := h a (List.mem_cons_self _ _)
    exact Event.Orderly_of_require π s b

theorem pairwise_orderly_append (A B : List Event)
    (hA : ∀ e ∈ A, ∃ π s, e = Event.require π s) (hB : B.Pairwise Event.Orderly) :
    (A ++ B).Pairwise Event.Orderly := by
  rw [List.pairwise_append]
  refine ⟨pairwise_orderly_of_requires A hA, hB, ?_⟩
  intro a ha b _
  obtain ⟨π, s, rfl⟩ := hA a ha
  exact Event.Orderly_of_require π s b

theorem Op.requireEvents_paths :
    ∀ (op : Op) (path : List Nat) (info : SelectInfo),
      ∀ e ∈ op.requireEvents path info, ∃ σ, e = Event.require (path ++ σ) info := by
  intro op
  induction op with
  | Scan base rel b =>
    intro path info e he
    simp only [Op.requireEvents, List.mem_singleton] at he
    exact ⟨[], by rw [he, List.append_nil]⟩
  | FilterScan base rel b fs idata =>
    intro path info e he
    simp only [Op.requireEvents, List.mem_singleton] at he
    exact ⟨[], by rw [he, List.append_nil]⟩
  | Join base l r p ht req reqL reqR cl cr ihl ihr =>
    intro path info e he
    have hl : ∀ e ∈ l.requireEvents (path ++ [0]) info,
        ∃ σ, e = Event.require (path ++ σ) info := by
      intro e he
      obtain ⟨σ, rfl⟩ := ihl (path ++ [0]) info e he
      exact ⟨[0] ++ σ, by rw [List.append_assoc]⟩
    have hr : ∀ e ∈ r.requireEvents (path ++ [1]) info,
        ∃ σ, e = Event.require (path ++ σ) info := by
      intro e he
      obtain ⟨σ, rfl⟩ := ihr (path ++ [1]) info e he
      exact ⟨[1] ++ σ, by rw [List.append_assoc]⟩
    simp only [Op.requireEvents] at he
    split at he
    · simp only [List.mem_singleton] at he
      exact ⟨[], by rw [he, List.append_nil]⟩
    · split at he
      · rcases List.mem_cons.mp he with he | he
        · exact ⟨[], by rw [he, List.append_nil]⟩
        · rcases List.mem_append.mp he with he | he
          · exact hl e he
          · exact hr e he
      · rcases List.mem_cons.mp he with he | he
        · exact ⟨[], by rw [he, List.append_nil]⟩
        · exact hl e he
  | SelfJoin base i p ius idata cd ih =>
    intro path info e he
    simp only [Op.requireEvents] at he
    split at he
    · simp only [List.mem_singleton] at he
      exact ⟨[], by rw [he, List.append_nil]⟩
    · rcases List.mem_cons.mp he with he | he
      · exact ⟨[], by rw [he, List.append_nil]⟩
      · obtain ⟨σ, rfl⟩ := ih (path ++ [0]) info e he
        exact ⟨[0] ++ σ, by rw [List.append_assoc]⟩

theorem Op.requireAllEvents_requires :
    ∀ (ss : List SelectInfo) (op : Op) (path : List Nat),
      ∀ e ∈ op.requireAllEvents path ss, ∃ π s, e = Event.require π s := by
  intro ss
  induction ss with
  | nil => intro op path e he; exact absurd he (List.not_mem_nil e)
  | cons s ss ih =>
    intro op path e he
    rw [Op.requireAllEvents] at he
    rcases List.mem_append.mp he with he | he
    · obtain ⟨σ, rfl⟩ := Op.requireEvents_paths op path s e he
      exact ⟨_, _, rfl⟩
    · split at he
      · exact absurd he (List.not_mem_nil e)
      · exact ih _ _ e he

theorem path_child_ne (path σ : List Nat) (k : Nat) : path ≠ path ++ [k] ++ σ := by
  intro h
  have := congrArg List.length h
  simp only [List.length_append, List.length_singleton] at this
  omega

theorem path_children_ne (path σ τ : List Nat) : path ++ [0] ++ σ ≠ path ++ [1] ++ τ := by
  intro h
  rw [List.append_assoc, List.append_assoc] at h
  have := List.append_cancel_left h
  simp at this

theorem Op.runEvents_paths (ord : HTOrder) :
    ∀ (n : Nat) (op : Op) (path : List Nat), ∀ e ∈ Op.runEvents ord n op path,
      (∃ σ, e = Event.run (path ++ σ)) ∨ ∃ k σ s, e = Event.require (path ++ [k] ++ σ) s := by
  intro n
  induction n with
  | zero => intro op path e he; exact absurd he (List.not_mem_nil e)
  | succ n ih =>
    intro op path e he
    have hchild : ∀ (k : Nat) (x : Op), ∀ e ∈ Op.runEvents ord n x (path ++ [k]),
        (∃ σ, e = Event.run (path ++ σ)) ∨
          ∃ k σ s, e = Event.require (path ++ [k] ++ σ) s := by
      intro k x e he
      rcases ih x (path ++ [k]) e he with ⟨σ, rfl⟩ | ⟨k1, σ, s, rfl⟩
      · exact Or.inl ⟨[k] ++ σ, by rw [List.append_assoc]⟩
      · exact Or.inr ⟨k, [k1] ++ σ, s, by simp only [List.append_assoc]⟩
    have hreq : ∀ (k : Nat) (x : Op) (info : SelectInfo),
        ∀ e ∈ x.requireEvents (path ++ [k]) info,
          (∃ σ, e = Event.run (path ++ σ)) ∨
            ∃ k σ s, e = Event.require (path ++ [k] ++ σ) s := by
      intro k x info e he
      obtain ⟨σ, rfl⟩ := Op.requireEvents_paths x (path ++ [k]) info e he
      exact Or.inr ⟨k, σ, info, rfl⟩
    cases op with
    | Scan base rel b =>
      simp only [Op.runEvents, List.mem_singleton] at he
      exact Or.inl ⟨[], by rw [he, List.append_nil]⟩
    | FilterScan base rel b fs idata =>
      simp only [Op.runEvents, List.mem_singleton] at he
      exact Or.inl ⟨[], by rw [he, List.append_nil]⟩
    | Join base l r p ht req reqL reqR cl cr =>
      simp only [Op.runEvents] at he
      rcases List.mem_cons.mp he with he | he
      · exact Or.inl ⟨[], by rw [he, List.append_nil]⟩
      · rcases List.mem_append.mp he with he | he
        · exact hreq 0 l p.left e he
        · split at he
          · exact absurd he (List.not_mem_nil e)
          · rcases List.mem_append.mp he with he | he
            · exact hreq 1 r p.right e he
            · split at he
              · exact absurd he (List.not_mem_nil e)
              · rcases List.mem_append.mp he with he | he
                · exact hchild 0 _ e he
                · split at he
                  · exact absurd he (List.not_mem_nil e)
                  · exact hchild 1 _ e he
    | SelfJoin base i p ius idata cd =>
      simp only [Op.runEvents] at he
      rcases List.mem_cons.mp he with he | he
      · exact Or.inl ⟨[], by rw [he, List.append_nil]⟩
      · rcases List.mem_append.mp he with he | he
        · exact hreq 0 i p.left e he
        · split at he
          · exact absurd he (List.not_mem_nil e)
          · rcases List.mem_append.mp he with he | he
            · exact hreq 0 _ p.right e he
            · split at he
              · exact absurd he (List.not_mem_nil e)
              · exact hchild 0 _ e he

theorem Event.Orderly_run_self (path : List Nat) (e : Event)
    (h : (∃ σ, e = Event.run σ) ∨ ∃ k σ s, e = Event.require (path ++ [k] ++ σ) s) :
    Event.Orderly (Event.run path) e := by
  intro π info h1 h2
  cases h1
  rcases h with ⟨σ, h⟩ | ⟨k, σ, s, h⟩
  · rw [h] at h2; cases h2
  · rw [h] at h2
    injection h2 with h3 _
    exact path_child_ne path σ k h3.symm

theorem Op.runEvents_orderly (ord : HTOrder) :
    ∀ (n : Nat) (op : Op) (path : List Nat),
      (Op.runEvents ord n op path).Pairwise Event.Orderly := by
  intro n
  induction n with
  | zero => intro op path; exact List.Pairwise.nil
  | succ n ih =>
    intro op path
    have hself : ∀ e ∈ Op.runEvents ord (n + 1) op path, e ≠ Event.run path →
        (∃ σ, e = Event.run σ) ∨ ∃ k σ s, e = Event.require (path ++ [k] ++ σ) s := by
      intro e he _
      rcases Op.runEvents_paths ord (n + 1) op path e he with ⟨σ, h⟩ | h
      · exact Or.inl ⟨_, h⟩
      · exact Or.inr h
    have hhead : ∀ (rest : List Event),
        (∀ e ∈ rest, (∃ σ, e = Event.run σ) ∨
          ∃ k σ s, e = Event.require (path ++ [k] ++ σ) s) →
        rest.Pairwise Event.Orderly → (Event.run path :: rest).Pairwise Event.Orderly := by
      intro rest h1 h2
      exact List.Pairwise.cons (fun e he => Event.Orderly_run_self path e (h1 e he)) h2
    have hreqs : ∀ (x : Op) (π : List Nat) (info : SelectInfo),
        ∀ e ∈ x.requireEvents π info, ∃ π1 s, e = Event.require π1 s := by
      intro x π info e he
      obtain ⟨σ, rfl⟩ := Op.requireEvents_paths x π info e he
      exact ⟨_, _, rfl⟩
    cases op with
    | Scan base rel b =>
      simp only [Op.runEvents]
      exact List.pairwise_singleton _ _
    | FilterScan base rel b fs idata =>
      simp only [Op.runEvents]
      exact List.pairwise_singleton _ _
    | Join base l r p ht req reqL reqR cl cr =>
      have hall := Op.runEvents_paths ord (n + 1) (Op.Join base l r p ht req reqL reqR cl cr) path
      simp only [Op.runEvents] at hall ⊢
      refine hhead _ ?_ ?_
      · intro e he
        rcases hall e (List.mem_cons_of_mem _ he) with ⟨σ, h⟩ | h
        · exact Or.inl ⟨_, h⟩
        · exact Or.inr h
      · apply pairwise_orderly_append _ _ (hreqs l _ _)
        split
        · exact List.Pairwise.nil
        · apply pairwise_orderly_append _ _ (hreqs r _ _)
          split
          · exact List.Pairwise.nil
          · split
            · rw [List.append_nil]
              exact ih _ _
            · rw [List.pairwise_append]
              refine ⟨ih _ _, ih _ _, ?_⟩
              intro a ha b hb π info h1 h2
              subst h1
              subst h2
              rcases Op.runEvents_paths ord n _ (path ++ [0]) _ ha with ⟨σ, h⟩ | ⟨_, _, _, h⟩
              · injection h with h
                rcases Op.runEvents_paths ord n _ (path ++ [1]) _ hb with ⟨τ, h'⟩ |
                  ⟨k, τ, s, h'⟩
                · cases h'
                · injection h' with h' _
                  rw [h] at h'
                  rw [List.append_assoc (path ++ [1])] at h'
                  exact path_children_ne path σ ([k] ++ τ) h'
              · cases h
    | SelfJoin base i p ius idata cd =>
      have hall := Op.runEvents_paths ord (n + 1) (Op.SelfJoin base i p ius idata cd) path
      simp only [Op.runEvents] at hall ⊢
      refine hhead _ ?_ ?_
      · intro e he
        rcases hall e (List.mem_cons_of_mem _ he) with ⟨σ, h⟩ | h
        · exact Or.inl ⟨_, h⟩
        · exact Or.inr h
      · apply pairwise_orderly_append _ _ (hreqs i _ _)
        split
        · exact List.Pairwise.nil
        · apply pairwise_orderly_append _ _ (hreqs _ _ _)
          split
          · exact List.Pairwise.nil
          · exact ih _ _

theorem Checksum.events_orderly (ord : HTOrder) (cs : Checksum) :
    (cs.events ord).Pairwise Event.Orderly := by
  unfold Checksum.events
  apply pairwise_orderly_append _ _ (Op.requireAllEvents_requires _ _ _)
  split
  · exact List.Pairwise.nil
  · exact Op.runEvents_orderly ord _ _ _

theorem Op.runEvents_head (ord : HTOrder) (n : Nat) (op : Op) (path : List Nat) :
    (Op.runEvents ord (n + 1) op path).head? = some (Event.run path) := by
  cases op <;> simp [Op.runEvents]


/-! ## No `require` returns `false` on a well-formed tree -/

theorem Good_SidesReachable (rid : Nat → Nat) (ctx : Nat → Relation) :
    ∀ (op : Op), Good rid ctx op → op.SidesReachable := by
  intro op
  induction op with
  | Scan base rel b => intro _; exact True.intro
  | FilterScan base rel b fs idata => intro _; exact True.intro
  | Join base l r p ht req reqL reqR cl cr ihl ihr =>
    intro h
    obtain ⟨hl, hr, _, _, h1, h2, _⟩ := h
    exact ⟨h1, h2, ihl hl, ihr hr⟩
  | SelfJoin base i p ius idata cd ih =>
    intro h
    obtain ⟨hi, _, h1, h2, _⟩ := h
    exact ⟨h1, h2, ih hi⟩

theorem requireAllStrict_eq (rid : Nat → Nat) (ctx : Nat → Relation) :
    ∀ (ss : List SelectInfo) (op : Op), Good rid ctx op →
      (∀ s ∈ ss, Valid rid ctx s ∧ s.binding ∈ op.bindings) →
      op.requireAllStrict ss = op.requireAll ss := by
  intro ss
  induction ss with
  | nil => intro op _ _; rfl
  | cons s ss ih =>
    intro op hg h
    obtain ⟨hv, hb⟩ := h s (List.mem_cons_self _ _)
    obtain ⟨op1, h1, hg1, hb1, _⟩ := (Good_require rid ctx op s hg hv).1 hb
    rw [Op.requireAllStrict, Op.requireAll, h1]
    simp only
    exact ih op1 hg1 (fun t ht => by
      rw [hb1]
      exact h t (List.mem_cons_of_mem _ ht))

theorem runStrictFuel_eq (ord : HTOrder) (rid : Nat → Nat) (ctx : Nat → Relation) :
    ∀ (n : Nat) (op : Op), Good rid ctx op →
      Op.runStrictFuel ord n op = Op.runFuel ord n op := by
  intro n
  induction n with
  | zero => intro op _; cases op <;> rfl
  | succ n ih =>
    intro op hg
    cases op with
    | Scan base rel b => rfl
    | FilterScan base rel b fs idata => rfl
    | Join base l r p ht req reqL reqR cl cr =>
      obtain ⟨hl, hr, _, _, hbl, hbr, hvl, hvr, _⟩ := hg
      obtain ⟨l1, h1, hg1, _⟩ := (Good_require rid ctx l p.left hl hvl).1 hbl
      obtain ⟨r1, h2, hg2, _⟩ := (Good_require rid ctx r p.right hr hvr).1 hbr
      simp only [Op.runStrictFuel, Op.runFuel, h1, h2, ih l1 hg1, ih r1 hg2]
    | SelfJoin base i p ius idata cd =>
      obtain ⟨hi, _, hbl, hbr, hvl, hvr, _⟩ := hg
      obtain ⟨i1, h1, hg1, hb1, _⟩ := (Good_require rid ctx i p.left hi hvl).1 hbl
      obtain ⟨i2, h2, hg2, _⟩ := (Good_require rid ctx i1 p.right hg1 hvr).1 (by rw [hb1]; exact hbr)
      simp only [Op.runStrictFuel, Op.runFuel, h1, h2, ih i2 hg2]

theorem joinStrict_eq (ord : HTOrder) (rels : List Relation) (q : QueryInfo) (fuel : Nat)
    (hwf : QueryWF rels q) (hfuel : q.predicates_.length * q.predicates_.length ≤ fuel) :
    Joiner.joinStrict ord rels fuel q = Joiner.join ord rels fuel q := by
  obtain ⟨root, hplan, hg, hB, _, _⟩ := planTree_spec rels q hwf fuel hfuel
  have hsel : ∀ s ∈ q.selections_, Valid q.rid (q.ctx rels) s ∧ s.binding ∈ root.bindings :=
    fun s hs => ⟨(hwf.selectionsResolved s hs).valid, (hB _).mpr (hwf.selectionsJoined s hs)⟩
  obtain ⟨root1, hreq, hg1, _⟩ := Good_requireAll q.rid (q.ctx rels) q.selections_ root hg hsel
  have hstrict := requireAllStrict_eq q.rid (q.ctx rels) q.selections_ root hg hsel
  simp only [Joiner.joinStrict, Joiner.join, hplan, Checksum.runStrict, Checksum.run,
    Checksum.init, hstrict, hreq, Op.runStrict, Op.run,
    runStrictFuel_eq ord q.rid (q.ctx rels) root1.height root1 hg1]


/-! ## Queries over relations whose every column of row `i` holds `i` -/

theorem createRelation_cell (N K c i : Nat) (hc : c < K) (hi : i < N) :
    (createRelation N K).cell c i = i := by
  simp [Relation.cell, createRelation, createColumn, cellAt, List.getD_eq_getElem?_getD,
    List.getElem?_replicate, hc, List.getElem?_range hi]

theorem sum_range_two (n : Nat) : (List.range n).sum * 2 = n * (n - 1) := by
  induction n with
  | zero => rfl
  | succ n ih =>
    rw [List.range_succ, List.sum_append, List.sum_singleton, Nat.add_mul, ih]
    cases n with
    | zero => rfl
    | succ m =>
      simp only [Nat.add_sub_cancel]
      ring

theorem sum_range_half (n : Nat) : (List.range n).sum = n * (n - 1) / 2 := by
  have h := sum_range_two n
  generalize n * (n - 1) = m at h
  omega

theorem passingValues_nil (N : Nat) : passingValues N [] = List.range N := by
  simp [passingValues, passesAll]

theorem identity_ctx {rels : List Relation} {q : QueryInfo} {N K : Nat}
    (hrel : ∀ r ∈ rels, r = createRelation N K) {s : SelectInfo} (h : q.Resolved rels s) :
    q.ctx rels s.binding = createRelation N K ∧ s.col_id < K := by
  obtain ⟨_, hrid, hlt, hcol⟩ := h
  have hlt' : q.rid s.binding < rels.length := by rw [← hrid]; exact hlt
  have hc : q.ctx rels s.binding = createRelation N K := by
    apply hrel
    rw [QueryInfo.ctx, List.getD_eq_getElem _ _ hlt']
    exact List.getElem_mem _
  refine ⟨hc, ?_⟩
  rw [hc] at hcol
  simpa [createRelation] using hcol

theorem identity_val {rels : List Relation} {q : QueryInfo} {N K : Nat}
    (hrel : ∀ r ∈ rels, r = createRelation N K) {s : SelectInfo} (h : q.Resolved rels s)
    (a : Asg) (ha : a s.binding < N) : val (q.ctx rels) s a = a s.binding := by
  obtain ⟨hc, hk⟩ := identity_ctx hrel h
  rw [val, hc]
  exact createRelation_cell N K _ _ hk ha

theorem identity_rows (rels : List Relation) (q : QueryInfo) (N K : Nat)
    (hrel : ∀ r ∈ rels, r = createRelation N K) (hwf : QueryWF rels q) :
    ((passingValues N q.filters_).map (Asg.const q.joinBindings)).Nodup ∧
    (∀ a, a ∈ (passingValues N q.filters_).map (Asg.const q.joinBindings) ↔
      Sat (q.ctx rels) q.joinBindings q.predicates_ q.filters_ a) ∧
    ∀ s ∈ q.selections_, ∀ i ∈ passingValues N q.filters_,
      val (q.ctx rels) s (Asg.const q.joinBindings i) = i := by
  cases hps : q.predicates_ with
  | nil => exact absurd hps hwf.nonempty
  | cons p0 rest =>
    have hp0 : p0 ∈ q.predicates_ := by rw [hps]; exact List.mem_cons_self _ _
    have hb0 : p0.left.binding ∈ q.joinBindings :=
      (mem_joinBindings q _).mpr ⟨p0, hp0, Or.inl rfl⟩
    have hfb : q.firstBindings = [p0.left.binding, p0.right.binding] := by
      simp [QueryInfo.firstBindings, hps]
    have hsize : ∀ b ∈ q.joinBindings, (q.ctx rels b).size_ = N := by
      intro b hb
      obtain ⟨p, hp, hbp⟩ := (mem_joinBindings q b).mp hb
      obtain ⟨hl, hr⟩ := hwf.predsResolved p hp
      rcases hbp with rfl | rfl
      · rw [(identity_ctx hrel hl).1]; rfl
      · rw [(identity_ctx hrel hr).1]; rfl
    have hconst : ∀ (i : Nat) (b : Nat), b ∈ q.joinBindings → Asg.const q.joinBindings i b = i := by
      intro i b hb
      simp [Asg.const, hb]
    have hmemL : ∀ i, i ∈ passingValues N q.filters_ ↔
        i < N ∧ ∀ f ∈ q.filters_, f.holds i = true := by
      intro i
      simp [passingValues, passesAll, List.mem_filter, List.all_eq_true]
    rw [← hps]
    refine ⟨?_, ?_, ?_⟩
    · apply List.Nodup.map_on
      · intro i _ j _ h
        have := congrFun h p0.left.binding
        rwa [hconst i _ hb0, hconst j _ hb0] at this
      · exact (List.nodup_range N).filter _
    · intro a
      rw [List.mem_map]
      constructor
      · rintro ⟨i, hi, rfl⟩
        obtain ⟨hiN, hif⟩ := (hmemL i).mp hi
        refine ⟨?_, ?_, ?_, ?_⟩
        · intro b hb
          rw [hconst i b hb, hsize b hb]
          exact hiN
        · intro b hb
          simp [Asg.const, hb]
        · intro p hp
          obtain ⟨hl, hr⟩ := hwf.predsResolved p hp
          have hbl : p.left.binding ∈ q.joinBindings :=
            (mem_joinBindings q _).mpr ⟨p, hp, Or.inl rfl⟩
          have hbr : p.right.binding ∈ q.joinBindings :=
            (mem_joinBindings q _).mpr ⟨p, hp, Or.inr rfl⟩
          rw [identity_val hrel hl _ (by rw [hconst i _ hbl]; exact hiN),
            identity_val hrel hr _ (by rw [hconst i _ hbr]; exact hiN),
            hconst i _ hbl, hconst i _ hbr]
        · intro f hf
          have hb := hwf.filtersJoined f hf
          rw [identity_val hrel (hwf.filtersResolved f hf) _ (by rw [hconst i _ hb]; exact hiN),
            hconst i _ hb]
          exact hif f hf
      · rintro ⟨h1, h2, h3, h4⟩
        have hlt : ∀ b ∈ q.joinBindings, a b < N := by
          intro b hb
          rw [← hsize b hb]
          exact h1 b hb
        have hlink : ∀ b, Linked q.predicates_ q.firstBindings b →
            b ∈ q.joinBindings ∧ a b = a p0.left.binding := by
          intro b hl
          induction hl with
          | base b hb =>
            rw [hfb] at hb
            simp only [List.mem_cons, List.mem_singleton, List.not_mem_nil, or_false] at hb
            rcases hb with rfl | rfl
            · exact ⟨hb0, rfl⟩
            · have hbr : p0.right.binding ∈ q.joinBindings :=
                (mem_joinBindings q _).mpr ⟨p0, hp0, Or.inr rfl⟩
              obtain ⟨hl, hr⟩ := hwf.predsResolved p0 hp0
              have := h3 p0 hp0
              rw [identity_val hrel hl a (hlt _ hb0), identity_val hrel hr a (hlt _ hbr)] at this
              exact ⟨hbr, this.symm⟩
          | left p hp _ ih =>
            have hbl : p.left.binding ∈ q.joinBindings :=
              (mem_joinBindings q _).mpr ⟨p, hp, Or.inl rfl⟩
            obtain ⟨hl, hr⟩ := hwf.predsResolved p hp
            have := h3 p hp
            rw [identity_val hrel hl a (hlt _ hbl), identity_val hrel hr a (hlt _ ih.1)] at this
            exact ⟨hbl, this.trans ih.2⟩
          | right p hp _ ih =>
            have hbr : p.right.binding ∈ q.joinBindings :=
              (mem_joinBindings q _).mpr ⟨p, hp, Or.inr rfl⟩
            obtain ⟨hl, hr⟩ := hwf.predsResolved p hp
            have := h3 p hp
            rw [identity_val hrel hl a (hlt _ ih.1), identity_val hrel hr a (hlt _ hbr)] at this
            exact ⟨hbr, this.symm.trans ih.2⟩
        have hall : ∀ b ∈ q.joinBindings, a b = a p0.left.binding := by
          intro b hb
          obtain ⟨p, hp, hbp⟩ := (mem_joinBindings q b).mp hb
          have hc := hwf.connected p hp
          rcases hbp with rfl | rfl
          · exact (hlink _ hc).2
          · exact (hlink _ (Linked.right p hp hc)).2
        refine ⟨a p0.left.binding, (hmemL _).mpr ⟨hlt _ hb0, ?_⟩, ?_⟩
        · intro f hf
          have hb := hwf.filtersJoined f hf
          have := h4 f hf
          rw [identity_val hrel (hwf.filtersResolved f hf) a (hlt _ hb), hall _ hb] at this
          exact this
        · funext x
          by_cases hx : x ∈ q.joinBindings
          · rw [hconst _ x hx, hall x hx]
          · simp only [Asg.const, hx, if_false]
            exact (h2 x hx).symm
    · intro s hs i hi
      have hb := hwf.selectionsJoined s hs
      rw [identity_val hrel (hwf.selectionsResolved s hs) _
        (by rw [hconst i _ hb]; exact ((hmemL i).mp hi).1), hconst i _ hb]


/-! ## The planning loop, whatever the query -/

theorem planLoop_eq_end (rels : List Relation) (q : QueryInfo) :
    ∀ (fuel : Nat) (pc : List PredicateInfo) (i : Nat) (used : List Nat) (root : Op),
      planLoop rels q fuel pc i used root =
        match planLoopEnd rels q fuel pc i used root with
        | .finished _ _ r => some r
        | _ => none := by
  intro fuel
  induction fuel with
  | zero =>
    intro pc i used root
    simp only [planLoop, planLoopEnd]
    split <;> rfl
  | succ fuel ih =>
    intro pc i used root
    rw [planLoop, planLoopEnd]
    cases hp : pc[i]? with
    | none => rfl
    | some p =>
      simp only [planStep]
      cases ha : analyzeInputOfJoin used p.left p.right with
      | Left =>
        simp only []
        cases hs : addScan rels used p.right q with
        | none => rfl
        | some pr => exact ih _ _ _ _
      | Right =>
        simp only []
        cases hs : addScan rels used p.left q with
        | none => rfl
        | some pr => exact ih _ _ _ _
      | Both => exact ih _ _ _ _
      | None => exact ih _ _ _ _

theorem planTree_eq_end (rels : List Relation) (fuel : Nat) (q : QueryInfo) :
    planTree rels fuel q =
      match planTreeEnd rels fuel q with
      | .finished _ _ r => some r
      | _ => none := by
  unfold planTree planTreeEnd
  cases h0 : q.predicates_[0]? with
  | none => rfl
  | some p0 =>
    simp only []
    cases h1 : addScan rels [] p0.left q with
    | none => rfl
    | some pr1 =>
      simp only []
      cases h2 : addScan rels pr1.1 p0.right q with
      | none => rfl
      | some pr2 => exact planLoop_eq_end rels q fuel _ _ _ _

theorem mem_usedEmplace (used : List Nat) (b x : Nat) :
    x ∈ usedEmplace used b ↔ x ∈ used ∨ x = b := by
  unfold usedEmplace
  split
  · rename_i h
    constructor
    · exact fun hx => Or.inl hx
    · rintro (hx | rfl)
      · exact hx
      · exact h
  · simp

theorem addScan_inv (rels : List Relation) (used : List Nat) (info : SelectInfo)
    (q : QueryInfo) (used1 : List Nat) (leaf : Op)
    (h : addScan rels used info q = some (used1, leaf)) :
    used1 = usedEmplace used info.binding ∧ leaf.Ready ∧ leaf.bindings = [info.binding] ∧
      leaf.preds = [] ∧ leaf.joins = 0 ∧ leaf.selfJoins = 0 ∧ leaf.isLeaf = true ∧
      ∃ rel, rels[info.rel_id]? = some rel ∧ leaf.leafRels = [(info.binding, rel)] := by
  unfold addScan at h
  simp only [getRelation] at h
  cases hrel : rels[info.rel_id]? with
  | none => simp [hrel] at h
  | some rel =>
    simp only [hrel] at h
    cases hf : q.filters_.filter (fun f => decide (f.filter_column.binding = info.binding)) with
    | nil =>
      simp only [hf, ne_eq, not_true_eq_false, if_false, Option.some.injEq, Prod.mk.injEq] at h
      obtain ⟨h1, h2⟩ := h
      subst h1 h2
      exact ⟨rfl, Ready_mkScan rel _, rfl, rfl, rfl, rfl, rfl, rel, rfl, rfl⟩
    | cons f rest =>
      have hb : f.filter_column.binding = info.binding := by
        have : f ∈ q.filters_.filter (fun f => decide (f.filter_column.binding = info.binding)) := by
          rw [hf]; exact List.mem_cons_self _ _
        simpa using (List.mem_filter.mp this).2
      simp only [hf, ne_eq, List.cons_ne_nil, not_false_eq_true, if_true, Op.mkFilterScan,
        Option.some.injEq, Prod.mk.injEq] at h
      obtain ⟨h1, h2⟩ := h
      subst h1 h2
      refine ⟨rfl, Ready_mkFilterScan rel (f :: rest) _ rfl, ?_, rfl, rfl, rfl, rfl, rel, rfl, ?_⟩
      · simp [Op.bindings, hb]
      · simp [Op.leafRels, hb]

theorem addScan_loaded (rels : List Relation) (used : List Nat) (info : SelectInfo)
    (q : QueryInfo) (h : info.rel_id < rels.length) : addScan rels used info q ≠ none := by
  unfold addScan
  simp only [getRelation, List.getElem?_eq_getElem h]
  cases hf : q.filters_.filter (fun f => decide (f.filter_column.binding = info.binding)) with
  | nil => simp
  | cons f rest => simp [Op.mkFilterScan]

theorem Op.preds_length (op : Op) : op.preds.length = op.joins + op.selfJoins := by
  induction op with
  | Scan base rel b => rfl
  | FilterScan base rel b fs idata => rfl
  | Join base l r p ht req reqL reqR cl cr ihl ihr =>
    simp only [Op.preds, Op.joins, Op.selfJoins, List.length_cons, List.length_append, ihl, ihr]
    omega
  | SelfJoin base i p ius idata cd ih =>
    simp only [Op.preds, Op.joins, Op.selfJoins, List.length_cons, ih]
    omega

theorem planStep_cases (rels : List Relation) (q : QueryInfo) (pc : List PredicateInfo)
    (used : List Nat) (root : Op) (p : PredicateInfo) :
    (p.left.binding ∈ used ∧ p.right.binding ∈ used ∧
      planStep rels q pc used root p = some (pc, used, Op.mkSelfJoin root p)) ∨
    (p.left.binding ∈ used ∧ p.right.binding ∉ used ∧
      planStep rels q pc used root p =
        (addScan rels used p.right q).map (fun ul => (pc, ul.1, Op.mkJoin root ul.2 p))) ∨
    (p.left.binding ∉ used ∧ p.right.binding ∈ used ∧
      planStep rels q pc used root p =
        (addScan rels used p.left q).map (fun ul => (pc, ul.1, Op.mkJoin ul.2 root p))) ∨
    (p.left.binding ∉ used ∧ p.right.binding ∉ used ∧
      planStep rels q pc used root p = some (pc ++ [p], used, root)) := by
  unfold planStep
  by_cases hl : p.left.binding ∈ used
  · by_cases hr : p.right.binding ∈ used
    · exact Or.inl ⟨hl, hr, by simp only [analyze_both hl hr]⟩
    · refine Or.inr (Or.inl ⟨hl, hr, ?_⟩)
      simp only [analyze_left hl hr]
      cases addScan rels used p.right q <;> rfl
  · by_cases hr : p.right.binding ∈ used
    · refine Or.inr (Or.inr (Or.inl ⟨hl, hr, ?_⟩))
      simp only [analyze_right hl hr]
      cases addScan rels used p.left q <;> rfl
    · exact Or.inr (Or.inr (Or.inr ⟨hl, hr, by simp only [analyze_none hl hr]⟩))


/-! ## Shape of the tree the planner builds -/

theorem PlanShape_selfJoin {rels : List Relation} {q : QueryInfo} {used : List Nat} {root : Op}
    (hs : PlanShape rels q used root) (p : PredicateInfo)
    (hl : p.left.binding ∈ used) (hr : p.right.binding ∈ used) :
    PlanShape rels q used (Op.mkSelfJoin root p) := by
  obtain ⟨hR, hU, hC, hE, hJ, hL⟩ := hs
  refine ⟨Ready_mkSelfJoin root p hR, hU, ?_, ?_, hJ, hL⟩
  · intro x hx
    simp only [Op.mkSelfJoin, Op.preds, List.mem_cons] at hx
    rcases hx with rfl | hx
    · exact ⟨(hU _).mp hl, (hU _).mp hr⟩
    · exact hC x hx
  · intro b hb
    obtain ⟨x, hx, hbx⟩ := hE b hb
    exact ⟨x, List.mem_cons_of_mem _ hx, hbx⟩

theorem PlanShape_join_left {rels : List Relation} {q : QueryInfo} {used : List Nat} {root : Op}
    (hs : PlanShape rels q used root) (p : PredicateInfo) (hp : p ∈ q.predicates_)
    (hl : p.left.binding ∈ used) (hr : p.right.binding ∉ used) (used1 : List Nat) (leaf : Op)
    (h : addScan rels used p.right q = some (used1, leaf)) :
    PlanShape rels q used1 (Op.mkJoin root leaf p) ∧
      (Op.mkJoin root leaf p).preds = p :: root.preds ∧
      (root.bindings.Nodup → (Op.mkJoin root leaf p).bindings.Nodup) := by
  obtain ⟨hR, hU, hC, hE, hJ, hL⟩ := hs
  obtain ⟨hu, hlr, hlb, hlp, hlj, _, _, rel, hrel, hll⟩ := addScan_inv rels used p.right q used1 leaf h
  have hbs : (Op.mkJoin root leaf p).bindings = root.bindings ++ [p.right.binding] := by
    simp [Op.mkJoin, Op.bindings, hlb]
  have hps : (Op.mkJoin root leaf p).preds = p :: root.preds := by
    simp [Op.mkJoin, Op.preds, hlp]
  refine ⟨⟨Ready_mkJoin root leaf p hR hlr, ?_, ?_, ?_, ?_, ?_⟩, hps, ?_⟩
  · intro b
    rw [hu, mem_usedEmplace, hbs, List.mem_append, List.mem_singleton, hU b]
  · intro x hx
    rw [hps] at hx
    rw [hbs]
    rcases List.mem_cons.mp hx with rfl | hx
    · exact ⟨List.mem_append_left _ ((hU _).mp hl),
        List.mem_append_right _ (List.mem_singleton_self _)⟩
    · exact ⟨List.mem_append_left _ (hC x hx).1, List.mem_append_left _ (hC x hx).2⟩
  · intro b hb
    rw [hbs] at hb
    rw [hps]
    rcases List.mem_append.mp hb with hb | hb
    · obtain ⟨x, hx, hbx⟩ := hE b hb
      exact ⟨x, List.mem_cons_of_mem _ hx, hbx⟩
    · exact ⟨p, List.mem_cons_self _ _, Or.inr (List.mem_singleton.mp hb)⟩
  · rw [hbs]
    simp only [Op.mkJoin, Op.joins, hlj, List.length_append, List.length_singleton]
    omega
  · intro br hbr
    simp only [Op.mkJoin, Op.leafRels, hll, List.mem_append, List.mem_singleton] at hbr
    rcases hbr with hbr | rfl
    · exact hL br hbr
    · exact ⟨p, hp, p.right, Or.inr rfl, rfl, hrel⟩
  · intro hnd
    rw [hbs]
    refine List.Nodup.append hnd (List.nodup_singleton _) ?_
    intro b hb1 hb2
    rw [List.mem_singleton.mp hb2] at hb1
    exact hr ((hU _).mpr hb1)

theorem PlanShape_join_right {rels : List Relation} {q : QueryInfo} {used : List Nat} {root : Op}
    (hs : PlanShape rels q used root) (p : PredicateInfo) (hp : p ∈ q.predicates_)
    (hl : p.left.binding ∉ used) (hr : p.right.binding ∈ used) (used1 : List Nat) (leaf : Op)
    (h : addScan rels used p.left q = some (used1, leaf)) :
    PlanShape rels q used1 (Op.mkJoin leaf root p) ∧
      (Op.mkJoin leaf root p).preds = p :: root.preds ∧
      (root.bindings.Nodup → (Op.mkJoin leaf root p).bindings.Nodup) := by
  obtain ⟨hR, hU, hC, hE, hJ, hL⟩ := hs
  obtain ⟨hu, hlr, hlb, hlp, hlj, _, _, rel, hrel, hll⟩ := addScan_inv rels used p.left q used1 leaf h
  have hbs : (Op.mkJoin leaf root p).bindings = [p.left.binding] ++ root.bindings := by
    simp [Op.mkJoin, Op.bindings, hlb]
  have hps : (Op.mkJoin leaf root p).preds = p :: root.preds := by
    simp [Op.mkJoin, Op.preds, hlp]
  refine ⟨⟨Ready_mkJoin leaf root p hlr hR, ?_, ?_, ?_, ?_, ?_⟩, hps, ?_⟩
  · intro b
    rw [hu, mem_usedEmplace, hbs, List.mem_append, List.mem_singleton, hU b]
    exact Or.comm
  · intro x hx
    rw [hps] at hx
    rw [hbs]
    rcases List.mem_cons.mp hx with rfl | hx
    · exact ⟨List.mem_append_left _ (List.mem_singleton_self _),
        List.mem_append_right _ ((hU _).mp hr)⟩
    · exact ⟨List.mem_append_right _ (hC x hx).1, List.mem_append_right _ (hC x hx).2⟩
  · intro b hb
    rw [hbs] at hb
    rw [hps]
    rcases List.mem_append.mp hb with hb | hb
    · exact ⟨p, List.mem_cons_self _ _, Or.inl (List.mem_singleton.mp hb)⟩
    · obtain ⟨x, hx, hbx⟩ := hE b hb
      exact ⟨x, List.mem_cons_of_mem _ hx, hbx⟩
  · rw [hbs]
    simp only [Op.mkJoin, Op.joins, hlj, List.length_append, List.length_singleton]
    omega
  · intro br hbr
    simp only [Op.mkJoin, Op.leafRels, hll, List.mem_append, List.mem_singleton] at hbr
    rcases hbr with rfl | hbr
    · exact ⟨p, hp, p.left, Or.inl rfl, rfl, hrel⟩
    · exact hL br hbr
  · intro hnd
    rw [hbs]
    refine List.Nodup.append (List.nodup_singleton _) hnd ?_
    intro b hb1 hb2
    rw [List.mem_singleton.mp hb1] at hb2
    exact hl ((hU _).mpr hb2)

theorem planStep_shape (rels : List Relation) (q : QueryInfo) (pc : List PredicateInfo)
    (used : List Nat) (root : Op) (p : PredicateInfo) (pc1 : List PredicateInfo)
    (used1 : List Nat) (root1 : Op)
    (h : planStep rels q pc used root p = some (pc1, used1, root1))
    (hs : PlanShape rels q used root) (hp : p ∈ q.predicates_) :
    (¬ touches used p ∧ pc1 = pc ++ [p] ∧ used1 = used ∧ root1 = root) ∨
    (touches used p ∧ pc1 = pc ∧ PlanShape rels q used1 root1 ∧
      root1.preds = p :: root.preds ∧ (root.bindings.Nodup → root1.bindings.Nodup)) := by
  rcases planStep_cases rels q pc used root p with ⟨hl, hr, he⟩ | ⟨hl, hr, he⟩ |
    ⟨hl, hr, he⟩ | ⟨hl, hr, he⟩
  · rw [he] at h
    simp only [Option.some.injEq, Prod.mk.injEq] at h
    obtain ⟨rfl, rfl, rfl⟩ := h
    exact Or.inr ⟨Or.inl hl, rfl, PlanShape_selfJoin hs p hl hr, rfl, fun hnd => hnd⟩
  · rw [he] at h
    cases hscan : addScan rels used p.right q with
    | none => rw [hscan] at h; cases h
    | some ul =>
      obtain ⟨u, leaf⟩ := ul
      rw [hscan] at h
      simp only [Option.map_some', Option.some.injEq, Prod.mk.injEq] at h
      obtain ⟨rfl, rfl, rfl⟩ := h
      obtain ⟨g1, g2, g3⟩ := PlanShape_join_left hs p hp hl hr u leaf hscan
      exact Or.inr ⟨Or.inl hl, rfl, g1, g2, g3⟩
  · rw [he] at h
    cases hscan : addScan rels used p.left q with
    | none => rw [hscan] at h; cases h
    | some ul =>
      obtain ⟨u, leaf⟩ := ul
      rw [hscan] at h
      simp only [Option.map_some', Option.some.injEq, Prod.mk.injEq] at h
      obtain ⟨rfl, rfl, rfl⟩ := h
      obtain ⟨g1, g2, g3⟩ := PlanShape_join_right hs p hp hl hr u leaf hscan
      exact Or.inr ⟨Or.inr hr, rfl, g1, g2, g3⟩
  · rw [he] at h
    simp only [Option.some.injEq, Prod.mk.injEq] at h
    obtain ⟨rfl, rfl, rfl⟩ := h
    refine Or.inl ⟨?_, rfl, rfl, rfl⟩
    rintro (ht | ht)
    · exact hl ht
    · exact hr ht

theorem planLoopEnd_shape (rels : List Relation) (q : QueryInfo) :
    ∀ (fuel : Nat) (pc : List PredicateInfo) (i : Nat) (used : List Nat) (root : Op)
      (pc1 : List PredicateInfo) (used1 : List Nat) (root1 : Op),
      planLoopEnd rels q fuel pc i used root = PlanEnd.finished pc1 used1 root1 →
      PlanShape rels q used root → (∀ p ∈ pc, p ∈ q.predicates_) →
      PlanShape rels q used1 root1 ∧ root1.preds.Perm (root.preds ++ pc.drop i) ∧
        (root.bindings.Nodup → root1.bindings.Nodup) := by
  intro fuel
  induction fuel with
  | zero =>
    intro pc i used root pc1 used1 root1 h hs _
    simp only [planLoopEnd] at h
    split at h
    · cases h
    · rename_i hi
      cases h
      rw [List.drop_eq_nil_of_le (Nat.le_of_not_lt hi), List.append_nil]
      exact ⟨hs, List.Perm.refl _, fun hnd => hnd⟩
  | succ fuel ih =>
    intro pc i used root pc1 used1 root1 h hs hpc
    rw [planLoopEnd] at h
    cases hp : pc[i]? with
    | none =>
      rw [hp] at h
      cases h
      rw [List.drop_eq_nil_of_le (List.getElem?_eq_none_iff.mp hp), List.append_nil]
      exact ⟨hs, List.Perm.refl _, fun hnd => hnd⟩
    | some p =>
      rw [hp] at h
      simp only at h
      obtain ⟨hi, hpi⟩ := List.getElem?_eq_some.mp hp
      have hpm : p ∈ q.predicates_ := hpc p (List.getElem?_mem hp)
      have hdrop : pc.drop i = p :: pc.drop (i + 1) := by
        rw [← hpi]
        exact List.drop_eq_getElem_cons hi
      cases hstep : planStep rels q pc used root p with
      | none => rw [hstep] at h; cases h
      | some st =>
        obtain ⟨pc2, used2, root2⟩ := st
        rw [hstep] at h
        simp only at h
        rcases planStep_shape rels q pc used root p pc2 used2 root2 hstep hs hpm with
          ⟨_, rfl, rfl, rfl⟩ | ⟨_, rfl, hs2, hps, hnd2⟩
        · obtain ⟨g1, g2, g3⟩ := ih _ _ _ _ _ _ _ h hs (by
            intro x hx
            rcases List.mem_append.mp hx with hx | hx
            · exact hpc x hx
            · rw [List.mem_singleton.mp hx]; exact hpm)
          refine ⟨g1, g2.trans ?_, g3⟩
          apply List.Perm.append_left
          rw [List.drop_append_of_le_length (by omega), hdrop]
          exact List.perm_append_singleton _ _
        · obtain ⟨g1, g2, g3⟩ := ih _ _ _ _ _ _ _ h hs2 hpc
          refine ⟨g1, g2.trans ?_, fun hnd => g3 (hnd2 hnd)⟩
          rw [hps, hdrop]
          exact (List.perm_middle).symm


/-! ## The planning loop ends -/

theorem planTreeEnd_shape (rels : List Relation) (fuel : Nat) (q : QueryInfo)
    (pc1 : List PredicateInfo) (used1 : List Nat) (root1 : Op)
    (h : planTreeEnd rels fuel q = PlanEnd.finished pc1 used1 root1) :
    PlanShape rels q used1 root1 ∧ root1.preds.Perm q.predicates_ ∧
      ((∀ p ∈ q.predicates_, p.left.binding ≠ p.right.binding) → root1.bindings.Nodup) := by
  unfold planTreeEnd at h
  cases hps : q.predicates_ with
  | nil => rw [hps] at h; cases h
  | cons p0 rest =>
    have hp0 : p0 ∈ q.predicates_ := by rw [hps]; exact List.mem_cons_self _ _
    have h0 : q.predicates_[0]? = some p0 := by rw [hps]; exact List.getElem?_cons_zero
    rw [h0] at h
    simp only at h
    cases hsL : addScan rels [] p0.left q with
    | none => rw [hsL] at h; cases h
    | some prL =>
      obtain ⟨uL, leafL⟩ := prL
      rw [hsL] at h
      simp only at h
      cases hsR : addScan rels uL p0.right q with
      | none => rw [hsR] at h; cases h
      | some prR =>
        obtain ⟨uR, leafR⟩ := prR
        rw [hsR] at h
        simp only at h
        obtain ⟨huL, hrL, hbL, hpL, hjL, _, _, relL, hrelL, hlL⟩ :=
          addScan_inv rels [] p0.left q uL leafL hsL
        obtain ⟨huR, hrR, hbR, hpR, hjR, _, _, relR, hrelR, hlR⟩ :=
          addScan_inv rels uL p0.right q uR leafR hsR
        have hbs : (Op.mkJoin leafL leafR p0).bindings = [p0.left.binding, p0.right.binding] := by
          simp [Op.mkJoin, Op.bindings, hbL, hbR]
        have hpre : (Op.mkJoin leafL leafR p0).preds = [p0] := by
          simp [Op.mkJoin, Op.preds, hpL, hpR]
        have hs0 : PlanShape rels q uR (Op.mkJoin leafL leafR p0) := by
          refine ⟨Ready_mkJoin leafL leafR p0 hrL hrR, ?_, ?_, ?_, ?_, ?_⟩
          · intro b
            rw [huR, mem_usedEmplace, huL, mem_usedEmplace, hbs]
            simp
          · intro x hx
            rw [hpre] at hx
            rw [List.mem_singleton.mp hx, hbs]
            simp
          · intro b hb
            rw [hbs] at hb
            rw [hpre]
            simp only [List.mem_cons, List.mem_singleton, List.not_mem_nil, or_false] at hb
            exact ⟨p0, List.mem_singleton_self _, hb⟩
          · rw [hbs]
            simp [Op.mkJoin, Op.joins, hjL, hjR]
          · intro br hbr
            simp only [Op.mkJoin, Op.leafRels, hlL, hlR, List.mem_append, List.mem_singleton] at hbr
            rcases hbr with rfl | rfl
            · exact ⟨p0, hp0, p0.left, Or.inl rfl, rfl, hrelL⟩
            · exact ⟨p0, hp0, p0.right, Or.inr rfl, rfl, hrelR⟩
        obtain ⟨g1, g2, g3⟩ := planLoopEnd_shape rels q fuel _ _ _ _ _ _ _ h hs0 (fun p hp => hp)
        rw [← hps]
        refine ⟨g1, ?_, ?_⟩
        · rw [hpre, hps] at g2
          exact hps ▸ g2
        · intro hd
          apply g3
          rw [hbs]
          have := hd p0 hp0
          simp [this]

theorem planLoopEnd_skip (rels : List Relation) (q : QueryInfo) (used : List Nat) (root : Op) :
    ∀ (N D rest : List PredicateInfo) (fuel : Nat), (∀ n ∈ N, ¬ touches used n) →
      planLoopEnd rels q (fuel + N.length) (D ++ N ++ rest) D.length used root =
        planLoopEnd rels q fuel ((D ++ N) ++ (rest ++ N)) (D ++ N).length used root := by
  intro N
  induction N with
  | nil => intro D rest fuel _; simp
  | cons n N ih =>
    intro D rest fuel hN
    have hn : ¬ touches used n := hN n (List.mem_cons_self _ _)
    have hnl : n.left.binding ∉ used := fun h => hn (Or.inl h)
    have hnr : n.right.binding ∉ used := fun h => hn (Or.inr h)
    have hget : (D ++ n :: N ++ rest)[D.length]? = some n := by
      rw [List.append_assoc, List.cons_append]
      exact getElem?_append_cons D n (N ++ rest)
    have hfuel : fuel + (n :: N).length = (fuel + N.length) + 1 := by
      simp only [List.length_cons]; omega
    rw [hfuel, planLoopEnd]
    simp only [hget, planStep, analyze_none hnl hnr]
    have e1 : D ++ n :: N ++ rest ++ [n] = (D ++ [n]) ++ N ++ (rest ++ [n]) := by
      simp [List.append_assoc]
    have e2 : D.length + 1 = (D ++ [n]).length := by simp
    rw [e1, e2, ih (D ++ [n]) (rest ++ [n]) fuel (fun x hx => hN x (List.mem_cons_of_mem _ hx))]
    have e3 : (D ++ [n] ++ N) = D ++ n :: N := by simp [List.append_assoc]
    have e4 : rest ++ [n] ++ N = rest ++ n :: N := by simp [List.append_assoc]
    rw [e3, e4]

theorem planStep_touch (rels : List Relation) (q : QueryInfo) (pc : List PredicateInfo)
    (used : List Nat) (root : Op) (t : PredicateInfo) (ht : touches used t)
    (pc1 : List PredicateInfo) (used1 : List Nat) (root1 : Op)
    (h : planStep rels q pc used root t = some (pc1, used1, root1)) :
    pc1 = pc ∧ (∀ b ∈ used, b ∈ used1) ∧ t.left.binding ∈ used1 ∧ t.right.binding ∈ used1 := by
  rcases planStep_cases rels q pc used root t with ⟨hl, hr, he⟩ | ⟨hl, hr, he⟩ |
    ⟨hl, hr, he⟩ | ⟨hl, hr, he⟩
  · rw [he] at h
    simp only [Option.some.injEq, Prod.mk.injEq] at h
    obtain ⟨rfl, rfl, rfl⟩ := h
    exact ⟨rfl, fun b hb => hb, hl, hr⟩
  · rw [he] at h
    cases hscan : addScan rels used t.right q with
    | none => rw [hscan] at h; cases h
    | some ul =>
      obtain ⟨u, leaf⟩ := ul
      rw [hscan] at h
      simp only [Option.map_some', Option.some.injEq, Prod.mk.injEq] at h
      obtain ⟨rfl, rfl, rfl⟩ := h
      obtain ⟨hu, _⟩ := addScan_inv rels used t.right q u leaf hscan
      rw [hu]
      exact ⟨rfl, fun b hb => (mem_usedEmplace _ _ _).mpr (Or.inl hb),
        (mem_usedEmplace _ _ _).mpr (Or.inl hl), (mem_usedEmplace _ _ _).mpr (Or.inr rfl)⟩
  · rw [he] at h
    cases hscan : addScan rels used t.left q with
    | none => rw [hscan] at h; cases h
    | some ul =>
      obtain ⟨u, leaf⟩ := ul
      rw [hscan] at h
      simp only [Option.map_some', Option.some.injEq, Prod.mk.injEq] at h
      obtain ⟨rfl, rfl, rfl⟩ := h
      obtain ⟨hu, _⟩ := addScan_inv rels used t.left q u leaf hscan
      rw [hu]
      exact ⟨rfl, fun b hb => (mem_usedEmplace _ _ _).mpr (Or.inl hb),
        (mem_usedEmplace _ _ _).mpr (Or.inr rfl), (mem_usedEmplace _ _ _).mpr (Or.inl hr)⟩
  · rcases ht with ht | ht
    · exact absurd ht hl
    · exact absurd ht hr

theorem planLoopEnd_terminates (rels : List Relation) (q : QueryInfo) :
    ∀ (m : Nat) (Q D : List PredicateInfo) (used : List Nat) (root : Op) (fuel : Nat),
      Q.length = m → (∀ p ∈ Q, Linked Q used p.left.binding) → m * m ≤ fuel →
      planLoopEnd rels q fuel (D ++ Q) D.length used root ≠ PlanEnd.running := by
  intro m
  induction m with
  | zero =>
    intro Q D used root fuel hlen _ _
    have hQ : Q = [] := List.length_eq_zero.mp hlen
    subst hQ
    cases fuel with
    | zero => simp [planLoopEnd]
    | succ f =>
      rw [planLoopEnd]
      have : (D ++ ([] : List PredicateInfo))[D.length]? = none := by simp
      simp only [this]
      exact fun h => PlanEnd.noConfusion h
  | succ m ih =>
    intro Q D used root fuel hlen hlink hfuel
    have hex : ∃ p ∈ Q, touches used p := by
      cases Q with
      | nil => cases hlen
      | cons p Q1 =>
        rcases (hlink p (List.mem_cons_self _ _)).exists_touching with h | h
        · exact ⟨p, List.mem_cons_self _ _, Or.inl h⟩
        · exact h
    obtain ⟨N, t, R, hsplit, hN, ht⟩ := exists_first_touching used Q hex
    subst hsplit
    have hlen1 : N.length + R.length = m := by
      simp only [List.length_append, List.length_cons] at hlen
      omega
    obtain ⟨f1, hf1⟩ : ∃ f1, fuel = (f1 + 1) + N.length := by
      refine ⟨fuel - 1 - N.length, ?_⟩
      have : (m + 1) * (m + 1) = m * m + 2 * m + 1 := by ring
      omega
    have hf1m : m * m ≤ f1 := by
      have : (m + 1) * (m + 1) = m * m + 2 * m + 1 := by ring
      omega
    have e0 : D ++ (N ++ t :: R) = D ++ N ++ (t :: R) := by simp [List.append_assoc]
    rw [hf1, e0, planLoopEnd_skip rels q used root N D (t :: R) (f1 + 1) hN]
    have e1 : D ++ N ++ (t :: R ++ N) = (D ++ N) ++ t :: (R ++ N) := by simp [List.append_assoc]
    rw [e1, planLoopEnd]
    simp only [getElem?_append_cons]
    cases hstep : planStep rels q (D ++ N ++ t :: (R ++ N)) used root t with
    | none => exact fun h => PlanEnd.noConfusion h
    | some st =>
      obtain ⟨pc1, used1, root1⟩ := st
      simp only
      obtain ⟨rfl, hsub, hl1, hr1⟩ := planStep_touch rels q _ used root t ht pc1 used1 root1 hstep
      have e2 : D ++ N ++ t :: (R ++ N) = (D ++ N ++ [t]) ++ (R ++ N) := by
        simp [List.append_assoc]
      have e3 : (D ++ N).length + 1 = (D ++ N ++ [t]).length := by
        simp only [List.length_append, List.length_singleton]
      rw [e2, e3]
      refine ih (R ++ N) (D ++ N ++ [t]) used1 root1 f1
        (by simp only [List.length_append]; omega) ?_ hf1m
      intro p hp
      have hpQ : p ∈ N ++ t :: R := by
        rcases List.mem_append.mp hp with h | h
        · exact List.mem_append_right _ (List.mem_cons_of_mem _ h)
        · exact List.mem_append_left _ h
      refine Linked.remove t ?_ hl1 hr1 hsub (hlink p hpQ)
      intro x hx
      rcases List.mem_append.mp hx with h | h
      · exact Or.inr (List.mem_append_right _ h)
      · rcases List.mem_cons.mp h with rfl | h
        · exact Or.inl rfl
        · exact Or.inr (List.mem_append_left _ h)

theorem planLoopEnd_mono (rels : List Relation) (q : QueryInfo) :
    ∀ (fuel k : Nat) (pc : List PredicateInfo) (i : Nat) (used : List Nat) (root : Op),
      planLoopEnd rels q fuel pc i used root ≠ PlanEnd.running →
      planLoopEnd rels q (fuel + k) pc i used root = planLoopEnd rels q fuel pc i used root := by
  intro fuel
  induction fuel with
  | zero =>
    intro k pc i used root h
    simp only [planLoopEnd] at h ⊢
    split at h
    · exact absurd rfl h
    · rename_i hi
      cases k with
      | zero => simp [planLoopEnd, hi]
      | succ k =>
        rw [Nat.zero_add, planLoopEnd, List.getElem?_eq_none (Nat.le_of_not_lt hi)]
        simp [hi]
  | succ fuel ih =>
    intro k pc i used root h
    have e : fuel + 1 + k = (fuel + k) + 1 := by omega
    rw [e, planLoopEnd, planLoopEnd]
    rw [planLoopEnd] at h
    cases hp : pc[i]? with
    | none => rfl
    | some p =>
      rw [hp] at h
      simp only at h ⊢
      cases hstep : planStep rels q pc used root p with
      | none => rfl
      | some st =>
        rw [hstep] at h
        exact ih k _ _ _ _ h

theorem planLoopEnd_length (rels : List Relation) (q : QueryInfo) :
    ∀ (fuel : Nat) (pc : List PredicateInfo) (i : Nat) (used : List Nat) (root : Op)
      (pc1 : List PredicateInfo) (used1 : List Nat) (root1 : Op),
      planLoopEnd rels q fuel pc i used root = PlanEnd.finished pc1 used1 root1 →
      pc1.length ≤ pc.length + fuel := by
  intro fuel
  induction fuel with
  | zero =>
    intro pc i used root pc1 used1 root1 h
    simp only [planLoopEnd] at h
    split at h
    · cases h
    · cases h; exact Nat.le_refl _
  | succ fuel ih =>
    intro pc i used root pc1 used1 root1 h
    rw [planLoopEnd] at h
    cases hp : pc[i]? with
    | none => rw [hp] at h; cases h; omega
    | some p =>
      rw [hp] at h
      simp only at h
      cases hstep : planStep rels q pc used root p with
      | none => rw [hstep] at h; cases h
      | some st =>
        obtain ⟨pc2, used2, root2⟩ := st
        rw [hstep] at h
        simp only at h
        have := ih _ _ _ _ _ _ _ h
        have hlen : pc2.length ≤ pc.length + 1 := by
          rcases planStep_cases rels q pc used root p with ⟨_, _, he⟩ | ⟨_, _, he⟩ |
            ⟨_, _, he⟩ | ⟨_, _, he⟩
          · rw [he] at hstep
            simp only [Option.some.injEq, Prod.mk.injEq] at hstep
            rw [← hstep.1]; omega
          · rw [he] at hstep
            cases hscan : addScan rels used p.right q with
            | none => rw [hscan] at hstep; cases hstep
            | some ul =>
              rw [hscan] at hstep
              simp only [Option.map_some', Option.some.injEq, Prod.mk.injEq] at hstep
              rw [← hstep.1]; omega
          · rw [he] at hstep
            cases hscan : addScan rels used p.left q with
            | none => rw [hscan] at hstep; cases hstep
            | some ul =>
              rw [hscan] at hstep
              simp only [Option.map_some', Option.some.injEq, Prod.mk.injEq] at hstep
              rw [← hstep.1]; omega
          · rw [he] at hstep
            simp only [Option.some.injEq, Prod.mk.injEq] at hstep
            rw [← hstep.1]
            simp
        omega

theorem planStep_loaded (rels : List Relation) (q : QueryInfo) (pc : List PredicateInfo)
    (used : List Nat) (root : Op) (p : PredicateInfo)
    (h : p.left.rel_id < rels.length ∧ p.right.rel_id < rels.length) :
    planStep rels q pc used root p ≠ none := by
  rcases planStep_cases rels q pc used root p with ⟨_, _, he⟩ | ⟨_, _, he⟩ |
    ⟨_, _, he⟩ | ⟨_, _, he⟩
  · rw [he]; exact fun h => Option.noConfusion h
  · rw [he]
    cases hscan : addScan rels used p.right q with
    | none => exact absurd hscan (addScan_loaded rels used p.right q h.2)
    | some ul => exact fun h => Option.noConfusion h
  · rw [he]
    cases hscan : addScan rels used p.left q with
    | none => exact absurd hscan (addScan_loaded rels used p.left q h.1)
    | some ul => exact fun h => Option.noConfusion h
  · rw [he]; exact fun h => Option.noConfusion h

theorem planLoopEnd_loaded (rels : List Relation) (q : QueryInfo) :
    ∀ (fuel : Nat) (pc : List PredicateInfo) (i : Nat) (used : List Nat) (root : Op),
      (∀ p ∈ pc, p.left.rel_id < rels.length ∧ p.right.rel_id < rels.length) →
      planLoopEnd rels q fuel pc i used root ≠ PlanEnd.aborted := by
  intro fuel
  induction fuel with
  | zero =>
    intro pc i used root _
    simp only [planLoopEnd]
    split <;> exact fun h => PlanEnd.noConfusion h
  | succ fuel ih =>
    intro pc i used root hpc
    rw [planLoopEnd]
    cases hp : pc[i]? with
    | none => exact fun h => PlanEnd.noConfusion h
    | some p =>
      simp only
      have hpl := hpc p (List.getElem?_mem hp)
      cases hstep : planStep rels q pc used root p with
      | none => exact absurd hstep (planStep_loaded rels q pc used root p hpl)
      | some st =>
        obtain ⟨pc2, used2, root2⟩ := st
        simp only
        apply ih
        intro x hx
        have hsub : ∀ y ∈ pc2, y ∈ pc ∨ y = p := by
          rcases planStep_cases rels q pc used root p with ⟨_, _, he⟩ | ⟨_, _, he⟩ |
            ⟨_, _, he⟩ | ⟨_, _, he⟩
          · rw [he] at hstep
            simp only [Option.some.injEq, Prod.mk.injEq] at hstep
            rw [← hstep.1]; exact fun y hy => Or.inl hy
          · rw [he] at hstep
            cases hscan : addScan rels used p.right q with
            | none => rw [hscan] at hstep; cases hstep
            | some ul =>
              rw [hscan] at hstep
              simp only [Option.map_some', Option.some.injEq, Prod.mk.injEq] at hstep
              rw [← hstep.1]; exact fun y hy => Or.inl hy
          · rw [he] at hstep
            cases hscan : addScan rels used p.left q with
            | none => rw [hscan] at hstep; cases hstep
            | some ul =>
              rw [hscan] at hstep
              simp only [Option.map_some', Option.some.injEq, Prod.mk.injEq] at hstep
              rw [← hstep.1]; exact fun y hy => Or.inl hy
          · rw [he] at hstep
            simp only [Option.some.injEq, Prod.mk.injEq] at hstep
            rw [← hstep.1]
            intro y hy
            rcases List.mem_append.mp hy with hy | hy
            · exact Or.inl hy
            · exact Or.inr (List.mem_singleton.mp hy)
        rcases hsub x hx with h | h
        · exact hpc x h
        · rw [h]; exact hpl

theorem planTree_some_end (rels : List Relation) (fuel : Nat) (q : QueryInfo) (root : Op) :
    planTree rels fuel q = some root ↔
      ∃ pc used, planTreeEnd rels fuel q = PlanEnd.finished pc used root := by
  rw [planTree_eq_end]
  cases planTreeEnd rels fuel q with
  | finished pc used r =>
    constructor
    · intro h
      simp only [Option.some.injEq] at h
      subst h
      exact ⟨pc, used, rfl⟩
    · rintro ⟨pc1, used1, h⟩
      cases h
      rfl
  | aborted =>
    constructor
    · intro h; cases h
    · rintro ⟨_, _, h⟩; cases h
  | running =>
    constructor
    · intro h; cases h
    · rintro ⟨_, _, h⟩; cases h

theorem planTreeEnd_loop (rels : List Relation) (q : QueryInfo) :
    (∀ f, planTreeEnd rels f q = PlanEnd.aborted) ∨
      ∃ p0 rest used root, q.predicates_ = p0 :: rest ∧
        p0.left.binding ∈ used ∧ p0.right.binding ∈ used ∧
        ∀ f, planTreeEnd rels f q = planLoopEnd rels q f ([p0] ++ rest) [p0].length used root := by
  unfold planTreeEnd
  cases hps : q.predicates_ with
  | nil => exact Or.inl (fun _ => rfl)
  | cons p0 rest =>
    simp only [List.getElem?_cons_zero]
    cases hsL : addScan rels [] p0.left q with
    | none => exact Or.inl (fun _ => rfl)
    | some prL =>
      obtain ⟨uL, leafL⟩ := prL
      simp only
      cases hsR : addScan rels uL p0.right q with
      | none => exact Or.inl (fun _ => rfl)
      | some prR =>
        obtain ⟨uR, leafR⟩ := prR
        simp only
        right
        obtain ⟨huL, _⟩ := addScan_inv rels [] p0.left q uL leafL hsL
        obtain ⟨huR, _⟩ := addScan_inv rels uL p0.right q uR leafR hsR
        refine ⟨p0, rest, uR, Op.mkJoin leafL leafR p0, rfl, ?_, ?_, ?_⟩
        · rw [huR, mem_usedEmplace, huL, mem_usedEmplace]
          exact Or.inl (Or.inr rfl)
        · rw [huR, mem_usedEmplace]
          exact Or.inr rfl
        · intro f
          rfl

theorem planTreeEnd_terminates (rels : List Relation) (fuel : Nat) (q : QueryInfo)
    (hconn : ∀ p ∈ q.predicates_, Linked q.predicates_ q.firstBindings p.left.binding)
    (hfuel : q.predicates_.length * q.predicates_.length ≤ fuel) :
    planTreeEnd rels fuel q ≠ PlanEnd.running := by
  rcases planTreeEnd_loop rels q with h | ⟨p0, rest, used, root, hps, hl, hr, hloop⟩
  · rw [h fuel]; exact fun h => PlanEnd.noConfusion h
  · rw [hloop fuel]
    have hfb : q.firstBindings = [p0.left.binding, p0.right.binding] := by
      simp [QueryInfo.firstBindings, hps]
    have hlen : rest.length * rest.length ≤ fuel := by
      rw [hps] at hfuel
      simp only [List.length_cons] at hfuel
      have : (rest.length + 1) * (rest.length + 1) = rest.length * rest.length +
          2 * rest.length + 1 := by ring
      omega
    refine planLoopEnd_terminates rels q rest.length rest [p0] used root fuel rfl ?_ hlen
    intro p hp
    have hc := hconn p (by rw [hps]; exact List.mem_cons_of_mem _ hp)
    rw [hps, hfb] at hc
    refine Linked.remove p0 (fun x hx => List.mem_cons.mp hx) hl hr ?_ hc
    intro b hb
    simp only [List.mem_cons, List.mem_singleton, List.not_mem_nil, or_false] at hb
    rcases hb with rfl | rfl
    · exact hl
    · exact hr

theorem planTreeEnd_stable (rels : List Relation) (fuel : Nat) (q : QueryInfo)
    (hconn : ∀ p ∈ q.predicates_, Linked q.predicates_ q.firstBindings p.left.binding)
    (hfuel : q.predicates_.length * q.predicates_.length ≤ fuel) :
    planTreeEnd rels fuel q =
      planTreeEnd rels (q.predicates_.length * q.predicates_.length) q := by
  have hterm := planTreeEnd_terminates rels (q.predicates_.length * q.predicates_.length) q
    hconn (Nat.le_refl _)
  rcases planTreeEnd_loop rels q with h | ⟨p0, rest, used, root, hps, hl, hr, hloop⟩
  · rw [h fuel, h (q.predicates_.length * q.predicates_.length)]
  · obtain ⟨k, hk⟩ : ∃ k, fuel = q.predicates_.length * q.predicates_.length + k :=
      ⟨fuel - q.predicates_.length * q.predicates_.length, by omega⟩
    rw [hloop] at hterm
    rw [hloop fuel, hloop (q.predicates_.length * q.predicates_.length), hk]
    exact planLoopEnd_mono rels q _ k _ _ _ _ hterm

theorem planStep_selfJoin_iff (rels : List Relation) (q : QueryInfo) (pc : List PredicateInfo)
    (used : List Nat) (root : Op) (p : PredicateInfo) (pc1 : List PredicateInfo)
    (used1 : List Nat) (root1 : Op)
    (h : planStep rels q pc used root p = some (pc1, used1, root1)) :
    root1 = Op.mkSelfJoin root p ↔ (p.left.binding ∈ used ∧ p.right.binding ∈ used) := by
  rcases planStep_cases rels q pc used root p with ⟨hl, hr, he⟩ | ⟨hl, hr, he⟩ |
    ⟨hl, hr, he⟩ | ⟨hl, hr, he⟩
  · rw [he] at h
    simp only [Option.some.injEq, Prod.mk.injEq] at h
    exact ⟨fun _ => ⟨hl, hr⟩, fun _ => h.2.2.symm⟩
  · rw [he] at h
    cases hscan : addScan rels used p.right q with
    | none => rw [hscan] at h; cases h
    | some ul =>
      rw [hscan] at h
      simp only [Option.map_some', Option.some.injEq, Prod.mk.injEq] at h
      constructor
      · intro h1
        rw [← h.2.2] at h1
        simp [Op.mkJoin, Op.mkSelfJoin] at h1
      · intro h1
        exact absurd h1.2 hr
  · rw [he] at h
    cases hscan : addScan rels used p.left q with
    | none => rw [hscan] at h; cases h
    | some ul =>
      rw [hscan] at h
      simp only [Option.map_some', Option.some.injEq, Prod.mk.injEq] at h
      constructor
      · intro h1
        rw [← h.2.2] at h1
        simp [Op.mkJoin, Op.mkSelfJoin] at h1
      · intro h1
        exact absurd h1.1 hl
  · rw [he] at h
    simp only [Option.some.injEq, Prod.mk.injEq] at h
    constructor
    · intro h1
      rw [← h.2.2] at h1
      have := congrArg Op.height h1
      simp only [Op.mkSelfJoin, Op.height] at this
      omega
    · intro h1
      exact absurd h1.1 hl


/-! ## What a returning `join` says about the relations and columns of the query -/

theorem assignCols_ne_none :
    ∀ (ss : List SelectInfo) (k : Nat) (m : ColMap) (x : SelectInfo),
      assignCols ss k m x ≠ none → x ∈ ss ∨ m x ≠ none := by
  intro ss
  induction ss with
  | nil => intro k m x h; exact Or.inr h
  | cons s rest ih =>
    intro k m x h
    rw [assignCols] at h
    rcases ih _ _ _ h with h1 | h1
    · exact Or.inl (List.mem_cons_of_mem _ h1)
    · by_cases hxs : x = s
      · exact Or.inl (hxs ▸ List.mem_cons_self _ _)
      · right
        simpa [ColMap.assign, hxs] using h1

theorem emplaceCols_ne_none (ss : List SelectInfo) (k : Nat) (m : ColMap) (x : SelectInfo)
    (h : emplaceCols ss k m x ≠ none) : x ∈ ss ∨ m x ≠ none := by
  rw [emplaceCols_eq] at h
  cases hm : m x with
  | some v => exact Or.inr (by simp)
  | none =>
    rw [hm] at h
    by_cases hx : x ∈ ss
    · exact Or.inl hx
    · simp [hx] at h

theorem Join_buildProbe_keys (ord : HTOrder) (base : Operator) (left right : Op)
    (p : PredicateInfo) (ht : List (Nat × Nat)) (req reqL reqR : List SelectInfo)
    (cl cr : List Column) (j : Op)
    (h : Join.buildProbe ord base left right p ht req reqL reqR cl cr = some j) :
    ∀ s, j.resolve s ≠ none → s ∈ reqL ∨ s ∈ reqR ∨ base.select_to_result_col_id_ s ≠ none := by
  unfold Join.buildProbe at h
  cases hL : resolveCols left reqL with
  | none => simp [hL] at h
  | some newL =>
    simp only [hL] at h
    cases hR : resolveCols right reqR with
    | none => simp [hR] at h
    | some newR =>
      simp only [hR] at h
      cases hpl : left.resolve p.left with
      | none => simp [hpl] at h
      | some kl =>
        cases hpr : right.resolve p.right with
        | none => simp [hpl, hpr] at h
        | some kr =>
          simp only [hpl, hpr] at h
          cases hgl : left.getResults[kl]? with
          | none => simp [hgl] at h
          | some colL =>
            cases hgr : right.getResults[kr]? with
            | none => simp [hgl, hgr] at h
            | some colR =>
              simp only [hgl, hgr] at h
              cases hb : Join.build colL (List.range left.result_size) ht with
              | none => simp [hb] at h
              | some ht1 =>
                simp only [hb] at h
                cases hpb : Join.probe ord ht1 colR (cl ++ newL) (cr ++ newR)
                    (List.range right.result_size) (base.tmp_results_, base.result_size_) with
                | none => simp [hpb] at h
                | some st =>
                  obtain ⟨tmp, rs⟩ := st
                  simp only [hpb, Option.some.injEq] at h
                  subst h
                  intro s hs
                  simp only [Op.resolve, Op.base] at hs
                  rcases assignCols_ne_none _ _ _ _ hs with h1 | h1
                  · exact Or.inr (Or.inl h1)
                  · rcases assignCols_ne_none _ _ _ _ h1 with h2 | h2
                    · exact Or.inl h2
                    · exact Or.inr (Or.inr h2)

theorem SelfJoin_runCore_keys (base : Operator) (i : Op) (p : PredicateInfo)
    (ius : List SelectInfo) (cd : List Column) (sj : Op)
    (h : SelfJoin.runCore base i p ius cd = some sj) :
    ∀ s, sj.resolve s ≠ none → s ∈ ius ∨ base.select_to_result_col_id_ s ≠ none := by
  unfold SelfJoin.runCore at h
  cases hI : resolveCols i ius with
  | none => simp [hI] at h
  | some new =>
    simp only [hI] at h
    cases hpl : i.resolve p.left with
    | none => simp [hpl] at h
    | some kl =>
      cases hpr : i.resolve p.right with
      | none => simp [hpl, hpr] at h
      | some kr =>
        simp only [hpl, hpr] at h
        cases hgl : i.getResults[kl]? with
        | none => simp [hgl] at h
        | some colL =>
          cases hgr : i.getResults[kr]? with
          | none => simp [hgl, hgr] at h
          | some colR =>
            simp only [hgl, hgr] at h
            cases hlp : SelfJoin.loop colL colR (cd ++ new) (List.range i.result_size)
                (base.tmp_results_, base.result_size_) with
            | none => simp [hlp] at h
            | some st =>
              obtain ⟨tmp, rs⟩ := st
              simp only [hlp, Option.some.injEq] at h
              subst h
              intro s hs
              simp only [Op.resolve, Op.base] at hs
              exact emplaceCols_ne_none _ _ _ _ hs

theorem Ready_run_keys (ord : HTOrder) (op op2 : Op) (hr : op.Ready)
    (hrun : op.run ord = some op2) : ∀ s, op2.resolve s ≠ none → op.Seen s := by
  cases op with
  | Scan base rel b =>
    simp only [Op.run, Op.height, Op.runFuel, Option.some.injEq] at hrun
    subst hrun
    intro s hs
    exact hs
  | FilterScan base rel b fs idata =>
    simp only [Op.run, Op.height, Op.runFuel] at hrun
    cases hl : FilterScan.loop rel fs idata (List.range rel.size_)
        (base.tmp_results_, base.result_size_) with
    | none => simp [hl] at hrun
    | some st =>
      obtain ⟨tmp, rs⟩ := st
      simp only [hl, Option.some.injEq] at hrun
      subst hrun
      intro s hs
      exact hs
  | Join base l r p ht req reqL reqR cl cr =>
    obtain ⟨hinv, hmap, _, _, _, _⟩ := hr
    obtain ⟨_, _, _, _, _, _, hreq⟩ := hinv
    obtain ⟨b1, l1, b2, r1, l2, r2, _, _, _, _, hcore⟩ :=
      Op.run_Join_inv ord base l r p ht req reqL reqR cl cr op2 hrun
    intro s hs
    simp only [Op.Seen]
    rw [hreq, List.mem_append]
    unfold Join.runCore at hcore
    split at hcore
    · rcases Join_buildProbe_keys ord base r2 l2 _ ht req reqR reqL cl cr op2 hcore s hs with
        h1 | h1 | h1
      · exact Or.inr h1
      · exact Or.inl h1
      · rw [hmap] at h1; exact absurd rfl h1
    · rcases Join_buildProbe_keys ord base l2 r2 _ ht req reqL reqR cl cr op2 hcore s hs with
        h1 | h1 | h1
      · exact Or.inl h1
      · exact Or.inr h1
      · rw [hmap] at h1; exact absurd rfl h1
  | SelfJoin base i p ius idata cd =>
    obtain ⟨hinv, _, _⟩ := hr
    obtain ⟨_, _, _, hmap, _⟩ := hinv
    obtain ⟨b1, i1, b2, i2, i3, _, _, _, hcore⟩ :=
      Op.run_SelfJoin_inv ord base i p ius idata cd op2 hrun
    intro s hs
    rcases SelfJoin_runCore_keys base i3 p ius cd op2 hcore s hs with h1 | h1
    · exact Op.Acc_Seen (Op.SelfJoin base i p ius idata cd) s h1
    · rw [hmap] at h1; exact absurd rfl h1

theorem join_line_congr (ctx : Nat → Relation) (sels : List SelectInfo)
    {rows1 rows2 : List Asg} (h1 : rows1.Nodup) (h2 : rows2.Nodup)
    (h : ∀ a, a ∈ rows1 ↔ a ∈ rows2) :
    String.intercalate " " (sels.map (fun s =>
        token rows1.length ((rows1.map (val ctx s)).sum % 2 ^ 64))) ++ "\n" =
      String.intercalate " " (sels.map (fun s =>
        token rows2.length ((rows2.map (val ctx s)).sum % 2 ^ 64))) ++ "\n" := by
  have hlen : rows1.length = rows2.length := (enum_perm h1 h2 h).length_eq
  have hsum : ∀ s, (rows1.map (val ctx s)).sum = (rows2.map (val ctx s)).sum :=
    fun s => enum_sum_eq h1 h2 h (val ctx s)
  simp only [hlen, hsum]

theorem QueryInfo.ctx_congr (rels : List Relation) {q1 q2 : QueryInfo}
    (h : q1.relation_ids_ = q2.relation_ids_) : q1.ctx rels = q2.ctx rels := by
  funext b
  simp only [QueryInfo.ctx, QueryInfo.rid, h]

theorem mem_joinBindings_perm {q1 q2 : QueryInfo} (h : q1.predicates_.Perm q2.predicates_)
    (b : Nat) : b ∈ q1.joinBindings ↔ b ∈ q2.joinBindings := by
  rw [mem_joinBindings, mem_joinBindings]
  constructor
  · rintro ⟨p, hp, hb⟩
    exact ⟨p, h.mem_iff.mp hp, hb⟩
  · rintro ⟨p, hp, hb⟩
    exact ⟨p, h.mem_iff.mpr hp, hb⟩


/-! ## The order of the rows a `Join` emits -/

theorem pairwise_le_flatMap_tag (f : Nat → List Nat) :
    ∀ l : List Nat, l.Pairwise (fun a b => a ≤ b) →
      ((l.flatMap (fun j => (f j).map (fun i => (i, j)))).map Prod.snd).Pairwise
        (fun a b => a ≤ b) := by
  intro l
  induction l with
  | nil => intro _; exact List.Pairwise.nil
  | cons j rest ih =>
    intro h
    obtain ⟨hj, hrest⟩ := List.pairwise_cons.mp h
    rw [List.flatMap_cons, List.map_append, List.pairwise_append]
    refine ⟨?_, ih hrest, ?_⟩
    · rw [List.map_map]
      apply List.pairwise_of_forall_mem_list
      intro a ha b hb
      obtain ⟨_, _, rfl⟩ := List.mem_map.mp ha
      obtain ⟨_, _, rfl⟩ := List.mem_map.mp hb
      exact Nat.le_refl _
    · intro a ha b hb
      rw [List.map_map] at ha
      obtain ⟨_, _, rfl⟩ := List.mem_map.mp ha
      obtain ⟨pr, hpr, rfl⟩ := List.mem_map.mp hb
      obtain ⟨j', hj', hpr'⟩ := List.mem_flatMap.mp hpr
      obtain ⟨_, _, rfl⟩ := List.mem_map.mp hpr'
      exact hj j' hj'

theorem probePairs_snd_sorted (ord : HTOrder) (keyB keyP : Column) (nB nP : Nat) :
    ((probePairs ord keyB keyP nB nP).map Prod.snd).Pairwise (fun a b => a ≤ b) := by
  unfold probePairs
  apply pairwise_le_flatMap_tag
  exact (List.pairwise_lt_range nP).imp (fun h => Nat.le_of_lt h)

theorem flatMap_tag_snd_filter (f : Nat → List Nat) (pred : Nat → Bool)
    (h1 : ∀ j, (f j).length ≤ 1) (h2 : ∀ j, pred j = true ↔ f j ≠ []) :
    ∀ l : List Nat,
      (l.flatMap (fun j => (f j).map (fun i => (i, j)))).map Prod.snd = l.filter pred := by
  intro l
  induction l with
  | nil => rfl
  | cons j rest ih =>
    rw [List.flatMap_cons, List.map_append, ih, List.map_map]
    cases hf : f j with
    | nil =>
      have hp : pred j = false := by
        cases hpj : pred j with
        | false => rfl
        | true => exact absurd hf ((h2 j).mp hpj)
      simp [List.filter_cons, hp]
    | cons x xs =>
      have hp : pred j = true := (h2 j).mpr (by rw [hf]; exact List.cons_ne_nil _ _)
      have hlen := h1 j
      rw [hf] at hlen
      have hxs : xs = [] := by
        cases xs with
        | nil => rfl
        | cons y ys => simp at hlen
      subst hxs
      simp [List.filter_cons, hp]

theorem equal_range_length_distinct (ord : HTOrder) (keyB : Column) (nB key : Nat)
    (hd : ((List.range nB).map (cellAt keyB)).Nodup) :
    (ord.equal_range (buildTable keyB nB) key).length ≤ 1 := by
  have hnd := nodup_equal_range ord keyB nB key
  have hall : ∀ x ∈ ord.equal_range (buildTable keyB nB) key,
      ∀ y ∈ ord.equal_range (buildTable keyB nB) key, x = y := by
    intro x hx y hy
    obtain ⟨hx1, hx2⟩ := (mem_equal_range ord keyB nB key x).mp hx
    obtain ⟨hy1, hy2⟩ := (mem_equal_range ord keyB nB key y).mp hy
    exact List.inj_on_of_nodup_map hd (List.mem_range.mpr hx1) (List.mem_range.mpr hy1)
      (hx2.trans hy2.symm)
  cases hl : ord.equal_range (buildTable keyB nB) key with
  | nil => simp
  | cons x xs =>
    cases xs with
    | nil => simp
    | cons y ys =>
      rw [hl] at hnd hall
      have hxy : x = y := hall x (List.mem_cons_self _ _) y
        (List.mem_cons_of_mem _ (List.mem_cons_self _ _))
      subst hxy
      exact absurd (List.mem_cons_self _ _) (List.nodup_cons.mp hnd).1

theorem probePairs_snd_distinct (ord : HTOrder) (keyB keyP : Column) (nB nP : Nat)
    (hd : ((List.range nB).map (cellAt keyB)).Nodup) :
    (probePairs ord keyB keyP nB nP).map Prod.snd = matchedProbeRows keyB keyP nB nP := by
  unfold probePairs matchedProbeRows
  apply flatMap_tag_snd_filter (fun j => ord.equal_range (buildTable keyB nB) (cellAt keyP j))
  · intro j
    exact equal_range_length_distinct ord keyB nB _ hd
  · intro j
    rw [List.any_eq_true]
    constructor
    · rintro ⟨i, hi, he⟩
      have hm : i ∈ ord.equal_range (buildTable keyB nB) (cellAt keyP j) :=
        (mem_equal_range ord keyB nB _ i).mpr ⟨List.mem_range.mp hi, of_decide_eq_true he⟩
      exact List.ne_nil_of_mem hm
    · intro hne
      obtain ⟨i, hi⟩ := List.exists_mem_of_ne_nil _ hne
      obtain ⟨h1, h2⟩ := (mem_equal_range ord keyB nB _ i).mp hi
      exact ⟨i, List.mem_range.mpr h1, decide_eq_true h2⟩

theorem Join_buildProbe_rows (ord : HTOrder) (base : Operator) (left right : Op)
    (p : PredicateInfo) (req reqL reqR : List SelectInfo)
    (htmp : base.tmp_results_ = (reqL ++ reqR).map (fun _ => []))
    (hrs : base.result_size_ = 0) (hnd : (reqL ++ reqR).Nodup)
    (hL : ∀ s ∈ reqL, ∃ col, left.column s = some col ∧ col.length = left.result_size)
    (hR : ∀ s ∈ reqR, ∃ col, right.column s = some col ∧ col.length = right.result_size)
    (hpl : ∃ col, left.column p.left = some col ∧ col.length = left.result_size)
    (hpr : ∃ col, right.column p.right = some col ∧ col.length = right.result_size) :
    ∃ base2, Join.buildProbe ord base left right p [] req reqL reqR [] [] =
        some (.Join base2 left right p (buildTable (left.columnD p.left) left.result_size)
          req reqL reqR (reqL.map left.columnD) (reqR.map right.columnD)) ∧
      base2.result_size_ = (probePairs ord (left.columnD p.left) (right.columnD p.right)
        left.result_size right.result_size).length ∧
      (∀ s ∈ reqL, (Op.Join base2 left right p
          (buildTable (left.columnD p.left) left.result_size)
          req reqL reqR (reqL.map left.columnD) (reqR.map right.columnD)).column s =
        some ((probePairs ord (left.columnD p.left) (right.columnD p.right)
          left.result_size right.result_size).map (fun pr => cellAt (left.columnD s) pr.1))) ∧
      (∀ s ∈ reqR, (Op.Join base2 left right p
          (buildTable (left.columnD p.left) left.result_size)
          req reqL reqR (reqL.map left.columnD) (reqR.map right.columnD)).column s =
        some ((probePairs ord (left.columnD p.left) (right.columnD p.right)
          left.result_size right.result_size).map (fun pr => cellAt (right.columnD s) pr.2))) := by
  have hbp := Join_buildProbe_eq ord base left right p req reqL reqR htmp hL hR hpl hpr
  obtain ⟨hcL, hcR⟩ := Join_result_column base.select_to_result_col_id_ base.result_columns_
    (base.result_size_ + (probePairs ord (left.columnD p.left) (right.columnD p.right)
      left.result_size right.result_size).length) left right p
    (buildTable (left.columnD p.left) left.result_size) req reqL reqR
    (reqL.map left.columnD) (reqR.map right.columnD)
    (fun s => (probePairs ord (left.columnD p.left) (right.columnD p.right)
      left.result_size right.result_size).map (fun pr => cellAt (left.columnD s) pr.1))
    (fun s => (probePairs ord (left.columnD p.left) (right.columnD p.right)
      left.result_size right.result_size).map (fun pr => cellAt (right.columnD s) pr.2)) hnd
  exact ⟨_, hbp, by simp [hrs], hcL, hcR⟩


/-! ## A `Join` and the `Join` with its children and predicate sides exchanged -/

theorem Ready_require_absent (op : Op) (s : SelectInfo) (hr : op.Ready)
    (hb : s.binding ∉ op.bindings) : op.require s = some (false, op) := by
  have hin : op.InRange s := by
    unfold Op.InRange
    rw [(Op.relationOf_none_iff op s.binding).mpr hb]
    trivial
  obtain ⟨b, op1, h⟩ := Ready_require_defined op s hr hin
  obtain ⟨_, hiff, hsame, _⟩ := Ready_require op s b op1 hr h
  have hbf : b = false := by
    cases b with
    | false => rfl
    | true => exact absurd (hiff.mp rfl) hb
  subst hbf
  rw [h, hsame rfl]

theorem JoinInv_swap {base : Operator} {ht : List (Nat × Nat)} {req reqL reqR : List SelectInfo}
    {cl cr : List Column} (h : JoinInv base ht req reqL reqR cl cr) :
    JoinInv base ht req reqR reqL cr cl := by
  obtain ⟨h1, h2, h3, h4, h5, h6, h7⟩ := h
  refine ⟨?_, h2, h3, h5, h4, List.perm_append_comm.nodup_iff.mp h6, ?_⟩
  · rw [h1]
    simp only [List.map_append]
    apply List.ext_getElem
    · simp [Nat.add_comm]
    · intro n h1 h2
      simp [List.getElem_append]
  · intro s
    rw [h7 s, List.mem_append, List.mem_append]
    exact Or.comm

theorem Join_require_mirror (base : Operator) (l r : Op) (p q : PredicateInfo)
    (ht : List (Nat × Nat)) (req reqL reqR : List SelectInfo) (cl cr : List Column)
    (hl : l.Ready) (hr : r.Ready) (hdisj : ∀ b ∈ l.bindings, b ∉ r.bindings)
    (s : SelectInfo) (b : Bool) (j1 : Op)
    (h : (Op.Join base l r p ht req reqL reqR cl cr).require s = some (b, j1)) :
    ∃ base1 l1 r1 req1 reqL1 reqR1, j1 = Op.Join base1 l1 r1 p ht req1 reqL1 reqR1 cl cr ∧
      (Op.Join base r l q ht req reqR reqL cl cr).require s =
        some (b, Op.Join base1 r1 l1 q ht req1 reqR1 reqL1 cl cr) ∧
      l1.Ready ∧ r1.Ready ∧ l1.bindings = l.bindings ∧ r1.bindings = r.bindings ∧
      (l.Sound → l1.Sound) ∧ (r.Sound → r1.Sound) := by
  simp only [Op.require] at h ⊢
  by_cases hs : s ∈ req
  · rw [if_pos hs] at h ⊢
    cases h
    exact ⟨_, _, _, _, _, _, rfl, rfl, hl, hr, rfl, rfl, fun h => h, fun h => h⟩
  · rw [if_neg hs] at h ⊢
    cases hq : l.require s with
    | none => rw [hq] at h; cases h
    | some res =>
      obtain ⟨bl, l1⟩ := res
      obtain ⟨hl1, hiff, hsame, _⟩ := Ready_require l s bl l1 hl hq
      obtain ⟨el1, _, esl⟩ := Op.require_static l s bl l1 hq
      cases bl with
      | true =>
        have hbl : s.binding ∈ l.bindings := hiff.mp rfl
        have hqr := Ready_require_absent r s hr (hdisj _ hbl)
        rw [hq] at h
        simp only [Option.some.injEq, Prod.mk.injEq] at h
        obtain ⟨rfl, rfl⟩ := h
        rw [hqr]
        simp only [hq]
        exact ⟨_, _, _, _, _, _, rfl, rfl, hl1, hr, el1, rfl, esl, fun h => h⟩
      | false =>
        have hl1eq : l1 = l := hsame rfl
        subst hl1eq
        rw [hq] at h
        simp only at h
        cases hqr : r.require s with
        | none => rw [hqr] at h; cases h
        | some res2 =>
          obtain ⟨br, r1⟩ := res2
          obtain ⟨hr1, _, _, _⟩ := Ready_require r s br r1 hr hqr
          obtain ⟨er1, _, esr⟩ := Op.require_static r s br r1 hqr
          rw [hqr] at h
          cases br with
          | true =>
            simp only [Option.some.injEq, Prod.mk.injEq] at h
            obtain ⟨rfl, rfl⟩ := h
            exact ⟨_, _, _, _, _, _, rfl, rfl, hl, hr1, rfl, er1, fun h => h, esr⟩
          | false =>
            simp only [Option.some.injEq, Prod.mk.injEq] at h
            obtain ⟨rfl, rfl⟩ := h
            simp only [hq]
            exact ⟨_, _, _, _, _, _, rfl, rfl, hl, hr1, rfl, er1, fun h => h, esr⟩

theorem Join_requireAll_mirror (p q : PredicateInfo) (ht : List (Nat × Nat))
    (cl cr : List Column) :
    ∀ (ss : List SelectInfo) (base : Operator) (l r : Op) (req reqL reqR : List SelectInfo)
      (j1 : Op), l.Ready → r.Ready → (∀ b ∈ l.bindings, b ∉ r.bindings) →
      (Op.Join base l r p ht req reqL reqR cl cr).requireAll ss = some j1 →
      ∃ base1 l1 r1 req1 reqL1 reqR1, j1 = Op.Join base1 l1 r1 p ht req1 reqL1 reqR1 cl cr ∧
        (Op.Join base r l q ht req reqR reqL cl cr).requireAll ss =
          some (Op.Join base1 r1 l1 q ht req1 reqR1 reqL1 cl cr) ∧
        l1.Ready ∧ r1.Ready ∧ (∀ b ∈ l1.bindings, b ∉ r1.bindings) ∧
        (l.Sound → l1.Sound) ∧ (r.Sound → r1.Sound) := by
  intro ss
  induction ss with
  | nil =>
    intro base l r req reqL reqR j1 hl hr hdisj h
    simp only [Op.requireAll, Option.some.injEq] at h
    subst h
    exact ⟨_, _, _, _, _, _, rfl, rfl, hl, hr, hdisj, fun h => h, fun h => h⟩
  | cons s rest ih =>
    intro base l r req reqL reqR j1 hl hr hdisj h
    rw [Op.requireAll] at h
    cases hq : (Op.Join base l r p ht req reqL reqR cl cr).require s with
    | none => simp [hq] at h
    | some res =>
      obtain ⟨b, j0⟩ := res
      simp only [hq] at h
      obtain ⟨base0, l0, r0, req0, reqL0, reqR0, rfl, hm, hl0, hr0, el, er, sl, sr⟩ :=
        Join_require_mirror base l r p q ht req reqL reqR cl cr hl hr hdisj s b j0 hq
      have hdisj0 : ∀ b ∈ l0.bindings, b ∉ r0.bindings := by
        rw [el, er]; exact hdisj
      obtain ⟨base1, l1, r1, req1, reqL1, reqR1, rfl, hm1, hl1, hr1, hd1, sl1, sr1⟩ :=
        ih base0 l0 r0 req0 reqL0 reqR0 j1 hl0 hr0 hdisj0 h
      refine ⟨_, _, _, _, _, _, rfl, ?_, hl1, hr1, hd1, fun h => sl1 (sl h), fun h => sr1 (sr h)⟩
      rw [Op.requireAll, hm]
      exact hm1

theorem matchPairs_swap_perm (keyL keyR : Column) (nL nR : Nat) :
    ((matchPairs keyR keyL nR nL).map Prod.swap).Perm (matchPairs keyL keyR nL nR) := by
  rw [List.perm_ext_iff_of_nodup
    ((nodup_matchPairs keyR keyL nR nL).map Prod.swap_injective)
    (nodup_matchPairs keyL keyR nL nR)]
  intro pr
  rw [mem_matchPairs, List.mem_map]
  constructor
  · rintro ⟨pr', hpr', rfl⟩
    obtain ⟨h1, h2, h3⟩ := (mem_matchPairs _ _ _ _ pr').mp hpr'
    exact ⟨h2, h1, h3.symm⟩
  · rintro ⟨h1, h2, h3⟩
    exact ⟨pr.swap, (mem_matchPairs _ _ _ _ pr.swap).mpr ⟨h2, h1, h3.symm⟩, Prod.swap_swap pr⟩

theorem joinPairs_swap_perm (ord : HTOrder) (keyL keyR : Column) (nL nR : Nat) :
    ((joinPairs ord keyR keyL nR nL).map Prod.swap).Perm (joinPairs ord keyL keyR nL nR) :=
  ((joinPairs_perm ord keyR keyL nR nL).map Prod.swap).trans
    ((matchPairs_swap_perm keyL keyR nL nR).trans (joinPairs_perm ord keyL keyR nL nR).symm)

theorem Join_run_mirror (ord : HTOrder) (base : Operator) (l r : Op) (p : PredicateInfo)
    (req reqL reqR : List SelectInfo) (j2 : Op)
    (hinv : JoinInv base [] req reqL reqR [] [])
    (hl : l.Ready) (hr : r.Ready) (hls : l.Sound) (hrs : r.Sound)
    (hrun : (Op.Join base l r p [] req reqL reqR [] []).run ord = some j2) :
    ∃ (k2 l2 r2 : Op) (pairsJ pairsK : List (Nat × Nat)),
      (Op.Join base r l ⟨p.right, p.left⟩ [] req reqR reqL [] []).run ord = some k2 ∧
      (pairsK.map Prod.swap).Perm pairsJ ∧
      j2.result_size = pairsJ.length ∧ k2.result_size = pairsK.length ∧
      (∀ s ∈ reqL, j2.column s = some (pairsJ.map (fun pr => cellAt (l2.columnD s) pr.1)) ∧
        k2.column s = some (pairsK.map (fun pr => cellAt (l2.columnD s) pr.2))) ∧
      (∀ s ∈ reqR, j2.column s = some (pairsJ.map (fun pr => cellAt (r2.columnD s) pr.2)) ∧
        k2.column s = some (pairsK.map (fun pr => cellAt (r2.columnD s) pr.1))) := by
  obtain ⟨b1, l1, b2, r1, l2, r2, h1, h2, h3, h4, hcore⟩ :=
    Op.run_Join_inv ord base l r p [] req reqL reqR [] [] j2 hrun
  have hl1 := (Ready_require l p.left b1 l1 hl h1).1
  have hr1 := (Ready_require r p.right b2 r1 hr h2).1
  have hls1 := (Op.require_static l p.left b1 l1 h1).2.2 hls
  have hrs1 := (Op.require_static r p.right b2 r1 h2).2.2 hrs
  have hfl := (Ready_run ord l1.height l1 (Nat.le_refl _) hl1 hls1 l2 h3).1
  have hfr := (Ready_run ord r1.height r1 (Nat.le_refl _) hr1 hrs1 r2 h4).1
  have hex : (∀ s ∈ p.left :: reqL, ∃ col, l2.column s = some col) ∧
      (∀ s ∈ p.right :: reqR, ∃ col, r2.column s = some col) := by
    unfold Join.runCore at hcore
    split at hcore
    · obtain ⟨hA, hB⟩ := Join_buildProbe_inv ord base r2 l2 _ [] req reqR reqL [] [] j2 hcore
      exact ⟨hB, hA⟩
    · exact Join_buildProbe_inv ord base l2 r2 _ [] req reqL reqR [] [] j2 hcore
  have hcl : ∀ s ∈ p.left :: reqL, ∃ col, l2.column s = some col ∧
      col.length = l2.result_size := fun s hs => by
    obtain ⟨col, hc⟩ := hex.1 s hs
    exact ⟨col, hc, hfl.column hc⟩
  have hcr : ∀ s ∈ p.right :: reqR, ∃ col, r2.column s = some col ∧
      col.length = r2.result_size := fun s hs => by
    obtain ⟨col, hc⟩ := hex.2 s hs
    exact ⟨col, hc, hfr.column hc⟩
  obtain ⟨j2', hrunJ, hsizeJ, hJL, hJR, _⟩ := Join_run_spec ord base l r p [] req reqL reqR
    [] [] hinv b1 b2 l1 r1 l2 r2 h1 h2 h3 h4 hcl hcr
  have hj : j2' = j2 := Option.some.inj (hrunJ.symm.trans hrun)
  subst hj
  obtain ⟨k2, hrunK, hsizeK, hKL, hKR, _⟩ := Join_run_spec ord base r l ⟨p.right, p.left⟩ []
    req reqR reqL [] [] (JoinInv_swap hinv) b2 b1 r1 l1 r2 l2 h2 h1 h4 h3 hcr hcl
  exact ⟨k2, l2, r2, _, _, hrunK,
    joinPairs_swap_perm ord (l2.columnD p.left) (r2.columnD p.right) l2.result_size
      r2.result_size,
    hsizeJ, hsizeK, fun s hs => ⟨hJL s hs, hKR s hs⟩, fun s hs => ⟨hJR s hs, hKL s hs⟩⟩


/-! ## Columns depend on the binding and the column id of their `SelectInfo` -/

theorem Ready_run_keyed (ord : HTOrder) :
    ∀ (n : Nat) (op : Op), op.height ≤ n → op.Ready → op.Sound →
      ∀ op2, op.run ord = some op2 → ∀ a o : SelectInfo, a.binding = o.binding →
        a.col_id = o.col_id → op2.resolve a ≠ none → op2.resolve o ≠ none →
        op2.column a = op2.column o := by
  intro n
  induction n with
  | zero =>
    intro op hn
    have := Op.height_pos op
    omega
  | succ n ih =>
    intro op hn hr hs op2 hrun a o hb hc ha ho
    cases op with
    | Scan base rel b =>
      obtain ⟨hinv, _⟩ := hr
      simp only [Op.run, Op.height, Op.runFuel, Option.some.injEq] at hrun
      subst hrun
      obtain ⟨col1, g1, _, g2⟩ := Scan_column rel b base hinv rel.size_ a ha
      obtain ⟨col2, k1, _, k2⟩ := Scan_column rel b base hinv rel.size_ o ho
      rw [g2, k2, ← g1, ← k1, hc]
    | FilterScan base rel b fs idata =>
      obtain ⟨hinv, _⟩ := hr
      obtain ⟨hwf, hfs⟩ := hs
      rw [FilterScan_run_eq ord rel b base fs idata hwf hfs hinv] at hrun
      simp only [Option.some.injEq] at hrun
      subst hrun
      obtain ⟨col1, g1, _, g2⟩ := FilterScan_column rel b base fs idata hinv
        (base.result_size_ + (passingRows rel fs).length) (passingRows rel fs) a ha
      obtain ⟨col2, k1, _, k2⟩ := FilterScan_column rel b base fs idata hinv
        (base.result_size_ + (passingRows rel fs).length) (passingRows rel fs) o ho
      rw [hc, k1] at g1
      rw [g2, k2, Option.some.inj g1]
    | Join base l r p ht req reqL reqR cl cr =>
      have hready := hr
      obtain ⟨hinv, _, hl, hrd, hSL, hSR⟩ := hr
      obtain ⟨hls, hrs⟩ := hs
      have hinv0 := hinv
      obtain ⟨_, _, rfl, rfl, rfl, hnd, hreq⟩ := hinv
      obtain ⟨b1, l1, b2, r1, l2, r2, h1, h2, h3, h4, hcore⟩ :=
        Op.run_Join_inv ord base l r p [] req reqL reqR [] [] op2 hrun
      have hl1 := (Ready_require l p.left b1 l1 hl h1).1
      have hr1 := (Ready_require r p.right b2 r1 hrd h2).1
      have hls1 := (Op.require_static l p.left b1 l1 h1).2.2 hls
      have hrs1 := (Op.require_static r p.right b2 r1 h2).2.2 hrs
      have hhl := Op.require_height l p.left b1 l1 h1
      have hhr := Op.require_height r p.right b2 r1 h2
      simp only [Op.height] at hn
      have hfl := (Ready_run ord l1.height l1 (Nat.le_refl _) hl1 hls1 l2 h3).1
      have hfr := (Ready_run ord r1.height r1 (Nat.le_refl _) hr1 hrs1 r2 h4).1
      have hex : (∀ s ∈ p.left :: reqL, ∃ col, l2.column s = some col) ∧
          (∀ s ∈ p.right :: reqR, ∃ col, r2.column s = some col) := by
        unfold Join.runCore at hcore
        split at hcore
        · obtain ⟨hA, hB⟩ := Join_buildProbe_inv ord base r2 l2 _ [] req reqR reqL [] [] op2 hcore
          exact ⟨hB, hA⟩
        · exact Join_buildProbe_inv ord base l2 r2 _ [] req reqL reqR [] [] op2 hcore
      have hcl : ∀ s ∈ p.left :: reqL, ∃ col, l2.column s = some col ∧
          col.length = l2.result_size := fun s hs => by
        obtain ⟨col, hc⟩ := hex.1 s hs
        exact ⟨col, hc, hfl.column hc⟩
      have hcr : ∀ s ∈ p.right :: reqR, ∃ col, r2.column s = some col ∧
          col.length = r2.result_size := fun s hs => by
        obtain ⟨col, hc⟩ := hex.2 s hs
        exact ⟨col, hc, hfr.column hc⟩
      obtain ⟨j2, hrunJ, _, hJL, hJR, _⟩ := Join_run_spec ord base l r p [] req reqL reqR
        [] [] hinv0 b1 b2 l1 r1 l2 r2 h1 h2 h3 h4 hcl hcr
      have hj : j2 = op2 := Option.some.inj (hrunJ.symm.trans hrun)
      subst hj
      have hka : a ∈ reqL ∨ a ∈ reqR :=
        List.mem_append.mp ((hreq a).mp (Ready_run_keys ord _ j2 hready hrun a ha))
      have hko : o ∈ reqL ∨ o ∈ reqR :=
        List.mem_append.mp ((hreq o).mp (Ready_run_keys ord _ j2 hready hrun o ho))
      have hres : ∀ (c2 : Op) (s : SelectInfo), (∃ col, c2.column s = some col) →
          c2.resolve s ≠ none := by
        intro c2 s ⟨col, hcol⟩ hn1
        simp [Op.column, hn1] at hcol
      have hcolD : ∀ (c2 : Op), c2.column a = c2.column o → c2.columnD a = c2.columnD o := by
        intro c2 h
        simp only [Op.columnD, h]
      rcases hka with ha1 | ha1 <;> rcases hko with ho1 | ho1
      · have e := ih l1 (by omega) hl1 hls1 l2 h3 a o hb hc
          (hres l2 a (hex.1 a (List.mem_cons_of_mem _ ha1)))
          (hres l2 o (hex.1 o (List.mem_cons_of_mem _ ho1)))
        rw [hJL a ha1, hJL o ho1, hcolD l2 e]
      · exact absurd (Ready_seen_binding l a hl (hSL a ha1)) (by rw [hb]; exact (hSR o ho1).2)
      · exact absurd (Ready_seen_binding l o hl (hSL o ho1)) (by rw [← hb]; exact (hSR a ha1).2)
      · have e := ih r1 (by omega) hr1 hrs1 r2 h4 a o hb hc
          (hres r2 a (hex.2 a (List.mem_cons_of_mem _ ha1)))
          (hres r2 o (hex.2 o (List.mem_cons_of_mem _ ho1)))
        rw [hJR a ha1, hJR o ho1, hcolD r2 e]
    | SelfJoin base i p ius idata cd =>
      obtain ⟨hinv, _, _⟩ := hr
      obtain ⟨_, _, _, hmap, hkeys⟩ := hinv
      obtain ⟨b1, i1, b2, i2, i3, _, _, _, hcore⟩ :=
        Op.run_SelfJoin_inv ord base i p ius idata cd op2 hrun
      have hma : a ∈ ius := by
        rcases SelfJoin_runCore_keys base i3 p ius cd op2 hcore a ha with h | h
        · exact h
        · rw [hmap] at h; exact absurd rfl h
      have hmo : o ∈ ius := by
        rcases SelfJoin_runCore_keys base i3 p ius cd op2 hcore o ho with h | h
        · exact h
        · rw [hmap] at h; exact absurd rfl h
      have hao : a = o := List.inj_on_of_nodup_map hkeys hma hmo (by
        simp only [SelectInfo.key, hb, hc])
      rw [hao]


/-! ## The numbers of a parsed query fit their types -/

theorem stoul_lt (t : String) (v : Nat) (h : stoul t = some v) : v < 2 ^ 64 := by
  unfold stoul at h
  simp only at h
  split at h
  · cases h
  · split at h
    · cases h
    · rename_i hlt
      simp only [Option.some.injEq] at h
      subst h
      split
      · exact Nat.mod_lt _ (by norm_num)
      · exact Nat.lt_of_not_le hlt

theorem pushNumbers_range :
    ∀ (toks : List String) (result out : List Nat), pushNumbers toks result = some out →
      (∀ n ∈ result, n < 2 ^ 32) → ∀ n ∈ out, n < 2 ^ 32 := by
  intro toks
  induction toks with
  | nil =>
    intro result out h hr
    simp only [pushNumbers, Option.some.injEq] at h
    subst h
    exact hr
  | cons t rest ih =>
    intro result out h hr
    rw [pushNumbers] at h
    cases hs : stoul t with
    | none => rw [hs] at h; cases h
    | some v =>
      rw [hs] at h
      refine ih _ _ h ?_
      intro n hn
      rcases List.mem_append.mp hn with h1 | h1
      · exact hr n h1
      · rw [List.mem_singleton.mp h1]
        exact Nat.mod_lt _ (by norm_num)

theorem readUnsigned_lt (mem : Stray) (v : List Nat) (i : Nat) (hv : ∀ n ∈ v, n < 2 ^ 32) :
    readUnsigned mem v i < 2 ^ 32 := by
  unfold readUnsigned
  cases h : v[i]? with
  | none => exact Nat.mod_lt _ (by norm_num)
  | some x => exact hv x (List.getElem?_mem h)

theorem parseRelColPair_plain (mem : Stray) (raw : String) (s : SelectInfo)
    (h : parseRelColPair mem raw = some s) : s.Plain := by
  unfold parseRelColPair splitStringUnsigned at h
  cases hp : pushNumbers (splitString raw '.') [] with
  | none => rw [hp] at h; cases h
  | some ids =>
    rw [hp] at h
    have hr := pushNumbers_range _ _ _ hp (fun n hn => absurd hn (List.not_mem_nil n))
    simp only [Option.some.injEq] at h
    subst h
    exact ⟨readUnsigned_lt mem ids 0 hr, readUnsigned_lt mem ids 1 hr⟩

theorem QueryInfo.InRange_addSelection {q : QueryInfo} (h : q.InRange) {s : SelectInfo}
    (hs : s.Plain) : QueryInfo.InRange { q with selections_ := q.selections_ ++ [s] } := by
  obtain ⟨h1, h2, h3⟩ := h
  refine ⟨h1, ?_, h3⟩
  intro t ht
  simp only [QueryInfo.selectInfos, List.mem_append, List.mem_singleton] at ht
  rcases ht with ((ht | ht) | ht) | ht
  · exact h2 t (by simp only [QueryInfo.selectInfos, List.mem_append]; exact Or.inl (Or.inl ht))
  · rw [ht]; exact hs
  · exact h2 t (by simp only [QueryInfo.selectInfos, List.mem_append]; exact Or.inl (Or.inr ht))
  · exact h2 t (by simp only [QueryInfo.selectInfos, List.mem_append]; exact Or.inr ht)

theorem QueryInfo.InRange_addPredicate {q : QueryInfo} (h : q.InRange) {l r : SelectInfo}
    (hl : l.Plain) (hr : r.Plain) :
    QueryInfo.InRange { q with predicates_ := q.predicates_ ++ [⟨l, r⟩] } := by
  obtain ⟨h1, h2, h3⟩ := h
  refine ⟨h1, ?_, h3⟩
  intro t ht
  simp only [QueryInfo.selectInfos, List.mem_append, List.flatMap_append, List.flatMap_cons,
    List.flatMap_nil, List.append_nil, List.mem_cons, List.mem_singleton,
    List.not_mem_nil, or_false] at ht
  rcases ht with (ht | ht | ht | ht) | ht
  · exact h2 t (by simp only [QueryInfo.selectInfos, List.mem_append]; exact Or.inl (Or.inl ht))
  · exact h2 t (by simp only [QueryInfo.selectInfos, List.mem_append]; exact Or.inl (Or.inr ht))
  · rw [ht]; exact hl
  · rw [ht]; exact hr
  · exact h2 t (by simp only [QueryInfo.selectInfos, List.mem_append]; exact Or.inr ht)

theorem QueryInfo.InRange_addFilter {q : QueryInfo} (h : q.InRange) {f : FilterInfo}
    (hf : f.filter_column.Plain) (hc : f.constant < 2 ^ 64) :
    QueryInfo.InRange { q with filters_ := q.filters_ ++ [f] } := by
  obtain ⟨h1, h2, h3⟩ := h
  refine ⟨h1, ?_, ?_⟩
  · intro t ht
    simp only [QueryInfo.selectInfos, List.mem_append, List.map_append, List.map_cons,
      List.map_nil, List.mem_singleton] at ht
    rcases ht with ht | ht | ht
    · exact h2 t (by simp only [QueryInfo.selectInfos, List.mem_append]; exact Or.inl ht)
    · exact h2 t (by simp only [QueryInfo.selectInfos, List.mem_append]; exact Or.inr ht)
    · rw [ht]; exact hf
  · intro g hg
    rcases List.mem_append.mp hg with hg | hg
    · exact h3 g hg
    · rw [List.mem_singleton.mp hg]; exact hc

theorem QueryInfo.parsePredicate_range (mem : Stray) (q q1 : QueryInfo) (raw : String)
    (h : q.parsePredicate mem raw = some q1) (hq : q.InRange) : q1.InRange := by
  unfold QueryInfo.parsePredicate at h
  simp only at h
  split at h
  · cases h
  · split at h
    · rename_i lhs rhs _ _
      split at h
      · cases h
      · cases hl : parseRelColPair mem lhs with
        | none => rw [hl] at h; cases h
        | some left_select =>
          rw [hl] at h
          have hpl := parseRelColPair_plain mem lhs left_select hl
          simp only at h
          split at h
          · cases hc : stoul rhs with
            | none => rw [hc] at h; cases h
            | some constant =>
              rw [hc] at h
              have hlt := stoul_lt rhs constant hc
              simp only at h
              cases hch : raw.data[lhs.length]? with
              | none => rw [hch] at h; cases h
              | some comp_type =>
                rw [hch] at h
                simp only at h
                cases hcmp : Comparison.ofChar comp_type with
                | none => rw [hcmp] at h; cases h
                | some cmp =>
                  rw [hcmp] at h
                  cases h
                  exact QueryInfo.InRange_addFilter hq hpl hlt
          · cases hr : parseRelColPair mem rhs with
            | none => rw [hr] at h; cases h
            | some right_select =>
              rw [hr] at h
              cases h
              exact QueryInfo.InRange_addPredicate hq hpl (parseRelColPair_plain mem rhs _ hr)
    · cases h

theorem QueryInfo.parsePredicateList_range (mem : Stray) :
    ∀ (toks : List String) (q q1 : QueryInfo), q.parsePredicateList mem toks = some q1 →
      q.InRange → q1.InRange := by
  intro toks
  induction toks with
  | nil =>
    intro q q1 h hq
    simp only [QueryInfo.parsePredicateList, Option.some.injEq] at h
    subst h
    exact hq
  | cons t rest ih =>
    intro q q1 h hq
    rw [QueryInfo.parsePredicateList] at h
    cases hp : q.parsePredicate mem t with
    | none => rw [hp] at h; cases h
    | some q0 =>
      rw [hp] at h
      exact ih q0 q1 h (QueryInfo.parsePredicate_range mem q q0 t hp hq)

theorem QueryInfo.parseSelectionList_range (mem : Stray) :
    ∀ (toks : List String) (q q1 : QueryInfo), q.parseSelectionList mem toks = some q1 →
      q.InRange → q1.InRange := by
  intro toks
  induction toks with
  | nil =>
    intro q q1 h hq
    simp only [QueryInfo.parseSelectionList, Option.some.injEq] at h
    subst h
    exact hq
  | cons t rest ih =>
    intro q q1 h hq
    rw [QueryInfo.parseSelectionList] at h
    cases hp : parseRelColPair mem t with
    | none => rw [hp] at h; cases h
    | some s =>
      rw [hp] at h
      exact ih _ q1 h (QueryInfo.InRange_addSelection hq (parseRelColPair_plain mem t s hp))

theorem QueryInfo.parseRelationIds_range (q q1 : QueryInfo) (raw : String)
    (h : q.parseRelationIds raw = some q1) (hq : q.InRange) : q1.InRange := by
  unfold QueryInfo.parseRelationIds splitStringUnsigned at h
  cases hp : pushNumbers (splitString raw ' ') q.relation_ids_ with
  | none => rw [hp] at h; cases h
  | some ids =>
    rw [hp] at h
    cases h
    exact ⟨pushNumbers_range _ _ _ hp hq.1, hq.2.1, hq.2.2⟩

theorem resolveIds_plain (mem : Stray) (ids : List Nat) (s : SelectInfo) (hs : s.Plain) :
    (resolveIds mem ids s).Plain := hs

theorem resolveSelects_plain (mem : Stray) (ids : List Nat) :
    ∀ (l : List SelectInfo), (∀ s ∈ l, s.Plain) →
      ∀ s ∈ resolveSelects mem ids l, s.Plain := by
  intro l
  induction l with
  | nil => intro _ s hs; exact absurd hs (List.not_mem_nil s)
  | cons a l ih =>
    intro hl s hs
    rw [resolveSelects] at hs
    rcases List.mem_cons.mp hs with rfl | hs
    · exact resolveIds_plain mem ids a (hl a (List.mem_cons_self _ _))
    · exact ih (fun t ht => hl t (List.mem_cons_of_mem _ ht)) s hs

theorem resolvePredicates_plain (mem : Stray) (ids : List Nat) :
    ∀ (l : List PredicateInfo), (∀ p ∈ l, p.left.Plain ∧ p.right.Plain) →
      ∀ p ∈ resolvePredicates mem ids l, p.left.Plain ∧ p.right.Plain := by
  intro l
  induction l with
  | nil => intro _ p hp; exact absurd hp (List.not_mem_nil p)
  | cons a l ih =>
    intro hl p hp
    rw [resolvePredicates] at hp
    rcases List.mem_cons.mp hp with rfl | hp
    · exact hl a (List.mem_cons_self _ _)
    · exact ih (fun t ht => hl t (List.mem_cons_of_mem _ ht)) p hp

theorem resolveFilters_plain (mem : Stray) (ids : List Nat) :
    ∀ (l : List FilterInfo), (∀ f ∈ l, f.filter_column.Plain ∧ f.constant < 2 ^ 64) →
      ∀ f ∈ resolveFilters mem ids l, f.filter_column.Plain ∧ f.constant < 2 ^ 64 := by
  intro l
  induction l with
  | nil => intro _ f hf; exact absurd hf (List.not_mem_nil f)
  | cons a l ih =>
    intro hl f hf
    rw [resolveFilters] at hf
    rcases List.mem_cons.mp hf with rfl | hf
    · exact hl a (List.mem_cons_self _ _)
    · exact ih (fun t ht => hl t (List.mem_cons_of_mem _ ht)) f hf

theorem QueryInfo.resolveRelationIds_range (mem : Stray) (q : QueryInfo) (hq : q.InRange) :
    (q.resolveRelationIds mem).InRange := by
  obtain ⟨hi, hs, hc⟩ := hq
  have hS := resolveSelects_plain mem q.relation_ids_ q.selections_ (fun s hs1 => hs s (by
    simp only [QueryInfo.selectInfos, List.mem_append]; exact Or.inl (Or.inl hs1)))
  have hP := resolvePredicates_plain mem q.relation_ids_ q.predicates_ (fun p hp =>
    ⟨hs p.left (by
      simp only [QueryInfo.selectInfos, List.mem_append, List.mem_flatMap]
      exact Or.inl (Or.inr ⟨p, hp, List.mem_cons_self _ _⟩)),
    hs p.right (by
      simp only [QueryInfo.selectInfos, List.mem_append, List.mem_flatMap]
      exact Or.inl (Or.inr ⟨p, hp, List.mem_cons_of_mem _ (List.mem_cons_self _ _)⟩))⟩)
  have hF := resolveFilters_plain mem q.relation_ids_ q.filters_ (fun f hf =>
    ⟨hs f.filter_column (by
      simp only [QueryInfo.selectInfos, List.mem_append, List.mem_map]
      exact Or.inr ⟨f, hf, rfl⟩), hc f hf⟩)
  refine ⟨hi, ?_, fun f hf => (hF f hf).2⟩
  intro s hs1
  simp only [QueryInfo.resolveRelationIds, QueryInfo.selectInfos, List.mem_append,
    List.mem_flatMap, List.mem_map, List.mem_cons, List.mem_singleton, List.not_mem_nil,
    or_false] at hs1
  rcases hs1 with (hs1 | ⟨p, hp, hs1⟩) | ⟨f, hf, hs1⟩
  · exact hS s hs1
  · rcases hs1 with rfl | rfl
    · exact (hP p hp).1
    · exact (hP p hp).2
  · rw [← hs1]; exact (hF f hf).1

theorem QueryInfo.parseQuery_range {mem : Stray} {q q1 : QueryInfo} {raw : String}
    (h : q.parseQuery mem raw = some q1) : q1.InRange := by
  unfold QueryInfo.parseQuery at h
  simp only at h
  split at h
  · cases h
  · split at h
    · rename_i r p s _ _ _
      cases h1 : q.clear.parseRelationIds r with
      | none => rw [h1] at h; cases h
      | some qa =>
        rw [h1] at h
        simp only at h
        cases h2 : qa.parsePredicates mem p with
        | none => rw [h2] at h; cases h
        | some qb =>
          rw [h2] at h
          simp only at h
          cases h3 : qb.parseSelections mem s with
          | none => rw [h3] at h; cases h
          | some qc =>
            rw [h3] at h
            simp only [Option.some.injEq] at h
            subst h
            have h0 : q.clear.InRange := by
              refine ⟨?_, ?_, ?_⟩
              · intro n hn; simp [QueryInfo.clear] at hn
              · intro t ht; simp [QueryInfo.clear, QueryInfo.selectInfos] at ht
              · intro f hf; simp [QueryInfo.clear] at hf
            have ha := QueryInfo.parseRelationIds_range _ _ r h1 h0
            have hb := QueryInfo.parsePredicateList_range mem _ _ _ h2 ha
            have hc := QueryInfo.parseSelectionList_range mem _ _ _ h3 hb
            exact QueryInfo.resolveRelationIds_range mem _ hc
    · cases h

theorem joinsOf_joins_filters (P : List PredicateInfo) (F : List FilterInfo) :
    joinsOf (P.map PToken.join ++ F.map PToken.filter) = P ∧
      filtersOf (P.map PToken.join ++ F.map PToken.filter) = F := by
  induction P with
  | nil =>
    induction F with
    | nil => exact ⟨rfl, rfl⟩
    | cons f F ih =>
      simp only [List.map_nil, List.nil_append, List.map_cons, joinsOf, filtersOf] at ih ⊢
      exact ⟨ih.1, by rw [ih.2]⟩
  | cons p P ih =>
    simp only [List.map_cons, List.cons_append, joinsOf, filtersOf]
    exact ⟨congrArg (fun l => p :: l) ih.1, ih.2⟩

theorem SelectInfo.resolved_self (ids : List Nat) (s : SelectInfo)
    (h : ids[s.binding]? = some s.rel_id) : s.resolved ids = s := by
  unfold SelectInfo.resolved
  rw [List.getD_eq_getElem?_getD, h]
  rfl

theorem QueryInfo.dumpText_parse (mem : Stray) (q1 q : QueryInfo) (hrange : q.InRange)
    (hres : ∀ s ∈ q.selectInfos, q.relation_ids_[s.binding]? = some s.rel_id)
    (hsel : q.selections_ ≠ []) :
    q1.parseQuery mem q.dumpText = some q := by
  obtain ⟨hids, hplain, hconst⟩ := hrange
  have hS : ∀ s ∈ q.selections_, s ∈ q.selectInfos := fun s hs => by
    simp only [QueryInfo.selectInfos, List.mem_append]; exact Or.inl (Or.inl hs)
  have hPl : ∀ p ∈ q.predicates_, p.left ∈ q.selectInfos := fun p hp => by
    simp only [QueryInfo.selectInfos, List.mem_append, List.mem_flatMap]
    exact Or.inl (Or.inr ⟨p, hp, List.mem_cons_self _ _⟩)
  have hPr : ∀ p ∈ q.predicates_, p.right ∈ q.selectInfos := fun p hp => by
    simp only [QueryInfo.selectInfos, List.mem_append, List.mem_flatMap]
    exact Or.inl (Or.inr ⟨p, hp, List.mem_cons_of_mem _ (List.mem_cons_self _ _)⟩)
  have hFc : ∀ f ∈ q.filters_, f.filter_column ∈ q.selectInfos := fun f hf => by
    simp only [QueryInfo.selectInfos, List.mem_append, List.mem_map]
    exact Or.inr ⟨f, hf, rfl⟩
  have hlt : ∀ s ∈ q.selectInfos, s.binding < q.relation_ids_.length := fun s hs =>
    (List.getElem?_eq_some.mp (hres s hs)).1
  have hdump : q.dumpText = queryText q.relation_ids_
      (q.predicates_.map PToken.join ++ q.filters_.map PToken.filter) q.selections_ := by
    rw [QueryInfo.query_dumpText_eq]
    unfold queryText
    rw [List.map_append, List.map_map, List.map_map]
    rfl
  have hparse := QueryInfo.parseQuery_text mem q1 q.relation_ids_
    (q.predicates_.map PToken.join ++ q.filters_.map PToken.filter) q.selections_ hsel hids
    (fun t ht => by
      rcases List.mem_append.mp ht with ht | ht
      · obtain ⟨p, hp, rfl⟩ := List.mem_map.mp ht
        exact ⟨hplain _ (hPl p hp), hplain _ (hPr p hp)⟩
      · obtain ⟨f, hf, rfl⟩ := List.mem_map.mp ht
        exact ⟨hplain _ (hFc f hf), hconst f hf⟩)
    (fun s hs => hplain s (hS s hs))
    (fun t ht b hb => by
      rcases List.mem_append.mp ht with ht | ht
      · obtain ⟨p, hp, rfl⟩ := List.mem_map.mp ht
        simp only [PToken.bindings, List.mem_cons, List.mem_singleton, List.not_mem_nil,
          or_false] at hb
        rcases hb with rfl | rfl
        · exact hlt _ (hPl p hp)
        · exact hlt _ (hPr p hp)
      · obtain ⟨f, hf, rfl⟩ := List.mem_map.mp ht
        simp only [PToken.bindings, List.mem_singleton] at hb
        rw [hb]
        exact hlt _ (hFc f hf))
    (fun s hs => hlt s (hS s hs))
  rw [hdump, hparse, (joinsOf_joins_filters q.predicates_ q.filters_).1,
    (joinsOf_joins_filters q.predicates_ q.filters_).2]
  have e1 : q.predicates_.map (PredicateInfo.resolved q.relation_ids_) = q.predicates_ := by
    conv_rhs => rw [← List.map_id q.predicates_]
    apply List.map_congr_left
    intro p hp
    simp only [PredicateInfo.resolved, id,
      SelectInfo.resolved_self _ _ (hres _ (hPl p hp)),
      SelectInfo.resolved_self _ _ (hres _ (hPr p hp))]
  have e2 : q.filters_.map (FilterInfo.resolved q.relation_ids_) = q.filters_ := by
    conv_rhs => rw [← List.map_id q.filters_]
    apply List.map_congr_left
    intro f hf
    simp only [FilterInfo.resolved, id, SelectInfo.resolved_self _ _ (hres _ (hFc f hf))]
  have e3 : q.selections_.map (SelectInfo.resolved q.relation_ids_) = q.selections_ := by
    conv_rhs => rw [← List.map_id q.selections_]
    apply List.map_congr_left
    intro s hs
    simp only [id, SelectInfo.resolved_self _ _ (hres _ (hS s hs))]
  rw [e1, e2, e3]

theorem QueryInfo.parseQuery_dumpText (mem0 mem1 : Stray) (q0 q1 q : QueryInfo) (raw : String)
    (h : q0.parseQuery mem0 raw = some q)
    (hin : ∀ s ∈ q.selectInfos, s.binding < q.relation_ids_.length)
    (hsel : q.selections_ ≠ []) :
    q1.parseQuery mem1 q.dumpText = some q :=
  QueryInfo.dumpText_parse mem1 q1 q (QueryInfo.parseQuery_range h)
    (fun s hs => QueryInfo.parseQuery_resolved h s hs (hin s hs)) hsel


/-! ## What the parser stores is what the text writes -/

theorem writtenNumber_of_stoul {t : String} {v : Nat} (h : stoul t = some v) :
    writtenNumber t = v := by
  unfold writtenNumber
  rw [h]
  rfl

theorem pushNumbers_written :
    ∀ (toks : List String) (result out : List Nat), pushNumbers toks result = some out →
      out = result ++ toks.map (fun t => writtenNumber t % 2 ^ 32) := by
  intro toks
  induction toks with
  | nil =>
    intro result out h
    simp only [pushNumbers, Option.some.injEq] at h
    subst h
    simp
  | cons t rest ih =>
    intro result out h
    rw [pushNumbers] at h
    cases hs : stoul t with
    | none => rw [hs] at h; cases h
    | some v =>
      rw [hs] at h
      rw [ih _ _ h, List.map_cons, writtenNumber_of_stoul hs, List.append_assoc]
      rfl

theorem parseRelColPair_written (mem : Stray) (tok : String) (x : SelectInfo)
    (h : parseRelColPair mem tok = some x) : x.WrittenAs tok := by
  unfold parseRelColPair splitStringUnsigned at h
  cases hp : pushNumbers (splitString tok '.') [] with
  | none => rw [hp] at h; cases h
  | some ids =>
    rw [hp] at h
    have hids := pushNumbers_written _ _ _ hp
    simp only [Option.some.injEq] at h
    subst h
    subst hids
    unfold SelectInfo.WrittenAs
    split
    · trivial
    · rename_i b hb
      rw [hb]
      simp [readUnsigned]
    · rename_i b c rest hb
      rw [hb]
      simp [readUnsigned]

theorem QueryInfo.parseSelectionList_written (mem : Stray) :
    ∀ (toks : List String) (q q1 : QueryInfo), q.parseSelectionList mem toks = some q1 →
      q1.relation_ids_ = q.relation_ids_ ∧ q1.predicates_ = q.predicates_ ∧
      q1.filters_ = q.filters_ ∧
      ∃ xs, q1.selections_ = q.selections_ ++ xs ∧ List.Forall₂ SelectInfo.WrittenAs xs toks := by
  intro toks
  induction toks with
  | nil =>
    intro q q1 h
    simp only [QueryInfo.parseSelectionList, Option.some.injEq] at h
    subst h
    exact ⟨rfl, rfl, rfl, [], by simp, List.Forall₂.nil⟩
  | cons t rest ih =>
    intro q q1 h
    rw [QueryInfo.parseSelectionList] at h
    cases hp : parseRelColPair mem t with
    | none => rw [hp] at h; cases h
    | some x =>
      rw [hp] at h
      obtain ⟨e1, e2, e3, xs, e4, hxs⟩ := ih _ q1 h
      refine ⟨e1, e2, e3, x :: xs, ?_, List.Forall₂.cons (parseRelColPair_written mem t x hp) hxs⟩
      rw [e4]
      simp

theorem Comparison.toChar_of_ofChar {ch : Char} {cmp : Comparison}
    (h : Comparison.ofChar ch = some cmp) : ch = cmp.toChar := by
  unfold Comparison.ofChar at h
  split at h
  · rename_i hc
    cases h
    exact hc
  · split at h
    · rename_i hc
      cases h
      exact hc
    · split at h
      · rename_i hc
        cases h
        exact hc
      · cases h

theorem QueryInfo.parsePredicate_written (mem : Stray) (q q1 : QueryInfo) (tok : String)
    (h : q.parsePredicate mem tok = some q1) :
    q1.relation_ids_ = q.relation_ids_ ∧ q1.selections_ = q.selections_ ∧
      ((isJoinText tok = true ∧ q1.filters_ = q.filters_ ∧
          ∃ pr, q1.predicates_ = q.predicates_ ++ [pr] ∧ pr.WrittenAs tok) ∨
        (isJoinText tok = false ∧ q1.predicates_ = q.predicates_ ∧
          ∃ f, q1.filters_ = q.filters_ ++ [f] ∧ f.WrittenAs tok)) := by
  unfold QueryInfo.parsePredicate at h
  simp only at h
  split at h
  · cases h
  · rename_i hlen
    have hlen2 : (splitPredicates tok).length = 2 := not_not.mp hlen
    obtain ⟨lhs, rhs, hsp⟩ := List.length_eq_two.mp hlen2
    rw [hsp] at h
    simp only [List.getElem?_cons_zero, List.getElem?_cons_succ] at h
    split at h
    · cases h
    · cases hl : parseRelColPair mem lhs with
      | none => rw [hl] at h; cases h
      | some left_select =>
        rw [hl] at h
        have hwl := parseRelColPair_written mem lhs left_select hl
        simp only at h
        split at h
        · rename_i hconst
          cases hc : stoul rhs with
          | none => rw [hc] at h; cases h
          | some constant =>
            rw [hc] at h
            simp only at h
            cases hch : tok.data[lhs.length]? with
            | none => rw [hch] at h; cases h
            | some comp_type =>
              rw [hch] at h
              simp only at h
              cases hcmp : Comparison.ofChar comp_type with
              | none => rw [hcmp] at h; cases h
              | some cmp =>
                rw [hcmp] at h
                cases h
                refine ⟨rfl, rfl, Or.inr ⟨?_, rfl, _, rfl, ?_⟩⟩
                · simp only [isJoinText, hsp, hconst, Bool.not_true]
                · simp only [FilterInfo.WrittenAs, hsp]
                  exact ⟨hwl, (writtenNumber_of_stoul hc).symm,
                    by rw [hch, Comparison.toChar_of_ofChar hcmp]⟩
        · rename_i hconst
          cases hr : parseRelColPair mem rhs with
          | none => rw [hr] at h; cases h
          | some right_select =>
            rw [hr] at h
            cases h
            refine ⟨rfl, rfl, Or.inl ⟨?_, rfl, _, rfl, ?_⟩⟩
            · simp only [isJoinText, hsp]
              simpa using hconst
            · simp only [PredicateInfo.WrittenAs, hsp]
              exact ⟨hwl, parseRelColPair_written mem rhs right_select hr⟩

theorem QueryInfo.parsePredicateList_written (mem : Stray) :
    ∀ (toks : List String) (q q1 : QueryInfo), q.parsePredicateList mem toks = some q1 →
      q1.relation_ids_ = q.relation_ids_ ∧ q1.selections_ = q.selections_ ∧
      ∃ ps fs, q1.predicates_ = q.predicates_ ++ ps ∧ q1.filters_ = q.filters_ ++ fs ∧
        List.Forall₂ PredicateInfo.WrittenAs ps (toks.filter isJoinText) ∧
        List.Forall₂ FilterInfo.WrittenAs fs (toks.filter (fun t => !isJoinText t)) := by
  intro toks
  induction toks with
  | nil =>
    intro q q1 h
    simp only [QueryInfo.parsePredicateList, Option.some.injEq] at h
    subst h
    exact ⟨rfl, rfl, [], [], by simp, by simp, List.Forall₂.nil, List.Forall₂.nil⟩
  | cons t rest ih =>
    intro q q1 h
    rw [QueryInfo.parsePredicateList] at h
    cases hp : q.parsePredicate mem t with
    | none => rw [hp] at h; cases h
    | some qa =>
      rw [hp] at h
      obtain ⟨e1, e2, ps, fs, e3, e4, hps, hfs⟩ := ih qa q1 h
      obtain ⟨a1, a2, hcase⟩ := QueryInfo.parsePredicate_written mem q qa t hp
      refine ⟨e1.trans a1, e2.trans a2, ?_⟩
      rcases hcase with ⟨hj, a3, pr, a4, hw⟩ | ⟨hj, a3, f, a4, hw⟩
      · refine ⟨pr :: ps, fs, ?_, ?_, ?_, ?_⟩
        · rw [e3, a4]; simp
        · rw [e4, a3]
        · rw [List.filter_cons_of_pos hj]
          exact List.Forall₂.cons hw hps
        · rw [List.filter_cons_of_neg (by simp [hj])]
          exact hfs
      · refine ⟨ps, f :: fs, ?_, ?_, ?_, ?_⟩
        · rw [e3, a3]
        · rw [e4, a4]; simp
        · rw [List.filter_cons_of_neg (by simp [hj])]
          exact hps
        · rw [List.filter_cons_of_pos (by simp [hj])]
          exact List.Forall₂.cons hw hfs

theorem resolveSelects_written (mem : Stray) (ids : List Nat) :
    ∀ (xs : List SelectInfo) (toks : List String), List.Forall₂ SelectInfo.WrittenAs xs toks →
      List.Forall₂ SelectInfo.WrittenAs (resolveSelects mem ids xs) toks := by
  intro xs toks h
  induction h with
  | nil => exact List.Forall₂.nil
  | cons hx _ ih => exact List.Forall₂.cons hx ih

theorem resolvePredicates_written (mem : Stray) (ids : List Nat) :
    ∀ (ps : List PredicateInfo) (toks : List String),
      List.Forall₂ PredicateInfo.WrittenAs ps toks →
      List.Forall₂ PredicateInfo.WrittenAs (resolvePredicates mem ids ps) toks := by
  intro ps toks h
  induction h with
  | nil => exact List.Forall₂.nil
  | cons hx _ ih => exact List.Forall₂.cons hx ih

theorem resolveFilters_written (mem : Stray) (ids : List Nat) :
    ∀ (fs : List FilterInfo) (toks : List String),
      List.Forall₂ FilterInfo.WrittenAs fs toks →
      List.Forall₂ FilterInfo.WrittenAs (resolveFilters mem ids fs) toks := by
  intro fs toks h
  induction h with
  | nil => exact List.Forall₂.nil
  | cons hx _ ih => exact List.Forall₂.cons hx ih

theorem QueryInfo.parseQuery_written {mem : Stray} {q0 q : QueryInfo} {raw : String}
    (h : q0.parseQuery mem raw = some q) :
    ∃ r p s, splitString raw '|' = [r, p, s] ∧
      q.relation_ids_ = (splitString r ' ').map (fun t => writtenNumber t % 2 ^ 32) ∧
      List.Forall₂ PredicateInfo.WrittenAs q.predicates_
        ((splitString p '&').filter isJoinText) ∧
      List.Forall₂ FilterInfo.WrittenAs q.filters_
        ((splitString p '&').filter (fun t => !isJoinText t)) ∧
      List.Forall₂ SelectInfo.WrittenAs q.selections_ (splitString s ' ') := by
  unfold QueryInfo.parseQuery at h
  simp only at h
  split at h
  · cases h
  · rename_i hlen
    have hlen3 : (splitString raw '|').length = 3 := not_not.mp hlen
    obtain ⟨r, p, s, hsp⟩ := List.length_eq_three.mp hlen3
    rw [hsp] at h
    simp only [List.getElem?_cons_zero, List.getElem?_cons_succ] at h
    cases h1 : q0.clear.parseRelationIds r with
    | none => rw [h1] at h; cases h
    | some qa =>
      rw [h1] at h
      simp only at h
      cases h2 : qa.parsePredicates mem p with
      | none => rw [h2] at h; cases h
      | some qb =>
        rw [h2] at h
        simp only at h
        cases h3 : qb.parseSelections mem s with
        | none => rw [h3] at h; cases h
        | some qc =>
          rw [h3] at h
          simp only [Option.some.injEq] at h
          subst h
          have ha : qa = ⟨(splitString r ' ').map (fun t => writtenNumber t % 2 ^ 32), [], [], []⟩ := by
            unfold QueryInfo.parseRelationIds splitStringUnsigned at h1
            cases hp : pushNumbers (splitString r ' ') q0.clear.relation_ids_ with
            | none => rw [hp] at h1; cases h1
            | some ids =>
              rw [hp] at h1
              cases h1
              rw [pushNumbers_written _ _ _ hp]
              rfl
          obtain ⟨b1, b2, ps, fs, b3, b4, hps, hfs⟩ :=
            QueryInfo.parsePredicateList_written mem _ qa qb h2
          obtain ⟨c1, c2, c3, xs, c4, hxs⟩ := QueryInfo.parseSelectionList_written mem _ qb qc h3
          rw [ha] at b1 b2 b3 b4
          simp only [List.nil_append] at b3 b4
          rw [b2] at c4
          simp only [List.nil_append] at c4
          refine ⟨r, p, s, hsp, ?_, ?_, ?_, ?_⟩
          · simp only [QueryInfo.resolveRelationIds]
            rw [c1, b1]
          · simp only [QueryInfo.resolveRelationIds]
            rw [c2, b3]
            exact resolvePredicates_written mem _ _ _ hps
          · simp only [QueryInfo.resolveRelationIds]
            rw [c3, b4]
            exact resolveFilters_written mem _ _ _ hfs
          · simp only [QueryInfo.resolveRelationIds]
            rw [c4]
            exact resolveSelects_written mem _ _ _ hxs


/-! ## A line that ends with its second delimiter -/

theorem partCount_missing (r p : String) (hr : '|' ∉ r.data) (hp : '|' ∉ p.data) :
    partCount (r ++ "|" ++ p ++ "|") '|' = 2 := by
  unfold partCount
  have hd : (r ++ "|" ++ p ++ "|").data = (r.data ++ '|' :: p.data) ++ ['|'] := by
    simp [String.data_append]
  rw [hd]
  have hlast : ((r.data ++ '|' :: p.data) ++ ['|']).getLast? = some '|' :=
    List.getLast?_concat _
  rw [if_pos (Or.inr hlast)]
  simp only [List.count_append, List.count_cons_self, List.count_nil,
    List.count_eq_zero_of_not_mem hr, List.count_eq_zero_of_not_mem hp]


/-! ## Every `Join` of a planned tree has a leaf as a child -/

theorem Op.leafSided_of_isLeaf (op : Op) (h : op.isLeaf = true) : op.leafSided = true := by
  cases op with
  | Scan base rel b => rfl
  | FilterScan base rel b fs idata => rfl
  | Join base l r p ht req reqL reqR cl cr => cases h
  | SelfJoin base i p ius idata cd => cases h

theorem planStep_sides (rels : List Relation) (q : QueryInfo) (pc : List PredicateInfo)
    (used : List Nat) (root : Op) (p : PredicateInfo) (pc1 : List PredicateInfo)
    (used1 : List Nat) (root1 : Op)
    (h : planStep rels q pc used root p = some (pc1, used1, root1)) :
    (p.left.binding ∉ used ∧ p.right.binding ∉ used ∧ root1 = root) ∨
    (p.left.binding ∈ used ∧ p.right.binding ∈ used ∧ root1 = Op.mkSelfJoin root p) ∨
    (p.left.binding ∈ used ∧ p.right.binding ∉ used ∧
      ∃ leaf, leaf.isLeaf = true ∧ root1 = Op.mkJoin root leaf p) ∨
    (p.left.binding ∉ used ∧ p.right.binding ∈ used ∧
      ∃ leaf, leaf.isLeaf = true ∧ root1 = Op.mkJoin leaf root p) := by
  rcases planStep_cases rels q pc used root p with
    ⟨hl, hr, he⟩ | ⟨hl, hr, he⟩ | ⟨hl, hr, he⟩ | ⟨hl, hr, he⟩
  · rw [he] at h
    simp only [Option.some.injEq, Prod.mk.injEq] at h
    exact Or.inr (Or.inl ⟨hl, hr, h.2.2.symm⟩)
  · rw [he] at h
    cases hs : addScan rels used p.right q with
    | none => rw [hs] at h; cases h
    | some ul =>
      obtain ⟨u, leaf⟩ := ul
      rw [hs] at h
      simp only [Option.map_some', Option.some.injEq, Prod.mk.injEq] at h
      obtain ⟨_, _, _, _, _, _, hleaf, _⟩ := addScan_inv rels used p.right q u leaf hs
      exact Or.inr (Or.inr (Or.inl ⟨hl, hr, leaf, hleaf, h.2.2.symm⟩))
  · rw [he] at h
    cases hs : addScan rels used p.left q with
    | none => rw [hs] at h; cases h
    | some ul =>
      obtain ⟨u, leaf⟩ := ul
      rw [hs] at h
      simp only [Option.map_some', Option.some.injEq, Prod.mk.injEq] at h
      obtain ⟨_, _, _, _, _, _, hleaf, _⟩ := addScan_inv rels used p.left q u leaf hs
      exact Or.inr (Or.inr (Or.inr ⟨hl, hr, leaf, hleaf, h.2.2.symm⟩))
  · rw [he] at h
    simp only [Option.some.injEq, Prod.mk.injEq] at h
    exact Or.inl ⟨hl, hr, h.2.2.symm⟩

theorem planStep_leafSided (rels : List Relation) (q : QueryInfo) (pc : List PredicateInfo)
    (used : List Nat) (root : Op) (p : PredicateInfo) (pc1 : List PredicateInfo)
    (used1 : List Nat) (root1 : Op)
    (h : planStep rels q pc used root p = some (pc1, used1, root1))
    (hroot : root.leafSided = true) : root1.leafSided = true := by
  rcases planStep_sides rels q pc used root p pc1 used1 root1 h with
    ⟨_, _, rfl⟩ | ⟨_, _, rfl⟩ | ⟨_, _, leaf, hleaf, rfl⟩ | ⟨_, _, leaf, hleaf, rfl⟩
  · exact hroot
  · exact hroot
  · simp [Op.mkJoin, Op.leafSided, hleaf, hroot, Op.leafSided_of_isLeaf leaf hleaf]
  · simp [Op.mkJoin, Op.leafSided, hleaf, hroot, Op.leafSided_of_isLeaf leaf hleaf]

theorem planLoopEnd_leafSided (rels : List Relation) (q : QueryInfo) :
    ∀ (fuel : Nat) (pc : List PredicateInfo) (i : Nat) (used : List Nat) (root : Op)
      (pc1 : List PredicateInfo) (used1 : List Nat) (root1 : Op),
      planLoopEnd rels q fuel pc i used root = PlanEnd.finished pc1 used1 root1 →
      root.leafSided = true → root1.leafSided = true := by
  intro fuel
  induction fuel with
  | zero =>
    intro pc i used root pc1 used1 root1 h hs
    simp only [planLoopEnd] at h
    split at h
    · cases h
    · cases h
      exact hs
  | succ fuel ih =>
    intro pc i used root pc1 used1 root1 h hs
    rw [planLoopEnd] at h
    cases hp : pc[i]? with
    | none =>
      rw [hp] at h
      cases h
      exact hs
    | some p =>
      rw [hp] at h
      simp only at h
      cases hstep : planStep rels q pc used root p with
      | none => rw [hstep] at h; cases h
      | some st =>
        obtain ⟨pc2, used2, root2⟩ := st
        rw [hstep] at h
        simp only at h
        exact ih _ _ _ _ _ _ _ h
          (planStep_leafSided rels q pc used root p pc2 used2 root2 hstep hs)

theorem planTree_leafSided (rels : List Relation) (fuel : Nat) (q : QueryInfo) (root : Op)
    (h : planTree rels fuel q = some root) : root.leafSided = true := by
  obtain ⟨pc, used, hend⟩ := (planTree_some_end rels fuel q root).mp h
  unfold planTreeEnd at hend
  cases h0 : q.predicates_[0]? with
  | none => rw [h0] at hend; cases hend
  | some p0 =>
    rw [h0] at hend
    simp only at hend
    cases hsL : addScan rels [] p0.left q with
    | none => rw [hsL] at hend; cases hend
    | some prL =>
      obtain ⟨uL, leafL⟩ := prL
      rw [hsL] at hend
      simp only at hend
      cases hsR : addScan rels uL p0.right q with
      | none => rw [hsR] at hend; cases hend
      | some prR =>
        obtain ⟨uR, leafR⟩ := prR
        rw [hsR] at hend
        simp only at hend
        obtain ⟨_, _, _, _, _, _, hL, _⟩ := addScan_inv rels [] p0.left q uL leafL hsL
        obtain ⟨_, _, _, _, _, _, hR, _⟩ := addScan_inv rels uL p0.right q uR leafR hsR
        refine planLoopEnd_leafSided rels q fuel _ _ _ _ _ _ _ hend ?_
        simp [Op.mkJoin, Op.leafSided, hL, Op.leafSided_of_isLeaf leafL hL,
          Op.leafSided_of_isLeaf leafR hR]

theorem planTree_built (rels : List Relation) (q : QueryInfo) (fuel : Nat)
    (hne : q.predicates_ ≠ [])
    (hconn : ∀ p ∈ q.predicates_, Linked q.predicates_ q.firstBindings p.left.binding)
    (hfuel : q.predicates_.length * q.predicates_.length ≤ fuel)
    (hload : ∀ p ∈ q.predicates_, p.left.rel_id < rels.length ∧ p.right.rel_id < rels.length) :
    ∃ root, planTree rels fuel q = some root := by
  have hterm := planTreeEnd_terminates rels fuel q hconn hfuel
  have hna : planTreeEnd rels fuel q ≠ PlanEnd.aborted := by
    rcases planTreeEnd_loop rels q with ha | ⟨p0, rest, used0, root0, hps, _, _, hloop⟩
    · exfalso
      have h := ha fuel
      unfold planTreeEnd at h
      cases hq : q.predicates_ with
      | nil => exact hne hq
      | cons p0 rest =>
        have hp0 : p0 ∈ q.predicates_ := by rw [hq]; exact List.mem_cons_self _ _
        have h0 : q.predicates_[0]? = some p0 := by rw [hq]; exact List.getElem?_cons_zero
        rw [h0] at h
        simp only at h
        cases hsL : addScan rels [] p0.left q with
        | none => exact addScan_loaded rels [] p0.left q (hload p0 hp0).1 hsL
        | some prL =>
          rw [hsL] at h
          simp only at h
          cases hsR : addScan rels prL.1 p0.right q with
          | none => exact addScan_loaded rels prL.1 p0.right q (hload p0 hp0).2 hsR
          | some prR =>
            rw [hsR] at h
            simp only at h
            exact planLoopEnd_loaded rels q fuel _ _ _ _ hload h
    · rw [hloop]
      apply planLoopEnd_loaded
      intro p hp
      exact hload p (by rw [hps]; exact hp)
  cases hend : planTreeEnd rels fuel q with
  | finished pc used root =>
    exact ⟨root, (planTree_some_end rels fuel q root).mpr ⟨pc, used, hend⟩⟩
  | aborted => exact absurd hend hna
  | running => exact absurd hend hterm


/-! ## Claims on the leaf operators -/

/-- C6 (Scan identity). For a `Scan` over relation `R` bound as `b` and any sequence
of `require` calls whose columns on binding `b` are smaller than `K`: the calls
succeed and `result_size` is still 0 before `run`; `run` succeeds and sets
`result_size` to `R.size`; and for every required `SelectInfo` on binding `b`,
`getResults()[resolve(s)]` is the column `R.columns[s.col_id]` itself. -/
theorem scan_identity (ord : HTOrder) (R : Relation) (b : Nat) (ss : List SelectInfo)
    (hK : ∀ s ∈ ss, s.binding = b → s.col_id < R.columns_.length) :
    (Op.mkScan R b).result_size = 0 ∧
    ∃ sc1 sc2, (Op.mkScan R b).requireAll ss = some sc1 ∧ sc1.result_size = 0
      ∧ sc1.run ord = some sc2 ∧ sc2.result_size = R.size_
      ∧ ∀ s ∈ ss, s.binding = b →
          ∃ k col, sc2.resolve s = some k ∧ sc2.getResults[k]? = some col
            ∧ R.columns_[s.col_id]? = some col := by
  refine ⟨rfl, ?_⟩
  obtain ⟨base1, h1, h2, h3, _, h5⟩ :=
    Scan_requireAll R b ss Operator.init hK (ScanInv_init R b)
  refine ⟨_, .Scan { base1 with result_size_ := R.size_ } R b, h1, h3, rfl, rfl, ?_⟩
  intro s hs hb
  obtain ⟨col, g1, _, g3⟩ := Scan_column R b base1 h2 R.size_ s (h5 s hs hb)
  obtain ⟨k, g4, g5⟩ := Op.column_unfold g3
  exact ⟨k, col, g4, g5, g1⟩

/-- Witness of `scan_identity`: the scan of the operator test, a relation of 5 rows
and 3 columns bound as 5, with columns 0 and 2 required. -/
theorem scan_identity_witness :
    (∀ s ∈ [SelectInfo.mk2 5 0, SelectInfo.mk2 5 2], s.binding = 5 →
        s.col_id < (createRelation 5 3).columns_.length) ∧
    ((Op.mkScan (createRelation 5 3) 5).result_size = 0 ∧
    ∃ sc1 sc2, (Op.mkScan (createRelation 5 3) 5).requireAll
        [SelectInfo.mk2 5 0, SelectInfo.mk2 5 2] = some sc1 ∧ sc1.result_size = 0
      ∧ sc1.run HTOrder.insertion = some sc2 ∧ sc2.result_size = (createRelation 5 3).size_
      ∧ ∀ s ∈ [SelectInfo.mk2 5 0, SelectInfo.mk2 5 2], s.binding = 5 →
          ∃ k col, sc2.resolve s = some k ∧ sc2.getResults[k]? = some col
            ∧ (createRelation 5 3).columns_[s.col_id]? = some col) :=
  ⟨by decide, scan_identity HTOrder.insertion (createRelation 5 3) 5
    [SelectInfo.mk2 5 0, SelectInfo.mk2 5 2] (by decide)⟩

/-- C5 (Filter soundness). For a `FilterScan` over a relation `R` with a non-empty
filter list `F` whose columns exist, and any sequence of `require` calls whose columns
on the scan's binding exist: construction, the calls and `run` succeed; `result_size`
is the number of rows of `R` on which every filter of `F` holds; and the column
exposed for a required `SelectInfo` `s` of the scan's binding lists
`R.columns[s.col_id][i]` over exactly those rows `i`, in ascending order. -/
theorem filter_soundness (ord : HTOrder) (R : Relation) (F : List FilterInfo)
    (ss : List SelectInfo) (hwf : R.WF) (hne : F ≠ [])
    (hF : ∀ f ∈ F, f.filter_column.col_id < R.columns_.length)
    (hK : ∀ s ∈ ss, s.binding = (F.head hne).filter_column.binding →
      s.col_id < R.columns_.length) :
    ∃ fs0 fs1 fs2, Op.mkFilterScan R F = some fs0 ∧ fs0.requireAll ss = some fs1
      ∧ fs1.run ord = some fs2
      ∧ fs2.result_size = ((List.range R.size_).filter (rowPasses R F)).length
      ∧ ∀ s ∈ ss, s.binding = (F.head hne).filter_column.binding →
          ∃ k, fs2.resolve s = some k ∧ fs2.getResults[k]? =
            some (((List.range R.size_).filter (rowPasses R F)).map
              (fun i => R.cell s.col_id i)) := by
  cases F with
  | nil => exact absurd rfl hne
  | cons f rest =>
    simp only [List.head_cons] at hK ⊢
    obtain ⟨base1, idata1, h1, h2, h3, _, h5⟩ :=
      FilterScan_requireAll R f.filter_column.binding (f :: rest) ss Operator.init [] hK
        (FilterScanInv_init R _)
    have hrun := FilterScan_run_eq ord R f.filter_column.binding base1 (f :: rest) idata1 hwf hF h2
    refine ⟨_, _, _, rfl, h1, hrun, ?_, ?_⟩
    · simp [Op.result_size, Op.base, h3, Operator.init, passingRows]
    · intro s hs hb
      obtain ⟨col, g1, _, g3⟩ := FilterScan_column R f.filter_column.binding base1 (f :: rest)
        idata1 h2 (base1.result_size_ + (passingRows R (f :: rest)).length)
        (passingRows R (f :: rest)) s (h5 s hs hb)
      obtain ⟨k, g4, g5⟩ := Op.column_unfold g3
      refine ⟨k, g4, ?_⟩
      rw [g5]
      have hcell : ∀ i, R.cell s.col_id i = cellAt col i := by
        intro i
        have hlt : s.col_id < R.columns_.length := by
          by_contra hge
          rw [List.getElem?_eq_none (Nat.le_of_not_lt hge)] at g1
          cases g1
        rw [List.getElem?_eq_getElem hlt] at g1
        rw [Relation.cell, List.getD_eq_getElem _ _ hlt, Option.some.inj g1]
      simp [gather, passingRows, hcell]

/-- Witness of `filter_soundness`: the filter scan of the operator test, column 2
greater than 2 on a relation of 5 rows, with column 1 required. -/
theorem filter_soundness_witness :
    ∃ fs0 fs1 fs2,
      Op.mkFilterScan (createRelation 5 3) [⟨⟨0, 1, 2⟩, 2, Comparison.Greater⟩] = some fs0
      ∧ fs0.requireAll [SelectInfo.mk2 1 1] = some fs1
      ∧ fs1.run HTOrder.insertion = some fs2
      ∧ fs2.result_size = ((List.range (createRelation 5 3).size_).filter
          (rowPasses (createRelation 5 3) [⟨⟨0, 1, 2⟩, 2, Comparison.Greater⟩])).length
      ∧ ∀ s ∈ [SelectInfo.mk2 1 1],
          s.binding = (([⟨⟨0, 1, 2⟩, 2, Comparison.Greater⟩] : List FilterInfo).head
            (by decide)).filter_column.binding →
          ∃ k, fs2.resolve s = some k ∧ fs2.getResults[k]? =
            some (((List.range (createRelation 5 3).size_).filter
              (rowPasses (createRelation 5 3) [⟨⟨0, 1, 2⟩, 2, Comparison.Greater⟩])).map
              (fun i => (createRelation 5 3).cell s.col_id i)) :=
  filter_soundness HTOrder.insertion (createRelation 5 3)
    [⟨⟨0, 1, 2⟩, 2, Comparison.Greater⟩] [SelectInfo.mk2 1 1]
    (by decide) (by decide) (by decide) (by decide)


/-! ## Claims on `Checksum` -/

/-- C8 (Checksum sums). For a `Checksum` over any input operator and output selection
list `s_1..s_n`, where after the `require` calls and `run` of the input every `s_k`
resolves to a column of `result_size` values: `Checksum::run` succeeds, `check_sums()`
has exactly `n` entries, the `k`-th being the sum of the input's column for `s_k`
modulo `2^64`, in the order of the list; for `n = 0` it is empty. -/
theorem checksum_sums (ord : HTOrder) (input : Op) (ss : List SelectInfo) (i1 i2 : Op)
    (h1 : input.requireAll ss = some i1) (h2 : i1.run ord = some i2)
    (h3 : ∀ s ∈ ss, ∃ col, i2.column s = some col ∧ col.length = i2.result_size) :
    ∃ cs, (Checksum.init input ss).run ord = some cs
      ∧ cs.check_sums_.length = ss.length
      ∧ (∀ k (hk : k < ss.length), ∃ col, i2.column (ss.get ⟨k, hk⟩) = some col
          ∧ cs.check_sums_[k]? = some (col.sum % 2 ^ 64))
      ∧ (ss = [] → cs.check_sums_ = []) := by
  refine ⟨_, Checksum_run_eq ord input ss i1 i2 h1 h2 h3, by simp, ?_, ?_⟩
  · intro k hk
    obtain ⟨col, hcol, _⟩ := h3 (ss.get ⟨k, hk⟩) (List.get_mem _ _ _)
    refine ⟨col, hcol, ?_⟩
    simp [List.getElem?_map, List.getElem?_eq_getElem hk, Op.columnD_of_column hcol]
    rw [← Op.columnD_of_column hcol]
    rfl
  · intro h; simp [h]

/-- Witness of `checksum_sums`: the second block of the checksum test, columns 0 and 2
of the scan of a relation of 5 rows bound as 5. -/
theorem checksum_sums_witness :
    ∃ cs, (Checksum.init (Op.mkScan (createRelation 5 3) 5) [⟨0, 5, 0⟩, ⟨0, 5, 2⟩]).run
        HTOrder.insertion = some cs
      ∧ cs.check_sums_.length = ([⟨0, 5, 0⟩, ⟨0, 5, 2⟩] : List SelectInfo).length
      ∧ (∀ k (hk : k < ([⟨0, 5, 0⟩, ⟨0, 5, 2⟩] : List SelectInfo).length), ∃ col,
          (Op.Scan ⟨(ColMap.empty.assign ⟨0, 5, 0⟩ 0).assign ⟨0, 5, 2⟩ 1,
              [List.range 5, List.range 5], [], 5⟩ (createRelation 5 3) 5).column
            (([⟨0, 5, 0⟩, ⟨0, 5, 2⟩] : List SelectInfo).get ⟨k, hk⟩) = some col
          ∧ cs.check_sums_[k]? = some (col.sum % 2 ^ 64))
      ∧ (([⟨0, 5, 0⟩, ⟨0, 5, 2⟩] : List SelectInfo) = [] → cs.check_sums_ = []) :=
  checksum_sums HTOrder.insertion (Op.mkScan (createRelation 5 3) 5) [⟨0, 5, 0⟩, ⟨0, 5, 2⟩]
    (Op.Scan ⟨(ColMap.empty.assign ⟨0, 5, 0⟩ 0).assign ⟨0, 5, 2⟩ 1,
      [List.range 5, List.range 5], [], 0⟩ (createRelation 5 3) 5)
    (Op.Scan ⟨(ColMap.empty.assign ⟨0, 5, 0⟩ 0).assign ⟨0, 5, 2⟩ 1,
      [List.range 5, List.range 5], [], 5⟩ (createRelation 5 3) 5)
    rfl rfl (by decide)

/-- C9 (Checksum row count), evaluated on the first block of the checksum test: a
`Checksum` with an empty list of output selections over the scan of a relation of 5
rows. After `run` the input's `result_size` is 5 and the `Checksum`'s is 0, because
`result_size_` is assigned inside the loop over the output selections. -/
theorem checksum_result_size_empty :
    ∃ cs, (Checksum.init (Op.mkScan (createRelation 5 3) 5) []).run HTOrder.insertion = some cs
      ∧ cs.input_.result_size = 5 ∧ cs.result_size_ = 0 :=
  ⟨_, rfl, rfl, rfl⟩


/-! ## Claims on `Join` -/

/-- C4 (Join value-correctness). Take a `Join` over two children and a predicate
`p`, in the state `j` reached from its construction by any sequence of `require`
calls, with `reqL` and `reqR` the columns it requested from its left and right child.
Suppose the children are run-able: they accept `p.left` and `p.right`, their `run`
returns, and afterwards each exposes, for the predicate column and for every column
requested from it, a column of `result_size` values. Then `Join::run` returns;
`result_size` is the number of ordered pairs `(i, j)` of a left row and a right row
with equal key values; and the list of output rows over the required columns is a
rearrangement of the list that has, for each such pair exactly once, the left child's
values at row `i` for the columns required from the left followed by the right
child's values at row `j` for the columns required from the right. -/
theorem join_value_correct (ord : HTOrder) (L R : Op) (p : PredicateInfo)
    (ss : List SelectInfo) (base : Operator) (l r : Op) (ht : List (Nat × Nat))
    (req reqL reqR : List SelectInfo) (cl cr : List Column)
    (b1 b2 : Bool) (l1 r1 l2 r2 : Op)
    (hj : (Op.mkJoin L R p).requireAll ss = some (.Join base l r p ht req reqL reqR cl cr))
    (h1 : l.require p.left = some (b1, l1)) (h2 : r.require p.right = some (b2, r1))
    (h3 : l1.run ord = some l2) (h4 : r1.run ord = some r2)
    (hcl : ∀ s ∈ p.left :: reqL, ∃ col, l2.column s = some col ∧ col.length = l2.result_size)
    (hcr : ∀ s ∈ p.right :: reqR, ∃ col, r2.column s = some col ∧ col.length = r2.result_size) :
    ∃ j2, (Op.Join base l r p ht req reqL reqR cl cr).run ord = some j2 ∧
      j2.result_size = (matchPairs (l2.columnD p.left) (r2.columnD p.right)
        l2.result_size r2.result_size).length ∧
      (j2.rows (reqL ++ reqR)).Perm
        ((matchPairs (l2.columnD p.left) (r2.columnD p.right)
          l2.result_size r2.result_size).map
          (fun pr => reqL.map (fun s => cellAt (l2.columnD s) pr.1)
            ++ reqR.map (fun s => cellAt (r2.columnD s) pr.2))) := by
  obtain ⟨base1, l', r', req1, reqL1, reqR1, heq, hinv⟩ :=
    Join_requireAll_inv p [] [] [] ss Operator.init L R [] [] [] _ JoinInv_init hj
  cases heq
  obtain ⟨j2, hrun, hsize, hL, hR, _⟩ := Join_run_spec ord base l r p _ req reqL reqR _ _
    hinv b1 b2 l1 r1 l2 r2 h1 h2 h3 h4 hcl hcr
  have hperm := joinPairs_perm ord (l2.columnD p.left) (r2.columnD p.right)
    l2.result_size r2.result_size
  have hdisj : ∀ s ∈ reqL, s ∉ reqR := fun s hs hs' =>
    (List.nodup_append.mp hinv.2.2.2.2.2.1).2.2 hs hs'
  refine ⟨j2, hrun, hsize.trans hperm.length_eq, ?_⟩
  have hrows := rows_of_columns j2 (reqL ++ reqR)
    (joinPairs ord (l2.columnD p.left) (r2.columnD p.right) l2.result_size r2.result_size)
    (fun s pr => if s ∈ reqL then cellAt (l2.columnD s) pr.1 else cellAt (r2.columnD s) pr.2)
    hsize (by
      intro s hs
      rcases List.mem_append.mp hs with h | h
      · rw [hL s h]; simp [h]
      · have hn : s ∉ reqL := fun h' => hdisj s h' h
        rw [hR s h]; simp [hn])
  rw [hrows]
  have hfun : (fun pr : Nat × Nat => (reqL ++ reqR).map (fun s =>
        if s ∈ reqL then cellAt (l2.columnD s) pr.1 else cellAt (r2.columnD s) pr.2))
      = (fun pr => reqL.map (fun s => cellAt (l2.columnD s) pr.1)
            ++ reqR.map (fun s => cellAt (r2.columnD s) pr.2)) := by
    funext pr
    rw [List.map_append]
    congr 1
    · apply List.map_congr_left
      intro s hs; simp [hs]
    · apply List.map_congr_left
      intro s hs
      have hn : s ∉ reqL := fun h' => hdisj s h' hs
      simp [hn]
  rw [hfun]
  exact hperm.map _

/-- Witness of `join_value_correct`: a left scan of 3 rows with keys 1, 2, 2 joined with
a right scan of 2 rows with keys 2, 2, both key columns required; the larger left side
is swapped to the probe side and four rows come out. -/
theorem join_value_correct_witness :
    ∃ j2, (Op.Join ⟨ColMap.empty, [], [[], []], 0⟩
        (Op.Scan ⟨ColMap.empty.assign ⟨0, 0, 0⟩ 0, [[1, 2, 2]], [], 0⟩ ⟨3, [[1, 2, 2]]⟩ 0)
        (Op.Scan ⟨ColMap.empty.assign ⟨1, 1, 0⟩ 0, [[2, 2]], [], 0⟩ ⟨2, [[2, 2]]⟩ 1)
        ⟨⟨0, 0, 0⟩, ⟨1, 1, 0⟩⟩ [] [⟨0, 0, 0⟩, ⟨1, 1, 0⟩] [⟨0, 0, 0⟩] [⟨1, 1, 0⟩] [] []).run
          HTOrder.insertion = some j2 ∧
      j2.result_size = (matchPairs [1, 2, 2] [2, 2] 3 2).length ∧
      (j2.rows ([⟨0, 0, 0⟩] ++ [⟨1, 1, 0⟩])).Perm
        ((matchPairs [1, 2, 2] [2, 2] 3 2).map
          (fun pr => [cellAt [1, 2, 2] pr.1] ++ [cellAt [2, 2] pr.2])) :=
  join_value_correct HTOrder.insertion
    (Op.mkScan ⟨3, [[1, 2, 2]]⟩ 0) (Op.mkScan ⟨2, [[2, 2]]⟩ 1) ⟨⟨0, 0, 0⟩, ⟨1, 1, 0⟩⟩
    [⟨0, 0, 0⟩, ⟨1, 1, 0⟩] ⟨ColMap.empty, [], [[], []], 0⟩
    (Op.Scan ⟨ColMap.empty.assign ⟨0, 0, 0⟩ 0, [[1, 2, 2]], [], 0⟩ ⟨3, [[1, 2, 2]]⟩ 0)
    (Op.Scan ⟨ColMap.empty.assign ⟨1, 1, 0⟩ 0, [[2, 2]], [], 0⟩ ⟨2, [[2, 2]]⟩ 1)
    [] [⟨0, 0, 0⟩, ⟨1, 1, 0⟩] [⟨0, 0, 0⟩] [⟨1, 1, 0⟩] [] [] true true
    (Op.Scan ⟨(ColMap.empty.assign ⟨0, 0, 0⟩ 0).assign ⟨0, 0, 0⟩ 1, [[1, 2, 2], [1, 2, 2]], [], 0⟩
      ⟨3, [[1, 2, 2]]⟩ 0)
    (Op.Scan ⟨(ColMap.empty.assign ⟨1, 1, 0⟩ 0).assign ⟨1, 1, 0⟩ 1, [[2, 2], [2, 2]], [], 0⟩
      ⟨2, [[2, 2]]⟩ 1)
    (Op.Scan ⟨(ColMap.empty.assign ⟨0, 0, 0⟩ 0).assign ⟨0, 0, 0⟩ 1, [[1, 2, 2], [1, 2, 2]], [], 3⟩
      ⟨3, [[1, 2, 2]]⟩ 0)
    (Op.Scan ⟨(ColMap.empty.assign ⟨1, 1, 0⟩ 0).assign ⟨1, 1, 0⟩ 1, [[2, 2], [2, 2]], [], 2⟩
      ⟨2, [[2, 2]]⟩ 1)
    rfl rfl rfl rfl rfl (by decide) (by decide)


/-! ## Claims on `SelfJoin` -/

/-- C7 is broken by the two containers of `SelfJoin`: `required_IUs_` is a
`std::set` ordered by `operator<`, which compares binding and column, and
`select_to_result_col_id_` is a hash map keyed by `operator==`, which compares
`rel_id` too. A `SelfJoin` over the scan of a relation of 5 rows bound as 5 accepts
the two distinct `SelectInfo`s `(0, 5, 0)` and `(1, 5, 0)`, which differ in `rel_id`
only, and after `run` exposes one column, not two, the second `SelectInfo` resolving
to nothing. A `FilterScan` and a `Join` over the same relation, given the same two
calls, expose two columns and resolve both. -/
theorem selfjoin_columns_fail :
    (∃ sj sj2,
      (Op.mkSelfJoin (Op.mkScan (createRelation 5 3) 5) ⟨⟨1, 5, 1⟩, ⟨1, 5, 2⟩⟩).requireAll
        [⟨0, 5, 0⟩, ⟨1, 5, 0⟩] = some sj
      ∧ (Op.mkSelfJoin (Op.mkScan (createRelation 5 3) 5) ⟨⟨1, 5, 1⟩, ⟨1, 5, 2⟩⟩).accepted
        [⟨0, 5, 0⟩, ⟨1, 5, 0⟩] = [⟨0, 5, 0⟩, ⟨1, 5, 0⟩]
      ∧ sj.run HTOrder.insertion = some sj2
      ∧ sj2.getResults.length = 1
      ∧ sj2.resolve ⟨0, 5, 0⟩ = some 0 ∧ sj2.resolve ⟨1, 5, 0⟩ = none
      ∧ ((Op.mkSelfJoin (Op.mkScan (createRelation 5 3) 5)
          ⟨⟨1, 5, 1⟩, ⟨1, 5, 2⟩⟩).accepted [⟨0, 5, 0⟩, ⟨1, 5, 0⟩]).dedup.length = 2) ∧
    (∃ fs0 fs fs2,
      Op.mkFilterScan (createRelation 5 3) [⟨⟨1, 5, 1⟩, 2, Comparison.Greater⟩] = some fs0
      ∧ fs0.requireAll [⟨0, 5, 0⟩, ⟨1, 5, 0⟩] = some fs
      ∧ fs0.accepted [⟨0, 5, 0⟩, ⟨1, 5, 0⟩] = [⟨0, 5, 0⟩, ⟨1, 5, 0⟩]
      ∧ fs.run HTOrder.insertion = some fs2
      ∧ fs2.getResults.length = 2
      ∧ fs2.resolve ⟨0, 5, 0⟩ = some 0 ∧ fs2.resolve ⟨1, 5, 0⟩ = some 1) ∧
    (∃ j j2,
      (Op.mkJoin (Op.mkScan (createRelation 5 3) 5) (Op.mkScan (createRelation 5 3) 6)
        ⟨⟨1, 5, 1⟩, ⟨1, 6, 2⟩⟩).requireAll [⟨0, 5, 0⟩, ⟨1, 5, 0⟩] = some j
      ∧ (Op.mkJoin (Op.mkScan (createRelation 5 3) 5) (Op.mkScan (createRelation 5 3) 6)
        ⟨⟨1, 5, 1⟩, ⟨1, 6, 2⟩⟩).accepted [⟨0, 5, 0⟩, ⟨1, 5, 0⟩] = [⟨0, 5, 0⟩, ⟨1, 5, 0⟩]
      ∧ j.run HTOrder.insertion = some j2
      ∧ j2.getResults.length = 2
      ∧ j2.resolve ⟨0, 5, 0⟩ = some 0 ∧ j2.resolve ⟨1, 5, 0⟩ = some 1) :=
  ⟨⟨_, _, rfl, rfl, rfl, rfl, rfl, rfl, by decide⟩,
    ⟨_, _, _, rfl, rfl, rfl, rfl, rfl, rfl, rfl⟩,
    ⟨_, _, rfl, rfl, rfl, rfl, rfl, rfl⟩⟩

/-- Semantics of `SelfJoin::run`. Take a `SelfJoin` over one child with predicate
`p`, in the state reached from its construction by any sequence `ss` of `require`
calls, `ius` being its set of required columns. Suppose the child accepts `p.left`
and `p.right`, its `run` returns, and afterwards it exposes, for both predicate columns
and every required column, a column of `result_size` values. Then `SelfJoin::run`
returns; `result_size` is the number of child rows whose two predicate columns agree;
`getResults()` is, for the required columns and nothing else, the child's column
restricted to those rows in ascending order, found through `resolve`; the required
columns are accepted `SelectInfo`s, one for every binding and column that was accepted;
so the number of output columns is the number of accepted `SelectInfo`s that differ in
binding or column (zero when none was required). -/
theorem selfjoin_semantics (ord : HTOrder) (C : Op) (p : PredicateInfo)
    (ss : List SelectInfo) (base : Operator) (i : Op) (ius : List SelectInfo)
    (idata cd : List Column) (b1 b2 : Bool) (i1 i2 i3 : Op)
    (hj : (Op.mkSelfJoin C p).requireAll ss = some (.SelfJoin base i p ius idata cd))
    (h1 : i.require p.left = some (b1, i1)) (h2 : i1.require p.right = some (b2, i2))
    (h3 : i2.run ord = some i3)
    (hc : ∀ s ∈ p.left :: p.right :: ius,
      ∃ col, i3.column s = some col ∧ col.length = i3.result_size) :
    ∃ sj2, (Op.SelfJoin base i p ius idata cd).run ord = some sj2 ∧
      sj2.result_size = ((List.range i3.result_size).filter (fun t =>
        decide (cellAt (i3.columnD p.left) t = cellAt (i3.columnD p.right) t))).length ∧
      sj2.getResults = ius.map (fun s => ((List.range i3.result_size).filter (fun t =>
        decide (cellAt (i3.columnD p.left) t = cellAt (i3.columnD p.right) t))).map
          (cellAt (i3.columnD s))) ∧
      (∀ s ∈ ius, ∃ k, sj2.resolve s = some k ∧ sj2.getResults[k]? =
        some (((List.range i3.result_size).filter (fun t =>
          decide (cellAt (i3.columnD p.left) t = cellAt (i3.columnD p.right) t))).map
            (cellAt (i3.columnD s)))) ∧
      (∀ s ∈ ius, s ∈ (Op.mkSelfJoin C p).accepted ss) ∧
      (∀ s ∈ (Op.mkSelfJoin C p).accepted ss, ∃ s0 ∈ ius,
        s0.binding = s.binding ∧ s0.col_id = s.col_id) ∧
      sj2.getResults.length =
        (((Op.mkSelfJoin C p).accepted ss).map SelectInfo.key).dedup.length ∧
      (ss = [] → sj2.getResults = []) := by
  obtain ⟨base1, i', ius1, heq, hinv, k1, k2, _⟩ :=
    SelfJoin_requireAll_inv p [] [] ss Operator.init C [] _ SelfJoinInv_init hj
  cases heq
  obtain ⟨sj2, hrun, hsize, hres, hcol⟩ := SelfJoin_run_spec ord base i p ius _ _ hinv
    b1 b2 i1 i2 i3 h1 h2 h3 hc
  have hsub : ∀ s ∈ ius, s ∈ (Op.mkSelfJoin C p).accepted ss := by
    intro s hs
    rcases k2 s hs with h | h
    · cases h
    · exact h
  refine ⟨sj2, hrun, hsize, hres, ?_, hsub, ?_, ?_, ?_⟩
  · intro s hs
    obtain ⟨k, g1, g2⟩ := Op.column_unfold (hcol s hs)
    exact ⟨k, g1, g2⟩
  · intro s hs
    obtain ⟨s0, hs0, hk⟩ := List.mem_map.mp (k1 s hs)
    simp only [SelectInfo.key, Prod.mk.injEq] at hk
    exact ⟨s0, hs0, hk.1, hk.2⟩
  · rw [hres, List.length_map, ← List.length_map ius SelectInfo.key]
    apply List.Perm.length_eq
    rw [List.perm_ext_iff_of_nodup hinv.2.2.2.2 (List.nodup_dedup _)]
    intro x
    rw [List.mem_dedup]
    constructor
    · intro hx
      obtain ⟨s, hs, rfl⟩ := List.mem_map.mp hx
      exact List.mem_map.mpr ⟨s, hsub s hs, rfl⟩
    · intro hx
      obtain ⟨s, hs, rfl⟩ := List.mem_map.mp hx
      exact k1 s hs
  · intro hss
    subst hss
    simp only [Op.requireAll, Op.mkSelfJoin, Option.some.injEq, Op.SelfJoin.injEq] at hj
    rw [hres, ← hj.2.2.2.1]
    rfl

/-- Instance of `selfjoin_semantics`: the second block of the self-join test, a
`SelfJoin` on columns 1 and 2 over the scan of a relation of 5 rows, with column 0
required. -/
theorem selfjoin_semantics_witness :
    ∃ sj2, (Op.SelfJoin ⟨ColMap.empty, [], [[]], 0⟩ Example.scan0
        ⟨⟨1, 5, 1⟩, ⟨1, 5, 2⟩⟩ [⟨4294967295, 5, 0⟩] [] []).run HTOrder.insertion = some sj2 ∧
      sj2.result_size = ((List.range Example.scan0Run.result_size).filter (fun t =>
        decide (cellAt (Example.scan0Run.columnD ⟨1, 5, 1⟩) t
          = cellAt (Example.scan0Run.columnD ⟨1, 5, 2⟩) t))).length ∧
      sj2.getResults = [(⟨4294967295, 5, 0⟩ : SelectInfo)].map (fun s =>
        ((List.range Example.scan0Run.result_size).filter (fun t =>
          decide (cellAt (Example.scan0Run.columnD ⟨1, 5, 1⟩) t
            = cellAt (Example.scan0Run.columnD ⟨1, 5, 2⟩) t))).map
          (cellAt (Example.scan0Run.columnD s))) ∧
      (∀ s ∈ [(⟨4294967295, 5, 0⟩ : SelectInfo)], ∃ k, sj2.resolve s = some k ∧
        sj2.getResults[k]? = some (((List.range Example.scan0Run.result_size).filter (fun t =>
          decide (cellAt (Example.scan0Run.columnD ⟨1, 5, 1⟩) t
            = cellAt (Example.scan0Run.columnD ⟨1, 5, 2⟩) t))).map
            (cellAt (Example.scan0Run.columnD s)))) ∧
      (∀ s ∈ [(⟨4294967295, 5, 0⟩ : SelectInfo)],
        s ∈ (Op.mkSelfJoin (Op.mkScan (createRelation 5 3) 5)
          ⟨⟨1, 5, 1⟩, ⟨1, 5, 2⟩⟩).accepted [SelectInfo.mk2 5 0]) ∧
      (∀ s ∈ (Op.mkSelfJoin (Op.mkScan (createRelation 5 3) 5)
          ⟨⟨1, 5, 1⟩, ⟨1, 5, 2⟩⟩).accepted [SelectInfo.mk2 5 0],
        ∃ s0 ∈ [(⟨4294967295, 5, 0⟩ : SelectInfo)],
          s0.binding = s.binding ∧ s0.col_id = s.col_id) ∧
      sj2.getResults.length =
        (((Op.mkSelfJoin (Op.mkScan (createRelation 5 3) 5)
          ⟨⟨1, 5, 1⟩, ⟨1, 5, 2⟩⟩).accepted [SelectInfo.mk2 5 0]).map
            SelectInfo.key).dedup.length ∧
      ([SelectInfo.mk2 5 0] = [] → sj2.getResults = []) :=
  selfjoin_semantics HTOrder.insertion (Op.mkScan (createRelation 5 3) 5)
    ⟨⟨1, 5, 1⟩, ⟨1, 5, 2⟩⟩ [SelectInfo.mk2 5 0] ⟨ColMap.empty, [], [[]], 0⟩
    Example.scan0 [⟨4294967295, 5, 0⟩] [] [] true true
    (Op.Scan ⟨(ColMap.empty.assign ⟨4294967295, 5, 0⟩ 0).assign ⟨1, 5, 1⟩ 1,
      [List.range 5, List.range 5], [], 0⟩ (createRelation 5 3) 5)
    (Op.Scan ⟨((ColMap.empty.assign ⟨4294967295, 5, 0⟩ 0).assign ⟨1, 5, 1⟩ 1).assign ⟨1, 5, 2⟩ 2,
      [List.range 5, List.range 5, List.range 5], [], 0⟩ (createRelation 5 3) 5)
    Example.scan0Run rfl rfl rfl rfl (by decide)


/-! ## Claim on repeated `require` -/

/-- C10, as stated, fails for a `SelectInfo` the operator does not accept: on the
`FilterScan` of the operator test, bound as 1, `require` of column 0 of binding 0
returns `false` the first time and `false` again the second time. -/
theorem require_repeat_counterexample :
    ∃ fs0 fs1 fs2, Op.mkFilterScan (createRelation 5 3) [⟨⟨0, 1, 2⟩, 2, Comparison.Equal⟩] = some fs0
      ∧ fs0.require ⟨0, 0, 0⟩ = some (false, fs1) ∧ fs1.require ⟨0, 0, 0⟩ = some (false, fs2) :=
  ⟨_, _, _, rfl, rfl, rfl⟩

/-- C10 (repeated `require`), amended. Let `op` be the state of a freshly constructed
`FilterScan`, `Join` or `SelfJoin` after any sequence `ss` of `require` calls, and `s`
a `SelectInfo` for which `require(s)` returns `true`, leaving the state `op1`. Then a
second `require(s)` returns `true` and leaves exactly `op1`; requiring `s` twice after
`ss` is the same as requiring it once; `run`, when it returns, keeps the number of
output columns; and for a `FilterScan` and for a `Join` that number is the number of
distinct accepted `SelectInfo`s. -/
theorem require_repeat (ord : HTOrder) (op0 op op1 : Op) (ss : List SelectInfo)
    (s : SelectInfo) (hfresh : op0.Fresh) (hss : op0.requireAll ss = some op)
    (hacc : op.require s = some (true, op1)) :
    op1.require s = some (true, op1) ∧
    op0.requireAll (ss ++ [s, s]) = some op1 ∧ op0.requireAll (ss ++ [s]) = some op1 ∧
    (op0.isSelfJoin = false →
      op1.getResults.length = (op0.accepted (ss ++ [s])).dedup.length) ∧
    (∀ op2, op1.run ord = some op2 → op2.getResults.length = op1.getResults.length) := by
  have hm : op.Materialising :=
    Op.requireAll_Materialising ss op0 op (Op.Fresh_Materialising op0 hfresh) hss
  have hm1 : op1.Materialising := Op.require_Materialising op s true op1 hm hacc
  have h2 : op1.require s = some (true, op1) := Op.require_twice op s op1 hm hacc
  have h1 : op0.requireAll (ss ++ [s]) = some op1 := by
    rw [Op.requireAll_append ss [s] op0 op hss]
    simp only [Op.requireAll, hacc]
  refine ⟨h2, ?_, h1, fun hns => Op.Fresh_count op0 op1 (ss ++ [s]) hfresh hns h1, ?_⟩
  · rw [Op.requireAll_append ss [s, s] op0 op hss]
    simp only [Op.requireAll, hacc, h2]
  · intro op2 hrun
    exact Op.run_getResults_length ord op1 op2 hm1 hrun

/-- Witness of `require_repeat`: the join of the operator test, the scan of a relation
of 10 rows bound as 1 with the scan of a relation of 5 rows bound as 0, after `require`
of column 1 of binding 0, requiring column 3 of binding 1. -/
theorem require_repeat_witness :
    (Example.join0.Fresh ∧ Example.join0.requireAll [SelectInfo.mk2 0 1] = some Example.join1
      ∧ Example.join1.require (SelectInfo.mk2 1 3) = some (true, Example.join2)) ∧
    (Example.join2.require (SelectInfo.mk2 1 3) = some (true, Example.join2) ∧
    Example.join0.requireAll ([SelectInfo.mk2 0 1] ++ [SelectInfo.mk2 1 3, SelectInfo.mk2 1 3])
      = some Example.join2 ∧
    Example.join0.requireAll ([SelectInfo.mk2 0 1] ++ [SelectInfo.mk2 1 3]) = some Example.join2 ∧
    (Example.join0.isSelfJoin = false →
      Example.join2.getResults.length
        = (Example.join0.accepted ([SelectInfo.mk2 0 1] ++ [SelectInfo.mk2 1 3])).dedup.length) ∧
    (∀ op2, Example.join2.run HTOrder.insertion = some op2 →
      op2.getResults.length = Example.join2.getResults.length)) :=
  ⟨⟨⟨rfl, rfl, rfl, rfl, rfl, rfl, rfl⟩, rfl, rfl⟩,
    require_repeat HTOrder.insertion Example.join0 Example.join1 Example.join2
      [SelectInfo.mk2 0 1] (SelectInfo.mk2 1 3) ⟨rfl, rfl, rfl, rfl, rfl, rfl, rfl⟩ rfl rfl⟩


/-! ## Claims on `Joiner::join` -/

/-- C1, as stated, fails for a query with a binding that occurs in no join predicate.
The query `0 1 1|0.0=1.0|0.0` over a relation of 3 rows with keys 1, 2, 2 and a relation
of 2 rows with keys 2, 2 meets every condition of the claim. The assignments of one row
to each of its three bindings that satisfy the predicate are eight, each listed once
below, and the selected column sums to 16 over them; `Joiner::join` never scans
binding 2 and prints 8. -/
theorem checksum_equivalence_counterexample :
    QueryWF Example.rels Example.crossQuery ∧
    (satisfying (Example.crossQuery.ctx Example.rels) (List.range 3)
      Example.crossQuery.predicates_ Example.crossQuery.filters_).Nodup ∧
    (∀ a, a ∈ satisfying (Example.crossQuery.ctx Example.rels) (List.range 3)
        Example.crossQuery.predicates_ Example.crossQuery.filters_ ↔
      Sat (Example.crossQuery.ctx Example.rels)
        (List.range Example.crossQuery.relation_ids_.length)
        Example.crossQuery.predicates_ Example.crossQuery.filters_ a) ∧
    (satisfying (Example.crossQuery.ctx Example.rels) (List.range 3)
      Example.crossQuery.predicates_ Example.crossQuery.filters_).length = 8 ∧
    Example.crossQuery.selections_.map (fun s =>
      to_string (((satisfying (Example.crossQuery.ctx Example.rels) (List.range 3)
        Example.crossQuery.predicates_ Example.crossQuery.filters_).map
          (val (Example.crossQuery.ctx Example.rels) s)).sum % 2 ^ 64)) = ["16"] ∧
    Joiner.join HTOrder.insertion Example.rels 1 Example.crossQuery = some "8\n" :=
  ⟨Example.crossQuery_wf, nodup_satisfying _ _ (List.nodup_range 3) _ _,
    fun a => mem_satisfying _ _ (List.nodup_range 3) _ _ a, by decide, by decide, by decide⟩

/-- C1 (checksum equivalence, end to end), amended. Take loaded relations and a
resolved query that has at least one join predicate, whose every join predicate
relates two distinct bindings, whose predicates are connected to the first one, whose
filters and selections name only bindings that occur in some predicate, and whose
column ids are in range. Let `rows` list, each once, the assignments of one row to
each binding that occurs in some join predicate which satisfy every join predicate
and every filter, and suppose there is at least one. Then `Joiner::join` returns, and
the line it returns is, for the selections in order, the decimal form of the sum
modulo 2^64 of the selection's column over `rows`, separated by single spaces and
followed by a newline; each printed value is a string of decimal digits that denotes
that sum. -/
theorem checksum_equivalence (ord : HTOrder) (rels : List Relation) (q : QueryInfo) (fuel : Nat)
    (hwf : QueryWF rels q) (hfuel : q.predicates_.length * q.predicates_.length ≤ fuel)
    (rows : List Asg) (hnd : rows.Nodup)
    (hrows : ∀ a, a ∈ rows ↔ Sat (q.ctx rels) q.joinBindings q.predicates_ q.filters_ a)
    (hne : rows ≠ []) :
    Joiner.join ord rels fuel q = some (String.intercalate " "
      (q.selections_.map (fun s =>
        to_string ((rows.map (val (q.ctx rels) s)).sum % 2 ^ 64))) ++ "\n") ∧
    ∀ s ∈ q.selections_,
      (∀ ch ∈ (to_string ((rows.map (val (q.ctx rels) s)).sum % 2 ^ 64)).data,
        ch.isDigit = true) ∧
      decimalValue (to_string ((rows.map (val (q.ctx rels) s)).sum % 2 ^ 64)) =
        (rows.map (val (q.ctx rels) s)).sum % 2 ^ 64 := by
  obtain ⟨root, root1, root2, rows0, _, _, _, _, hnd0, hmem0, _, hjoin⟩ :=
    join_core ord rels q fuel hwf hfuel
  have hiff : ∀ a, a ∈ rows0 ↔ a ∈ rows := fun a => (hmem0 a).trans (hrows a).symm
  have hlen : rows0.length ≠ 0 := by
    rw [(enum_perm hnd0 hnd hiff).length_eq]
    exact fun h => hne (List.length_eq_zero.mp h)
  refine ⟨?_, fun s _ => ⟨(to_string_digits _).2.1, (to_string_digits _).2.2⟩⟩
  rw [hjoin]
  congr 3
  apply List.map_congr_left
  intro s _
  simp only [token, hlen, if_false]
  rw [enum_sum_eq hnd0 hnd hiff]

/-- Witness of `checksum_equivalence`: the query `0 1|0.0=1.0|0.0 1.0` over a relation
with keys 1, 2, 2 and a relation with keys 2, 2; four assignments satisfy it. -/
theorem checksum_equivalence_witness :
    Joiner.join HTOrder.insertion Example.rels 1 Example.query = some (String.intercalate " "
      (Example.query.selections_.map (fun s =>
        to_string (((satisfying (Example.query.ctx Example.rels) Example.query.joinBindings
          Example.query.predicates_ Example.query.filters_).map
            (val (Example.query.ctx Example.rels) s)).sum % 2 ^ 64))) ++ "\n") ∧
    ∀ s ∈ Example.query.selections_,
      (∀ ch ∈ (to_string (((satisfying (Example.query.ctx Example.rels)
          Example.query.joinBindings Example.query.predicates_ Example.query.filters_).map
            (val (Example.query.ctx Example.rels) s)).sum % 2 ^ 64)).data,
        ch.isDigit = true) ∧
      decimalValue (to_string (((satisfying (Example.query.ctx Example.rels)
          Example.query.joinBindings Example.query.predicates_ Example.query.filters_).map
            (val (Example.query.ctx Example.rels) s)).sum % 2 ^ 64)) =
        ((satisfying (Example.query.ctx Example.rels) Example.query.joinBindings
          Example.query.predicates_ Example.query.filters_).map
            (val (Example.query.ctx Example.rels) s)).sum % 2 ^ 64 :=
  checksum_equivalence HTOrder.insertion Example.rels Example.query 1 Example.query_wf
    (by decide)
    (satisfying (Example.query.ctx Example.rels) Example.query.joinBindings
      Example.query.predicates_ Example.query.filters_)
    (nodup_satisfying _ _ (nodup_joinBindings _) _ _)
    (fun a => mem_satisfying _ _ (nodup_joinBindings _) _ _ a)
    (List.ne_nil_of_length_pos (by decide))


/-! ## Claims on the output line -/

/-- C2 (NULL contract). For a well-formed query with at least one output selection,
`Joiner::join` returns a line of one value per selection, and the `Checksum` it ran
holds the root's `result_size`, which is the number of assignments of one row to each
joined binding that satisfy every join predicate and every filter. If that
`result_size` is 0, every value of the line is `NULL`. If it is not 0, the values are
the decimal forms of the checksums: none is `NULL`, each is a non-empty string of
decimal digits, and a checksum of zero is printed as `0`. -/
theorem null_contract (ord : HTOrder) (rels : List Relation) (q : QueryInfo) (fuel : Nat)
    (hwf : QueryWF rels q) (hfuel : q.predicates_.length * q.predicates_.length ≤ fuel)
    (hsel : q.selections_ ≠ []) :
    ∃ (root : Op) (cs : Checksum) (line : List String),
      planTree rels fuel q = some root ∧
      (Checksum.init root q.selections_).run ord = some cs ∧
      Joiner.join ord rels fuel q = some (String.intercalate " " line ++ "\n") ∧
      line.length = q.selections_.length ∧
      cs.result_size_ = cs.input_.result_size ∧
      cs.input_.result_size =
        (satisfying (q.ctx rels) q.joinBindings q.predicates_ q.filters_).length ∧
      (cs.input_.result_size = 0 → ∀ t ∈ line, t = "NULL") ∧
      (cs.input_.result_size ≠ 0 → line = cs.check_sums_.map to_string ∧
        ∀ t ∈ line, t ≠ "NULL" ∧ t ≠ "" ∧ ∀ ch ∈ t.data, ch.isDigit = true) ∧
      to_string 0 = "0" := by
  obtain ⟨root, root1, root2, rows, hplan, _, _, hsize, hnd, hmem, hcs, hjoin⟩ :=
    join_core ord rels q fuel hwf hfuel
  have hperm : rows.Perm (satisfying (q.ctx rels) q.joinBindings q.predicates_ q.filters_) :=
    enum_perm hnd (nodup_satisfying _ _ (nodup_joinBindings q) _ _)
      (fun a => (hmem a).trans (mem_satisfying _ _ (nodup_joinBindings q) _ _ a).symm)
  refine ⟨root, _, _, hplan, hcs, hjoin, by simp, ?_, ?_, ?_, ?_, rfl⟩
  · simp only [hsel, if_false, hsize]
  · simp only [hsize]
    exact hperm.length_eq
  · intro h0 t ht
    simp only [hsize] at h0
    simp only [List.mem_map] at ht
    obtain ⟨s, _, rfl⟩ := ht
    simp [token, h0]
  · intro h0
    simp only [hsize] at h0
    constructor
    · rw [List.map_map]
      apply List.map_congr_left
      intro s _
      simp [token, h0]
    · intro t ht
      simp only [List.mem_map] at ht
      obtain ⟨s, _, rfl⟩ := ht
      simp only [token, h0, if_false]
      exact ⟨to_string_ne_null _, (to_string_digits _).1, (to_string_digits _).2.1⟩

/-- Witness of `null_contract`: the query `0 1|0.0=1.0&0.0<1|0.0 1.0` over a relation
with keys 1, 2, 2 and a relation with keys 2, 2; no row passes the filter. -/
theorem null_contract_witness :
    ∃ (root : Op) (cs : Checksum) (line : List String),
      planTree Example.rels 1 Example.emptyQuery = some root ∧
      (Checksum.init root Example.emptyQuery.selections_).run HTOrder.insertion = some cs ∧
      Joiner.join HTOrder.insertion Example.rels 1 Example.emptyQuery =
        some (String.intercalate " " line ++ "\n") ∧
      line.length = Example.emptyQuery.selections_.length ∧
      cs.result_size_ = cs.input_.result_size ∧
      cs.input_.result_size =
        (satisfying (Example.emptyQuery.ctx Example.rels) Example.emptyQuery.joinBindings
          Example.emptyQuery.predicates_ Example.emptyQuery.filters_).length ∧
      (cs.input_.result_size = 0 → ∀ t ∈ line, t = "NULL") ∧
      (cs.input_.result_size ≠ 0 → line = cs.check_sums_.map to_string ∧
        ∀ t ∈ line, t ≠ "NULL" ∧ t ≠ "" ∧ ∀ ch ∈ t.data, ch.isDigit = true) ∧
      to_string 0 = "0" :=
  null_contract HTOrder.insertion Example.rels Example.emptyQuery 1 Example.emptyQuery_wf
    (by decide) (by decide)

/-- C3 (response shape). For a well-formed query with `n` output selections,
`Joiner::join` returns the values of the line joined by single spaces and followed by
a newline. The line has `n` values, the `k`-th being the value of the `k`-th
selection: `NULL` when the join result is empty, the decimal form of the selection's
checksum otherwise. No value is empty or contains a space or a newline, so the
returned string ends in its only newline and has `n - 1` spaces, none leading or
trailing. For `n = 0` the string is the newline alone. -/
theorem response_shape (ord : HTOrder) (rels : List Relation) (q : QueryInfo) (fuel : Nat)
    (hwf : QueryWF rels q) (hfuel : q.predicates_.length * q.predicates_.length ≤ fuel) :
    ∃ (out : String) (line : List String),
      Joiner.join ord rels fuel q = some out ∧
      out = String.intercalate " " line ++ "\n" ∧
      line.length = q.selections_.length ∧
      line = q.selections_.map (fun s =>
        token (satisfying (q.ctx rels) q.joinBindings q.predicates_ q.filters_).length
          (((satisfying (q.ctx rels) q.joinBindings q.predicates_ q.filters_).map
            (val (q.ctx rels) s)).sum % 2 ^ 64)) ∧
      (∀ t ∈ line, t ≠ "" ∧ ' ' ∉ t.data ∧ '\n' ∉ t.data) ∧
      out.data.getLast? = some '\n' ∧ out.data.count '\n' = 1 ∧
      out.data.count ' ' = q.selections_.length - 1 ∧
      (q.selections_ = [] → out = "\n") := by
  obtain ⟨root, root1, root2, rows, _, _, _, _, hnd, hmem, _, hjoin⟩ :=
    join_core ord rels q fuel hwf hfuel
  have hnd2 := nodup_satisfying (q.ctx rels) q.joinBindings (nodup_joinBindings q)
    q.predicates_ q.filters_
  have hiff : ∀ a, a ∈ rows ↔
      a ∈ satisfying (q.ctx rels) q.joinBindings q.predicates_ q.filters_ :=
    fun a => (hmem a).trans (mem_satisfying _ _ (nodup_joinBindings q) _ _ a).symm
  have hline : q.selections_.map (fun s =>
        token rows.length ((rows.map (val (q.ctx rels) s)).sum % 2 ^ 64)) =
      q.selections_.map (fun s =>
        token (satisfying (q.ctx rels) q.joinBindings q.predicates_ q.filters_).length
          (((satisfying (q.ctx rels) q.joinBindings q.predicates_ q.filters_).map
            (val (q.ctx rels) s)).sum % 2 ^ 64)) := by
    apply List.map_congr_left
    intro s _
    rw [(enum_perm hnd hnd2 hiff).length_eq, enum_sum_eq hnd hnd2 hiff]
  rw [hline] at hjoin
  have htok : ∀ t ∈ q.selections_.map (fun s =>
        token (satisfying (q.ctx rels) q.joinBindings q.predicates_ q.filters_).length
          (((satisfying (q.ctx rels) q.joinBindings q.predicates_ q.filters_).map
            (val (q.ctx rels) s)).sum % 2 ^ 64)),
      t ≠ "" ∧ ' ' ∉ t.data ∧ '\n' ∉ t.data := by
    intro t ht
    simp only [List.mem_map] at ht
    obtain ⟨s, _, rfl⟩ := ht
    exact token_shape _ _
  have hshape := line_shape _ (fun t ht => (htok t ht).2)
  refine ⟨_, _, hjoin, rfl, by simp, rfl, htok, hshape.1, hshape.2.1, ?_, ?_⟩
  · rw [hshape.2.2, List.length_map]
  · intro h
    rw [h]
    rfl

/-- Witness of `response_shape`: the query `0 1|0.0=1.0|0.0 1.0` over a relation with
keys 1, 2, 2 and a relation with keys 2, 2. -/
theorem response_shape_witness :
    ∃ (out : String) (line : List String),
      Joiner.join HTOrder.insertion Example.rels 1 Example.query = some out ∧
      out = String.intercalate " " line ++ "\n" ∧
      line.length = Example.query.selections_.length ∧
      line = Example.query.selections_.map (fun s =>
        token (satisfying (Example.query.ctx Example.rels) Example.query.joinBindings
            Example.query.predicates_ Example.query.filters_).length
          (((satisfying (Example.query.ctx Example.rels) Example.query.joinBindings
            Example.query.predicates_ Example.query.filters_).map
              (val (Example.query.ctx Example.rels) s)).sum % 2 ^ 64)) ∧
      (∀ t ∈ line, t ≠ "" ∧ ' ' ∉ t.data ∧ '\n' ∉ t.data) ∧
      out.data.getLast? = some '\n' ∧ out.data.count '\n' = 1 ∧
      out.data.count ' ' = Example.query.selections_.length - 1 ∧
      (Example.query.selections_ = [] → out = "\n") :=
  response_shape HTOrder.insertion Example.rels Example.query 1 Example.query_wf (by decide)


/-! ## Claim on repeated `require` on a `Scan` -/

/-- C11 (`require` twice on a `Scan`): what the code does. Whenever `require(s)`
returns `true` on a `Scan`, leaving the state `op1`, a second `require(s)` returns
`true` as well and appends a second handle of the same relation column: `getResults()`
has one column more than after the first call, and `resolve(s)` moves from the last
index after the first call to the new last index; the column found there is the
same. `Scan::require` has no guard against a repeated `SelectInfo`, unlike
`FilterScan::require`. -/
theorem scan_require_twice (base : Operator) (rel : Relation) (b : Nat) (s : SelectInfo)
    (op1 : Op) (h1 : (Op.Scan base rel b).require s = some (true, op1)) :
    ∃ op2, op1.require s = some (true, op2) ∧
      op2.getResults.length = op1.getResults.length + 1 ∧
      op1.resolve s = some (op1.getResults.length - 1) ∧
      op2.resolve s = some op1.getResults.length ∧
      op2.column s = op1.column s ∧ op1.column s ≠ none := by
  by_cases hb : s.binding = b
  · cases hcol : rel.columns_[s.col_id]? with
    | none => simp [Op.require, hb, hcol] at h1
    | some col =>
      simp only [Op.require, hb, ne_eq, not_true_eq_false, if_false, hcol, Option.some.injEq,
        Prod.mk.injEq, true_and] at h1
      subst h1
      refine ⟨Op.Scan { base with
          result_columns_ := base.result_columns_ ++ [col] ++ [col]
          select_to_result_col_id_ :=
            (base.select_to_result_col_id_.assign s
              ((base.result_columns_ ++ [col]).length - 1)).assign s
              ((base.result_columns_ ++ [col] ++ [col]).length - 1) } rel b,
        by simp only [Op.require, hb, ne_eq, not_true_eq_false, if_false, hcol], ?_, ?_,
        ?_, ?_, ?_⟩
      · simp [Op.getResults]
      · simp [Op.resolve, Op.base, Op.getResults, ColMap.assign]
      · simp [Op.resolve, Op.base, Op.getResults, ColMap.assign]
      · have e1 : (base.result_columns_ ++ [col] ++ [col]).length - 1 =
            base.result_columns_.length + 1 := by simp
        have e2 : (base.result_columns_ ++ [col]).length - 1 = base.result_columns_.length := by
          simp
        have e3 : (base.result_columns_ ++ [col] ++ [col])[base.result_columns_.length + 1]? =
            some col := by
          rw [List.getElem?_append_right (by simp)]
          simp
        have e4 : (base.result_columns_ ++ [col])[base.result_columns_.length]? = some col := by
          rw [List.getElem?_append_right (Nat.le_refl _)]
          simp
        simp only [Op.column, Op.resolve, Op.base, Op.getResults, ColMap.assign, if_true, e1, e2,
          e3, e4]
      · have e2 : (base.result_columns_ ++ [col]).length - 1 = base.result_columns_.length := by
          simp
        have e4 : (base.result_columns_ ++ [col])[base.result_columns_.length]? = some col := by
          rw [List.getElem?_append_right (Nat.le_refl _)]
          simp
        simp only [Op.column, Op.resolve, Op.base, Op.getResults, ColMap.assign, if_true, e2, e4]
        exact fun h => Option.noConfusion h
  · simp [Op.require, hb] at h1

/-- Witness of `scan_require_twice`, the failing input of C11: the `Scan` of the
operator test, a relation of 5 rows and 3 columns bound as 5, with `require` of
column 0 called twice: one column and index 0 after the first call, two columns and
index 1 after the second. -/
theorem scan_require_twice_witness :
    ∃ op2, Example.scan0.require ⟨4294967295, 5, 0⟩ = some (true, op2) ∧
      op2.getResults.length = Example.scan0.getResults.length + 1 ∧
      Example.scan0.resolve ⟨4294967295, 5, 0⟩ = some (Example.scan0.getResults.length - 1) ∧
      op2.resolve ⟨4294967295, 5, 0⟩ = some Example.scan0.getResults.length ∧
      op2.column ⟨4294967295, 5, 0⟩ = Example.scan0.column ⟨4294967295, 5, 0⟩ ∧
      Example.scan0.column ⟨4294967295, 5, 0⟩ ≠ none :=
  scan_require_twice Operator.init (createRelation 5 3) 5 ⟨4294967295, 5, 0⟩ Example.scan0 rfl


/-! ## Claims on operator trees of any shape -/

/-- C12 (`require` accepts exactly the reachable bindings). Take an operator tree of
`Scan`, `FilterScan`, `Join` and `SelfJoin` nodes in any state that its constructors
and calls of `require` leave (`Ready`), `B` being the bindings of its leaves, and a
`SelectInfo` `s` whose column id is in range for the leaf that `require` reaches.
Then `require(s)` on the root returns; it returns `true` if and only if `s.binding`
is in `B`; and when it returns `false` the whole tree is unchanged, so no operator
gains a column. The bindings of the leaves stay the same in either case. -/
theorem require_reachable (op : Op) (s : SelectInfo) (hr : op.Ready) (hin : op.InRange s) :
    ∃ b op1, op.require s = some (b, op1) ∧ (b = true ↔ s.binding ∈ op.bindings) ∧
      (b = false → op1 = op) ∧ op1.bindings = op.bindings := by
  obtain ⟨b, op1, h⟩ := Ready_require_defined op s hr hin
  obtain ⟨_, h2, h3, _⟩ := Ready_require op s b op1 hr h
  exact ⟨b, op1, h, h2, h3, (Op.require_static op s b op1 h).1⟩

/-- Witness of `require_reachable`: the join of the operator test, the scan of a
relation of 10 rows bound as 1 joined with the scan of a relation of 5 rows bound as
0, asked for column 1 of binding 0. -/
theorem require_reachable_witness :
    ∃ b op1, Example.join0.require ⟨4294967295, 0, 1⟩ = some (b, op1) ∧
      (b = true ↔ SelectInfo.binding ⟨4294967295, 0, 1⟩ ∈ Example.join0.bindings) ∧
      (b = false → op1 = Example.join0) ∧ op1.bindings = Example.join0.bindings :=
  require_reachable Example.join0 ⟨4294967295, 0, 1⟩ Example.join0_ready
    (by simp [Op.InRange, Op.relationOf, Example.join0, Op.mkJoin, Op.mkScan, createRelation])

/-- C13 (column-length invariant). Take an operator tree in any state that its
constructors and calls of `require` leave, over relations whose columns hold as many
values as the relation has rows and with filters on existing columns. Once `run` has
returned on the root, every operator of the tree, the root and every operator below
it, exposes through `getResults()` only columns of exactly `result_size()` values. -/
theorem column_length_invariant (ord : HTOrder) (op op2 : Op) (hr : op.Ready) (hs : op.Sound)
    (hrun : op.run ord = some op2) : op2.ColumnsFull :=
  (Ready_run ord op.height op (Nat.le_refl _) hr hs op2 hrun).1

/-- Witness of `column_length_invariant`: the join of the operator test after
`require` of a column of each side. -/
theorem column_length_invariant_witness :
    ∃ op2, Example.join2.run HTOrder.insertion = some op2 ∧ op2.ColumnsFull :=
  ⟨_, rfl, column_length_invariant HTOrder.insertion Example.join2 _ Example.join2_ready
    Example.join2_sound rfl⟩

/-- C15 (row-count bounds). Take an operator on which `run` has not been called
before (it counts no row and has built no hash table). Once its `run` has returned,
its `result_size` is at most the number of combinations of input rows: for a `Join`
the product of the `result_size`s of its two children after their `run`, for a
`SelfJoin` the `result_size` of its input after its `run` (and for a leaf the number
of rows of its relation). -/
theorem row_count_bounds (ord : HTOrder) (op op2 : Op) (hu : op.Unrun)
    (hrun : op.run ord = some op2) :
    op2.result_size ≤ op2.inputSize ∧
    (∀ base l r p ht req reqL reqR cl cr, op = Op.Join base l r p ht req reqL reqR cl cr →
      ∃ b1 l1 b2 r1 l2 r2, l.require p.left = some (b1, l1) ∧
        r.require p.right = some (b2, r1) ∧ l1.run ord = some l2 ∧ r1.run ord = some r2 ∧
        op2.inputSize = l2.result_size * r2.result_size) ∧
    (∀ base i p ius idata cd, op = Op.SelfJoin base i p ius idata cd →
      ∃ b1 i1 b2 i2 i3, i.require p.left = some (b1, i1) ∧
        i1.require p.right = some (b2, i2) ∧ i2.run ord = some i3 ∧
        op2.inputSize = i3.result_size) := by
  refine ⟨Op.run_count ord op op2 hu hrun, ?_, ?_⟩
  · intro base l r p ht req reqL reqR cl cr he
    subst he
    obtain ⟨hrs, rfl⟩ := hu
    exact Op.run_Join_inputSize ord base l r p req reqL reqR cl cr op2 hrs hrun
  · intro base i p ius idata cd he
    subst he
    exact Op.run_SelfJoin_inputSize ord base i p ius idata cd op2 hrun

/-- Witness of `row_count_bounds`: the join of the operator test after `require` of a
column of each side. -/
theorem row_count_bounds_witness :
    ∃ op2, Example.join2.run HTOrder.insertion = some op2 ∧
      (op2.result_size ≤ op2.inputSize ∧
      (∀ base l r p ht req reqL reqR cl cr,
        Example.join2 = Op.Join base l r p ht req reqL reqR cl cr →
        ∃ b1 l1 b2 r1 l2 r2, l.require p.left = some (b1, l1) ∧
          r.require p.right = some (b2, r1) ∧ l1.run HTOrder.insertion = some l2 ∧
          r1.run HTOrder.insertion = some r2 ∧
          op2.inputSize = l2.result_size * r2.result_size) ∧
      (∀ base i p ius idata cd, Example.join2 = Op.SelfJoin base i p ius idata cd →
        ∃ b1 i1 b2 i2 i3, i.require p.left = some (b1, i1) ∧
          i1.require p.right = some (b2, i2) ∧ i2.run HTOrder.insertion = some i3 ∧
          op2.inputSize = i3.result_size)) :=
  ⟨_, rfl, row_count_bounds HTOrder.insertion Example.join2 _ ⟨rfl, rfl⟩ rfl⟩


/-! ## Claim on `resolve` after `run` -/

/-- C14 is broken by the two containers of `SelfJoin`: `require` records an
accepted `SelectInfo` in a `std::set` ordered by `operator<`, which compares binding
and column, and `run` enters into the result map, keyed by `operator==`, which
compares `rel_id` too, the elements of that set only. Over the scan of a relation of 5
rows bound as 5, `SelfJoin::require` returns `true` for `(0, 5, 0)` and then for
`(1, 5, 0)`, which differs in `rel_id` only, `run` returns, and `resolve` of
`(1, 5, 0)` finds no entry, so its own assertion fails. A `FilterScan` and a `Join`
over the same relation, given the same two calls, resolve `(1, 5, 0)` to their second
column. -/
theorem resolve_accepted_fails :
    (∃ sj1 sj sj2,
      (Op.mkSelfJoin (Op.mkScan (createRelation 5 3) 5) ⟨⟨1, 5, 1⟩, ⟨1, 5, 2⟩⟩).require
        ⟨0, 5, 0⟩ = some (true, sj1)
      ∧ sj1.require ⟨1, 5, 0⟩ = some (true, sj)
      ∧ sj.run HTOrder.insertion = some sj2
      ∧ sj2.resolve ⟨1, 5, 0⟩ = none) ∧
    (∃ fs0 fs1 fs fs2,
      Op.mkFilterScan (createRelation 5 3) [⟨⟨1, 5, 1⟩, 2, Comparison.Greater⟩] = some fs0
      ∧ fs0.require ⟨0, 5, 0⟩ = some (true, fs1)
      ∧ fs1.require ⟨1, 5, 0⟩ = some (true, fs)
      ∧ fs.run HTOrder.insertion = some fs2
      ∧ fs2.resolve ⟨1, 5, 0⟩ = some 1 ∧ fs2.getResults[1]? = some [3, 4]) ∧
    (∃ j1 j j2,
      (Op.mkJoin (Op.mkScan (createRelation 5 3) 5) (Op.mkScan (createRelation 5 3) 6)
        ⟨⟨1, 5, 1⟩, ⟨1, 6, 2⟩⟩).require ⟨0, 5, 0⟩ = some (true, j1)
      ∧ j1.require ⟨1, 5, 0⟩ = some (true, j)
      ∧ j.run HTOrder.insertion = some j2
      ∧ j2.resolve ⟨1, 5, 0⟩ = some 1 ∧ j2.getResults[1]? = some [0, 1, 2, 3, 4]) :=
  ⟨⟨_, _, _, rfl, rfl, rfl, rfl⟩, ⟨_, _, _, _, rfl, rfl, rfl, rfl, rfl, rfl⟩,
    ⟨_, _, _, rfl, rfl, rfl, rfl, rfl⟩⟩

/-- Validity of `resolve` after `run`. Take an operator tree in any state that its
constructors and calls of `require` leave, over relations whose columns hold as many
values as the relation has rows and with filters on existing columns, and a
`SelectInfo` `s` with any `rel_id`, binding and column for which `require(s)` on the
root returns `true`, where the root, if it already holds a `SelectInfo` that its
container does not tell apart from `s`, holds `s` itself (for a `SelfJoin`: no
`SelectInfo` with the binding and column of `s` but another `rel_id` was accepted
before `s`). After any further calls of `require`, once `run` has returned,
`resolve(s)` is defined and is an index into `getResults()`, and the column there
holds `result_size` values of the relation column that `s` names: the source column
read along a sequence of `result_size` of its row numbers. -/
theorem resolve_validity (ord : HTOrder) (op0 op1 op op2 : Op) (s : SelectInfo)
    (ss : List SelectInfo) (hr : op0.Ready) (hs : op0.Sound)
    (hreq : op0.require s = some (true, op1)) (hfirst : op0.Seen s → op0.Acc s)
    (hss : op1.requireAll ss = some op) (hrun : op.run ord = some op2) :
    ∃ k col, op2.resolve s = some k ∧ k < op2.getResults.length ∧
      op2.getResults[k]? = some col ∧ col.length = op2.result_size ∧
      ∃ ids : List Nat, ids.length = op2.result_size ∧
        (∀ i ∈ ids, i < (op0.sourceColumn s).length) ∧
        col = gather (op0.sourceColumn s) ids := by
  obtain ⟨hr1, _, _, _, _, hmono, hacc⟩ := Ready_require op0 s true op1 hr hreq
  have hacc1 : op1.Acc s := by
    rcases hacc rfl with h | h
    · exact h
    · exact hmono s (hfirst h)
  obtain ⟨hrop, hsop, haccop, hsrc, _⟩ := Ready_requireAll ss op1 op hr1 hss
  have hsound : op.Sound := hsop ((Op.require_static op0 s true op1 hreq).2.2 hs)
  obtain ⟨hfull, hexp, hres⟩ := Ready_run ord op.height op (Nat.le_refl _) hrop hsound op2 hrun
  have hsrc0 : op.sourceColumn = op0.sourceColumn :=
    hsrc.trans (Op.sourceColumn_require op0 s true op1 hreq)
  cases hk : op2.resolve s with
  | none => exact absurd hk (hres s (haccop s hacc1))
  | some k =>
    obtain ⟨ids, h1, h2, h3⟩ := hexp s k hk
    rw [hsrc0] at h2 h3
    have hlt : k < op2.getResults.length := by
      by_contra hcon
      rw [List.getElem?_eq_none (Nat.le_of_not_lt hcon)] at h3
      cases h3
    exact ⟨k, _, rfl, hlt, h3, by rw [gather_length, h1], ids, h1, h2, rfl⟩

/-- Instance of `resolve_validity`: the join of the operator test, asked for column 1
of binding 0, then for column 3 of binding 1, then run. -/
theorem resolve_validity_witness :
    ∃ op2, Example.join2.run HTOrder.insertion = some op2 ∧
      ∃ k col, op2.resolve ⟨4294967295, 0, 1⟩ = some k ∧ k < op2.getResults.length ∧
        op2.getResults[k]? = some col ∧ col.length = op2.result_size ∧
        ∃ ids : List Nat, ids.length = op2.result_size ∧
          (∀ i ∈ ids, i < (Example.join0.sourceColumn ⟨4294967295, 0, 1⟩).length) ∧
          col = gather (Example.join0.sourceColumn ⟨4294967295, 0, 1⟩) ids :=
  ⟨_, rfl, resolve_validity HTOrder.insertion Example.join0 Example.join1 Example.join2 _
    ⟨4294967295, 0, 1⟩ [⟨4294967295, 1, 3⟩] Example.join0_ready Example.join0_sound rfl
    (fun h => h) rfl rfl⟩


/-! ## Claims on the parser -/

/-- C16, as stated, fails for a number that does not fit the type `unsigned`: the
text `0 1|0.4294967296=1.0|0.0` writes column 4294967296 on the left of its predicate,
every binding in it is smaller than the number of relation ids, `parseQuery` accepts
it, and the parsed predicate has column 0 on its left. It also fails for a column
reference that writes one number only: `parseQuery` accepts `0 1|0.0=1.0|0`, whose
output column writes the binding 0 and no column, and the `col_id` of the parsed
output column is what the unchecked read `ids[1]` finds past the end of the vector. -/
theorem parse_resolved_counterexample :
    queryText [0, 1] [PToken.join ⟨⟨0, 0, 4294967296⟩, ⟨0, 1, 0⟩⟩] [⟨0, 0, 0⟩] =
        "0 1|0.4294967296=1.0|0.0" ∧
      (∀ mem, QueryInfo.ofText mem "0 1|0.4294967296=1.0|0.0" =
        some ⟨[0, 1], [⟨⟨0, 0, 0⟩, ⟨1, 1, 0⟩⟩], [], [⟨0, 0, 0⟩]⟩) ∧
      splitString "0" '.' = ["0"] ∧
      (∀ mem, QueryInfo.ofText mem "0 1|0.0=1.0|0" =
        some ⟨[0, 1], [⟨⟨0, 0, 0⟩, ⟨1, 1, 0⟩⟩], [], [⟨0, 0, mem [0] 1 % 2 ^ 32⟩]⟩) :=
  ⟨by decide, fun _ => rfl, by decide, fun _ => rfl⟩

/-- C16 (parsed queries are resolved), amended. Take any query text that
`parseQuery` accepts, whatever an unchecked read past the end of a vector yields. The
text has three parts `R|P|S`. `relation_ids()` is the list of the numbers of the `R`
part in order. `predicates()` holds, in the order of the text, one join predicate for
every token of the `P` part whose right side names a column, `filters()` one filter
for every other token of the `P` part, and `selections()` one output column for every
token of the `S` part; each `SelectInfo` among them has as `binding` and as `col_id`
the first and the second number that its column reference writes. Every `SelectInfo`
whose binding is smaller than the number of relation ids has
`rel_id == relation_ids()[binding]`. A number is what `std::stoul` reads, reduced
modulo 2^32 to the type `unsigned`: the number written whenever that is below 2^32.
Nothing is said of the column of a reference that writes a single number. -/
theorem parse_resolved (mem : Stray) (q0 q : QueryInfo) (raw : String)
    (hacc : q0.parseQuery mem raw = some q) :
    ∃ r p s, splitString raw '|' = [r, p, s] ∧
      q.relation_ids_ = (splitString r ' ').map (fun t => writtenNumber t % 2 ^ 32) ∧
      List.Forall₂ PredicateInfo.WrittenAs q.predicates_
        ((splitString p '&').filter isJoinText) ∧
      List.Forall₂ FilterInfo.WrittenAs q.filters_
        ((splitString p '&').filter (fun t => !isJoinText t)) ∧
      List.Forall₂ SelectInfo.WrittenAs q.selections_ (splitString s ' ') ∧
      ∀ x ∈ q.selectInfos, x.binding < q.relation_ids_.length →
        q.relation_ids_[x.binding]? = some x.rel_id := by
  obtain ⟨r, p, s, h1, h2, h3, h4, h5⟩ := QueryInfo.parseQuery_written hacc
  exact ⟨r, p, s, h1, h2, h3, h4, h5, QueryInfo.parseQuery_resolved hacc⟩

/-- Witness of `parse_resolved`: the query of the parser test,
`0 2 4|0.1=1.1&0.0=2.1&1.0=2.0&1.0>3|0.1 1.4 2.2`, which `parseQuery` accepts. -/
theorem parse_resolved_witness :
    QueryInfo.parseQuery ⟨[], [], [], []⟩ (fun _ _ => 0)
        "0 2 4|0.1=1.1&0.0=2.1&1.0=2.0&1.0>3|0.1 1.4 2.2" =
        some ⟨[0, 2, 4],
          [⟨⟨0, 0, 1⟩, ⟨2, 1, 1⟩⟩, ⟨⟨0, 0, 0⟩, ⟨4, 2, 1⟩⟩, ⟨⟨2, 1, 0⟩, ⟨4, 2, 0⟩⟩],
          [⟨⟨2, 1, 0⟩, 3, Comparison.Greater⟩],
          [⟨0, 0, 1⟩, ⟨2, 1, 4⟩, ⟨4, 2, 2⟩]⟩ ∧
      ∃ r p s, splitString "0 2 4|0.1=1.1&0.0=2.1&1.0=2.0&1.0>3|0.1 1.4 2.2" '|' = [r, p, s] ∧
        [0, 2, 4] = (splitString r ' ').map (fun t => writtenNumber t % 2 ^ 32) ∧
        List.Forall₂ PredicateInfo.WrittenAs
          [⟨⟨0, 0, 1⟩, ⟨2, 1, 1⟩⟩, ⟨⟨0, 0, 0⟩, ⟨4, 2, 1⟩⟩, ⟨⟨2, 1, 0⟩, ⟨4, 2, 0⟩⟩]
          ((splitString p '&').filter isJoinText) ∧
        List.Forall₂ FilterInfo.WrittenAs [⟨⟨2, 1, 0⟩, 3, Comparison.Greater⟩]
          ((splitString p '&').filter (fun t => !isJoinText t)) ∧
        List.Forall₂ SelectInfo.WrittenAs [⟨0, 0, 1⟩, ⟨2, 1, 4⟩, ⟨4, 2, 2⟩]
          (splitString s ' ') ∧
        ∀ x ∈ QueryInfo.selectInfos ⟨[0, 2, 4],
            [⟨⟨0, 0, 1⟩, ⟨2, 1, 1⟩⟩, ⟨⟨0, 0, 0⟩, ⟨4, 2, 1⟩⟩, ⟨⟨2, 1, 0⟩, ⟨4, 2, 0⟩⟩],
            [⟨⟨2, 1, 0⟩, 3, Comparison.Greater⟩],
            [⟨0, 0, 1⟩, ⟨2, 1, 4⟩, ⟨4, 2, 2⟩]⟩,
          x.binding < [0, 2, 4].length → [0, 2, 4][x.binding]? = some x.rel_id :=
  ⟨rfl, parse_resolved (fun _ _ => 0) ⟨[], [], [], []⟩ _
    "0 2 4|0.1=1.1&0.0=2.1&1.0=2.0&1.0>3|0.1 1.4 2.2" rfl⟩

/-- C17 (predicate classification). Take a list of tokens, each a join predicate
`b1.c1=b2.c2` or a filter `b.c<K`, `b.c>K` or `b.c=K`, written in plain decimal with
bindings and columns that fit the type `unsigned` and a constant `K` below 2^64, and
join their texts with `&`. `parsePredicates` returns; it appends to `predicates()`
the join predicates `((b1, c1), (b2, c2))` and to `filters()` the filters
`((b, c), K, op)`, each group in the order of the text, `op` being the comparison
character written and `K` the value written (`rel_id` is 0 until the query is
resolved). Each token splits into a left and a right side, and it is a filter if and
only if its right side contains no `.`. The empty string leaves both lists as they
are. -/
theorem predicate_classification (mem : Stray) (q : QueryInfo) (items : List PToken)
    (h : ∀ t ∈ items, t.Plain) :
    q.parsePredicates mem (String.intercalate "&" (items.map PToken.text)) =
        some { q with
          predicates_ := q.predicates_ ++ (joinsOf items).map PredicateInfo.parsed
          filters_ := q.filters_ ++ (filtersOf items).map FilterInfo.parsed } ∧
      (∀ t ∈ items, ∃ lhs rhs, splitPredicates t.text = [lhs, rhs] ∧
        ((∃ f, t = PToken.filter f) ↔ '.' ∉ rhs.data)) ∧
      q.parsePredicates mem "" = some q := by
  refine ⟨QueryInfo.parsePredicates_items mem q items h, ?_, rfl⟩
  intro t _
  cases t with
  | join p =>
    refine ⟨p.left.text, p.right.text, splitPredicates_join p, ?_⟩
    constructor
    · intro hf
      obtain ⟨f, hf⟩ := hf
      cases hf
    · intro hn
      exact absurd p.right.text_dot hn
  | filter f =>
    refine ⟨f.filter_column.text, to_string f.constant, splitPredicates_filter f, ?_⟩
    constructor
    · intro _
      exact to_string_no_char _ '.' (by decide)
    · intro _
      exact ⟨f, rfl⟩

/-- Witness of `predicate_classification`: the mixed list of the parser test,
`0.1=111&1.2=2.1&1.2<333`, parsed into an empty query. -/
theorem predicate_classification_witness :
    String.intercalate "&" ([PToken.filter ⟨⟨0, 0, 1⟩, 111, Comparison.Equal⟩,
        PToken.join ⟨⟨0, 1, 2⟩, ⟨0, 2, 1⟩⟩,
        PToken.filter ⟨⟨0, 1, 2⟩, 333, Comparison.Less⟩].map PToken.text) =
        "0.1=111&1.2=2.1&1.2<333" ∧
      ∀ mem, QueryInfo.parsePredicates ⟨[], [], [], []⟩ mem "0.1=111&1.2=2.1&1.2<333" =
        some ⟨[], [⟨⟨0, 1, 2⟩, ⟨0, 2, 1⟩⟩],
          [⟨⟨0, 0, 1⟩, 111, Comparison.Equal⟩, ⟨⟨0, 1, 2⟩, 333, Comparison.Less⟩], []⟩ :=
  ⟨by decide, fun mem =>
    (predicate_classification mem ⟨[], [], [], []⟩
      [PToken.filter ⟨⟨0, 0, 1⟩, 111, Comparison.Equal⟩,
        PToken.join ⟨⟨0, 1, 2⟩, ⟨0, 2, 1⟩⟩,
        PToken.filter ⟨⟨0, 1, 2⟩, 333, Comparison.Less⟩]
      (by simp [PToken.Plain, SelectInfo.Plain])).1⟩


/-! ## Claims on the dumps of a query -/

/-- C18, as stated, fails for a text that writes a number in another way than
`std::to_string` does: `parseQuery` accepts `0 1|0.0=1.0|0.00`, whose only predicate
is a join, and `dumpText()` of the parsed query is `0 1|0.0=1.0|0.0`. -/
theorem parse_round_trip_counterexample :
    (∀ mem, (QueryInfo.ofText mem "0 1|0.0=1.0|0.00").map QueryInfo.dumpText =
        some "0 1|0.0=1.0|0.0") ∧
      "0 1|0.0=1.0|0.0" ≠ "0 1|0.0=1.0|0.00" :=
  ⟨fun mem => by
      rw [show QueryInfo.ofText mem "0 1|0.0=1.0|0.00" =
        some ⟨[0, 1], [⟨⟨0, 0, 0⟩, ⟨1, 1, 0⟩⟩], [], [⟨0, 0, 0⟩]⟩ from rfl]
      decide,
    by decide⟩

/-- C18 (parse round-trip), amended. Take a query text `R|P|S` with at least one
output column whose relation ids, bindings and columns are written in plain decimal
(digits only, no leading zeros, single separators) and fit the type `unsigned`, whose
constants fit 64 bits, and in which every binding is smaller than the number of
relation ids. `parseQuery` accepts it and `dumpText()` of the parsed query equals the
text with the tokens of its `P` part reordered so that all join predicates come first
and all filters after them, each group in its original order; in particular
`dumpText()` is the text itself whenever it already lists every join predicate before
every filter. -/
theorem parse_round_trip (mem : Stray) (ids : List Nat) (items : List PToken)
    (sels : List SelectInfo) (hsel : sels ≠ []) (hids : ∀ n ∈ ids, n < 2 ^ 32)
    (hitems : ∀ t ∈ items, t.Plain) (hsels : ∀ s ∈ sels, s.Plain)
    (hib : ∀ t ∈ items, ∀ b ∈ t.bindings, b < ids.length)
    (hsb : ∀ s ∈ sels, s.binding < ids.length) :
    ∃ q, QueryInfo.ofText mem (queryText ids items sels) = some q ∧
      q.dumpText = queryText ids (joinsFirst items) sels ∧
      (joinsFirst items = items → q.dumpText = queryText ids items sels) := by
  have hdump : (QueryInfo.mk ids ((joinsOf items).map (PredicateInfo.resolved ids))
      ((filtersOf items).map (FilterInfo.resolved ids))
      (sels.map (SelectInfo.resolved ids))).dumpText = queryText ids (joinsFirst items) sels := by
    rw [QueryInfo.query_dumpText_eq]
    have hp : ((joinsOf items).map (PredicateInfo.resolved ids)).map PredicateInfo.text =
        (joinsOf items).map PredicateInfo.text := by
      rw [List.map_map]
      exact List.map_congr_left (fun p _ => rfl)
    have hf : ((filtersOf items).map (FilterInfo.resolved ids)).map FilterInfo.text =
        (filtersOf items).map FilterInfo.text := by
      rw [List.map_map]
      exact List.map_congr_left (fun f _ => rfl)
    have hs : (sels.map (SelectInfo.resolved ids)).map SelectInfo.text =
        sels.map SelectInfo.text := by
      rw [List.map_map]
      exact List.map_congr_left (fun s _ => rfl)
    have hj : (joinsFirst items).map PToken.text =
        (joinsOf items).map PredicateInfo.text ++ (filtersOf items).map FilterInfo.text := by
      unfold joinsFirst
      rw [List.map_append, List.map_map, List.map_map]
      rfl
    simp only [hp, hf, hs]
    unfold queryText
    rw [hj]
  refine ⟨_, QueryInfo.parseQuery_text mem _ ids items sels hsel hids hitems hsels hib hsb,
    hdump, ?_⟩
  intro h
  rw [hdump, h]

/-- Witness of `parse_round_trip`: the query of the parser test,
`0 2|0.1=1.1&0.0=1.0&1.2=3|0.1 1.4`, which lists its joins before its filter. -/
theorem parse_round_trip_witness :
    queryText [0, 2]
        [PToken.join ⟨⟨0, 0, 1⟩, ⟨0, 1, 1⟩⟩, PToken.join ⟨⟨0, 0, 0⟩, ⟨0, 1, 0⟩⟩,
          PToken.filter ⟨⟨0, 1, 2⟩, 3, Comparison.Equal⟩]
        [⟨0, 0, 1⟩, ⟨0, 1, 4⟩] = "0 2|0.1=1.1&0.0=1.0&1.2=3|0.1 1.4" ∧
      ∀ mem, ∃ q, QueryInfo.ofText mem "0 2|0.1=1.1&0.0=1.0&1.2=3|0.1 1.4" = some q ∧
        q.dumpText = "0 2|0.1=1.1&0.0=1.0&1.2=3|0.1 1.4" := by
  refine ⟨by decide, fun mem => ?_⟩
  obtain ⟨q, h1, _, h3⟩ := parse_round_trip mem [0, 2]
    [PToken.join ⟨⟨0, 0, 1⟩, ⟨0, 1, 1⟩⟩, PToken.join ⟨⟨0, 0, 0⟩, ⟨0, 1, 0⟩⟩,
      PToken.filter ⟨⟨0, 1, 2⟩, 3, Comparison.Equal⟩]
    [⟨0, 0, 1⟩, ⟨0, 1, 4⟩] (by decide) (by decide)
    (by simp [PToken.Plain, SelectInfo.Plain]) (by simp [SelectInfo.Plain])
    (by simp [PToken.bindings]) (by simp)
  exact ⟨q, h1, h3 rfl⟩

/-- C19 (SQL dump format). For every `QueryInfo`, `dumpSQL()` is exactly `SELECT `,
the selections rendered as `SUM("<binding>".c<col>)` joined by `, `, ` FROM `, the
relations rendered as `r<relation id> "<binding>"` joined by `, ` in binding order,
` WHERE `, all join predicates rendered as `"<b1>".c<c1>="<b2>".c<c2>` followed by all
filters rendered as `"<b>".c<c><op><constant>`, joined by ` and `, and `;`. -/
theorem dumpSQL_format (q : QueryInfo) :
    q.dumpSQL =
      "SELECT " ++
        String.intercalate ", " (q.selections_.map (fun s =>
          "SUM(\"" ++ to_string s.binding ++ "\".c" ++ to_string s.col_id ++ ")")) ++
        " FROM " ++
        String.intercalate ", " (q.relation_ids_.enum.map (fun ir =>
          "r" ++ to_string ir.2 ++ " \"" ++ to_string ir.1 ++ "\"")) ++
        " WHERE " ++
        String.intercalate " and "
          (q.predicates_.map (fun p =>
              "\"" ++ to_string p.left.binding ++ "\".c" ++ to_string p.left.col_id ++ "=\"" ++
                to_string p.right.binding ++ "\".c" ++ to_string p.right.col_id) ++
            q.filters_.map (fun f =>
              "\"" ++ to_string f.filter_column.binding ++ "\".c" ++
                to_string f.filter_column.col_id ++ String.singleton f.comparison.toChar ++
                to_string f.constant)) ++
        ";" := by
  have hs : q.selections_.map (fun s => s.dumpSQL true) = q.selections_.map (fun s =>
      "SUM(\"" ++ to_string s.binding ++ "\".c" ++ to_string s.col_id ++ ")") :=
    List.map_congr_left (fun s _ => s.dumpSQL_sum)
  have hp : q.predicates_.map PredicateInfo.dumpSQL = q.predicates_.map (fun p =>
      "\"" ++ to_string p.left.binding ++ "\".c" ++ to_string p.left.col_id ++ "=\"" ++
        to_string p.right.binding ++ "\".c" ++ to_string p.right.col_id) :=
    List.map_congr_left (fun p _ => p.pred_dumpSQL_eq)
  have hf : q.filters_.map FilterInfo.dumpSQL = q.filters_.map (fun f =>
      "\"" ++ to_string f.filter_column.binding ++ "\".c" ++
        to_string f.filter_column.col_id ++ String.singleton f.comparison.toChar ++
        to_string f.constant) :=
    List.map_congr_left (fun f _ => f.flt_dumpSQL_eq)
  have hr : (List.range q.relation_ids_.length).map (fun i =>
      "r" ++ to_string (q.relation_ids_.getD i 0) ++ " " ++ wrapRelationName i) =
      q.relation_ids_.enum.map (fun ir =>
        "r" ++ to_string ir.2 ++ " \"" ++ to_string ir.1 ++ "\"") := by
    rw [← range_map_eq_enum q.relation_ids_
      (fun i r => "r" ++ to_string r ++ " \"" ++ to_string i ++ "\"")]
    apply List.map_congr_left
    intro i _
    apply String.ext
    simp [wrapRelationName, String.data_append]
  rw [QueryInfo.query_dumpSQL_eq, hs, hp, hf, hr]


/-! ## Claim on malformed query texts -/

/-- C20, as stated, fails for a column that begins with a digit and goes on with
other characters: in `0 1|0.0=1.0|0.0x` the column of the output column is written
`0x`, which is not a decimal number, and `parseQuery` accepts the line, reading
column 0. It also fails for a line whose `S` part is empty when a further `|`
follows it: `0 1|0.0=1.0||` has the three parts `0 1`, `0.0=1.0` and the empty part,
and `parseQuery` accepts it, with no output column. -/
theorem malformed_fatal_counterexample :
    splitString "0.0x" '.' = ["0", "0x"] ∧ isDecimal "0x" = false ∧
      (∀ mem, QueryInfo.ofText mem "0 1|0.0=1.0|0.0x" =
        some ⟨[0, 1], [⟨⟨0, 0, 0⟩, ⟨1, 1, 0⟩⟩], [], [⟨0, 0, 0⟩]⟩) ∧
      splitString "0 1|0.0=1.0||" '|' = ["0 1", "0.0=1.0", ""] ∧
      (∀ mem, QueryInfo.ofText mem "0 1|0.0=1.0||" =
        some ⟨[0, 1], [⟨⟨0, 0, 0⟩, ⟨1, 1, 0⟩⟩], [], []⟩) :=
  ⟨by decide, by decide, fun _ => rfl, by decide, fun _ => rfl⟩

/-- C20 (malformed query text), amended. Whatever an unchecked read past the end of a
vector yields, `parseQuery` fails, instead of producing a `QueryInfo`, for every line
whose number of `|`-separated parts is not three, a `|` at the very end of the line
starting no further part: so a line with a part missing and a line with further parts
fail, and so does every line `R|P|` that ends with its second `|`. It also fails for
every line of three parts in which a binding or a column, that is a `.`-separated
piece of an output column of the `S` part or of a side containing a `.` of a
predicate of the `P` part, does not begin with a decimal digit after optional white
space and a sign. -/
theorem malformed_fatal (mem : Stray) (q : QueryInfo) (raw : String) :
    (partCount raw '|' ≠ 3 → q.parseQuery mem raw = none) ∧
    (∀ r p : String, '|' ∉ r.data → '|' ∉ p.data →
      raw = r ++ "|" ++ p ++ "|" → q.parseQuery mem raw = none) ∧
    (∀ r p s, splitString raw '|' = [r, p, s] →
      ((∃ tok ∈ splitString s ' ', ∃ piece ∈ splitString tok '.',
          startsWithNumber piece = false) ∨
        (∃ tok ∈ splitString p '&', ∃ side ∈ splitPredicates tok, '.' ∈ side.data ∧
          ∃ piece ∈ splitString side '.', startsWithNumber piece = false)) →
      q.parseQuery mem raw = none) := by
  refine ⟨QueryInfo.parseQuery_parts mem q raw, ?_, ?_⟩
  · intro r p hr hp hraw
    apply QueryInfo.parseQuery_parts mem q raw
    rw [hraw, partCount_missing r p hr hp]
    decide
  · intro r p s hparts h
    rcases h with ⟨tok, ht, hp⟩ | ⟨tok, ht, side, hs, hdot, hp⟩
    · exact QueryInfo.parseQuery_selection mem q raw r p s hparts
        ⟨tok, ht, parseRelColPair_none mem tok hp⟩
    · exact QueryInfo.parseQuery_predicate mem q raw r p s hparts
        ⟨tok, ht, fun q1 => QueryInfo.parsePredicate_none mem q1 tok
          ⟨side, hs, hdot, parseRelColPair_none mem side hp⟩⟩

/-- Witness of `malformed_fatal`: a line without `S` part, a line that ends with its
second `|`, a line of four parts, a line whose output column has the binding `a`, and
a line whose predicate has the column `x`. -/
theorem malformed_fatal_witness :
    (∀ mem, QueryInfo.ofText mem "0 1|0.0=1.0" = none) ∧
      (∀ mem, QueryInfo.ofText mem "0 1|0.0=1.0|" = none) ∧
      (∀ mem, QueryInfo.ofText mem "0 1|0.0=1.0|0.0|1.0" = none) ∧
      (∀ mem, QueryInfo.ofText mem "0 1|0.0=1.0|a.0" = none) ∧
      (∀ mem, QueryInfo.ofText mem "0 1|0.x=1.0|0.0" = none) :=
  ⟨fun mem => (malformed_fatal mem ⟨[], [], [], []⟩ "0 1|0.0=1.0").1 (by decide),
    fun mem => (malformed_fatal mem ⟨[], [], [], []⟩ "0 1|0.0=1.0|").2.1 "0 1" "0.0=1.0"
      (by decide) (by decide) (by decide),
    fun mem => (malformed_fatal mem ⟨[], [], [], []⟩ "0 1|0.0=1.0|0.0|1.0").1 (by decide),
    fun mem => (malformed_fatal mem ⟨[], [], [], []⟩ "0 1|0.0=1.0|a.0").2.2 "0 1" "0.0=1.0"
      "a.0" (by decide) (Or.inl ⟨"a.0", by decide, "a", by decide, by decide⟩),
    fun mem => (malformed_fatal mem ⟨[], [], [], []⟩ "0 1|0.x=1.0|0.0").2.2 "0 1" "0.x=1.0"
      "0.0" (by decide) (Or.inr ⟨"0.x=1.0", by decide, "0.x", by decide, by decide, "x",
        by decide, by decide⟩)⟩


/-! ## Claims on the leaves and the shape of the planned tree -/

/-- C24 (leaf choice). For every query, every set of used bindings and every
`SelectInfo` `info` of binding `b`, `Joiner::addScan` fails exactly when
`getRelation(info.rel_id)` does, and otherwise marks `b` as used and builds, over the
relation `getRelation(info.rel_id)`, a `FilterScan` bound as `b` if at least one
filter of the query has `filter_column.binding == b` and a plain `Scan` bound as `b`
otherwise. The `FilterScan` carries exactly the filters on `b`, all of them, in the
order of the query's filter list. -/
theorem leaf_choice (rels : List Relation) (used : List Nat) (info : SelectInfo)
    (q : QueryInfo) :
    addScan rels used info q =
        (match getRelation rels info.rel_id with
          | none => none
          | some rel =>
            some (usedEmplace used info.binding,
              if filtersOn q info.binding = [] then Op.Scan Operator.init rel info.binding
              else Op.FilterScan Operator.init rel info.binding (filtersOn q info.binding) [])) ∧
      (filtersOn q info.binding = [] ↔
        ¬ ∃ f ∈ q.filters_, f.filter_column.binding = info.binding) ∧
      (∀ f, f ∈ filtersOn q info.binding ↔
        f ∈ q.filters_ ∧ f.filter_column.binding = info.binding) ∧
      (filtersOn q info.binding).Sublist q.filters_ := by
  have hmem : ∀ f, f ∈ filtersOn q info.binding ↔
      f ∈ q.filters_ ∧ f.filter_column.binding = info.binding := by
    intro f
    simp [filtersOn, List.mem_filter]
  refine ⟨?_, ?_, hmem, List.filter_sublist _⟩
  · unfold addScan
    cases hrel : getRelation rels info.rel_id with
    | none => rfl
    | some rel =>
      simp only []
      cases hf : filtersOn q info.binding with
      | nil =>
        have hf' : q.filters_.filter
            (fun f => decide (f.filter_column.binding = info.binding)) = [] := hf
        simp [hf', Op.mkScan]
      | cons f rest =>
        have hf' : q.filters_.filter
            (fun f => decide (f.filter_column.binding = info.binding)) = f :: rest := hf
        have hb : f.filter_column.binding = info.binding :=
          ((hmem f).mp (by rw [hf]; exact List.mem_cons_self _ _)).2
        simp [hf', Op.mkFilterScan, hb]
  · constructor
    · intro h hex
      obtain ⟨f, hf, hb⟩ := hex
      have := (hmem f).mpr ⟨hf, hb⟩
      rw [h] at this
      exact absurd this (List.not_mem_nil f)
    · intro h
      cases hf : filtersOn q info.binding with
      | nil => rfl
      | cons f rest =>
        have hm := (hmem f).mp (by rw [hf]; exact List.mem_cons_self _ _)
        exact absurd ⟨f, hm.1, hm.2⟩ h

/-- C26, as stated, fails in the `Right` case of the planning loop: for
`0 1 2|0.0=1.0&2.0=0.0|0.0` over three relations of two rows, the second predicate has
its right side in the tree and its left side new, so the planner makes the new scan
the left child and the join built so far the right child of the new `Join`, which is
then not a leaf. -/
theorem left_deep_fails :
    (∀ mem, QueryInfo.ofText mem "0 1 2|0.0=1.0&2.0=0.0|0.0" =
        some ⟨[0, 1, 2], [⟨⟨0, 0, 0⟩, ⟨1, 1, 0⟩⟩, ⟨⟨2, 2, 0⟩, ⟨0, 0, 0⟩⟩], [], [⟨0, 0, 0⟩]⟩) ∧
      (planTree [createRelation 2 1, createRelation 2 1, createRelation 2 1] 4
        ⟨[0, 1, 2], [⟨⟨0, 0, 0⟩, ⟨1, 1, 0⟩⟩, ⟨⟨2, 2, 0⟩, ⟨0, 0, 0⟩⟩], [],
          [⟨0, 0, 0⟩]⟩).map (fun root => (root.leftDeep, root.bindings)) =
        some (false, [2, 0, 1]) ∧
      Joiner.join HTOrder.insertion
        [createRelation 2 1, createRelation 2 1, createRelation 2 1] 4
        ⟨[0, 1, 2], [⟨⟨0, 0, 0⟩, ⟨1, 1, 0⟩⟩, ⟨⟨2, 2, 0⟩, ⟨0, 0, 0⟩⟩], [],
          [⟨0, 0, 0⟩]⟩ = some "1\n" := by
  refine ⟨fun _ => rfl, by decide, by decide⟩

/-- C26 (shape of the planned tree), amended. Take a query in which every predicate
is connected, through a chain of predicates sharing bindings, to the first one. The
planning loop ends, and in the operator tree that `Joiner::join` constructs, before
any swap at run time, every `Join` has a leaf, a `Scan` or a `FilterScan`, as its
right or as its left child. An iteration of the loop that does not fail leaves the
root as it is when neither binding of its predicate is in the tree, puts a `SelfJoin`
over the root when both are, and otherwise builds a `Join` of the root and a new leaf
in the order of the sides of the predicate: the leaf is the right child when the left
binding was in the tree, and the left child when the right binding was. When the
relations of all predicates are loaded and there is a predicate, the tree is built. -/
theorem leaf_sided (rels : List Relation) (q : QueryInfo) (fuel : Nat)
    (hconn : ∀ p ∈ q.predicates_, Linked q.predicates_ q.firstBindings p.left.binding)
    (hfuel : q.predicates_.length * q.predicates_.length ≤ fuel) :
    planTreeEnd rels fuel q ≠ PlanEnd.running ∧
    (∀ root, planTree rels fuel q = some root → root.leafSided = true) ∧
    (∀ pc used root p pc1 used1 root1,
      planStep rels q pc used root p = some (pc1, used1, root1) →
      (p.left.binding ∉ used ∧ p.right.binding ∉ used ∧ root1 = root) ∨
      (p.left.binding ∈ used ∧ p.right.binding ∈ used ∧ root1 = Op.mkSelfJoin root p) ∨
      (p.left.binding ∈ used ∧ p.right.binding ∉ used ∧
        ∃ leaf, leaf.isLeaf = true ∧ root1 = Op.mkJoin root leaf p) ∨
      (p.left.binding ∉ used ∧ p.right.binding ∈ used ∧
        ∃ leaf, leaf.isLeaf = true ∧ root1 = Op.mkJoin leaf root p)) ∧
    (q.predicates_ ≠ [] →
      (∀ p ∈ q.predicates_, p.left.rel_id < rels.length ∧ p.right.rel_id < rels.length) →
      ∃ root, planTree rels fuel q = some root) :=
  ⟨planTreeEnd_terminates rels fuel q hconn hfuel,
    fun root h => planTree_leafSided rels fuel q root h,
    planStep_sides rels q,
    fun hne hload => planTree_built rels q fuel hne hconn hfuel hload⟩

/-- Witness of `leaf_sided`: the query `0 1 2|0.0=1.0&2.0=0.0|0.0` over three
relations of two rows, whose second predicate brings its left binding into the tree:
the tree is built, its root has the new scan as left child, and every `Join` has a
leaf as a child. -/
theorem leaf_sided_witness :
    ∃ root, planTree [createRelation 2 1, createRelation 2 1, createRelation 2 1] 4
        ⟨[0, 1, 2], [⟨⟨0, 0, 0⟩, ⟨1, 1, 0⟩⟩, ⟨⟨2, 2, 0⟩, ⟨0, 0, 0⟩⟩], [],
          [⟨0, 0, 0⟩]⟩ = some root ∧
      root.bindings = [2, 0, 1] ∧ root.leafSided = true :=
  ⟨_, rfl, rfl,
    (leaf_sided [createRelation 2 1, createRelation 2 1, createRelation 2 1]
      ⟨[0, 1, 2], [⟨⟨0, 0, 0⟩, ⟨1, 1, 0⟩⟩, ⟨⟨2, 2, 0⟩, ⟨0, 0, 0⟩⟩], [], [⟨0, 0, 0⟩]⟩ 4
      (by
        intro p hp
        simp only [List.mem_cons, List.mem_singleton, List.not_mem_nil, or_false] at hp
        rcases hp with rfl | rfl
        · exact Linked.base _ (by decide)
        · exact Linked.left ⟨⟨2, 2, 0⟩, ⟨0, 0, 0⟩⟩ (by decide) (Linked.base _ (by decide)))
      (by decide)).2.1 _ rfl⟩


/-! ## Claim on the output columns of a `Join` -/

/-- C30 (join output column layout). Take a `Join` in any state that its constructor
and calls of `require` leave. `require` of a `SelectInfo` not requested before appends
it at the end of `requested_columns_left_` or of `requested_columns_right_`, and any
other `require` leaves both vectors as they are, so each vector lists the columns of
its side in the order they were first required. Once `run` has returned, the smaller
input is the left one (the build side), the two vectors and the two sides of the
predicate having been exchanged along with the children if the children were; the
columns of the build side's vector have the output indices 0 .. m-1 in the order of
the vector, those of the probe side's vector the indices m .. m+n-1, `resolve` maps
each of them to exactly that index, and `getResults()` has m+n columns. -/
theorem join_column_layout (ord : HTOrder) (base : Operator) (l r : Op) (p : PredicateInfo)
    (ht : List (Nat × Nat)) (req reqL reqR : List SelectInfo) (cl cr : List Column) (op2 : Op)
    (hr : (Op.Join base l r p ht req reqL reqR cl cr).Ready)
    (hrun : (Op.Join base l r p ht req reqL reqR cl cr).run ord = some op2) :
    (∃ base2 left2 right2 p2 ht2 bL bR cl2 cr2,
      op2 = Op.Join base2 left2 right2 p2 ht2 req bL bR cl2 cr2 ∧
      left2.result_size ≤ right2.result_size ∧
      ((bL = reqL ∧ bR = reqR ∧ p2 = p) ∨ (bL = reqR ∧ bR = reqL ∧ p2 = ⟨p.right, p.left⟩)) ∧
      (∀ k s, bL[k]? = some s → op2.resolve s = some k) ∧
      (∀ k s, bR[k]? = some s → op2.resolve s = some (bL.length + k)) ∧
      op2.getResults.length = bL.length + bR.length) ∧
    (∀ s b op1, (Op.Join base l r p ht req reqL reqR cl cr).require s = some (b, op1) →
      ∃ base1 l1 r1 req1 reqL1 reqR1, op1 = Op.Join base1 l1 r1 p ht req1 reqL1 reqR1 cl cr ∧
        ((reqL1 = reqL ∧ reqR1 = reqR) ∨ (s ∉ req ∧ reqL1 = reqL ++ [s] ∧ reqR1 = reqR) ∨
          (s ∉ req ∧ reqL1 = reqL ∧ reqR1 = reqR ++ [s]))) := by
  obtain ⟨hinv, _, _, _, _, _⟩ := hr
  obtain ⟨htmp, _, _, _, _, hnd, _⟩ := hinv
  have hlen : base.tmp_results_.length = reqL.length + reqR.length := by
    rw [htmp]; simp
  constructor
  · obtain ⟨b1, l1, b2, r1, l2, r2, _, _, _, _, hcore⟩ :=
      Op.run_Join_inv ord base l r p ht req reqL reqR cl cr op2 hrun
    unfold Join.runCore at hcore
    by_cases hsw : l2.result_size > r2.result_size
    · rw [if_pos hsw] at hcore
      have hnd' : (reqR ++ reqL).Nodup := List.perm_append_comm.nodup_iff.mp hnd
      obtain ⟨⟨base2, ht2, cl2, cr2, rfl⟩, g1, g2, g3⟩ :=
        Join_buildProbe_layout ord base r2 l2 ⟨p.right, p.left⟩ ht req reqR reqL cl cr op2 hnd'
          (by rw [hlen]; omega) hcore
      exact ⟨base2, r2, l2, _, ht2, reqR, reqL, cl2, cr2, rfl, Nat.le_of_lt hsw,
        Or.inr ⟨rfl, rfl, rfl⟩, g1, g2, g3⟩
    · rw [if_neg hsw] at hcore
      obtain ⟨⟨base2, ht2, cl2, cr2, rfl⟩, g1, g2, g3⟩ :=
        Join_buildProbe_layout ord base l2 r2 p ht req reqL reqR cl cr op2 hnd hlen hcore
      exact ⟨base2, l2, r2, _, ht2, reqL, reqR, cl2, cr2, rfl, Nat.le_of_not_lt hsw,
        Or.inl ⟨rfl, rfl, rfl⟩, g1, g2, g3⟩
  · intro s b op1 h
    simp only [Op.require] at h
    split at h
    · cases h
      exact ⟨_, _, _, _, _, _, rfl, Or.inl ⟨rfl, rfl⟩⟩
    · rename_i hs
      split at h
      · cases h
      · cases h
        exact ⟨_, _, _, _, _, _, rfl, Or.inr (Or.inl ⟨hs, rfl, rfl⟩)⟩
      · split at h
        · cases h
        · cases h
          exact ⟨_, _, _, _, _, _, rfl, Or.inr (Or.inr ⟨hs, rfl, rfl⟩)⟩
        · cases h
          exact ⟨_, _, _, _, _, _, rfl, Or.inl ⟨rfl, rfl⟩⟩

/-- Witness of `join_column_layout`: the join of the operator test after `require` of
column 1 of binding 0 and of column 3 of binding 1. The scan bound as 1 has 10 rows
and the scan bound as 0 has 5, so the children are exchanged: the column of binding
0 gets index 0 and the column of binding 1 gets index 1. -/
theorem join_column_layout_witness :
    ∃ op2, Example.join2.run HTOrder.insertion = some op2 ∧
      op2.resolve ⟨4294967295, 0, 1⟩ = some 0 ∧ op2.resolve ⟨4294967295, 1, 3⟩ = some 1 ∧
      op2.getResults.length = 2 ∧
      ∃ base2 left2 right2 p2 ht2 bL bR cl2 cr2,
        op2 = Op.Join base2 left2 right2 p2 ht2 [⟨4294967295, 0, 1⟩, ⟨4294967295, 1, 3⟩]
          bL bR cl2 cr2 ∧
        left2.result_size ≤ right2.result_size ∧
        ((bL = [⟨4294967295, 1, 3⟩] ∧ bR = [⟨4294967295, 0, 1⟩] ∧
            p2 = ⟨⟨1, 1, 1⟩, ⟨0, 0, 2⟩⟩) ∨
          (bL = [⟨4294967295, 0, 1⟩] ∧ bR = [⟨4294967295, 1, 3⟩] ∧
            p2 = ⟨⟨0, 0, 2⟩, ⟨1, 1, 1⟩⟩)) ∧
        (∀ k s, bL[k]? = some s → op2.resolve s = some k) ∧
        (∀ k s, bR[k]? = some s → op2.resolve s = some (bL.length + k)) ∧
        op2.getResults.length = bL.length + bR.length :=
  ⟨_, rfl, rfl, rfl, rfl,
    (join_column_layout HTOrder.insertion _ _ _ _ _ _ _ _ _ _ _ Example.join2_ready rfl).1⟩


/-! ## Claim on the order of `require` and `run` -/

/-- C29, as stated, fails on every query, since `Join::run` begins by requiring the
columns of its predicate from its children: for the well-formed query
`0 1|0.0=1.0|0.0 1.0` over two relations the root's `run()` is the sixth call, and
the seventh is `require` on the left child. -/
theorem require_before_run_counterexample :
    QueryWF Example.rels Example.query ∧
      Joiner.join HTOrder.insertion Example.rels 1 Example.query = some "8 8\n" ∧
      ∃ i j : Nat, i < j ∧
        (Joiner.joinEvents HTOrder.insertion Example.rels 1 Example.query)[i]? =
          some (Event.run []) ∧
        (Joiner.joinEvents HTOrder.insertion Example.rels 1 Example.query)[j]? =
          some (Event.require [0] ⟨0, 0, 0⟩) :=
  ⟨Example.query_wf, by decide, 5, 6, by decide, by decide, by decide⟩

/-- C29 (require-before-run ordering), amended. In the execution of `Joiner::join` on
any query, no operator of the tree receives `require` after its own `run()` has
started: of any two calls, the later one is not a `require` on the operator whose
`run()` the earlier one is. The calls begin with the `require` calls of
`Checksum::run`, all of which precede the `run()` of the root; the `require` calls
that `Join::run` and `SelfJoin::run` issue for the columns of their predicate go to
operators below them, after their own `run()` has started. -/
theorem require_before_own_run (ord : HTOrder) (rels : List Relation) (fuel : Nat)
    (q : QueryInfo) :
    (Joiner.joinEvents ord rels fuel q).Pairwise Event.Orderly ∧
    ∃ A B, Joiner.joinEvents ord rels fuel q = A ++ B ∧
      (∀ e ∈ A, ∃ path info, e = Event.require path info) ∧
      (B = [] ∨ B.head? = some (Event.run [])) := by
  unfold Joiner.joinEvents
  cases hplan : planTree rels fuel q with
  | none =>
    exact ⟨List.Pairwise.nil, [], [], rfl, fun e he => absurd he (List.not_mem_nil e),
      Or.inl rfl⟩
  | some root =>
    refine ⟨Checksum.events_orderly ord _, ?_⟩
    simp only [Checksum.events]
    refine ⟨_, _, rfl, Op.requireAllEvents_requires _ _ _, ?_⟩
    split
    · exact Or.inl rfl
    · rename_i i1 _
      right
      obtain ⟨n, hn⟩ : ∃ n, i1.height = n + 1 :=
        ⟨i1.height - 1, by have := Op.height_pos i1; omega⟩
      rw [hn]
      exact Op.runEvents_head ord n i1 []


/-! ## Claim on the lookups of planner-built trees -/

/-- C28 (no failed lookup on planner-built trees). For every well-formed query (at
least one join predicate, each predicate on two distinct bindings, connected
predicate graph, selections and filters only on joined bindings, loaded relations,
columns in range) the planner builds a tree in which the left side of the predicate
of every `Join` is on a leaf of its left child and the right side on a leaf of its
right child, and `Joiner::join` returns its response line also when a `require`
issued by `Checksum::run`, `Join::run` or `SelfJoin::run` that returns `false` is
taken as a failure: every such call returns `true`. A `resolve` on a `SelectInfo`
that is absent from the callee's map and a column index outside the callee's
`getResults()` are failures of `join`, so that it returns says that none occurs. -/
theorem no_failed_lookup (ord : HTOrder) (rels : List Relation) (q : QueryInfo) (fuel : Nat)
    (hwf : QueryWF rels q) (hfuel : q.predicates_.length * q.predicates_.length ≤ fuel) :
    ∃ root out, planTree rels fuel q = some root ∧ root.SidesReachable ∧
      Joiner.joinStrict ord rels fuel q = some out ∧ Joiner.join ord rels fuel q = some out := by
  obtain ⟨root, hplan, hg, _⟩ := planTree_spec rels q hwf fuel hfuel
  obtain ⟨_, _, _, _, _, _, _, _, _, _, _, hjoin⟩ := join_core ord rels q fuel hwf hfuel
  exact ⟨root, _, hplan, Good_SidesReachable _ _ root hg,
    (joinStrict_eq ord rels q fuel hwf hfuel).trans hjoin, hjoin⟩

/-- Witness of `no_failed_lookup`: the query `0 1|0.0=1.0|0.0 1.0` over a relation of
3 rows and one of 2 rows. -/
theorem no_failed_lookup_witness :
    ∃ root out, planTree Example.rels 1 Example.query = some root ∧ root.SidesReachable ∧
      Joiner.joinStrict HTOrder.insertion Example.rels 1 Example.query = some out ∧
      Joiner.join HTOrder.insertion Example.rels 1 Example.query = some out :=
  no_failed_lookup HTOrder.insertion Example.rels Example.query 1 Example.query_wf (by decide)


/-! ## Claim on the identity-relation scenarios -/

/-- C23 (identity-relation scenarios, generalised). Let every loaded relation be
`createRelation(N, K)`, every column of row `i` holding `i`. For every well-formed
query over them (at least one join predicate, connected predicate graph, filters and
selections only on joined bindings, columns below `K`), whatever the shape of its
predicate graph, `Joiner::join` returns one line in which each value is the decimal
sum modulo 2^64 of all `i` in `[0, N)` that satisfy every filter of the query read as
a condition on `i`, and `NULL` when no `i` satisfies all filters; without filters
these are all `i` in `[0, N)` and the sum is `N (N - 1) / 2`. -/
theorem identity_scenarios (ord : HTOrder) (rels : List Relation) (q : QueryInfo)
    (fuel N K : Nat) (hrel : ∀ r ∈ rels, r = createRelation N K) (hwf : QueryWF rels q)
    (hfuel : q.predicates_.length * q.predicates_.length ≤ fuel) :
    Joiner.join ord rels fuel q =
        some (String.intercalate " " (q.selections_.map (fun _ =>
          token (passingValues N q.filters_).length
            ((passingValues N q.filters_).sum % 2 ^ 64))) ++ "\n") ∧
      (q.filters_ = [] →
        passingValues N q.filters_ = List.range N ∧ (List.range N).sum = N * (N - 1) / 2) := by
  obtain ⟨_, _, _, rows, _, _, _, _, hnd, hrows, _, hjoin⟩ :=
    join_core ord rels q fuel hwf hfuel
  obtain ⟨hLnd, hL, hval⟩ := identity_rows rels q N K hrel hwf
  have hperm : rows.Perm ((passingValues N q.filters_).map (Asg.const q.joinBindings)) :=
    enum_perm hnd hLnd (fun a => by rw [hrows a, hL a])
  have hlen : rows.length = (passingValues N q.filters_).length := by
    rw [hperm.length_eq, List.length_map]
  constructor
  · rw [hjoin]
    congr 3
    apply List.map_congr_left
    intro s hs
    have hsum : (rows.map (val (q.ctx rels) s)).sum = (passingValues N q.filters_).sum := by
      rw [(hperm.map (val (q.ctx rels) s)).sum_eq, List.map_map]
      have : (passingValues N q.filters_).map (val (q.ctx rels) s ∘ Asg.const q.joinBindings) =
          (passingValues N q.filters_).map id :=
        List.map_congr_left (fun i hi => hval s hs i hi)
      rw [this, List.map_id]
    rw [hsum, hlen]
  · intro hf
    rw [hf]
    exact ⟨passingValues_nil N, sum_range_half N⟩

/-- Witness of `identity_scenarios`: the query with a filter of the operator test,
`0 1 4|0.0=1.1&1.2=2.0&1.1=4|1.0 2.2` over five relations `createRelation(10, 3)`,
which returns `4 4`. -/
theorem identity_scenarios_witness :
    Joiner.join HTOrder.insertion (List.replicate 5 (createRelation 10 3)) 4
        ⟨[0, 1, 4], [⟨⟨0, 0, 0⟩, ⟨1, 1, 1⟩⟩, ⟨⟨1, 1, 2⟩, ⟨4, 2, 0⟩⟩],
          [⟨⟨1, 1, 1⟩, 4, Comparison.Equal⟩], [⟨1, 1, 0⟩, ⟨4, 2, 2⟩]⟩ = some "4 4\n" :=
  (identity_scenarios HTOrder.insertion (List.replicate 5 (createRelation 10 3))
    ⟨[0, 1, 4], [⟨⟨0, 0, 0⟩, ⟨1, 1, 1⟩⟩, ⟨⟨1, 1, 2⟩, ⟨4, 2, 0⟩⟩],
      [⟨⟨1, 1, 1⟩, 4, Comparison.Equal⟩], [⟨1, 1, 0⟩, ⟨4, 2, 2⟩]⟩ 4 10 3
    (fun r hr => List.eq_of_mem_replicate hr)
    (by
      refine ⟨by decide, by decide, by decide, ?_, by decide, by decide, ?_, ?_, ?_⟩
      · intro p hp
        simp only [List.mem_cons, List.mem_singleton, List.not_mem_nil, or_false] at hp
        rcases hp with rfl | rfl
        · exact Linked.base _ (by decide)
        · exact Linked.base _ (by decide)
      · unfold QueryInfo.Resolved; decide
      · unfold QueryInfo.Resolved; decide
      · unfold QueryInfo.Resolved; decide)
    (by decide)).1.trans (by decide)


/-! ## Claims on the planning loop -/

/-- C27 (planner termination). Take a query with at least one join predicate in
which every predicate is connected, through a chain of predicates sharing bindings,
to the first one. The planning loop of `Joiner::join` terminates: after as many
iterations as the square of the number of predicates it is no longer running, having
either left the loop or failed in `addScan` on a relation that is not loaded, and more
iterations change nothing. When it has left the loop, every predicate of the query,
the deferred ones included, is the predicate of exactly one `Join` or `SelfJoin` of
the tree, and the working copy of the predicate list has grown by at most the square
of the number of predicates. When the relations of all predicates are loaded, the
loop does leave the loop with a tree. -/
theorem planner_termination (rels : List Relation) (q : QueryInfo) (fuel : Nat)
    (hne : q.predicates_ ≠ [])
    (hconn : ∀ p ∈ q.predicates_, Linked q.predicates_ q.firstBindings p.left.binding)
    (hfuel : q.predicates_.length * q.predicates_.length ≤ fuel) :
    planTreeEnd rels fuel q ≠ PlanEnd.running ∧
    planTreeEnd rels fuel q =
      planTreeEnd rels (q.predicates_.length * q.predicates_.length) q ∧
    (∀ pc used root, planTreeEnd rels fuel q = PlanEnd.finished pc used root →
      planTree rels fuel q = some root ∧ root.preds.Perm q.predicates_ ∧
      pc.length ≤ q.predicates_.length + q.predicates_.length * q.predicates_.length) ∧
    ((∀ p ∈ q.predicates_, p.left.rel_id < rels.length ∧ p.right.rel_id < rels.length) →
      ∃ pc used root, planTreeEnd rels fuel q = PlanEnd.finished pc used root) := by
  have hterm := planTreeEnd_terminates rels fuel q hconn hfuel
  have hstable := planTreeEnd_stable rels fuel q hconn hfuel
  refine ⟨hterm, hstable, ?_, ?_⟩
  · intro pc used root h
    refine ⟨(planTree_some_end rels fuel q root).mpr ⟨pc, used, h⟩,
      (planTreeEnd_shape rels fuel q pc used root h).2.1, ?_⟩
    rw [hstable] at h
    rcases planTreeEnd_loop rels q with ha | ⟨p0, rest, used0, root0, hps, _, _, hloop⟩
    · rw [ha] at h; cases h
    · rw [hloop] at h
      have := planLoopEnd_length rels q _ _ _ _ _ _ _ _ h
      rw [hps] at this ⊢
      simpa using this
  · intro hload
    rcases planTreeEnd_loop rels q with ha | ⟨p0, rest, used0, root0, hps, _, _, hloop⟩
    · exfalso
      have h := ha fuel
      unfold planTreeEnd at h
      cases hq : q.predicates_ with
      | nil => exact hne hq
      | cons p0 rest =>
        have hp0 : p0 ∈ q.predicates_ := by rw [hq]; exact List.mem_cons_self _ _
        have h0 : q.predicates_[0]? = some p0 := by rw [hq]; exact List.getElem?_cons_zero
        rw [h0] at h
        simp only at h
        cases hsL : addScan rels [] p0.left q with
        | none => exact addScan_loaded rels [] p0.left q (hload p0 hp0).1 hsL
        | some prL =>
          rw [hsL] at h
          simp only at h
          cases hsR : addScan rels prL.1 p0.right q with
          | none => exact addScan_loaded rels prL.1 p0.right q (hload p0 hp0).2 hsR
          | some prR =>
            rw [hsR] at h
            simp only at h
            exact planLoopEnd_loaded rels q fuel _ _ _ _ hload h
    · have hna : planTreeEnd rels fuel q ≠ PlanEnd.aborted := by
        rw [hloop]
        apply planLoopEnd_loaded
        intro p hp
        exact hload p (by rw [hps]; exact hp)
      cases hend : planTreeEnd rels fuel q with
      | finished pc used root => exact ⟨pc, used, root, rfl⟩
      | aborted => exact absurd hend hna
      | running => exact absurd hend hterm

/-- Witness of `planner_termination`: the permuted query over four relations of the
operator test, `0 1 2 3|0.0=1.1&2.1=3.0&0.2=2.1|1.0`, whose second predicate is
deferred. -/
theorem planner_termination_witness :
    ∃ pc used root,
      planTreeEnd (List.replicate 5 (createRelation 10 3)) 9
        ⟨[0, 1, 2, 3], [⟨⟨0, 0, 0⟩, ⟨1, 1, 1⟩⟩, ⟨⟨2, 2, 1⟩, ⟨3, 3, 0⟩⟩, ⟨⟨0, 0, 2⟩, ⟨2, 2, 1⟩⟩],
          [], [⟨1, 1, 0⟩]⟩ = PlanEnd.finished pc used root :=
  (planner_termination (List.replicate 5 (createRelation 10 3))
    ⟨[0, 1, 2, 3], [⟨⟨0, 0, 0⟩, ⟨1, 1, 1⟩⟩, ⟨⟨2, 2, 1⟩, ⟨3, 3, 0⟩⟩, ⟨⟨0, 0, 2⟩, ⟨2, 2, 1⟩⟩],
      [], [⟨1, 1, 0⟩]⟩ 9 (by decide)
    (by
      intro p hp
      simp only [List.mem_cons, List.mem_singleton, List.not_mem_nil, or_false] at hp
      rcases hp with rfl | rfl | rfl
      · exact Linked.base _ (by decide)
      · exact Linked.right ⟨⟨0, 0, 2⟩, ⟨2, 2, 1⟩⟩ (by decide) (Linked.base _ (by decide))
      · exact Linked.base _ (by decide))
    (by decide)).2.2.2 (by decide)

/-- C25 (one operator per predicate). Take a query whose predicates each relate two
distinct bindings and form a connected graph. The planning loop ends, and whenever
`Joiner::join` has built its tree, the leaves of the tree are bound, one each, as the
distinct bindings that occur in the predicates, the tree has one `Join` less than
distinct bindings, and as many `SelfJoin` nodes as there are predicates more than
`Join` nodes, each predicate being the predicate of exactly one of these nodes. In
an iteration of the loop that does not fail, the new root is a `SelfJoin` over the
whole current root exactly when both bindings of the predicate are already in the
set of used bindings. When the relations of all predicates are loaded and there is a
predicate, the tree is built. -/
theorem one_operator_per_predicate (rels : List Relation) (q : QueryInfo) (fuel : Nat)
    (hdist : ∀ p ∈ q.predicates_, p.left.binding ≠ p.right.binding)
    (hconn : ∀ p ∈ q.predicates_, Linked q.predicates_ q.firstBindings p.left.binding)
    (hfuel : q.predicates_.length * q.predicates_.length ≤ fuel) :
    planTreeEnd rels fuel q ≠ PlanEnd.running ∧
    (∀ root, planTree rels fuel q = some root →
      root.bindings.Perm q.joinBindings ∧ root.preds.Perm q.predicates_ ∧
      root.joins + 1 = q.joinBindings.length ∧
      root.selfJoins + q.joinBindings.length = q.predicates_.length + 1) ∧
    (∀ pc used root p pc1 used1 root1,
      planStep rels q pc used root p = some (pc1, used1, root1) →
      (root1 = Op.mkSelfJoin root p ↔ (p.left.binding ∈ used ∧ p.right.binding ∈ used))) ∧
    (q.predicates_ ≠ [] →
      (∀ p ∈ q.predicates_, p.left.rel_id < rels.length ∧ p.right.rel_id < rels.length) →
      ∃ root, planTree rels fuel q = some root) := by
  have hterm := planTreeEnd_terminates rels fuel q hconn hfuel
  refine ⟨hterm, ?_, planStep_selfJoin_iff rels q, ?_⟩
  · intro root hplan
    obtain ⟨pc, used, hend⟩ := (planTree_some_end rels fuel q root).mp hplan
    obtain ⟨⟨_, _, hC, hE, hJ, _⟩, hperm, hnd⟩ := planTreeEnd_shape rels fuel q pc used root hend
    have hbperm : root.bindings.Perm q.joinBindings := by
      have hjnd : q.joinBindings.Nodup := List.nodup_dedup _
      rw [List.perm_ext_iff_of_nodup (hnd hdist) hjnd]
      intro b
      rw [mem_joinBindings]
      constructor
      · intro hb
        obtain ⟨p, hp, hbp⟩ := hE b hb
        exact ⟨p, hperm.mem_iff.mp hp, hbp⟩
      · rintro ⟨p, hp, hbp⟩
        have := hC p (hperm.mem_iff.mpr hp)
        rcases hbp with rfl | rfl
        · exact this.1
        · exact this.2
    have hlenB := hbperm.length_eq
    have hlenP := hperm.length_eq
    rw [Op.preds_length] at hlenP
    refine ⟨hbperm, hperm, by omega, by omega⟩
  · intro hne hload
    have hna : planTreeEnd rels fuel q ≠ PlanEnd.aborted := by
      rcases planTreeEnd_loop rels q with ha | ⟨p0, rest, used0, root0, hps, _, _, hloop⟩
      · exfalso
        have h := ha fuel
        unfold planTreeEnd at h
        cases hq : q.predicates_ with
        | nil => exact hne hq
        | cons p0 rest =>
          have hp0 : p0 ∈ q.predicates_ := by rw [hq]; exact List.mem_cons_self _ _
          have h0 : q.predicates_[0]? = some p0 := by rw [hq]; exact List.getElem?_cons_zero
          rw [h0] at h
          simp only at h
          cases hsL : addScan rels [] p0.left q with
          | none => exact addScan_loaded rels [] p0.left q (hload p0 hp0).1 hsL
          | some prL =>
            rw [hsL] at h
            simp only at h
            cases hsR : addScan rels prL.1 p0.right q with
            | none => exact addScan_loaded rels prL.1 p0.right q (hload p0 hp0).2 hsR
            | some prR =>
              rw [hsR] at h
              simp only at h
              exact planLoopEnd_loaded rels q fuel _ _ _ _ hload h
      · rw [hloop]
        apply planLoopEnd_loaded
        intro p hp
        exact hload p (by rw [hps]; exact hp)
    cases hend : planTreeEnd rels fuel q with
    | finished pc used root =>
      exact ⟨root, (planTree_some_end rels fuel q root).mpr ⟨pc, used, hend⟩⟩
    | aborted => exact absurd hend hna
    | running => exact absurd hend hterm

/-- Witness of `one_operator_per_predicate`: the cyclic query of the operator test,
`0 1 2|0.0=1.1&1.1=2.0&2.2=0.1|1.0`, over five relations: three leaves, two `Join`
nodes and one `SelfJoin`. -/
theorem one_operator_per_predicate_witness :
    ∃ root, planTree (List.replicate 5 (createRelation 10 3)) 9
        ⟨[0, 1, 2], [⟨⟨0, 0, 0⟩, ⟨1, 1, 1⟩⟩, ⟨⟨1, 1, 1⟩, ⟨2, 2, 0⟩⟩, ⟨⟨2, 2, 2⟩, ⟨0, 0, 1⟩⟩],
          [], [⟨1, 1, 0⟩]⟩ = some root ∧
      root.bindings = [0, 1, 2] ∧ root.joins = 2 ∧ root.selfJoins = 1 ∧
      root.joins + 1 = (QueryInfo.joinBindings
        ⟨[0, 1, 2], [⟨⟨0, 0, 0⟩, ⟨1, 1, 1⟩⟩, ⟨⟨1, 1, 1⟩, ⟨2, 2, 0⟩⟩, ⟨⟨2, 2, 2⟩, ⟨0, 0, 1⟩⟩],
          [], [⟨1, 1, 0⟩]⟩).length :=
  ⟨_, rfl, rfl, rfl, rfl,
    ((one_operator_per_predicate (List.replicate 5 (createRelation 10 3))
      ⟨[0, 1, 2], [⟨⟨0, 0, 0⟩, ⟨1, 1, 1⟩⟩, ⟨⟨1, 1, 1⟩, ⟨2, 2, 0⟩⟩, ⟨⟨2, 2, 2⟩, ⟨0, 0, 1⟩⟩],
        [], [⟨1, 1, 0⟩]⟩ 9 (by decide)
      (by
        intro p hp
        simp only [List.mem_cons, List.mem_singleton, List.not_mem_nil, or_false] at hp
        rcases hp with rfl | rfl | rfl
        · exact Linked.base _ (by decide)
        · exact Linked.base _ (by decide)
        · exact Linked.left ⟨⟨2, 2, 2⟩, ⟨0, 0, 1⟩⟩ (by decide) (Linked.base _ (by decide)))
      (by decide)).2.1 _ rfl).2.2.1⟩


/-! ## Claims on relations that are not loaded and columns that do not exist -/

/-- C34 (equality and hashing of `SelectInfo`). Two `SelectInfo` values compare equal
under `operator==` if and only if their `rel_id`, binding and `col_id` are all equal,
which is when they are the same key of a column-resolution map; the hash of a
`SelectInfo` is `binding XOR (col_id << 5)` on 32-bit values, the shift being the
product with 32 modulo 2^32, so two values with the same binding and `col_id` have the
same hash whatever their `rel_id`; therefore equal `SelectInfo`s have equal hashes. -/
theorem selectinfo_equality_hash :
    (∀ a o : SelectInfo, a.operatorEq o = true ↔
      (a.rel_id = o.rel_id ∧ a.binding = o.binding ∧ a.col_id = o.col_id)) ∧
    (∀ a o : SelectInfo, a.operatorEq o = true ↔ a = o) ∧
    (∀ s : SelectInfo, s.hash = (s.binding % 2 ^ 32) ^^^ (s.col_id * 32 % 2 ^ 32)) ∧
    (∀ a o : SelectInfo, a.binding = o.binding → a.col_id = o.col_id → a.hash = o.hash) ∧
    (∀ a o : SelectInfo, a.operatorEq o = true → a.hash = o.hash) := by
  have h1 : ∀ a o : SelectInfo, a.operatorEq o = true ↔
      (a.rel_id = o.rel_id ∧ a.binding = o.binding ∧ a.col_id = o.col_id) := by
    intro a o
    simp only [SelectInfo.operatorEq, Bool.and_eq_true, decide_eq_true_eq]
    constructor
    · rintro ⟨⟨e1, e2⟩, e3⟩
      exact ⟨e1.symm, e2.symm, e3.symm⟩
    · rintro ⟨e1, e2, e3⟩
      exact ⟨⟨e1.symm, e2.symm⟩, e3.symm⟩
  have h4 : ∀ a o : SelectInfo, a.binding = o.binding → a.col_id = o.col_id →
      a.hash = o.hash := by
    intro a o e1 e2
    simp only [SelectInfo.hash, e1, e2]
  refine ⟨h1, ?_, ?_, h4, ?_⟩
  · intro a o
    rw [h1]
    constructor
    · rintro ⟨e1, e2, e3⟩
      cases a; cases o
      simp only at e1 e2 e3
      subst e1 e2 e3
      rfl
    · rintro rfl
      exact ⟨rfl, rfl, rfl⟩
  · intro s
    simp only [SelectInfo.hash, Nat.shiftLeft_eq]
  · intro a o h
    obtain ⟨_, e2, e3⟩ := (h1 a o).mp h
    exact h4 a o e2 e3

/-- Witness of `selectinfo_equality_hash`: the `SelectInfo` of binding 1 and column 2
built with the two-argument constructor and the one resolved to relation 0 differ
under `operator==` and have the hash 65. -/
theorem selectinfo_equality_hash_witness :
    (SelectInfo.mk2 1 2).operatorEq ⟨0, 1, 2⟩ = false ∧
      (SelectInfo.mk2 1 2).hash = 65 ∧ (SelectInfo.mk2 1 2).hash = SelectInfo.hash ⟨0, 1, 2⟩ :=
  ⟨by decide, by decide, selectinfo_equality_hash.2.2.2.1 (SelectInfo.mk2 1 2) ⟨0, 1, 2⟩ rfl rfl⟩

/-- C36 (`FilterScan` with no required column). For every `FilterScan` on which
`require` was never called, over a relation whose columns hold as many values as it
has rows and with filters on columns that exist: `run` returns, `getResults()` is
empty, no `SelectInfo` resolves, and `result_size` is the number of rows of the
relation that pass all filters. The filter columns are read from the relation, so
this holds whatever the binding of the scan and of the filters. -/
theorem filterscan_unrequired (ord : HTOrder) (R : Relation) (b : Nat) (F : List FilterInfo)
    (hwf : R.WF) (hF : ∀ f ∈ F, f.filter_column.col_id < R.columns_.length) :
    (∀ fs0, Op.mkFilterScan R F = some fs0 →
      ∃ b0, fs0 = Op.FilterScan Operator.init R b0 F []) ∧
    ∃ fs2, (Op.FilterScan Operator.init R b F []).run ord = some fs2 ∧
      fs2.getResults = [] ∧ (∀ s, fs2.resolve s = none) ∧
      fs2.result_size = ((List.range R.size_).filter (rowPasses R F)).length := by
  constructor
  · intro fs0 h
    cases F with
    | nil => simp [Op.mkFilterScan] at h
    | cons f rest =>
      simp only [Op.mkFilterScan, Option.some.injEq] at h
      exact ⟨_, h.symm⟩
  · have hrun := FilterScan_run_eq ord R b Operator.init F [] hwf hF (FilterScanInv_init R b)
    refine ⟨_, hrun, ?_, ?_, ?_⟩
    · simp [Op.getResults, Op.base]
    · intro s
      simp [Op.resolve, Op.base, Operator.init, ColMap.empty]
    · simp [Op.result_size, Op.base, Operator.init, passingRows]

/-- Witness of `filterscan_unrequired`: the first block of the test
`ScanWithSelection`, column 2 equal to 2 on a relation of 5 rows; one row passes. -/
theorem filterscan_unrequired_witness :
    ∃ fs2, (Op.FilterScan Operator.init (createRelation 5 3) 1
        [⟨⟨0, 1, 2⟩, 2, Comparison.Equal⟩] []).run HTOrder.insertion = some fs2 ∧
      fs2.getResults = [] ∧ fs2.result_size = 1 := by
  obtain ⟨fs2, h1, h2, _, h4⟩ := (filterscan_unrequired HTOrder.insertion (createRelation 5 3) 1
    [⟨⟨0, 1, 2⟩, 2, Comparison.Equal⟩] (by decide) (by decide)).2
  exact ⟨fs2, h1, h2, h4.trans (by decide)⟩

/-- C35 fails as stated: `operator==` compares `rel_id` too. The `SelectInfo` of
binding 5 and column 0 built with the two-argument constructor (`rel_id` is
`(unsigned) -1`) and the one resolved to relation 0 have the same binding and column
and are not equal; after `require` of the resolved one on a scan bound as 5 and `run`,
`resolve` finds the resolved one at index 0 and has no entry for the other, so its
assertion fails. -/
theorem operator_map_keys_counterexample :
    (SelectInfo.mk2 5 0).binding = SelectInfo.binding ⟨0, 5, 0⟩ ∧
    (SelectInfo.mk2 5 0).col_id = SelectInfo.col_id ⟨0, 5, 0⟩ ∧
    (SelectInfo.mk2 5 0).operatorEq ⟨0, 5, 0⟩ = false ∧
    ∃ sc1 sc2, (Op.mkScan (createRelation 5 3) 5).require ⟨0, 5, 0⟩ = some (true, sc1) ∧
      sc1.run HTOrder.insertion = some sc2 ∧ sc2.resolve ⟨0, 5, 0⟩ = some 0 ∧
      sc2.resolve (SelectInfo.mk2 5 0) = none :=
  ⟨rfl, rfl, by decide, _, _, rfl, rfl, by decide, by decide⟩

/-- C35 (keys of the operator maps), amended. Take two `SelectInfo` values with the
same binding and the same `col_id`. `operator==` returns `true` exactly when their
`rel_id` are equal too; then they are one key and every operator resolves both to the
same index, and otherwise they are two keys of a column-resolution map: an entry
stored under one is not found under the other. Whatever their `rel_id`, they have the
same hash and are equivalent under `operator<`, and in every operator of a tree, in
any state that constructors and `require` leave and over sound data, in which both
resolve once `run` has returned, they resolve to columns that hold the same values. -/
theorem operator_map_keys (a o : SelectInfo) (hb : a.binding = o.binding)
    (hc : a.col_id = o.col_id) :
    (a.operatorEq o = true ↔ a.rel_id = o.rel_id) ∧ a.hash = o.hash ∧ a.equiv o = true ∧
    (a.rel_id = o.rel_id → ∀ op : Op, op.resolve a = op.resolve o) ∧
    (a.rel_id ≠ o.rel_id → ∀ (m : ColMap) (k : Nat),
      (m.assign a k) o = m o ∧ (m.emplace a k) o = m o) ∧
    (∀ (ord : HTOrder) (op op2 : Op), op.Ready → op.Sound → op.run ord = some op2 →
      ∀ ka ko, op2.resolve a = some ka → op2.resolve o = some ko →
        ∃ col, op2.getResults[ka]? = some col ∧ op2.getResults[ko]? = some col) := by
  refine ⟨?_, ?_, ?_, ?_, ?_, ?_⟩
  · simp only [SelectInfo.operatorEq, Bool.and_eq_true, decide_eq_true_eq]
    constructor
    · rintro ⟨⟨e1, _⟩, _⟩
      exact e1.symm
    · intro e1
      exact ⟨⟨e1.symm, hb.symm⟩, hc.symm⟩
  · simp only [SelectInfo.hash, hb, hc]
  · rw [SelectInfo.equiv_iff]
    simp only [SelectInfo.key, hb, hc]
  · intro e1 op
    have hao : a = o := by
      cases a; cases o
      simp only at e1 hb hc
      subst e1 hb hc
      rfl
    rw [hao]
  · intro hne m k
    have hoa : o ≠ a := fun h => hne (by rw [h])
    have h1 : (m.assign a k) o = m o := by
      simp only [ColMap.assign, if_neg hoa]
    refine ⟨h1, ?_⟩
    unfold ColMap.emplace
    cases m a with
    | none => exact h1
    | some v => rfl
  · intro ord op op2 hr hs hrun ka ko hka hko
    have hcol := Ready_run_keyed ord op.height op (Nat.le_refl _) hr hs op2 hrun a o hb hc
      (by rw [hka]; exact fun h => Option.noConfusion h)
      (by rw [hko]; exact fun h => Option.noConfusion h)
    simp only [Op.column, hka, hko] at hcol
    obtain ⟨_, hexp, _⟩ := Ready_run ord op.height op (Nat.le_refl _) hr hs op2 hrun
    obtain ⟨ids, _, _, hget⟩ := hexp a ka hka
    exact ⟨_, hget, by rw [← hcol]; exact hget⟩

/-- Witness of `operator_map_keys`: on a scan bound as 5 of a relation of 5 rows, the
`SelectInfo` of column 0 resolved to relation 0 and the one built with the
two-argument constructor are both required; they get the indices 0 and 1, which hold
the same column. -/
theorem operator_map_keys_witness :
    ∃ sc1 sc2 col, (Op.mkScan (createRelation 5 3) 5).requireAll
        [⟨0, 5, 0⟩, SelectInfo.mk2 5 0] = some sc1 ∧
      sc1.run HTOrder.insertion = some sc2 ∧
      sc2.resolve ⟨0, 5, 0⟩ = some 0 ∧ sc2.resolve (SelectInfo.mk2 5 0) = some 1 ∧
      sc2.getResults[0]? = some col ∧ sc2.getResults[1]? = some col := by
  have hreq : (Op.mkScan (createRelation 5 3) 5).requireAll [⟨0, 5, 0⟩, SelectInfo.mk2 5 0] =
      some (Op.Scan ⟨(ColMap.empty.assign ⟨0, 5, 0⟩ 0).assign ⟨4294967295, 5, 0⟩ 1,
        [List.range 5, List.range 5], [], 0⟩ (createRelation 5 3) 5) := rfl
  obtain ⟨hr, hs, _⟩ := Ready_requireAll _ _ _ (Ready_mkScan (createRelation 5 3) 5) hreq
  obtain ⟨col, h1, h2⟩ := (operator_map_keys ⟨0, 5, 0⟩ (SelectInfo.mk2 5 0) rfl rfl).2.2.2.2.2
    HTOrder.insertion _ _ hr (hs (by decide : (createRelation 5 3).WF)) rfl 0 1
    (by decide) (by decide)
  exact ⟨_, _, col, hreq, rfl, by decide, by decide, h1, h2⟩


/-! ## Claims on what the response line does not depend on -/

/-- C33 (checksums do not depend on the enumeration order of the hash table). For
every well-formed query over loaded relations, `Joiner::join` returns, and the line it
returns is the same for every two orders in which the multimap may enumerate the
build rows stored under one key: each order lists the same combined rows, and the
sums over them, like their number, do not depend on the order of the list. -/
theorem hash_order_independent (ord1 ord2 : HTOrder) (rels : List Relation) (q : QueryInfo)
    (fuel : Nat) (hwf : QueryWF rels q)
    (hfuel : q.predicates_.length * q.predicates_.length ≤ fuel) :
    ∃ out, Joiner.join ord1 rels fuel q = some out ∧ Joiner.join ord2 rels fuel q = some out := by
  obtain ⟨_, _, _, rows1, _, _, _, _, hnd1, hmem1, _, hjoin1⟩ :=
    join_core ord1 rels q fuel hwf hfuel
  obtain ⟨_, _, _, rows2, _, _, _, _, hnd2, hmem2, _, hjoin2⟩ :=
    join_core ord2 rels q fuel hwf hfuel
  refine ⟨_, hjoin1, ?_⟩
  rw [hjoin2]
  exact congrArg some (join_line_congr (q.ctx rels) q.selections_ hnd2 hnd1
    (fun a => (hmem2 a).trans (hmem1 a).symm))

/-- Witness of `hash_order_independent`: the query `0 1|0.0=1.0|0.0 1.0` over a
relation with keys 1, 2, 2 and one with keys 2, 2, with the rows of a key enumerated
in insertion order and in reverse insertion order. -/
theorem hash_order_independent_witness :
    Joiner.join HTOrder.insertion Example.rels 1 Example.query = some "8 8\n" ∧
      Joiner.join HTOrder.reversed Example.rels 1 Example.query = some "8 8\n" := by
  obtain ⟨out, h1, h2⟩ := hash_order_independent HTOrder.insertion HTOrder.reversed
    Example.rels Example.query 1 Example.query_wf (by decide)
  have h3 : Joiner.join HTOrder.insertion Example.rels 1 Example.query = some "8 8\n" := by
    decide
  have h4 : out = "8 8\n" := Option.some.inj (h1.symm.trans h3)
  rw [h4] at h2
  exact ⟨h3, h2⟩

/-- C38 (predicate order does not matter). For every set of relations and every two
well-formed queries with the same bindings, filters and selections whose lists of
join predicates are permutations of each other, `Joiner::join` returns the same
response line for both, whatever the enumeration orders of the hash tables. -/
theorem predicate_order_irrelevant (ord1 ord2 : HTOrder) (rels : List Relation)
    (q1 q2 : QueryInfo) (fuel1 fuel2 : Nat)
    (hwf1 : QueryWF rels q1) (hwf2 : QueryWF rels q2)
    (hids : q1.relation_ids_ = q2.relation_ids_) (hf : q1.filters_ = q2.filters_)
    (hs : q1.selections_ = q2.selections_) (hp : q1.predicates_.Perm q2.predicates_)
    (hfuel1 : q1.predicates_.length * q1.predicates_.length ≤ fuel1)
    (hfuel2 : q2.predicates_.length * q2.predicates_.length ≤ fuel2) :
    ∃ out, Joiner.join ord1 rels fuel1 q1 = some out ∧
      Joiner.join ord2 rels fuel2 q2 = some out := by
  obtain ⟨_, _, _, rows1, _, _, _, _, hnd1, hmem1, _, hjoin1⟩ :=
    join_core ord1 rels q1 fuel1 hwf1 hfuel1
  obtain ⟨_, _, _, rows2, _, _, _, _, hnd2, hmem2, _, hjoin2⟩ :=
    join_core ord2 rels q2 fuel2 hwf2 hfuel2
  refine ⟨_, hjoin1, ?_⟩
  rw [hjoin2, ← hs, ← QueryInfo.ctx_congr rels hids]
  refine congrArg some (join_line_congr (q1.ctx rels) q1.selections_ hnd2 hnd1 (fun a => ?_))
  rw [hmem2 a, hmem1 a, ← hf, ← QueryInfo.ctx_congr rels hids]
  exact (Sat_congr (q1.ctx rels) (mem_joinBindings_perm hp) (fun p => hp.mem_iff)
    (fun f => Iff.rfl) a).symm

/-- Witness of `predicate_order_irrelevant`: the queries `0 1 1|0.0=1.0&1.0=2.0|0.0`
and `0 1 1|1.0=2.0&0.0=1.0|0.0` over a relation with keys 1, 2, 2 and one with keys
2, 2; the first extends its tree to the right, the second to the left. -/
theorem predicate_order_irrelevant_witness :
    Joiner.join HTOrder.insertion Example.rels 4
        ⟨[0, 1, 1], [⟨⟨0, 0, 0⟩, ⟨1, 1, 0⟩⟩, ⟨⟨1, 1, 0⟩, ⟨1, 2, 0⟩⟩], [], [⟨0, 0, 0⟩]⟩ =
          some "16\n" ∧
      Joiner.join HTOrder.insertion Example.rels 4
        ⟨[0, 1, 1], [⟨⟨1, 1, 0⟩, ⟨1, 2, 0⟩⟩, ⟨⟨0, 0, 0⟩, ⟨1, 1, 0⟩⟩], [], [⟨0, 0, 0⟩]⟩ =
          some "16\n" := by
  obtain ⟨out, h1, h2⟩ := predicate_order_irrelevant HTOrder.insertion HTOrder.insertion
    Example.rels
    ⟨[0, 1, 1], [⟨⟨0, 0, 0⟩, ⟨1, 1, 0⟩⟩, ⟨⟨1, 1, 0⟩, ⟨1, 2, 0⟩⟩], [], [⟨0, 0, 0⟩]⟩
    ⟨[0, 1, 1], [⟨⟨1, 1, 0⟩, ⟨1, 2, 0⟩⟩, ⟨⟨0, 0, 0⟩, ⟨1, 1, 0⟩⟩], [], [⟨0, 0, 0⟩]⟩ 4 4
    (by
      refine ⟨by decide, by decide, by decide, ?_, by decide, by decide, ?_,
        fun f hf => absurd hf (List.not_mem_nil f), ?_⟩
      · intro p hp
        simp only [List.mem_cons, List.mem_singleton, List.not_mem_nil, or_false] at hp
        rcases hp with rfl | rfl
        · exact Linked.base _ (by decide)
        · exact Linked.base _ (by decide)
      · unfold QueryInfo.Resolved; decide
      · unfold QueryInfo.Resolved; decide)
    (by
      refine ⟨by decide, by decide, by decide, ?_, by decide, by decide, ?_,
        fun f hf => absurd hf (List.not_mem_nil f), ?_⟩
      · intro p hp
        simp only [List.mem_cons, List.mem_singleton, List.not_mem_nil, or_false] at hp
        rcases hp with rfl | rfl
        · exact Linked.base _ (by decide)
        · exact Linked.left ⟨⟨0, 0, 0⟩, ⟨1, 1, 0⟩⟩ (by decide) (Linked.base _ (by decide))
      · unfold QueryInfo.Resolved; decide
      · unfold QueryInfo.Resolved; decide)
    rfl rfl rfl (List.Perm.swap _ _ _) (by decide) (by decide)
  have h3 : Joiner.join HTOrder.insertion Example.rels 4
      ⟨[0, 1, 1], [⟨⟨0, 0, 0⟩, ⟨1, 1, 0⟩⟩, ⟨⟨1, 1, 0⟩, ⟨1, 2, 0⟩⟩], [], [⟨0, 0, 0⟩]⟩ =
        some "16\n" := by decide
  have h4 : out = "16\n" := Option.some.inj (h1.symm.trans h3)
  rw [h4] at h2
  exact ⟨h3, h2⟩

/-- C37 is broken at position 0. The query `0|0.0=0.1|0.0` over a relation of two
rows with columns 1, 2 and 2, 1 has a single predicate, on columns 0 and 1 of the one
binding 0, and no row of the relation has equal values in the two columns, so the
combined rows of the claim are none; the queries `0 0|0.0=0.1&0.0=1.0|0.0` and
`0 0|0.0=1.0&0.0=0.1|0.0` differ only in the position of that predicate. `Joiner::join`
builds for the first predicate of a query two scans and a `Join`, also when both
sides have the same binding, so at position 0 the predicate joins the relation with
itself and the line is `3`; at position 1 it becomes a `SelfJoin`, a row filter, and
the line is `NULL`. -/
theorem same_binding_first_fails :
    (∀ mem, QueryInfo.ofText mem "0|0.0=0.1|0.0" =
        some ⟨[0], [⟨⟨0, 0, 0⟩, ⟨0, 0, 1⟩⟩], [], [⟨0, 0, 0⟩]⟩) ∧
      (satisfying (QueryInfo.ctx [⟨2, [[1, 2], [2, 1]]⟩]
        ⟨[0], [⟨⟨0, 0, 0⟩, ⟨0, 0, 1⟩⟩], [], [⟨0, 0, 0⟩]⟩) [0]
        [⟨⟨0, 0, 0⟩, ⟨0, 0, 1⟩⟩] []).length = 0 ∧
      Joiner.join HTOrder.insertion [⟨2, [[1, 2], [2, 1]]⟩] 1
        ⟨[0], [⟨⟨0, 0, 0⟩, ⟨0, 0, 1⟩⟩], [], [⟨0, 0, 0⟩]⟩ = some "3\n" ∧
      Joiner.join HTOrder.insertion [⟨2, [[1, 2], [2, 1]]⟩] 4
        ⟨[0, 0], [⟨⟨0, 0, 0⟩, ⟨0, 0, 1⟩⟩, ⟨⟨0, 0, 0⟩, ⟨0, 1, 0⟩⟩], [], [⟨0, 0, 0⟩]⟩ =
          some "3\n" ∧
      Joiner.join HTOrder.insertion [⟨2, [[1, 2], [2, 1]]⟩] 4
        ⟨[0, 0], [⟨⟨0, 0, 0⟩, ⟨0, 1, 0⟩⟩, ⟨⟨0, 0, 0⟩, ⟨0, 0, 1⟩⟩], [], [⟨0, 0, 0⟩]⟩ =
          some "NULL\n" := by
  refine ⟨fun _ => rfl, by decide, by decide, by decide, by decide⟩


/-! ## Claims on the row order and on the symmetry of a `Join` -/

/-- C31 (Join row order). Take a `Join` in the state reached from its construction by
any sequence of `require` calls, over run-able children: they accept the sides of the
predicate, their `run` returns, and afterwards each exposes, for the predicate column
and for every column requested from it, a column of `result_size` values. Then `run`
returns and the hash table holds the rows of the build child under their key values,
the build child being the left child unless `left.result_size > right.result_size`,
in which case the children, the sides of the predicate and the two lists of requested
columns are exchanged and the build child is the original right child; on a tie the
left child builds. The output rows are the pairs of a build row and a probe row with
equal keys, each once, grouped by probe row in ascending order of the probe row; so
when the key values of the build side are pairwise distinct, the probe rows of the
output rows are, in order, exactly the probe rows that have a match. -/
theorem join_row_order (ord : HTOrder) (L R : Op) (p : PredicateInfo)
    (ss : List SelectInfo) (base : Operator) (l r : Op) (ht : List (Nat × Nat))
    (req reqL reqR : List SelectInfo) (cl cr : List Column)
    (b1 b2 : Bool) (l1 r1 l2 r2 : Op)
    (hj : (Op.mkJoin L R p).requireAll ss = some (.Join base l r p ht req reqL reqR cl cr))
    (h1 : l.require p.left = some (b1, l1)) (h2 : r.require p.right = some (b2, r1))
    (h3 : l1.run ord = some l2) (h4 : r1.run ord = some r2)
    (hcl : ∀ s ∈ p.left :: reqL, ∃ col, l2.column s = some col ∧ col.length = l2.result_size)
    (hcr : ∀ s ∈ p.right :: reqR, ∃ col, r2.column s = some col ∧ col.length = r2.result_size) :
    ∃ j2 base2 B P pB pP bB bP pairs,
      (Op.Join base l r p ht req reqL reqR cl cr).run ord = some j2 ∧
      j2 = Op.Join base2 B P ⟨pB, pP⟩ (buildTable (B.columnD pB) B.result_size) req bB bP
        (bB.map B.columnD) (bP.map P.columnD) ∧
      ((l2.result_size ≤ r2.result_size ∧ B = l2 ∧ P = r2 ∧ pB = p.left ∧ pP = p.right ∧
          bB = reqL ∧ bP = reqR) ∨
        (r2.result_size < l2.result_size ∧ B = r2 ∧ P = l2 ∧ pB = p.right ∧ pP = p.left ∧
          bB = reqR ∧ bP = reqL)) ∧
      pairs = probePairs ord (B.columnD pB) (P.columnD pP) B.result_size P.result_size ∧
      j2.result_size = pairs.length ∧
      (∀ s ∈ bB, j2.column s = some (pairs.map (fun pr => cellAt (B.columnD s) pr.1))) ∧
      (∀ s ∈ bP, j2.column s = some (pairs.map (fun pr => cellAt (P.columnD s) pr.2))) ∧
      pairs.Nodup ∧
      (∀ pr, pr ∈ pairs ↔ pr.1 < B.result_size ∧ pr.2 < P.result_size ∧
        cellAt (B.columnD pB) pr.1 = cellAt (P.columnD pP) pr.2) ∧
      (pairs.map Prod.snd).Pairwise (fun a b => a ≤ b) ∧
      (((List.range B.result_size).map (cellAt (B.columnD pB))).Nodup →
        pairs.map Prod.snd =
          matchedProbeRows (B.columnD pB) (P.columnD pP) B.result_size P.result_size) := by
  obtain ⟨base1, l', r', req1, reqL1, reqR1, heq, hinv⟩ :=
    Join_requireAll_inv p [] [] [] ss Operator.init L R [] [] [] _ JoinInv_init hj
  cases heq
  obtain ⟨htmp, hrs, _, _, _, hnd, _⟩ := hinv
  rw [Op.run_Join ord base l r p [] req reqL reqR [] [] b1 b2 l1 r1 l2 r2 h1 h2 h3 h4]
  have hpl := hcl p.left (List.mem_cons_self _ _)
  have hpr := hcr p.right (List.mem_cons_self _ _)
  have hL : ∀ s ∈ reqL, ∃ col, l2.column s = some col ∧ col.length = l2.result_size :=
    fun s hs => hcl s (List.mem_cons_of_mem _ hs)
  have hR : ∀ s ∈ reqR, ∃ col, r2.column s = some col ∧ col.length = r2.result_size :=
    fun s hs => hcr s (List.mem_cons_of_mem _ hs)
  unfold Join.runCore
  by_cases hsw : l2.result_size > r2.result_size
  · rw [if_pos hsw]
    have htmp' : base.tmp_results_ = (reqR ++ reqL).map (fun _ => ([] : Column)) := by
      rw [htmp]; simp; omega
    have hnd' : (reqR ++ reqL).Nodup := (List.perm_append_comm.nodup_iff).mp hnd
    obtain ⟨base2, hbp, hsize, hcB, hcP⟩ := Join_buildProbe_rows ord base r2 l2
      ⟨p.right, p.left⟩ req reqR reqL htmp' hrs hnd' hR hL hpr hpl
    exact ⟨_, base2, r2, l2, p.right, p.left, reqR, reqL, _, hbp, rfl,
      Or.inr ⟨hsw, rfl, rfl, rfl, rfl, rfl, rfl⟩, rfl, hsize, hcB, hcP,
      nodup_probePairs ord _ _ _ _, mem_probePairs ord _ _ _ _,
      probePairs_snd_sorted ord _ _ _ _, probePairs_snd_distinct ord _ _ _ _⟩
  · rw [if_neg hsw]
    obtain ⟨base2, hbp, hsize, hcB, hcP⟩ := Join_buildProbe_rows ord base l2 r2
      p req reqL reqR htmp hrs hnd hL hR hpl hpr
    exact ⟨_, base2, l2, r2, p.left, p.right, reqL, reqR, _, hbp, rfl,
      Or.inl ⟨Nat.le_of_not_lt hsw, rfl, rfl, rfl, rfl, rfl, rfl⟩, rfl, hsize, hcB, hcP,
      nodup_probePairs ord _ _ _ _, mem_probePairs ord _ _ _ _,
      probePairs_snd_sorted ord _ _ _ _, probePairs_snd_distinct ord _ _ _ _⟩

/-- Witness of `join_row_order`: the join of `r2` (10 rows) with `r1` (5 rows) of the
operator test. The left child is the larger one, so the children are exchanged and
the table is built on `r1`, whose keys 0 .. 4 are pairwise distinct; the five output
rows come from the probe rows 0 .. 4 of `r2`, in this order. -/
theorem join_row_order_witness :
    ∃ j2 pairs, Example.join2.run HTOrder.insertion = some j2 ∧
      j2.result_size = List.length pairs ∧
      List.map Prod.snd pairs = [0, 1, 2, 3, 4] ∧
      j2.column ⟨4294967295, 1, 3⟩ = some (pairs.map (fun pr : Nat × Nat => pr.2)) := by
  obtain ⟨j2, base2, B, P, pB, pP, bB, bP, pairs, hrun, _, hcase, _, hsize, _, hcP, _, _, _,
      hdist⟩ :=
    join_row_order HTOrder.insertion (Op.mkScan (createRelation 10 5) 1)
      (Op.mkScan (createRelation 5 3) 0) ⟨⟨1, 1, 1⟩, ⟨0, 0, 2⟩⟩
      [⟨4294967295, 0, 1⟩, ⟨4294967295, 1, 3⟩] ⟨ColMap.empty, [], [[], []], 0⟩
      (Op.Scan ⟨ColMap.empty.assign ⟨4294967295, 1, 3⟩ 0, [List.range 10], [], 0⟩
        (createRelation 10 5) 1)
      (Op.Scan ⟨ColMap.empty.assign ⟨4294967295, 0, 1⟩ 0, [List.range 5], [], 0⟩
        (createRelation 5 3) 0)
      [] [⟨4294967295, 0, 1⟩, ⟨4294967295, 1, 3⟩] [⟨4294967295, 1, 3⟩] [⟨4294967295, 0, 1⟩]
      [] [] true true
      (Op.Scan ⟨(ColMap.empty.assign ⟨4294967295, 1, 3⟩ 0).assign ⟨1, 1, 1⟩ 1,
        [List.range 10, List.range 10], [], 0⟩ (createRelation 10 5) 1)
      (Op.Scan ⟨(ColMap.empty.assign ⟨4294967295, 0, 1⟩ 0).assign ⟨0, 0, 2⟩ 1,
        [List.range 5, List.range 5], [], 0⟩ (createRelation 5 3) 0)
      (Op.Scan ⟨(ColMap.empty.assign ⟨4294967295, 1, 3⟩ 0).assign ⟨1, 1, 1⟩ 1,
        [List.range 10, List.range 10], [], 10⟩ (createRelation 10 5) 1)
      (Op.Scan ⟨(ColMap.empty.assign ⟨4294967295, 0, 1⟩ 0).assign ⟨0, 0, 2⟩ 1,
        [List.range 5, List.range 5], [], 5⟩ (createRelation 5 3) 0)
      rfl rfl rfl rfl rfl (by decide) (by decide)
  rcases hcase with ⟨hle, _⟩ | ⟨_, rfl, rfl, rfl, rfl, rfl, rfl⟩
  · exact absurd hle (by decide)
  · have hsnd := hdist (by decide)
    have hm : matchedProbeRows
        ((Op.Scan ⟨(ColMap.empty.assign ⟨4294967295, 0, 1⟩ 0).assign ⟨0, 0, 2⟩ 1,
          [List.range 5, List.range 5], [], 5⟩ (createRelation 5 3) 0).columnD ⟨0, 0, 2⟩)
        ((Op.Scan ⟨(ColMap.empty.assign ⟨4294967295, 1, 3⟩ 0).assign ⟨1, 1, 1⟩ 1,
          [List.range 10, List.range 10], [], 10⟩ (createRelation 10 5) 1).columnD ⟨1, 1, 1⟩)
        5 10 = [0, 1, 2, 3, 4] := by decide
    refine ⟨j2, pairs, hrun, hsize, hsnd.trans hm, ?_⟩
    rw [hcP ⟨4294967295, 1, 3⟩ (List.mem_singleton.mpr rfl)]
    congr 1
    apply List.map_congr_left
    intro pr hpr
    have h5 : pr.2 ∈ [0, 1, 2, 3, 4] := by
      have hmem := List.mem_map_of_mem Prod.snd hpr
      rw [hsnd.trans hm] at hmem
      exact hmem
    simp only [List.mem_cons, List.mem_singleton, List.not_mem_nil, or_false] at h5
    rcases h5 with h | h | h | h | h <;> rw [h] <;> decide

/-- C32 fails as stated when the two children have a binding in common. With both
children a scan of one relation of two rows (columns 1, 1 and 1, 5 and 10, 20) bound
as 0, the predicate column 0 = column 1 and column 2 required, `Join(L, R, (a, b))`
and `Join(R, L, (b, a))` both count two rows, but `require` asks the left child
first, so the required column follows the rows of `L` in the one and of `R` in the
other: the output rows are 10, 20 and 10, 10. -/
theorem join_symmetry_counterexample :
    ∃ j1 j2 k1 k2,
      (Op.mkJoin (Op.mkScan ⟨2, [[1, 1], [1, 5], [10, 20]]⟩ 0)
        (Op.mkScan ⟨2, [[1, 1], [1, 5], [10, 20]]⟩ 0) ⟨⟨0, 0, 0⟩, ⟨0, 0, 1⟩⟩).requireAll
          [⟨0, 0, 2⟩] = some j1 ∧
      j1.run HTOrder.insertion = some j2 ∧
      (Op.mkJoin (Op.mkScan ⟨2, [[1, 1], [1, 5], [10, 20]]⟩ 0)
        (Op.mkScan ⟨2, [[1, 1], [1, 5], [10, 20]]⟩ 0) ⟨⟨0, 0, 1⟩, ⟨0, 0, 0⟩⟩).requireAll
          [⟨0, 0, 2⟩] = some k1 ∧
      k1.run HTOrder.insertion = some k2 ∧
      j2.result_size = 2 ∧ k2.result_size = 2 ∧
      j2.rows [⟨0, 0, 2⟩] = [[10], [20]] ∧ k2.rows [⟨0, 0, 2⟩] = [[10], [10]] ∧
      ¬ ([[10], [10]] : List (List Nat)).Perm [[10], [20]] :=
  ⟨_, _, _, _, rfl, rfl, rfl, rfl, by decide, by decide, by decide, by decide, by decide⟩

/-- C32 (Join symmetry), amended. Take children `L` and `R` that have no binding in
common, in any state that their constructors and calls of `require` leave, over
relations whose columns hold as many values as the relation has rows and with filters
on existing columns, a predicate `(a, b)` and any sequence of `require` calls. If
`Join(L, R, (a, b))` takes the calls and its `run` returns, then so does
`Join(R, L, (b, a))`, with the same `result_size` and, over any list of columns that
resolve, a rearrangement of the same output rows; hence every column has the same sum
in both. -/
theorem join_symmetry (ord : HTOrder) (L R : Op) (p : PredicateInfo)
    (ss cols : List SelectInfo) (j1 j2 : Op)
    (hL : L.Ready) (hR : R.Ready) (hLs : L.Sound) (hRs : R.Sound)
    (hdisj : ∀ b ∈ L.bindings, b ∉ R.bindings)
    (hreq : (Op.mkJoin L R p).requireAll ss = some j1) (hrun : j1.run ord = some j2)
    (hcols : ∀ s ∈ cols, j2.resolve s ≠ none) :
    ∃ k1 k2, (Op.mkJoin R L ⟨p.right, p.left⟩).requireAll ss = some k1 ∧
      k1.run ord = some k2 ∧ k2.result_size = j2.result_size ∧
      (∀ s ∈ cols, k2.resolve s ≠ none) ∧ (k2.rows cols).Perm (j2.rows cols) ∧
      ∀ s ∈ cols, (k2.columnD s).sum = (j2.columnD s).sum := by
  obtain ⟨base1, l1, r1, req1, reqL1, reqR1, rfl, hm, hl1, hr1, _, sl, sr⟩ :=
    Join_requireAll_mirror p ⟨p.right, p.left⟩ [] [] [] ss Operator.init L R [] [] [] j1
      hL hR hdisj hreq
  obtain ⟨_, _, _, _, _, _, heq, hinv⟩ :=
    Join_requireAll_inv p [] [] [] ss Operator.init L R [] [] [] _ JoinInv_init hreq
  cases heq
  obtain ⟨k2, l2, r2, pairsJ, pairsK, hrunK, hperm, hsJ, hsK, hcL, hcR⟩ :=
    Join_run_mirror ord base1 l1 r1 p req1 reqL1 reqR1 j2 hinv hl1 hr1 (sl hLs) (sr hRs) hrun
  have hj1 : (Op.Join base1 l1 r1 p [] req1 reqL1 reqR1 [] []).Ready :=
    (Ready_requireAll ss _ _ (Ready_mkJoin L R p hL hR) hreq).1
  have hkeys : ∀ s ∈ cols, s ∈ reqL1 ∨ s ∈ reqR1 := fun s hs => by
    have hseen := Ready_run_keys ord _ j2 hj1 hrun s (hcols s hs)
    exact List.mem_append.mp ((hinv.2.2.2.2.2.2 s).mp hseen)
  have hdisjReq : ∀ s ∈ reqL1, s ∉ reqR1 := fun s h1 h2 =>
    (List.nodup_append.mp hinv.2.2.2.2.2.1).2.2 h1 h2
  have hJ : ∀ s ∈ cols, j2.column s = some (pairsJ.map (fun pr =>
      if s ∈ reqL1 then cellAt (l2.columnD s) pr.1 else cellAt (r2.columnD s) pr.2)) := by
    intro s hs
    rcases hkeys s hs with h | h
    · rw [(hcL s h).1]; simp [h]
    · have hn : s ∉ reqL1 := fun h' => hdisjReq s h' h
      rw [(hcR s h).1]; simp [hn]
  have hK : ∀ s ∈ cols, k2.column s = some ((pairsK.map Prod.swap).map (fun pr =>
      if s ∈ reqL1 then cellAt (l2.columnD s) pr.1 else cellAt (r2.columnD s) pr.2)) := by
    intro s hs
    rcases hkeys s hs with h | h
    · rw [(hcL s h).2]; simp [h, List.map_map, Function.comp_def]
    · have hn : s ∉ reqL1 := fun h' => hdisjReq s h' h
      rw [(hcR s h).2]; simp [hn, List.map_map, Function.comp_def]
  have hsK' : k2.result_size = (pairsK.map Prod.swap).length := by
    rw [List.length_map]; exact hsK
  refine ⟨_, k2, hm, hrunK, ?_, ?_, ?_, ?_⟩
  · rw [hsK, hsJ, ← hperm.length_eq, List.length_map]
  · intro s hs hn
    have hc := hK s hs
    simp [Op.column, hn] at hc
  · rw [rows_of_columns j2 cols pairsJ _ hsJ hJ, rows_of_columns k2 cols _ _ hsK' hK]
    exact hperm.map _
  · intro s hs
    rw [Op.columnD_of_column (hJ s hs), Op.columnD_of_column (hK s hs)]
    exact (hperm.map _).sum_eq

/-- Witness of `join_symmetry`: the join of `r2` (bound as 1) with `r1` (bound as 0) of
the operator test, with column 1 of binding 0 and column 3 of binding 1 required, and
the join of `r1` with `r2` on the exchanged predicate. -/
theorem join_symmetry_witness :
    ∃ j2 k1 k2, Example.join2.run HTOrder.insertion = some j2 ∧
      (Op.mkJoin (Op.mkScan (createRelation 5 3) 0) (Op.mkScan (createRelation 10 5) 1)
        ⟨⟨0, 0, 2⟩, ⟨1, 1, 1⟩⟩).requireAll [⟨4294967295, 0, 1⟩, ⟨4294967295, 1, 3⟩] =
          some k1 ∧
      k1.run HTOrder.insertion = some k2 ∧ k2.result_size = j2.result_size ∧
      (k2.rows [⟨4294967295, 0, 1⟩, ⟨4294967295, 1, 3⟩]).Perm
        (j2.rows [⟨4294967295, 0, 1⟩, ⟨4294967295, 1, 3⟩]) := by
  obtain ⟨k1, k2, h1, h2, h3, _, h5, _⟩ := join_symmetry HTOrder.insertion
    (Op.mkScan (createRelation 10 5) 1) (Op.mkScan (createRelation 5 3) 0)
    ⟨⟨1, 1, 1⟩, ⟨0, 0, 2⟩⟩ [⟨4294967295, 0, 1⟩, ⟨4294967295, 1, 3⟩]
    [⟨4294967295, 0, 1⟩, ⟨4294967295, 1, 3⟩] Example.join2 _
    (Ready_mkScan _ _) (Ready_mkScan _ _) (by decide : (createRelation 10 5).WF)
    (by decide : (createRelation 5 3).WF) (by decide) rfl rfl (by decide)
  exact ⟨_, k1, k2, rfl, h1, h2, h3, h5⟩


/-! ## Claim on parsing a dumped query again -/

/-- C39 fails as stated for a query without an output column. `parseQuery` accepts
`0 1|0.0=1.0||`, whose third part is empty, and yields a query with no selection; its
`dumpText()` is `0 1|0.0=1.0|`, which has two parts only, since the delimiter at the
end of a line starts no further part, and `parseQuery` fails on it. It also fails for
a binding that is not smaller than the number of relation ids: `parseQuery` accepts
`0 1|0.0=1.0|5.0` and gives its output column the `rel_id` that the unchecked read
`relation_ids[5]` finds past the end of the vector; `dumpText()` is the line itself,
and parsing it again gives the `rel_id` that the read finds then, which need not be
the same: 7 the first time and 8 the second, say. -/
theorem dump_reparse_counterexample :
    (∀ mem, QueryInfo.ofText mem "0 1|0.0=1.0||" =
        some ⟨[0, 1], [⟨⟨0, 0, 0⟩, ⟨1, 1, 0⟩⟩], [], []⟩) ∧
      QueryInfo.dumpText ⟨[0, 1], [⟨⟨0, 0, 0⟩, ⟨1, 1, 0⟩⟩], [], []⟩ = "0 1|0.0=1.0|" ∧
      (∀ mem, QueryInfo.ofText mem "0 1|0.0=1.0|" = none) ∧
      (∀ mem, QueryInfo.ofText mem "0 1|0.0=1.0|5.0" =
        some ⟨[0, 1], [⟨⟨0, 0, 0⟩, ⟨1, 1, 0⟩⟩], [], [⟨mem [0, 1] 5 % 2 ^ 32, 5, 0⟩]⟩) ∧
      QueryInfo.dumpText ⟨[0, 1], [⟨⟨0, 0, 0⟩, ⟨1, 1, 0⟩⟩], [], [⟨7, 5, 0⟩]⟩ =
        "0 1|0.0=1.0|5.0" ∧
      QueryInfo.ofText (fun _ _ => 8)
          (QueryInfo.dumpText ⟨[0, 1], [⟨⟨0, 0, 0⟩, ⟨1, 1, 0⟩⟩], [], [⟨7, 5, 0⟩]⟩) =
        some ⟨[0, 1], [⟨⟨0, 0, 0⟩, ⟨1, 1, 0⟩⟩], [], [⟨8, 5, 0⟩]⟩ := by
  refine ⟨fun _ => rfl, by decide, fun _ => rfl, fun _ => rfl, by decide, by decide⟩

/-- C39 (the output of `dumpText` parses to the same query), amended. For every
`QueryInfo` `q` that `parseQuery` produces from an accepted line, that has at least
one output column and in which every binding is smaller than the number of relation
ids, `parseQuery` applied to `q.dumpText()`, on any `QueryInfo` and whatever an
unchecked read past the end of a vector yields, succeeds and yields `q` itself: the
same relation ids, join predicates, filters and selections, field by field, resolved
`rel_id` included. So the text dumped after parsing `q.dumpText()` is `q.dumpText()`
again. -/
theorem dump_reparse (mem0 mem1 : Stray) (q0 q1 q : QueryInfo) (raw : String)
    (h : q0.parseQuery mem0 raw = some q)
    (hin : ∀ s ∈ q.selectInfos, s.binding < q.relation_ids_.length)
    (hsel : q.selections_ ≠ []) :
    q1.parseQuery mem1 q.dumpText = some q ∧
      (q1.parseQuery mem1 q.dumpText).map QueryInfo.dumpText = some q.dumpText := by
  have hp := QueryInfo.parseQuery_dumpText mem0 mem1 q0 q1 q raw h hin hsel
  exact ⟨hp, by rw [hp]; rfl⟩

/-- Witness of `dump_reparse`: the line `0 1|0.0>5&0.0=1.0|0.00`, which lists a filter
before a join and writes a column with two digits, dumps as `0 1|0.0=1.0&0.0>5|0.0`,
and this text parses to the same query. -/
theorem dump_reparse_witness :
    (∀ mem, QueryInfo.ofText mem "0 1|0.0>5&0.0=1.0|0.00" =
        some ⟨[0, 1], [⟨⟨0, 0, 0⟩, ⟨1, 1, 0⟩⟩], [⟨⟨0, 0, 0⟩, 5, Comparison.Greater⟩],
          [⟨0, 0, 0⟩]⟩) ∧
      QueryInfo.dumpText ⟨[0, 1], [⟨⟨0, 0, 0⟩, ⟨1, 1, 0⟩⟩],
        [⟨⟨0, 0, 0⟩, 5, Comparison.Greater⟩], [⟨0, 0, 0⟩]⟩ = "0 1|0.0=1.0&0.0>5|0.0" ∧
      ∀ mem, QueryInfo.ofText mem (QueryInfo.dumpText ⟨[0, 1], [⟨⟨0, 0, 0⟩, ⟨1, 1, 0⟩⟩],
        [⟨⟨0, 0, 0⟩, 5, Comparison.Greater⟩], [⟨0, 0, 0⟩]⟩) =
          some ⟨[0, 1], [⟨⟨0, 0, 0⟩, ⟨1, 1, 0⟩⟩], [⟨⟨0, 0, 0⟩, 5, Comparison.Greater⟩],
            [⟨0, 0, 0⟩]⟩ :=
  ⟨fun _ => rfl, by decide, fun mem =>
    (dump_reparse (fun _ _ => 0) mem ⟨[], [], [], []⟩ ⟨[], [], [], []⟩
      ⟨[0, 1], [⟨⟨0, 0, 0⟩, ⟨1, 1, 0⟩⟩], [⟨⟨0, 0, 0⟩, 5, Comparison.Greater⟩], [⟨0, 0, 0⟩]⟩
      "0 1|0.0>5&0.0=1.0|0.00" rfl (by decide) (by decide)).1⟩

end Contest
